import Mathlib

/-!
Head-to-head evaluation: range propagation and terminal payoffs.

A shallow embedding of `src/head_to_head.cpp` (class `Player`) and of the part of
`src/buckets.h` it uses.

Conventions of the embedding.

* `double` values are exact rationals (`ℚ`); every statement below is a statement of exact
  arithmetic.
* A `double` array is a function `Nat → ℚ`; the assignment `arr[i] = x` is `Function.update`
  and `arr[i] += x` is `addAt`.  The contents of a freshly allocated array are the
  indeterminate values `uninit`.
* `exit(-1)` is the result `Run.fatal`; an access outside an object is `Run.undefined`; a
  recursion that exhausts the iteration budget of the embedding is `Run.out_of_fuel`.
* Collaborators whose code is outside the two files (game tables, board tree, hand tree,
  strategy store, resolver) are parameters, gathered in `Env` or stored in `Player`.
-/

namespace HeadToHead


/-- A card is a small non-negative integer (`Card` in the source). -/
abbrev Card := Nat

/-- Result of running a piece of the program. -/
inductive Run (α : Type) where
  | ok (a : α) : Run α
  | fatal : Run α
  | undefined : Run α
  | out_of_fuel : Run α

/-- Sequencing of runs: the first failure ends the run. -/
def Run.bind {α β : Type} (r : Run α) (f : α → Run β) : Run β :=
  match r with
  | .ok a => f a
  | .fatal => .fatal
  | .undefined => .undefined
  | .out_of_fuel => .out_of_fuel

instance : Monad Run where
  pure := Run.ok
  bind := Run.bind

/-- The run ends, either by `exit(-1)` or by returning a value of which `Q` holds: it neither
leaves defined behaviour nor exhausts the iteration budget. -/
def Run.endsWith {α : Type} (r : Run α) (Q : α → Prop) : Prop :=
  match r with
  | .ok a => Q a
  | .fatal => True
  | .undefined => False
  | .out_of_fuel => False

/-- The loop `for (k = lo; k < lo + n; ++k) s = body k s`. -/
def forLoop {σ : Type} (lo : Nat) (body : Nat → σ → σ) : Nat → σ → σ
  | 0, s => s
  | n + 1, s => body (lo + n) (forLoop lo body n s)

/-- The loop `for (k = lo; k < lo + n; ++k)` whose body may end the run. -/
def forLoopM {σ : Type} (lo : Nat) (body : Nat → σ → Run σ) : Nat → σ → Run σ
  | 0, s => .ok s
  | n + 1, s => (forLoopM lo body n s).bind (body (lo + n))

/-- The compound assignment `arr[c] += x`. -/
def addAt (arr : Nat → ℚ) (c : Nat) (x : ℚ) : Nat → ℚ :=
  Function.update arr c (arr c + x)

/-- Constants of the game (`Game::MaxStreet()` and friends). -/
structure Game where
  MaxStreet : Nat
  MaxCard : Card
  NumPlayers : Nat
  NumHoleCardPairs : Nat → Nat
  NumBoardCards : Nat → Nat
  NumCardsForStreet : Nat → Nat

/-- The hands of one board: `Cards(i)` is the pair `(hi, lo)` of hand `i` and `HandValue(i)` its
strength (`CanonicalCards` in the source). -/
structure CanonicalCards where
  Cards : Nat → Card × Card
  HandValue : Nat → Int

/-- A node of a betting tree with the accessors the walker uses. -/
inductive Node where
  | mk (street : Nat) (player_acting : Nat) (last_bet_to : Int) (terminal showdown : Bool)
      (nonterminal_id : Nat) (default_succ_index : Nat) (action_names : List String)
      (succs : List Node) : Node

namespace Node

def Street : Node → Nat
  | mk st _ _ _ _ _ _ _ _ => st

def PlayerActing : Node → Nat
  | mk _ pa _ _ _ _ _ _ _ => pa

def LastBetTo : Node → Int
  | mk _ _ lbt _ _ _ _ _ _ => lbt

def Terminal : Node → Bool
  | mk _ _ _ t _ _ _ _ _ => t

def Showdown : Node → Bool
  | mk _ _ _ _ sd _ _ _ _ => sd

def NonterminalID : Node → Nat
  | mk _ _ _ _ _ nt _ _ _ => nt

def DefaultSuccIndex : Node → Nat
  | mk _ _ _ _ _ _ dsi _ _ => dsi

def succs : Node → List Node
  | mk _ _ _ _ _ _ _ _ ss => ss

def NumSuccs (n : Node) : Nat := n.succs.length

def IthSucc (n : Node) (s : Nat) : Option Node := n.succs.get? s

def ActionName : Node → Nat → String
  | mk _ _ _ _ _ _ _ names _, s => names.getD s ""

end Node

/-- A strategy table; `RMProbs st pa nt offset num_succs dsi s` is the entry `probs[s]` that
`CFRValues::RMProbs` writes. -/
structure CFRValues where
  RMProbs : Nat → Nat → Nat → Int → Nat → Nat → Nat → ℚ

/-- The bucket map of `buckets.h`: `None(st)` and `Bucket(st, h)`. -/
structure Buckets where
  None : Nat → Bool
  Bucket : Nat → Nat → Int

/-- A betting abstraction, known to the walker by name only. -/
structure BettingAbstraction where
  BettingAbstractionName : String

/-- The arguments a `HandTree` was built from (`root_st`, `root_bd`, `final_st`). -/
structure HandTree where
  root_st : Int
  root_bd : Int
  final_st : Nat

/-- The endgame solver: `SolveSubgame subtree root_bd reach_probs action_sequence hand_tree
num_its` is the table `Sumprobs()` holds after the call. -/
structure EGCFR where
  SolveSubgame : Node → Int → (Nat → Nat → ℚ) → String → HandTree → Nat → CFRValues
  Sumprobs : Option CFRValues

/-- Board tables (`BoardTree`). -/
structure BoardTree where
  PredBoard : Int → Int → Int
  LocalIndex : Int → Int → Int → Int → Int
  NumBoards : Nat → Nat
  BoardCount : Nat → Int → Int
  Board : Nat → Int → Nat → Card

/-- Everything the walker consumes from outside the file. -/
structure Env where
  game : Game
  board_tree : BoardTree
  Hands : HandTree → Nat → Nat → CanonicalCards
  HCPIndex : Nat → List Card → Int
  CreateSubtree : Nat → Nat → Int → Int → BettingAbstraction → Node
  uninit : Nat → ℚ
  uninit_card : Nat → Card

/-- One recorded invocation of `Walk`: its node pair, reach vectors and `last_st`. -/
structure WalkCall where
  a_node : Node
  b_node : Node
  reach_probs : Nat → Nat → ℚ
  last_st : Int

/-- The fields of `class Player`.  `walk_log` is not a field of the source: it records, in
order, the arguments of every invocation of `Walk`. -/
structure Player where
  a_subgame_betting_abstraction_ : BettingAbstraction
  b_subgame_betting_abstraction_ : BettingAbstraction
  a_betting_tree_ : Node
  b_betting_tree_ : Node
  a_base_buckets_ : Buckets
  b_base_buckets_ : Buckets
  a_probs_ : CFRValues
  b_probs_ : CFRValues
  resolve_st_ : Int
  resolve_a_ : Bool
  resolve_b_ : Bool
  a_boards_ : Nat → Int
  b_boards_ : Nat → Int
  num_samples_ : Int
  msbd_ : Int
  b_pos_ : Nat
  hand_tree_ : HandTree
  resolve_hand_tree_ : HandTree
  hands_ : CanonicalCards
  sum_b_outcomes_ : ℚ
  sum_p0_outcomes_ : ℚ
  sum_p1_outcomes_ : ℚ
  sum_weights_ : ℚ
  a_subgame_buckets_ : Buckets
  b_subgame_buckets_ : Buckets
  a_subtree_ : Option Node
  b_subtree_ : Option Node
  a_eg_cfr_ : EGCFR
  b_eg_cfr_ : EGCFR
  num_subgame_its_ : Nat
  ms_hcp_to_raw_hcp_ : Nat → Nat → Int
  num_resolves_ : Nat
  walk_log : List WalkCall

/-! ## Terminal evaluation: `Showdown` and `Fold` -/

/-- The arrays `cum_opp_card_probs` / `total_opp_card_probs` after their initialising loop
`for (c = 0; c < max_card1; ++c) arr[c] = 0`. -/
def zeroedCards (uninit : Nat → ℚ) (max_card1 : Nat) : Nat → ℚ :=
  forLoop 0 (fun c arr => Function.update arr c 0) max_card1 uninit

/-- Running totals of the first loop of `Showdown` and `Fold`. -/
structure OppTotals where
  total_opp_card_probs : Nat → ℚ
  sum_opp_probs : ℚ

/-- Body of the first loop of `Showdown` (lines 264-277): accumulate the opponent's reach
probability per card and in total; an entry above 1 ends the program. -/
def Showdown.totalsBody (hands : CanonicalCards) (max_card1 : Nat) (a_probs : Nat → ℚ)
    (hcp : Nat) (t : OppTotals) : Run OppTotals :=
  let cards := hands.Cards hcp
  let hi := cards.1
  let lo := cards.2
  let enc := hi * max_card1 + lo
  let opp_prob := a_probs enc
  let total1 := addAt t.total_opp_card_probs hi opp_prob
  let total2 := addAt total1 lo opp_prob
  let sum_opp_probs := t.sum_opp_probs + opp_prob
  if opp_prob > 1 then .fatal else .ok ⟨total2, sum_opp_probs⟩

/-- Body of the first loop of `Fold` (lines 372-381): as in `Showdown`, without the check. -/
def Fold.totalsBody (hands : CanonicalCards) (max_card1 : Nat) (a_probs : Nat → ℚ)
    (hcp : Nat) (t : OppTotals) : OppTotals :=
  let cards := hands.Cards hcp
  let hi := cards.1
  let lo := cards.2
  let enc := hi * max_card1 + lo
  let opp_prob := a_probs enc
  let total1 := addAt t.total_opp_card_probs hi opp_prob
  let total2 := addAt total1 lo opp_prob
  ⟨total2, t.sum_opp_probs + opp_prob⟩

/-- The local variables of the class loop of `Showdown` (lines 279-328).  `lose_probs` is not
in the source: entry `k` records the value of the local `lose_prob` of hand `k`. -/
structure ShowdownState where
  j : Nat
  cum_opp_card_probs : Nat → ℚ
  opp_cum_prob : ℚ
  win_probs : Nat → ℚ
  lose_probs : Nat → ℚ
  sum_our_vals : ℚ
  sum_joint_probs : ℚ

/-- First pass (lines 292-300): `while (j < num_hole_card_pairs)`, leaving at the first hand of
another value; returns the new `j` and `win_probs`.  The first argument counts the iterations
left, `num_hole_card_pairs - j` at the call. -/
def Showdown.firstPass (hands : CanonicalCards) (num_hole_card_pairs : Nat)
    (last_hand_val : Int) (opp_cum_prob : ℚ) (cum_opp_card_probs : Nat → ℚ) :
    Nat → Nat → (Nat → ℚ) → Nat × (Nat → ℚ)
  | 0, j, win_probs => (j, win_probs)
  | n + 1, j, win_probs =>
    if j < num_hole_card_pairs then
      let cards := hands.Cards j
      let hi := cards.1
      let lo := cards.2
      let hand_val := hands.HandValue j
      if hand_val ≠ last_hand_val then (j, win_probs)
      else
        Showdown.firstPass hands num_hole_card_pairs last_hand_val opp_cum_prob
          cum_opp_card_probs n (j + 1)
          (Function.update win_probs j
            (opp_cum_prob - cum_opp_card_probs hi - cum_opp_card_probs lo))
    else (j, win_probs)

/-- Body of the second pass (lines 302-312): add the hand to the cumulative counters unless its
opponent probability is `<= 0`. -/
def Showdown.secondPassBody (hands : CanonicalCards) (max_card1 : Nat) (a_probs : Nat → ℚ)
    (k : Nat) (s : (Nat → ℚ) × ℚ) : (Nat → ℚ) × ℚ :=
  let cards := hands.Cards k
  let hi := cards.1
  let lo := cards.2
  let enc := hi * max_card1 + lo
  let opp_prob := a_probs enc
  if opp_prob ≤ 0 then s
  else
    let cum1 := addAt s.1 hi opp_prob
    let cum2 := addAt cum1 lo opp_prob
    (cum2, s.2 + opp_prob)

/-- The value `sum_consistent_opp_probs` of lines 324-325 and 390-391. -/
def sumConsistentOppProbs (max_card1 : Nat) (a_probs : Nat → ℚ) (t : OppTotals)
    (cards : Card × Card) : ℚ :=
  let hi := cards.1
  let lo := cards.2
  let enc := hi * max_card1 + lo
  t.sum_opp_probs + a_probs enc - t.total_opp_card_probs hi - t.total_opp_card_probs lo

/-- Body of the third pass (lines 313-327). -/
def Showdown.thirdPassBody (hands : CanonicalCards) (max_card1 : Nat) (a_probs b_probs : Nat → ℚ)
    (t : OppTotals) (half_pot : ℚ) (cum_opp_card_probs : Nat → ℚ) (opp_cum_prob : ℚ)
    (win_probs : Nat → ℚ) (k : Nat) (s : (Nat → ℚ) × ℚ × ℚ) : (Nat → ℚ) × ℚ × ℚ :=
  let cards := hands.Cards k
  let hi := cards.1
  let lo := cards.2
  let enc := hi * max_card1 + lo
  let our_prob := b_probs enc
  let better_hi_prob := t.total_opp_card_probs hi - cum_opp_card_probs hi
  let better_lo_prob := t.total_opp_card_probs lo - cum_opp_card_probs lo
  let lose_prob := (t.sum_opp_probs - opp_cum_prob) - better_hi_prob - better_lo_prob
  let sum_our_vals := s.2.1 + our_prob * (win_probs k - lose_prob) * half_pot
  let sum_consistent_opp_probs := sumConsistentOppProbs max_card1 a_probs t cards
  let sum_joint_probs := s.2.2 + our_prob * sum_consistent_opp_probs
  (Function.update s.1 k lose_prob, sum_our_vals, sum_joint_probs)

/-- One iteration of the outer loop of `Showdown` (lines 286-327): the three passes over the
hands `begin_range .. j-1`. -/
def Showdown.classStep (hands : CanonicalCards) (num_hole_card_pairs max_card1 : Nat)
    (a_probs b_probs : Nat → ℚ) (t : OppTotals) (half_pot : ℚ) (s : ShowdownState) :
    ShowdownState :=
  let last_hand_val := hands.HandValue s.j
  let begin_range := s.j
  let p1 := Showdown.firstPass hands num_hole_card_pairs last_hand_val s.opp_cum_prob
    s.cum_opp_card_probs (num_hole_card_pairs - s.j) s.j s.win_probs
  let j := p1.1
  let win_probs := p1.2
  let p2 := forLoop begin_range (Showdown.secondPassBody hands max_card1 a_probs)
    (j - begin_range) (s.cum_opp_card_probs, s.opp_cum_prob)
  let p3 := forLoop begin_range
    (Showdown.thirdPassBody hands max_card1 a_probs b_probs t half_pot p2.1 p2.2 win_probs)
    (j - begin_range) (s.lose_probs, s.sum_our_vals, s.sum_joint_probs)
  { j := j, cum_opp_card_probs := p2.1, opp_cum_prob := p2.2, win_probs := win_probs,
    lose_probs := p3.1, sum_our_vals := p3.2.1, sum_joint_probs := p3.2.2 }

/-- The outer loop `while (j < num_hole_card_pairs)` of `Showdown`, with an iteration budget. -/
def Showdown.classLoop (hands : CanonicalCards) (num_hole_card_pairs max_card1 : Nat)
    (a_probs b_probs : Nat → ℚ) (t : OppTotals) (half_pot : ℚ) :
    Nat → ShowdownState → Run ShowdownState
  | 0, s => if s.j < num_hole_card_pairs then .out_of_fuel else .ok s
  | n + 1, s =>
    if s.j < num_hole_card_pairs then
      Showdown.classLoop hands num_hole_card_pairs max_card1 a_probs b_probs t half_pot n
        (Showdown.classStep hands num_hole_card_pairs max_card1 a_probs b_probs t half_pot s)
    else .ok s

/-- Lines 251-328 of `Showdown`: the state of the class loop when it ends; its fields
`sum_our_vals` and `sum_joint_probs` are the two local sums.  The outer loop advances `j` in
every iteration, so `num_hole_card_pairs` iterations are allowed. -/
def Showdown.sums (E : Env) (hands : CanonicalCards) (half_pot : ℚ) (a_probs b_probs : Nat → ℚ) :
    Run ShowdownState :=
  let max_card1 := E.game.MaxCard + 1
  let cum_opp_card_probs := zeroedCards E.uninit max_card1
  let total_opp_card_probs := zeroedCards E.uninit max_card1
  let max_street := E.game.MaxStreet
  let num_hole_card_pairs := E.game.NumHoleCardPairs max_street
  (forLoopM 0 (Showdown.totalsBody hands max_card1 a_probs) num_hole_card_pairs
    ⟨total_opp_card_probs, 0⟩).bind fun t =>
  Showdown.classLoop hands num_hole_card_pairs max_card1 a_probs b_probs t half_pot
    num_hole_card_pairs
    { j := 0, cum_opp_card_probs := cum_opp_card_probs, opp_cum_prob := 0,
      win_probs := E.uninit, lose_probs := E.uninit, sum_our_vals := 0, sum_joint_probs := 0 }

/-- Lines 333-341 and 399-407: add the weighted value to B's sum and, with the sign of B's
seat, to the per-seat sums; add the weighted joint probability to `sum_weights_`. -/
def Player.accumulate (P : Player) (wtd_sum_our_vals wtd_sum_joint_probs : ℚ) : Player :=
  { P with
    sum_b_outcomes_ := P.sum_b_outcomes_ + wtd_sum_our_vals
    sum_p0_outcomes_ :=
      if P.b_pos_ = 0 then P.sum_p0_outcomes_ + wtd_sum_our_vals
      else P.sum_p0_outcomes_ - wtd_sum_our_vals
    sum_p1_outcomes_ :=
      if P.b_pos_ = 0 then P.sum_p1_outcomes_ - wtd_sum_our_vals
      else P.sum_p1_outcomes_ + wtd_sum_our_vals
    sum_weights_ := P.sum_weights_ + wtd_sum_joint_probs }

/-- The opponent's vector `a_probs` of lines 253 and 358. -/
def Player.oppProbs (P : Player) (reach_probs : Nat → Nat → ℚ) : Nat → ℚ :=
  if P.b_pos_ = 0 then reach_probs 1 else reach_probs 0

/-- B's vector `b_probs` of lines 254 and 359. -/
def Player.ourProbs (P : Player) (reach_probs : Nat → Nat → ℚ) : Nat → ℚ :=
  if P.b_pos_ = 0 then reach_probs 0 else reach_probs 1

/-- `Player::Showdown` (lines 250-342). -/
def Player.Showdown (E : Env) (P : Player) (a_node _b_node : Node)
    (reach_probs : Nat → Nat → ℚ) : Run Player :=
  let a_probs := P.oppProbs reach_probs
  let b_probs := P.ourProbs reach_probs
  let half_pot : ℚ := (a_node.LastBetTo : ℚ)
  (Showdown.sums E P.hands_ half_pot a_probs b_probs).bind fun s =>
  let wtd_sum_our_vals := s.sum_our_vals * (P.num_samples_ : ℚ)
  let wtd_sum_joint_probs := s.sum_joint_probs * (P.num_samples_ : ℚ)
  .ok (P.accumulate wtd_sum_our_vals wtd_sum_joint_probs)

/-- Body of the second loop of `Fold` (lines 383-394). -/
def Fold.payoffBody (hands : CanonicalCards) (max_card1 : Nat) (a_probs b_probs : Nat → ℚ)
    (t : OppTotals) (half_pot : ℚ) (i : Nat) (s : ℚ × ℚ) : ℚ × ℚ :=
  let cards := hands.Cards i
  let hi := cards.1
  let lo := cards.2
  let enc := hi * max_card1 + lo
  let our_prob := b_probs enc
  let sum_consistent_opp_probs := sumConsistentOppProbs max_card1 a_probs t cards
  (s.1 + our_prob * half_pot * sum_consistent_opp_probs,
   s.2 + our_prob * sum_consistent_opp_probs)

/-- The signed half pot of `Fold` (lines 348-355): negated when B is not the remaining
player. -/
def Fold.halfPot (b_pos : Nat) (a_node : Node) : ℚ :=
  let half_pot : ℚ := (a_node.LastBetTo : ℚ)
  let rem_p := a_node.PlayerActing
  if b_pos ≠ rem_p then -half_pot else half_pot

/-- Lines 356-394 of `Fold`: the local sums `(sum_our_vals, sum_joint_probs)`. -/
def Fold.sums (E : Env) (hands : CanonicalCards) (half_pot : ℚ) (a_probs b_probs : Nat → ℚ) :
    ℚ × ℚ :=
  let max_card1 := E.game.MaxCard + 1
  let total_opp_card_probs := zeroedCards E.uninit max_card1
  let max_street := E.game.MaxStreet
  let num_hole_card_pairs := E.game.NumHoleCardPairs max_street
  let t := forLoop 0 (Fold.totalsBody hands max_card1 a_probs) num_hole_card_pairs
    ⟨total_opp_card_probs, 0⟩
  forLoop 0 (Fold.payoffBody hands max_card1 a_probs b_probs t half_pot) num_hole_card_pairs
    (0, 0)

/-- `Player::Fold` (lines 345-408). -/
def Player.Fold (E : Env) (P : Player) (a_node _b_node : Node)
    (reach_probs : Nat → Nat → ℚ) : Player :=
  let half_pot := Fold.halfPot P.b_pos_ a_node
  let a_probs := P.oppProbs reach_probs
  let b_probs := P.ourProbs reach_probs
  let s := Fold.sums E P.hands_ half_pot a_probs b_probs
  let wtd_sum_our_vals := s.1 * (P.num_samples_ : ℚ)
  let wtd_sum_joint_probs := s.2 * (P.num_samples_ : ℚ)
  P.accumulate wtd_sum_our_vals wtd_sum_joint_probs

/-! ## Reach propagation: `GetSuccReachProbs` and `Nonterminal` -/

/-- The value of a 32-bit `int` expression: two's complement wrap-around. -/
def int32 (x : Int) : Int := (x + 2 ^ 31) % 2 ^ 32 - 2 ^ 31

/-- The value of a 32-bit `unsigned int` expression: reduction modulo `2^32`. -/
def uint32 (x : Int) : Nat := (x % 2 ^ 32).toNat

/-- The assignment `succ_reach_probs[s][p][enc] = x`. -/
def setReach (succ : Nat → Nat → Nat → ℚ) (s p enc : Nat) (x : ℚ) : Nat → Nat → Nat → ℚ :=
  Function.update succ s (Function.update (succ s) p (Function.update (succ s p) enc x))

/-- The index `hcp` of lines 455-460. -/
def GetSuccReachProbs.hcp (E : Env) (P : Player) (buckets : Buckets) (st i : Nat) : Int :=
  let max_street := E.game.MaxStreet
  if st = max_street ∧ buckets.None st = true then (i : Int)
  else P.ms_hcp_to_raw_hcp_ st i

/-- The argument `h` of `Buckets::Bucket` (line 464), computed in `unsigned int`. -/
def GetSuccReachProbs.bucketIndex (gbd : Int) (num_st_hole_card_pairs : Nat) (hcp : Int) : Nat :=
  uint32 (gbd * (num_st_hole_card_pairs : Int) + hcp)

/-- The row offset of lines 461-467, computed in `int`. -/
def GetSuccReachProbs.offset (E : Env) (buckets : Buckets) (st : Nat) (gbd : Int)
    (num_succs : Nat) (hcp : Int) : Int :=
  let num_st_hole_card_pairs := E.game.NumHoleCardPairs st
  if buckets.None st = true then
    int32 (gbd * (num_st_hole_card_pairs : Int) * (num_succs : Int) + hcp * (num_succs : Int))
  else
    let h := GetSuccReachProbs.bucketIndex gbd num_st_hole_card_pairs hcp
    let b := buckets.Bucket st h
    int32 (b * (num_succs : Int))

/-- The local `prob` of lines 472 and 487: the acting player's entry times `probs[s]`, the other
player's entry as it is. -/
def GetSuccReachProbs.prob (pa enc s : Nat) (probs : Nat → ℚ) (reach_probs : Nat → Nat → ℚ)
    (p : Nat) : ℚ :=
  if p = pa then reach_probs p enc * probs s else reach_probs p enc

/-- Body of the loop over the players `p = 0, 1` (lines 470-494) for successor `s`: the acting
player's entry is multiplied by `probs[s]`, the other player's entry is copied; a value outside
`[0, 1]` ends the program. -/
def GetSuccReachProbs.playerBody (pa enc s : Nat) (probs : Nat → ℚ)
    (reach_probs : Nat → Nat → ℚ) (p : Nat) (succ : Nat → Nat → Nat → ℚ) :
    Run (Nat → Nat → Nat → ℚ) :=
  if p = pa then
    let prob := reach_probs p enc * probs s
    if prob > 1 ∨ prob < 0 then .fatal
    else .ok (setReach succ s p enc prob)
  else
    let prob := reach_probs p enc
    if prob > 1 ∨ prob < 0 then .fatal
    else .ok (setReach succ s p enc prob)

/-- The array `probs` that `RMProbs` fills for hand `i` (lines 455-468). -/
def GetSuccReachProbs.handProbs (E : Env) (P : Player) (node : Node) (gbd : Int)
    (buckets : Buckets) (sumprobs : CFRValues) (i : Nat) : Nat → ℚ :=
  let num_succs := node.NumSuccs
  let st := node.Street
  let pa := node.PlayerActing
  let nt := node.NonterminalID
  let dsi := node.DefaultSuccIndex
  let hcp := GetSuccReachProbs.hcp E P buckets st i
  let offset := GetSuccReachProbs.offset E buckets st gbd num_succs hcp
  sumprobs.RMProbs st pa nt offset num_succs dsi

/-- Body of the loop over the hands (lines 449-496) of the general case. -/
def GetSuccReachProbs.handBody (E : Env) (P : Player) (node : Node) (gbd : Int)
    (buckets : Buckets) (sumprobs : CFRValues) (reach_probs : Nat → Nat → ℚ) (i : Nat)
    (succ : Nat → Nat → Nat → ℚ) : Run (Nat → Nat → Nat → ℚ) :=
  let num_succs := node.NumSuccs
  let max_card1 := E.game.MaxCard + 1
  let pa := node.PlayerActing
  let cards := P.hands_.Cards i
  let hi := cards.1
  let lo := cards.2
  let enc := hi * max_card1 + lo
  let probs := GetSuccReachProbs.handProbs E P node gbd buckets sumprobs i
  forLoopM 0
    (fun s succ => forLoopM 0 (GetSuccReachProbs.playerBody pa enc s probs reach_probs) 2 succ)
    num_succs succ

/-- Body of the loop over the hands of the single-successor case (lines 434-442). -/
def GetSuccReachProbs.copyBody (E : Env) (P : Player) (reach_probs : Nat → Nat → ℚ) (i : Nat)
    (succ : Nat → Nat → Nat → ℚ) : Nat → Nat → Nat → ℚ :=
  let max_card1 := E.game.MaxCard + 1
  let cards := P.hands_.Cards i
  let hi := cards.1
  let lo := cards.2
  let enc := hi * max_card1 + lo
  forLoop 0 (fun p succ => setReach succ 0 p enc (reach_probs p enc)) 2 succ

/-- `Player::GetSuccReachProbs` (lines 411-499).  The result maps successor, player and
encoding to the entry of `succ_reach_probs`; entries never assigned keep the contents of the
fresh arrays.  The strategy table is passed as it is stored: it is read in the general case
only. -/
def Player.GetSuccReachProbs (E : Env) (P : Player) (node : Node) (gbd : Int)
    (buckets : Buckets) (sumprobs : Option CFRValues) (reach_probs : Nat → Nat → ℚ) :
    Run (Nat → Nat → Nat → ℚ) :=
  let num_succs := node.NumSuccs
  let succ_reach_probs : Nat → Nat → Nat → ℚ := fun _ _ => E.uninit
  let max_street := E.game.MaxStreet
  let num_ms_hole_card_pairs := E.game.NumHoleCardPairs max_street
  if num_succs = 1 then
    .ok (forLoop 0 (GetSuccReachProbs.copyBody E P reach_probs) num_ms_hole_card_pairs
      succ_reach_probs)
  else
    forLoopM 0
      (fun i succ =>
        match sumprobs with
        | some sp => GetSuccReachProbs.handBody E P node gbd buckets sp reach_probs i succ
        | none => .undefined)
      num_ms_hole_card_pairs succ_reach_probs

/-- The strategy table `Nonterminal` selects (lines 508-513 and 518-523) for the side to act. -/
def Nonterminal.sumprobs (E : Env) (P : Player) (st pa : Nat) : Option CFRValues :=
  if pa = P.b_pos_ then
    if P.resolve_b_ = true ∧ st = E.game.MaxStreet then P.b_eg_cfr_.Sumprobs
    else some P.b_probs_
  else
    if P.resolve_a_ = true ∧ st = E.game.MaxStreet then P.a_eg_cfr_.Sumprobs
    else some P.a_probs_

/-- The bucket map `Nonterminal` selects (lines 514-515 and 524-525). -/
def Nonterminal.buckets (P : Player) (st pa : Nat) : Buckets :=
  if pa = P.b_pos_ then
    if P.resolve_b_ = true ∧ (st : Int) ≥ P.resolve_st_ then P.b_subgame_buckets_
    else P.b_base_buckets_
  else
    if P.resolve_a_ = true ∧ (st : Int) ≥ P.resolve_st_ then P.a_subgame_buckets_
    else P.a_base_buckets_

/-- The node and board index `Nonterminal` passes to `GetSuccReachProbs`. -/
def Nonterminal.lookupNode (P : Player) (a_node b_node : Node) (pa : Nat) : Node :=
  if pa = P.b_pos_ then b_node else a_node

def Nonterminal.lookupBoard (P : Player) (st pa : Nat) : Int :=
  if pa = P.b_pos_ then P.b_boards_ st else P.a_boards_ st

/-- Body of the loop over the successors in `Nonterminal` (lines 529-532); `node` is the node
whose successor vectors were computed.  Reading `succ_reach_probs[s]` or `b_node->IthSucc(s)`
beyond the end is `Run.undefined`. -/
def Nonterminal.succBody
    (walk : Player → Node → Node → String → (Nat → Nat → ℚ) → Int → Run Player)
    (a_node b_node node : Node) (action_sequence : String)
    (succ_reach_probs : Nat → Nat → Nat → ℚ) (st : Nat) (s : Nat) (P : Player) : Run Player :=
  let action := a_node.ActionName s
  match a_node.IthSucc s, b_node.IthSucc s with
  | some a_succ, some b_succ =>
    if s < node.NumSuccs then
      walk P a_succ b_succ (action_sequence ++ action) (succ_reach_probs s) (st : Int)
    else .undefined
  | _, _ => .undefined

/-- `Player::Nonterminal` (lines 501-537); `walk` is the recursive call of `Walk`. -/
def Player.Nonterminal (E : Env)
    (walk : Player → Node → Node → String → (Nat → Nat → ℚ) → Int → Run Player)
    (P : Player) (a_node b_node : Node) (action_sequence : String)
    (reach_probs : Nat → Nat → ℚ) : Run Player :=
  let st := a_node.Street
  let pa := a_node.PlayerActing
  let node := Nonterminal.lookupNode P a_node b_node pa
  (P.GetSuccReachProbs E node (Nonterminal.lookupBoard P st pa) (Nonterminal.buckets P st pa)
    (Nonterminal.sumprobs E P st pa) reach_probs).bind fun succ_reach_probs =>
  let num_succs := a_node.NumSuccs
  forLoopM 0 (Nonterminal.succBody walk a_node b_node node action_sequence succ_reach_probs st)
    num_succs P

/-! ## The walker: `Walk`, `ProcessMaxStreetBoard`, `Go` -/

/-- The board index `gbd` of street `st1` for the current max-street board (lines 561-563). -/
def Walk.globalBoard (E : Env) (P : Player) (st1 : Nat) : Int :=
  if st1 = E.game.MaxStreet then P.msbd_ else E.board_tree.PredBoard P.msbd_ (st1 : Int)

/-- The reindexing loop `for (st1 = st; st1 <= max_street; ++st1)` of lines 560-565. -/
def Walk.reindex (E : Env) (P : Player) (st : Nat) (root_bd : Int) (boards : Nat → Int) :
    Nat → Int :=
  forLoop st
    (fun st1 boards =>
      Function.update boards st1
        (E.board_tree.LocalIndex (st : Int) root_bd (st1 : Int) (Walk.globalBoard E P st1)))
    (E.game.MaxStreet + 1 - st) boards

/-- The resolve of side A at the boundary (lines 544-568): the new state and `next_a_node`. -/
def Walk.resolveA (E : Env) (P : Player) (a_node : Node) (action_sequence : String)
    (reach_probs : Nat → Nat → ℚ) : Player × Node :=
  let st := a_node.Street
  if P.resolve_a_ = true then
    let a_subtree := E.CreateSubtree st a_node.PlayerActing a_node.LastBetTo (-1)
      P.a_subgame_betting_abstraction_
    let root_bd := Walk.globalBoard E P st
    let sumprobs := P.a_eg_cfr_.SolveSubgame a_subtree root_bd reach_probs action_sequence
      P.resolve_hand_tree_ P.num_subgame_its_
    ({ P with
        a_subtree_ := some a_subtree
        a_eg_cfr_ := { P.a_eg_cfr_ with Sumprobs := some sumprobs }
        num_resolves_ := P.num_resolves_ + 1
        a_boards_ := Walk.reindex E P st root_bd P.a_boards_ }, a_subtree)
  else (P, a_node)

/-- The resolve of side B at the boundary (lines 569-593): the new state and `next_b_node`. -/
def Walk.resolveB (E : Env) (P : Player) (b_node : Node) (st : Nat) (action_sequence : String)
    (reach_probs : Nat → Nat → ℚ) : Player × Node :=
  if P.resolve_b_ = true then
    let b_subtree := E.CreateSubtree st b_node.PlayerActing b_node.LastBetTo (-1)
      P.b_subgame_betting_abstraction_
    let root_bd := Walk.globalBoard E P st
    let sumprobs := P.b_eg_cfr_.SolveSubgame b_subtree root_bd reach_probs action_sequence
      P.resolve_hand_tree_ P.num_subgame_its_
    ({ P with
        b_subtree_ := some b_subtree
        b_eg_cfr_ := { P.b_eg_cfr_ with Sumprobs := some sumprobs }
        num_resolves_ := P.num_resolves_ + 1
        b_boards_ := Walk.reindex E P st root_bd P.b_boards_ }, b_subtree)
  else (P, b_node)

/-- `Player::Walk` (lines 539-614).  The first argument bounds the depth of the recursion; every
invocation is recorded in `walk_log`. -/
def Player.Walk (E : Env) :
    Nat → Player → Node → Node → String → (Nat → Nat → ℚ) → Int → Run Player
  | 0, _, _, _, _, _, _ => .out_of_fuel
  | n + 1, P0, a_node, b_node, action_sequence, reach_probs, last_st =>
    let P := { P0 with walk_log := P0.walk_log ++ [⟨a_node, b_node, reach_probs, last_st⟩] }
    let st := a_node.Street
    if (st : Int) > last_st ∧ (st : Int) = P.resolve_st_ then
      let ra := Walk.resolveA E P a_node action_sequence reach_probs
      let rb := Walk.resolveB E ra.1 b_node st action_sequence reach_probs
      Player.Walk E n rb.1 ra.2 rb.2 action_sequence reach_probs (st : Int)
    else if a_node.Terminal = true then
      if b_node.Terminal = false then .fatal
      else if a_node.Showdown = true then P.Showdown E a_node b_node reach_probs
      else .ok (P.Fold E a_node b_node reach_probs)
    else
      if b_node.Terminal = true then .fatal
      else P.Nonterminal E (Player.Walk E n) a_node b_node action_sequence reach_probs

/-- The array `cards` that `ProcessMaxStreetBoard` passes to `HCPIndex` for a hand (lines
635-646): the hole cards followed by the board. -/
def ProcessMaxStreetBoard.cards (E : Env) (msbd : Int) (hole_cards : Card × Card) : List Card :=
  let max_street := E.game.MaxStreet
  let num_board_cards := E.game.NumBoardCards max_street
  let num_hole_cards := E.game.NumCardsForStreet 0
  let num_cards := num_board_cards + num_hole_cards
  let board := E.board_tree.Board max_street msbd
  let cards0 := forLoop 0 (fun i cards => Function.update cards (num_hole_cards + i) (board i))
    num_board_cards E.uninit_card
  let cards1 := Function.update cards0 0 hole_cards.1
  let cards2 := if num_hole_cards = 2 then Function.update cards1 1 hole_cards.2 else cards1
  (List.range num_cards).map cards2

/-- The reach vectors `ProcessMaxStreetBoard` starts the walk from (lines 656-666): 1.0 at the
encoding of every hand of the board, for each of the `num_players` players. -/
def ProcessMaxStreetBoard.initialReach (E : Env) (hands : CanonicalCards) : Nat → Nat → ℚ :=
  let num_players := E.game.NumPlayers
  let max_card1 := E.game.MaxCard + 1
  let num_ms_hole_card_pairs := E.game.NumHoleCardPairs E.game.MaxStreet
  forLoop 0
    (fun p reach_probs =>
      Function.update reach_probs p
        (forLoop 0
          (fun i arr =>
            let cards := hands.Cards i
            Function.update arr (cards.1 * max_card1 + cards.2) 1)
          num_ms_hole_card_pairs E.uninit))
    num_players (fun _ => E.uninit)

/-- Lines 617-650 of `ProcessMaxStreetBoard`: the per-board fields. -/
def ProcessMaxStreetBoard.setup (E : Env) (P : Player) (msbd : Int) : Player :=
  let max_street := E.game.MaxStreet
  let a_boards := Function.update P.a_boards_ max_street msbd
  let b_boards := Function.update P.b_boards_ max_street msbd
  let a_boards := forLoop 1
    (fun st boards => Function.update boards st (E.board_tree.PredBoard msbd (st : Int)))
    (max_street - 1) a_boards
  let b_boards := forLoop 1
    (fun st boards => Function.update boards st (E.board_tree.PredBoard msbd (st : Int)))
    (max_street - 1) b_boards
  let hand_tree : HandTree := ⟨(max_street : Int), msbd, max_street⟩
  let resolve_hand_tree : HandTree :=
    if (P.resolve_a_ = true ∨ P.resolve_b_ = true) ∧ P.resolve_st_ < (max_street : Int) then
      ⟨P.resolve_st_, E.board_tree.PredBoard msbd P.resolve_st_, max_street⟩
    else hand_tree
  let hands := E.Hands hand_tree max_street 0
  let num_ms_hole_card_pairs := E.game.NumHoleCardPairs max_street
  let ms_hcp_to_raw_hcp := forLoop 0
    (fun i tbl =>
      let cards := ProcessMaxStreetBoard.cards E msbd (hands.Cards i)
      forLoop 0
        (fun st tbl => Function.update tbl st (Function.update (tbl st) i (E.HCPIndex st cards)))
        (max_street + 1) tbl)
    num_ms_hole_card_pairs P.ms_hcp_to_raw_hcp_
  { P with
    msbd_ := msbd
    a_boards_ := a_boards
    b_boards_ := b_boards
    hand_tree_ := hand_tree
    resolve_hand_tree_ := resolve_hand_tree
    hands_ := hands
    ms_hcp_to_raw_hcp_ := ms_hcp_to_raw_hcp }

/-- The assignment `b_pos_ = b_pos`. -/
def Player.withSeat (P : Player) (b_pos : Nat) : Player := { P with b_pos_ := b_pos }

/-- Body of the loop over B's seat (lines 667-669): one walk from the two roots. -/
def ProcessMaxStreetBoard.seatBody (E : Env) (fuel : Nat) (reach_probs : Nat → Nat → ℚ)
    (b_pos : Nat) (P : Player) : Run Player :=
  Player.Walk E fuel (P.withSeat b_pos) P.a_betting_tree_ P.b_betting_tree_ "x" reach_probs 0

/-- `Player::ProcessMaxStreetBoard` (lines 616-670); `fuel` bounds the depth of each walk.  The
loop variable is the field `b_pos_`, which is `num_players` when the loop ends. -/
def Player.ProcessMaxStreetBoard (E : Env) (fuel : Nat) (P : Player) (msbd : Int) : Run Player :=
  let P1 := ProcessMaxStreetBoard.setup E P msbd
  let reach_probs := ProcessMaxStreetBoard.initialReach E P1.hands_
  let num_players := E.game.NumPlayers
  (forLoopM 0 (ProcessMaxStreetBoard.seatBody E fuel reach_probs) num_players P1).bind fun P2 =>
  .ok (P2.withSeat num_players)

/-- The order of `std::sort` on `pair<double, int>`: lexicographic. -/
def pairLE (x y : ℚ × Int) : Prop := x.1 < y.1 ∨ (x.1 = y.1 ∧ x.2 ≤ y.2)

instance : DecidableRel pairLE := fun x y => by unfold pairLE; infer_instance

/-- The vector `v` of lines 695-703: for each board, `BoardCount` pairs of a fresh random number
and the board; `rand t` is the `t`-th number drawn. -/
def Go.randomPairs (E : Env) (rand : Nat → ℚ) (num_max_street_boards : Nat) : List (ℚ × Int) :=
  forLoop 0
    (fun bd v =>
      let board_count := E.board_tree.BoardCount E.game.MaxStreet (bd : Int)
      forLoop 0 (fun _ v => v ++ [(rand v.length, (bd : Int))]) board_count.toNat v)
    num_max_street_boards []

/-- The counts `max_street_board_samples` of lines 689-708; reading `v[i]` beyond the end of `v`
is `Run.undefined`. -/
def Go.sampleCounts (v : List (ℚ × Int)) (num_sampled : Int) : Run (Int → Int) :=
  forLoopM 0
    (fun i samples =>
      match (v.insertionSort pairLE).get? i with
      | some x => .ok (Function.update samples x.2 (samples x.2 + 1))
      | none => .undefined)
    num_sampled.toNat (fun _ => 0)

/-- What `Go` reports (lines 717-723). -/
structure Report where
  avg_b_outcome : ℚ
  b_mbb_g : ℚ
  avg_p1_outcome : ℚ
  p1_mbb_g : ℚ

def Go.report (P : Player) : Report :=
  let avg_b_outcome := P.sum_b_outcomes_ / P.sum_weights_
  let b_mbb_g := (avg_b_outcome / 2) * 1000
  let avg_p1_outcome := P.sum_p1_outcomes_ / P.sum_weights_
  let p1_mbb_g := (avg_p1_outcome / 2) * 1000
  ⟨avg_b_outcome, b_mbb_g, avg_p1_outcome, p1_mbb_g⟩

/-- The assignment `num_samples_ = n`. -/
def Player.withSamples (P : Player) (n : Int) : Player := { P with num_samples_ := n }

/-- The number of boards `Go` settles on (lines 677-680). -/
def Go.numSampled (E : Env) (num_sampled_max_street_boards : Int) : Int :=
  let num_max_street_boards := E.board_tree.NumBoards E.game.MaxStreet
  if num_sampled_max_street_boards = 0 ∨
      num_sampled_max_street_boards > (num_max_street_boards : Int)
  then (num_max_street_boards : Int) else num_sampled_max_street_boards

/-- Body of the loop over all boards (lines 684-687). -/
def Go.allBody (E : Env) (fuel : Nat) (bd : Nat) (P : Player) : Run Player :=
  Player.ProcessMaxStreetBoard E fuel
    (P.withSamples (E.board_tree.BoardCount E.game.MaxStreet (bd : Int))) (bd : Int)

/-- Body of the loop over the sampled boards (lines 710-714). -/
def Go.sampledBody (E : Env) (fuel : Nat) (max_street_board_samples : Int → Int) (bd : Nat)
    (P : Player) : Run Player :=
  let P1 := P.withSamples (max_street_board_samples (bd : Int))
  if P1.num_samples_ = 0 then .ok P1
  else Player.ProcessMaxStreetBoard E fuel P1 (bd : Int)

/-- Lines 673-715 of `Go`: the boards processed.  `rand` is the sequence of random numbers and
`fuel` bounds the depth of each walk. -/
def Go.boards (E : Env) (fuel : Nat) (rand : Nat → ℚ) (P0 : Player)
    (num_sampled_max_street_boards : Int) : Run Player :=
  let P := { P0 with num_resolves_ := 0 }
  let max_street := E.game.MaxStreet
  let num_max_street_boards := E.board_tree.NumBoards max_street
  let num_sampled := Go.numSampled E num_sampled_max_street_boards
  if num_sampled = (num_max_street_boards : Int) then
    forLoopM 0 (Go.allBody E fuel) num_max_street_boards P
  else
    (Go.sampleCounts (Go.randomPairs E rand num_max_street_boards) num_sampled).bind
      fun max_street_board_samples =>
    forLoopM 0 (Go.sampledBody E fuel max_street_board_samples) num_max_street_boards P

/-- `Player::Go` (lines 672-729): the final state and the reported averages. -/
def Player.Go (E : Env) (fuel : Nat) (rand : Nat → ℚ) (P : Player)
    (num_sampled_max_street_boards : Int) : Run (Player × Report) :=
  (Go.boards E fuel rand P num_sampled_max_street_boards).bind fun P' =>
  .ok (P', Go.report P')

/-! ## Quantities the statements are phrased in -/

/-- Two hands share a card. -/
def sharesCard (h h' : Card × Card) : Prop :=
  h.1 = h'.1 ∨ h.1 = h'.2 ∨ h.2 = h'.1 ∨ h.2 = h'.2

instance (h h' : Card × Card) : Decidable (sharesCard h h') := by
  unfold sharesCard; infer_instance

/-- Two hands consist of the same two cards. -/
def sameHand (h h' : Card × Card) : Prop :=
  (h.1 = h'.1 ∧ h.2 = h'.2) ∨ (h.1 = h'.2 ∧ h.2 = h'.1)

instance (h h' : Card × Card) : Decidable (sameHand h h') := by
  unfold sameHand; infer_instance

/-- The hands `0 .. H-1` are distinct two-card hands over the cards `0 .. MaxCard`. -/
structure DistinctHands (max_card : Card) (H : Nat) (hands : CanonicalCards) : Prop where
  card_le : ∀ i, i < H → (hands.Cards i).1 ≤ max_card ∧ (hands.Cards i).2 ≤ max_card
  two_cards : ∀ i, i < H → (hands.Cards i).1 ≠ (hands.Cards i).2
  distinct : ∀ i, i < H → ∀ k, k < H → i ≠ k → ¬ sameHand (hands.Cards i) (hands.Cards k)

/-- The hands `0 .. H-1` are ordered by non-decreasing hand value. -/
def SortedByValue (H : Nat) (hands : CanonicalCards) : Prop :=
  ∀ i k, i ≤ k → k < H → hands.HandValue i ≤ hands.HandValue k

/-- The reach probability of hand `i`: the entry of `probs` at the hand's encoding. -/
def handProb (max_card1 : Nat) (hands : CanonicalCards) (probs : Nat → ℚ) (i : Nat) : ℚ :=
  probs ((hands.Cards i).1 * max_card1 + (hands.Cards i).2)

/-- Brute force: the sum over all ordered pairs (B hand `i`, A hand `k`) that share no card of
`b_probs[i] * a_probs[k] * sgn(value(i) - value(k))`. -/
def rankedPairSum (max_card1 H : Nat) (hands : CanonicalCards) (a_probs b_probs : Nat → ℚ) : ℚ :=
  ∑ i ∈ Finset.range H, ∑ k ∈ Finset.range H,
    if sharesCard (hands.Cards i) (hands.Cards k) then 0
    else handProb max_card1 hands b_probs i * handProb max_card1 hands a_probs k *
      ((Int.sign (hands.HandValue i - hands.HandValue k) : Int) : ℚ)

/-- Brute force: the sum of A's reach probabilities over the hands sharing no card with
`cards`. -/
def consistentOppSum (max_card1 H : Nat) (hands : CanonicalCards) (a_probs : Nat → ℚ)
    (cards : Card × Card) : ℚ :=
  ∑ k ∈ Finset.range H,
    if sharesCard cards (hands.Cards k) then 0 else handProb max_card1 hands a_probs k

/-- Brute force: the sum over all card-disjoint ordered hand pairs of `b_probs[i] * a_probs[k]`. -/
def jointProbSum (max_card1 H : Nat) (hands : CanonicalCards) (a_probs b_probs : Nat → ℚ) : ℚ :=
  ∑ i ∈ Finset.range H, ∑ k ∈ Finset.range H,
    if sharesCard (hands.Cards i) (hands.Cards k) then 0
    else handProb max_card1 hands b_probs i * handProb max_card1 hands a_probs k

/-- Brute force: A's reach probability over the hands of strictly lower value than hand `i`
that share no card with it. -/
def weakerOppSum (max_card1 H : Nat) (hands : CanonicalCards) (a_probs : Nat → ℚ)
    (i : Nat) : ℚ :=
  ∑ k ∈ Finset.range H,
    if hands.HandValue k < hands.HandValue i ∧ ¬ sharesCard (hands.Cards i) (hands.Cards k)
    then handProb max_card1 hands a_probs k else 0

/-- Brute force: A's reach probability over the hands of strictly higher value than hand `i`
that share no card with it. -/
def strongerOppSum (max_card1 H : Nat) (hands : CanonicalCards) (a_probs : Nat → ℚ)
    (i : Nat) : ℚ :=
  ∑ k ∈ Finset.range H,
    if hands.HandValue i < hands.HandValue k ∧ ¬ sharesCard (hands.Cards i) (hands.Cards k)
    then handProb max_card1 hands a_probs k else 0

/-- A value the propagation step accepts: within `[0, 1]`. -/
def okVal (x : ℚ) : Prop := 0 ≤ x ∧ x ≤ 1

instance (x : ℚ) : Decidable (okVal x) := by unfold okVal; infer_instance

/-- The encoding of hand `i`. -/
def handEnc (max_card1 : Nat) (hands : CanonicalCards) (i : Nat) : Nat :=
  (hands.Cards i).1 * max_card1 + (hands.Cards i).2

/-- Both reach vectors have their entries at the hands of the board within `[0, 1]`. -/
def OkReach (E : Env) (hands : CanonicalCards) (reach_probs : Nat → Nat → ℚ) : Prop :=
  ∀ p, p < 2 → ∀ i, i < E.game.NumHoleCardPairs E.game.MaxStreet →
    okVal (reach_probs p (handEnc (E.game.MaxCard + 1) hands i))

/-! ## Quantities of the loop invariants -/

/-- How often card `c` occurs in a hand, as the two increments `arr[hi] += x; arr[lo] += x`
see it. -/
def cardCount (c : Card) (h : Card × Card) : ℚ :=
  (if c = h.1 then 1 else 0) + (if c = h.2 then 1 else 0)

/-- The amount the second pass adds for an opponent probability: nothing when it is `<= 0`. -/
def countedProb (x : ℚ) : ℚ := if x ≤ 0 then 0 else x

/-- The value of the local `lose_prob` of line 321 for a hand. -/
def loseProbOf (t : OppTotals) (cum : Nat → ℚ) (oc : ℚ) (cards : Card × Card) : ℚ :=
  (t.sum_opp_probs - oc) - (t.total_opp_card_probs cards.1 - cum cards.1) -
    (t.total_opp_card_probs cards.2 - cum cards.2)

/-! ## Invariants of the class loop of `Showdown` -/

/-- What holds of the class-loop state on every input: the counters are the sums of the counted
opponent probabilities of the hands before `j`, and `sum_joint_probs` sums over those hands. -/
structure BaseInv (hands : CanonicalCards) (H m : Nat) (a bp : Nat → ℚ) (t : OppTotals)
    (cum0 : Nat → ℚ) (s : ShowdownState) : Prop where
  j_le : s.j ≤ H
  cum_eq : ∀ c, s.cum_opp_card_probs c = cum0 c +
    ∑ k ∈ Finset.range s.j, countedProb (handProb m hands a k) * cardCount c (hands.Cards k)
  oc_eq : s.opp_cum_prob = ∑ k ∈ Finset.range s.j, countedProb (handProb m hands a k)
  sj_eq : s.sum_joint_probs =
    ∑ i ∈ Finset.range s.j, handProb m hands bp i * sumConsistentOppProbs m a t (hands.Cards i)

/-- What holds in addition when the hands are distinct, sorted by value and the opponent's
entries are non-negative: every hand before `j` has its `win_probs` and `lose_prob` equal to
the opponent mass of strictly weaker, respectively strictly stronger, card-disjoint hands. -/
structure SortedInv (hands : CanonicalCards) (H m : Nat) (a bp : Nat → ℚ) (hp : ℚ)
    (s : ShowdownState) : Prop where
  boundary : ∀ k, k < s.j → ∀ i, s.j ≤ i → i < H → hands.HandValue k < hands.HandValue i
  win_eq : ∀ i, i < s.j → s.win_probs i = weakerOppSum m H hands a i
  lose_eq : ∀ i, i < s.j → s.lose_probs i = strongerOppSum m H hands a i
  sv_eq : s.sum_our_vals = ∑ i ∈ Finset.range s.j,
    handProb m hands bp i * (weakerOppSum m H hands a i - strongerOppSum m H hands a i) * hp

/-! ## The sums `Showdown` and `Fold` compute -/

/-- The totals both terminal evaluators work with: the result of the first loop. -/
def oppTotals (E : Env) (hands : CanonicalCards) (a_probs : Nat → ℚ) : OppTotals :=
  forLoop 0 (Fold.totalsBody hands (E.game.MaxCard + 1) a_probs)
    (E.game.NumHoleCardPairs E.game.MaxStreet) ⟨zeroedCards E.uninit (E.game.MaxCard + 1), 0⟩

/-! ## A small concrete game

Four cards `0 .. 3`, one street, four hands; used to exhibit each statement at an input. -/

/-- Four hands over the cards `0 .. 3`, in order of strength. -/
def exHands : CanonicalCards :=
  { Cards := fun i => [(1, 0), (2, 1), (3, 0), (3, 2)].getD i (0, 0)
    HandValue := fun i => [1, 2, 2, 3].getD i 0 }

/-- The same four hands, all of the same strength. -/
def exTiedHands : CanonicalCards :=
  { Cards := fun i => [(1, 0), (2, 1), (3, 0), (3, 2)].getD i (0, 0)
    HandValue := fun _ => 7 }

/-- A fold node: player 1 remains, 1 chip bet. -/
def exFoldNode : Node := Node.mk 0 1 1 true false 0 0 [] []

/-- A showdown node: 2 chips bet. -/
def exShowdownNode : Node := Node.mk 0 0 2 true true 0 0 [] []

/-- A betting tree: player 1 folds or calls, and the call leads to a forced check of player 0
before the showdown. -/
def exTree : Node :=
  Node.mk 0 1 2 false false 0 0 ["f", "c"]
    [exFoldNode, Node.mk 0 0 2 false false 1 0 ["k"] [exShowdownNode]]

/-- A strategy table: successor 0 with probability 1/4, successor 1 with probability 3/4. -/
def exProbs : CFRValues :=
  { RMProbs := fun _ _ _ _ _ _ s => if s = 0 then 1 / 4 else 3 / 4 }

/-- A second strategy table: always successor 1. -/
def exProbs2 : CFRValues :=
  { RMProbs := fun _ _ _ _ _ _ s => if s = 0 then 0 else 1 }

def exBuckets : Buckets := { None := fun _ => true, Bucket := fun _ _ => 0 }

def exEGCFR : EGCFR := { SolveSubgame := fun _ _ _ _ _ _ => exProbs2, Sumprobs := none }

/-- The toy game: one street, cards `0 .. 3`, four hands, one board. -/
def exEnv : Env :=
  { game :=
      { MaxStreet := 0, MaxCard := 3, NumPlayers := 2, NumHoleCardPairs := fun _ => 4,
        NumBoardCards := fun _ => 0, NumCardsForStreet := fun _ => 2 }
    board_tree :=
      { PredBoard := fun bd _ => bd, LocalIndex := fun _ _ _ gbd => gbd, NumBoards := fun _ => 1,
        BoardCount := fun _ _ => 1, Board := fun _ _ _ => 0 }
    Hands := fun _ _ _ => exHands
    HCPIndex := fun _ _ => 0
    CreateSubtree := fun _ _ _ _ _ => exTree
    uninit := fun _ => 0
    uninit_card := fun _ => 0 }

/-- The toy game with all hands tied. -/
def exTiedEnv : Env := { exEnv with Hands := fun _ _ _ => exTiedHands }

/-- A player state as the constructor leaves it, with A playing `exProbs`, B playing `exProbs2`
on the same tree, and no resolving. -/
def exPlayer : Player :=
  { a_subgame_betting_abstraction_ := ⟨"a"⟩
    b_subgame_betting_abstraction_ := ⟨"b"⟩
    a_betting_tree_ := exTree
    b_betting_tree_ := exTree
    a_base_buckets_ := exBuckets
    b_base_buckets_ := exBuckets
    a_probs_ := exProbs
    b_probs_ := exProbs2
    resolve_st_ := -1
    resolve_a_ := false
    resolve_b_ := false
    a_boards_ := fun _ => 0
    b_boards_ := fun _ => 0
    num_samples_ := 3
    msbd_ := 0
    b_pos_ := 0
    hand_tree_ := ⟨0, 0, 0⟩
    resolve_hand_tree_ := ⟨0, 0, 0⟩
    hands_ := exHands
    sum_b_outcomes_ := 0
    sum_p0_outcomes_ := 0
    sum_p1_outcomes_ := 0
    sum_weights_ := 0
    a_subgame_buckets_ := exBuckets
    b_subgame_buckets_ := exBuckets
    a_subtree_ := none
    b_subtree_ := none
    a_eg_cfr_ := exEGCFR
    b_eg_cfr_ := exEGCFR
    num_subgame_its_ := 200
    ms_hcp_to_raw_hcp_ := fun _ _ => 0
    num_resolves_ := 0
    walk_log := [] }

/-- The state `exPlayer` on the board of tied hands. -/
def exTiedPlayer : Player := { exPlayer with hands_ := exTiedHands }

/-- Reach vectors with every entry 1. -/
def exReach : Nat → Nat → ℚ := fun _ _ => 1

/-- Reach vectors in which player 1 holds the hand `(3, 2)` (encoding 14) with weight 2. -/
def exReachAbove : Nat → Nat → ℚ := fun p enc => if p = 1 ∧ enc = 14 then 2 else 1

/-! ## Sequences of terminal evaluations -/

/-- One call of a terminal evaluator, with the fields the walker sets before it: B's seat, the
sample count and the hands of the board. -/
inductive TerminalCall where
  | showdown (b_pos : Nat) (num_samples : Int) (hands : CanonicalCards) (a_node b_node : Node)
      (reach_probs : Nat → Nat → ℚ) : TerminalCall
  | fold (b_pos : Nat) (num_samples : Int) (hands : CanonicalCards) (a_node b_node : Node)
      (reach_probs : Nat → Nat → ℚ) : TerminalCall

/-- B's seat during the call. -/
def TerminalCall.b_pos : TerminalCall → Nat
  | .showdown b_pos _ _ _ _ _ => b_pos
  | .fold b_pos _ _ _ _ _ => b_pos

/-- Perform the call on a state. -/
def TerminalCall.run (E : Env) (P : Player) : TerminalCall → Run Player
  | .showdown b_pos num_samples hands a_node b_node reach_probs =>
    Player.Showdown E { P with b_pos_ := b_pos, num_samples_ := num_samples, hands_ := hands }
      a_node b_node reach_probs
  | .fold b_pos num_samples hands a_node b_node reach_probs =>
    .ok (Player.Fold E { P with b_pos_ := b_pos, num_samples_ := num_samples, hands_ := hands }
      a_node b_node reach_probs)

/-- Perform a sequence of calls, in order. -/
def runTerminalCalls (E : Env) : List TerminalCall → Player → Run Player
  | [], P => .ok P
  | c :: cs, P => (c.run E P).bind (runTerminalCalls E cs)

/-- A showdown followed by a fold, with B in seat 0 and then in seat 1. -/
def exCalls : List TerminalCall :=
  [.showdown 0 3 exHands exShowdownNode exShowdownNode exReach,
   .fold 1 2 exHands exFoldNode exFoldNode exReach]

/-- The assignments of the loops over successors and players for one hand. -/
def handUpdate (pa enc : Nat) (probs : Nat → ℚ) (reach : Nat → Nat → ℚ) (num_succs : Nat)
    (succ : Nat → Nat → Nat → ℚ) : Nat → Nat → Nat → ℚ :=
  forLoop 0
    (fun s succ =>
      forLoop 0 (fun p succ => setReach succ s p enc (GetSuccReachProbs.prob pa enc s probs reach p))
        2 succ)
    num_succs succ

/-- Every value the general case of `GetSuccReachProbs` would assign lies in `[0, 1]`. -/
def AllProbsOk (E : Env) (P : Player) (node : Node) (gbd : Int) (buckets : Buckets)
    (sp : CFRValues) (reach : Nat → Nat → ℚ) : Prop :=
  ∀ i, i < E.game.NumHoleCardPairs E.game.MaxStreet → ∀ s, s < node.NumSuccs → ∀ p, p < 2 →
    okVal (GetSuccReachProbs.prob node.PlayerActing (handEnc (E.game.MaxCard + 1) P.hands_ i) s
      (GetSuccReachProbs.handProbs E P node gbd buckets sp i) reach p)

/-- The successor vectors after the assignments for the hands `0 .. n-1`. -/
def propagated (E : Env) (P : Player) (node : Node) (gbd : Int) (buckets : Buckets)
    (sp : CFRValues) (reach : Nat → Nat → ℚ) (n : Nat) : Nat → Nat → Nat → ℚ :=
  forLoop 0
    (fun i succ => handUpdate node.PlayerActing (handEnc (E.game.MaxCard + 1) P.hands_ i)
      (GetSuccReachProbs.handProbs E P node gbd buckets sp i) reach node.NumSuccs succ)
    n (fun _ _ => E.uninit)

/-- The successor vectors of the single-successor case after the hands `0 .. n-1`. -/
def copied (E : Env) (P : Player) (reach : Nat → Nat → ℚ) (n : Nat) : Nat → Nat → Nat → ℚ :=
  forLoop 0 (GetSuccReachProbs.copyBody E P reach) n (fun _ _ => E.uninit)

/-- Two vectors agree at the encodings of the hands `0 .. H-1`. -/
def AgreeOnHands (m H : Nat) (hands : CanonicalCards) (a a' : Nat → ℚ) : Prop :=
  ∀ k, k < H → a (handEnc m hands k) = a' (handEnc m hands k)

/-- Reach vectors that agree at the hands, for both players. -/
def ReachAgree (E : Env) (hands : CanonicalCards) (r r' : Nat → Nat → ℚ) : Prop :=
  ∀ p, p < 2 → AgreeOnHands (E.game.MaxCard + 1) (E.game.NumHoleCardPairs E.game.MaxStreet)
    hands (r p) (r' p)

/-- A node with one successor: a forced check before the showdown. -/
def exCheckNode : Node := Node.mk 0 0 2 false false 1 0 ["k"] [exShowdownNode]

/-! ## The walk without resolving -/

/-- Neither side resolves. -/
def NoResolve (P : Player) : Prop := P.resolve_a_ = false ∧ P.resolve_b_ = false

/-- The state with one more recorded invocation of `Walk`. -/
def Player.logged (P : Player) (c : WalkCall) : Player :=
  { P with walk_log := P.walk_log ++ [c] }

/-- The state without its four sums and its record of invocations. -/
def Player.cfg (P : Player) : Player :=
  { P with sum_b_outcomes_ := 0, sum_p0_outcomes_ := 0, sum_p1_outcomes_ := 0,
           sum_weights_ := 0, walk_log := [] }

/-- What a walk without resolving leaves of the state: everything but the sums and the record,
and the record grows by invocations whose reach vectors are within `[0, 1]` at the hands. -/
def WalkFrame (E : Env) (P Q : Player) : Prop :=
  Q.cfg = P.cfg ∧
  ∃ L, Q.walk_log = P.walk_log ++ L ∧ ∀ c, c ∈ L → OkReach E P.hands_ c.reach_probs

/-- The seat recorded at a node is one of the two players, unless the node is a showdown. -/
def Node.seatOk (n : Node) : Bool :=
  (n.Terminal && n.Showdown) || decide (n.PlayerActing < 2)

/-- The tree below the node has depth at most `h` and its seats are those of a two-player
game. -/
def Node.wellFormed : Nat → Node → Bool
  | 0, n => n.seatOk && n.succs.isEmpty
  | h + 1, n => n.seatOk && n.succs.all (Node.wellFormed h)

/-- Every entry of the strategy table is a probability. -/
def ValidStrategy (sp : CFRValues) : Prop :=
  ∀ st pa nt offset num_succs dsi s, okVal (sp.RMProbs st pa nt offset num_succs dsi s)

/-! ## One max-street board -/

/-- The hands `ProcessMaxStreetBoard` installs for board `msbd`. -/
def boardHands (E : Env) (msbd : Int) : CanonicalCards :=
  E.Hands ⟨(E.game.MaxStreet : Int), msbd, E.game.MaxStreet⟩ E.game.MaxStreet 0

/-- What the loop over B's seat keeps of the state of a board: the hands, that neither side
resolves, and a record that grows by invocations with reach vectors within `[0, 1]`. -/
def BoardFrame (E : Env) (P Q : Player) : Prop :=
  Q.hands_ = P.hands_ ∧ NoResolve Q ∧
  ∃ L, Q.walk_log = P.walk_log ++ L ∧ ∀ c, c ∈ L → OkReach E P.hands_ c.reach_probs

/-- The fields of a state that a board's walks read and keep, compared with those of the state
the board was set up from. -/
def SeatInv (P1 R : Player) : Prop := (R.withSeat 0).cfg = (P1.withSeat 0).cfg

/-- Two arrays of board indices (`int[max_street + 1]`) with the same entries. -/
def BoardsAgree (E : Env) (X Y : Nat → Int) : Prop :=
  ∀ st, st ≤ E.game.MaxStreet → X st = Y st

/-- Two hand index maps (`max_street + 1` arrays of one `int` per final-street hand) with the
same entries. -/
def HcpAgree (E : Env) (X Y : Nat → Nat → Int) : Prop :=
  ∀ st i, st ≤ E.game.MaxStreet → i < E.game.NumHoleCardPairs E.game.MaxStreet →
    X st i = Y st i

/-- The nodes of the tree, to depth `h`, are on streets `0 .. M`. -/
def Node.streetsLE (M : Nat) : Nat → Node → Bool
  | 0, n => decide (n.Street ≤ M)
  | h + 1, n => decide (n.Street ≤ M) && n.succs.all (Node.streetsLE M h)

/-- The relation between a state and the state of the run with the two sides exchanged, on the
fields a walk without resolving reads: strategies, buckets and board indices are exchanged, B
sits in the other seat, and the hands, the hand index map, the sample count and the resolve
street are the same.  Arrays are compared at the indices they have. -/
structure SwapRel (E : Env) (P P' : Player) : Prop where
  a_probs : P'.a_probs_ = P.b_probs_
  b_probs : P'.b_probs_ = P.a_probs_
  a_buckets : P'.a_base_buckets_ = P.b_base_buckets_
  b_buckets : P'.b_base_buckets_ = P.a_base_buckets_
  a_boards : BoardsAgree E P'.a_boards_ P.b_boards_
  b_boards : BoardsAgree E P'.b_boards_ P.a_boards_
  hands : P'.hands_ = P.hands_
  hcp : HcpAgree E P'.ms_hcp_to_raw_hcp_ P.ms_hcp_to_raw_hcp_
  samples : P'.num_samples_ = P.num_samples_
  resolve_st : P'.resolve_st_ = P.resolve_st_
  seat : P'.b_pos_ + P.b_pos_ = 1
  no_resolve : NoResolve P
  no_resolve' : NoResolve P'

/-- Two states at one terminal node that differ in the seat of B: same hands, same sample
count, opposite seats. -/
structure SeatFlip (P P' : Player) : Prop where
  hands : P'.hands_ = P.hands_
  samples : P'.num_samples_ = P.num_samples_
  seat : P'.b_pos_ + P.b_pos_ = 1

/-- What exchanging the sides does to the sums of a walk: the sum of B is negated, the weights
are the same. -/
def SwapDelta (P P' Q Q' : Player) : Prop :=
  Q'.sum_b_outcomes_ - P'.sum_b_outcomes_ = - (Q.sum_b_outcomes_ - P.sum_b_outcomes_) ∧
  Q'.sum_weights_ - P'.sum_weights_ = Q.sum_weights_ - P.sum_weights_

/-- The relation between the states of two runs with the sides exchanged, before a board:
strategies, buckets and trees are exchanged, the two trees of each run are the same tree, the
resolve street is the same, neither side resolves, and the entries 0 of the board index arrays
(which the constructor sets to 0 and no board overwrites when there are several streets) are
exchanged. -/
structure SideSwap (P P' : Player) : Prop where
  a_probs : P'.a_probs_ = P.b_probs_
  b_probs : P'.b_probs_ = P.a_probs_
  a_buckets : P'.a_base_buckets_ = P.b_base_buckets_
  b_buckets : P'.b_base_buckets_ = P.a_base_buckets_
  a_boards : P'.a_boards_ 0 = P.b_boards_ 0
  b_boards : P'.b_boards_ 0 = P.a_boards_ 0
  a_tree : P'.a_betting_tree_ = P.b_betting_tree_
  b_tree : P'.b_betting_tree_ = P.a_betting_tree_
  same_tree : P.b_betting_tree_ = P.a_betting_tree_
  resolve_st : P'.resolve_st_ = P.resolve_st_
  no_resolve : NoResolve P
  no_resolve' : NoResolve P'

/-! ## The whole evaluation, with the sides exchanged -/

/-- The relation kept between two runs with the sides exchanged, from board to board. -/
def GoRel (P0 P0' R R' : Player) : Prop :=
  SideSwap R R' ∧ R.a_betting_tree_ = P0.a_betting_tree_ ∧ SwapDelta P0 P0' R R'

/-! ## Self-play on one board -/

/-- A state in which the two sides are the same: tree, buckets, strategy, and entry 0 of the
board index arrays (which the constructor sets to 0 for both). -/
structure SelfPlay (P : Player) : Prop where
  tree : P.b_betting_tree_ = P.a_betting_tree_
  buckets : P.b_base_buckets_ = P.a_base_buckets_
  boards : P.b_boards_ 0 = P.a_boards_ 0
  probs : P.b_probs_ = P.a_probs_
  no_resolve : NoResolve P

/-! ## Exchanged sides and self-play in the small game -/

/-- The state `exPlayer` with the strategies of A and B exchanged. -/
def exSwappedPlayer : Player := { exPlayer with a_probs_ := exProbs2, b_probs_ := exProbs }

/-- The state `exPlayer` with B playing the strategy of A. -/
def exSelfPlayer : Player := { exPlayer with b_probs_ := exProbs }

/-- A bucket map that is not none: bucket 7 for hand index 0, bucket 9 for every other. -/
def exWideBuckets : Buckets := { None := fun _ => false, Bucket := fun _ h => if h = 0 then 7 else 9 }

/-- The toy game with `2^16` hole-card pairs on every street. -/
def exWideEnv : Env :=
  { exEnv with game := { exEnv.game with NumHoleCardPairs := fun _ => 65536 } }

/-- A node whose only successor is the forced check `exCheckNode`. -/
def exDeepNode : Node := Node.mk 0 0 2 false false 2 0 ["k"] [exCheckNode]

/-- A node of player 1 with one successor, the showdown. -/
def exCountA : Node := Node.mk 0 1 2 false false 0 0 ["k"] [exShowdownNode]

/-- A node of player 1 with two successors: the showdown and the fold. -/
def exCountB : Node := Node.mk 0 1 2 false false 0 0 ["k", "f"] [exShowdownNode, exFoldNode]

/-- The state `exPlayer` with side A resolving at street 0. -/
def exResolvePlayer : Player := { exPlayer with resolve_a_ := true, resolve_st_ := 0 }

/-- A fold node on street 1: player 0 remains, 2 chips bet. -/
def exFoldLeaf : Node := Node.mk 1 0 2 true false 0 0 [] []

/-- A game of three streets in which every board of street 1 has three boards of street 2
below it: `PredBoard(bd, 1) = bd / 3`, and `LocalIndex` counts a board from the first board
below the root (from the root itself on the root's street).  The resolved subtree is the
fold of street 1. -/
def exIndexEnv : Env :=
  { exEnv with
    game := { exEnv.game with MaxStreet := 2 }
    board_tree :=
      { exEnv.board_tree with
        PredBoard := fun bd st => if st = 1 then bd / 3 else if st = 0 then 0 else bd
        LocalIndex := fun root_st root_bd st gbd =>
          if st = root_st then gbd - root_bd else gbd - 3 * root_bd
        NumBoards := fun _ => 9 }
    CreateSubtree := fun _ _ _ _ _ => exFoldLeaf }

/-- The state `ProcessMaxStreetBoard` sets up for board 7 of `exIndexEnv` while only A
resolves, at street 1. -/
def exIndexPlayer : Player :=
  ProcessMaxStreetBoard.setup exIndexEnv
    { exPlayer with resolve_a_ := true, resolve_st_ := 1 } 7

/-! ## Sampling of boards -/

/-- The number of pairs of board `bd` in a list of (random number, board) pairs. -/
def boardOccurrences (L : List (ℚ × Int)) (bd : Int) : Nat :=
  L.countP (fun x => decide (x.2 = bd))

/-- Body of the loop of lines 705-708 over the sorted vector `L`. -/
def Go.countBody (L : List (ℚ × Int)) (i : Nat) (samples : Int → Int) : Run (Int → Int) :=
  match L.get? i with
  | some x => .ok (Function.update samples x.2 (samples x.2 + 1))
  | none => .undefined

instance : IsTotal (ℚ × Int) pairLE where
  total := by
    intro x y
    unfold pairLE
    rcases lt_trichotomy x.1 y.1 with h | h | h
    · exact Or.inl (Or.inl h)
    · rcases le_total x.2 y.2 with h2 | h2
      · exact Or.inl (Or.inr ⟨h, h2⟩)
      · exact Or.inr (Or.inr ⟨h.symm, h2⟩)
    · exact Or.inr (Or.inl h)

instance : IsTrans (ℚ × Int) pairLE where
  trans := by
    intro x y z hxy hyz
    unfold pairLE at *
    rcases hxy with h | ⟨h, h'⟩
    · rcases hyz with g | ⟨g, _⟩
      · exact Or.inl (lt_trans h g)
      · exact Or.inl (g ▸ h)
    · rcases hyz with g | ⟨g, g'⟩
      · exact Or.inl (h ▸ g)
      · exact Or.inr ⟨h.trans g, le_trans h' g'⟩

/-- The tree below the node has depth at most `h`. -/
def Node.depthLE : Nat → Node → Bool
  | 0, n => n.succs.isEmpty
  | h + 1, n => n.succs.all (Node.depthLE h)

/-- The nodes of the tree, to depth `h`, are on streets `m` and later. -/
def Node.streetsGE (m : Nat) : Nat → Node → Bool
  | 0, n => decide (m ≤ n.Street)
  | h + 1, n => decide (m ≤ n.Street) && n.succs.all (Node.streetsGE m h)

/-- The number of nodes at which a walk of the tree that is called with `last_st` meets the
test `st > last_st && st == resolve_st_` of line 542.  Such a node counts once, and the walk
goes on in the resolved subtree; below another nonterminal node the successors are walked with
the street of the node as `last_st` (line 532). -/
def Node.entries (resolve_st : Int) : Nat → Int → Node → Nat
  | 0, last_st, n =>
    if (n.Street : Int) > last_st ∧ (n.Street : Int) = resolve_st then 1 else 0
  | h + 1, last_st, n =>
    if (n.Street : Int) > last_st ∧ (n.Street : Int) = resolve_st then 1
    else if n.Terminal = true then 0
    else (n.succs.map (Node.entries resolve_st h (n.Street : Int))).sum

/-- What every walk keeps of the state, resolving or not: the resolve flags and street, the two
betting trees, the two base strategies and the hands of the board. -/
structure ResolveFrame (P Q : Player) : Prop where
  resolve_a : Q.resolve_a_ = P.resolve_a_
  resolve_b : Q.resolve_b_ = P.resolve_b_
  resolve_st : Q.resolve_st_ = P.resolve_st_
  a_tree : Q.a_betting_tree_ = P.a_betting_tree_
  b_tree : Q.b_betting_tree_ = P.b_betting_tree_
  a_probs : Q.a_probs_ = P.a_probs_
  b_probs : Q.b_probs_ = P.b_probs_
  hands : Q.hands_ = P.hands_

/-- The toy game with A resolving at street 0, on the tree of one forced check. -/
def exToyResolver : Player :=
  { exPlayer with
    resolve_a_ := true, resolve_st_ := 0, a_betting_tree_ := exCheckNode,
    b_betting_tree_ := exCheckNode }

/-- A showdown node on street 1: 2 chips bet. -/
def exStreetLeaf : Node := Node.mk 1 0 2 true true 0 0 [] []

/-- A betting tree over two streets: at the root, on street 0, player 1 has two actions, and
each leads to street 1. -/
def exStreetTree : Node := Node.mk 0 1 2 false false 0 0 ["k", "b"] [exStreetLeaf, exStreetLeaf]

/-- A game of two streets with one board; the resolved subtree is the showdown of street 1. -/
def exStreetEnv : Env :=
  { exEnv with
    game := { exEnv.game with MaxStreet := 1 }
    CreateSubtree := fun _ _ _ _ _ => exStreetLeaf }

/-- The two-street game with A resolving at the last street. -/
def exStreetResolver : Player :=
  { exPlayer with
    resolve_a_ := true, resolve_st_ := 1, a_betting_tree_ := exStreetTree,
    b_betting_tree_ := exStreetTree }

/-! ## The report of `Go` -/

/-- The state of the toy game after an evaluation with total weight 4 and B's total 2. -/
def exReportPlayer : Player :=
  { exPlayer with sum_b_outcomes_ := 2, sum_p1_outcomes_ := -1, sum_weights_ := 4 }

/-! ## The hand encoding -/

/-- The length `num_enc = max_card1 * max_card1` of every reach vector (lines 417 and 654). -/
def numEnc (E : Env) : Nat := (E.game.MaxCard + 1) * (E.game.MaxCard + 1)

/-! ## The command line -/

/-- What `main` hands to the constructor and to `Go` once the command line is accepted: the
four numbers, the two flags and, for a side that resolves, the names of its three subgame
parameter files. -/
structure MainConfig where
  a_it : Int
  b_it : Int
  num_sampled_max_street_boards : Int
  resolve_st : Int
  resolve_a : Bool
  resolve_b : Bool
  a_subgame_files : Option (String × String × String)
  b_subgame_files : Option (String × String × String)

/-- The test `if (sscanf(argv[i], "%i", &x) != 1) Usage(argv[0])`; the argument is `some v` when
`sscanf` returns 1 and stores `v`. -/
def main.scan (r : Option Int) : Run Int :=
  match r with
  | some v => .ok v
  | none => .fatal

/-- The parse of `<resolve A>` and `<resolve B>` (lines 783-790). -/
def main.flag (s : String) : Run Bool :=
  if s = "true" then .ok true
  else if s = "false" then .ok false
  else .fatal

/-- `main` (lines 744-826) up to the construction of the `Player`: the checks of the command
line.  `Usage` and the `exit(-1)` of line 793 are `Run.fatal`; `sscanf_i s` is the outcome of
`sscanf(s, "%i", &x)`; the parameter files are read by code outside the file. -/
def main (sscanf_i : String → Option Int) (argc : Nat) (argv : Nat → String) :
    Run MainConfig :=
  if argc ≠ 14 ∧ argc ≠ 17 ∧ argc ≠ 20 then .fatal
  else
    (main.scan (sscanf_i (argv 8))).bind fun a_it =>
    (main.scan (sscanf_i (argv 9))).bind fun b_it =>
    (main.scan (sscanf_i (argv 10))).bind fun num_sampled_max_street_boards =>
    (main.scan (sscanf_i (argv 11))).bind fun resolve_st =>
    (main.flag (argv 12)).bind fun resolve_a =>
    (main.flag (argv 13)).bind fun resolve_b =>
    if resolve_a = false ∧ resolve_b = false ∧ resolve_st ≠ -1 then .fatal
    else if resolve_a = true ∧ resolve_b = true ∧ argc ≠ 20 then .fatal
    else if resolve_a = true ∧ resolve_b = false ∧ argc ≠ 17 then .fatal
    else if resolve_a = false ∧ resolve_b = true ∧ argc ≠ 17 then .fatal
    else if resolve_a = false ∧ resolve_b = false ∧ argc ≠ 14 then .fatal
    else
      let a_files := if resolve_a = true then some (argv 14, argv 15, argv 16) else none
      let b_files :=
        if resolve_b = true then
          let a := if resolve_a = true then 17 else 14
          some (argv a, argv (a + 1), argv (a + 2))
        else none
      .ok ⟨a_it, b_it, num_sampled_max_street_boards, resolve_st, resolve_a, resolve_b,
        a_files, b_files⟩

/-- The conditions on the command line as the specification lists them: the number of
arguments is 14, 17 or 20, arguments 8-11 parse, arguments 12 and 13 are `true` or `false`,
the resolve street is -1 when no side resolves, and there are three more arguments for each
side that resolves. -/
def main.accepts (sscanf_i : String → Option Int) (argc : Nat) (argv : Nat → String) : Prop :=
  (argc = 14 ∨ argc = 17 ∨ argc = 20) ∧
  (sscanf_i (argv 8)).isSome = true ∧ (sscanf_i (argv 9)).isSome = true ∧
  (sscanf_i (argv 10)).isSome = true ∧ (sscanf_i (argv 11)).isSome = true ∧
  (argv 12 = "true" ∨ argv 12 = "false") ∧ (argv 13 = "true" ∨ argv 13 = "false") ∧
  (argv 12 = "false" → argv 13 = "false" → sscanf_i (argv 11) = some (-1)) ∧
  argc = 14 + 3 * ((if argv 12 = "true" then 1 else 0) + (if argv 13 = "true" then 1 else 0))

/-- A reader of the numbers of the example command line. -/
def exScan (s : String) : Option Int :=
  if s = "200" then some 200
  else if s = "0" then some 0
  else if s = "1" then some 1
  else if s = "-1" then some (-1)
  else none

/-- A command line on which only B resolves. -/
def exArgv (i : Nat) : String :=
  ["head_to_head", "game", "a_card", "b_card", "a_bet", "b_bet", "a_cfr", "b_cfr", "200", "200",
    "0", "1", "false", "true", "bs_card", "bs_bet", "bs_cfr"].getD i ""

/-! ## The streets the constructor marks for loading -/

/-- The arrays `a_streets` and `b_streets` the constructor fills (lines 170-195); `u` is the
content of the fresh arrays. -/
def Player.streets (u : Nat → Bool) (max_street : Nat) (resolve_st : Int)
    (resolve_a resolve_b shared_probs : Bool) : (Nat → Bool) × (Nat → Bool) :=
  if resolve_a = true ∧ resolve_b = true then
    forLoop 0
      (fun st s =>
        (Function.update s.1 st (decide ((st : Int) < resolve_st)),
          Function.update s.2 st (decide ((st : Int) < resolve_st))))
      (max_street + 1) (u, u)
  else if resolve_a = false ∧ resolve_b = false then
    forLoop 0 (fun st s => (Function.update s.1 st true, Function.update s.2 st true))
      (max_street + 1) (u, u)
  else
    if shared_probs = true then
      forLoop 0 (fun st s => (Function.update s.1 st true, Function.update s.2 st true))
        (max_street + 1) (u, u)
    else
      forLoop 0
        (fun st s =>
          (Function.update s.1 st (decide ((st : Int) < resolve_st) || !resolve_a),
            Function.update s.2 st (decide ((st : Int) < resolve_st) || !resolve_b)))
        (max_street + 1) (u, u)

/-- The street marks of the tables the two sides read as base strategy: `a_probs_` is created
with `a_streets` (line 197); `b_probs_` is `a_probs_` when the two systems are the same
(line 212) and is created with `b_streets` otherwise (line 215). -/
def Player.loadedStreets (u : Nat → Bool) (max_street : Nat) (resolve_st : Int)
    (resolve_a resolve_b shared_probs : Bool) : (Nat → Bool) × (Nat → Bool) :=
  let s := Player.streets u max_street resolve_st resolve_a resolve_b shared_probs
  (s.1, if shared_probs = true then s.1 else s.2)

/-- The two-street game with A resolving at street 0, before the last street. -/
def exEarlyResolver : Player := { exStreetResolver with resolve_st_ := 0 }

/-! ## Sampling one board -/

theorem addAt_apply (arr : Nat → ℚ) (c : Nat) (x : ℚ) (d : Nat) :
    addAt arr c x d = arr d + if d = c then x else 0 := by
  unfold addAt
  by_cases h : d = c
  · subst h; simp
  · simp [Function.update_noteq h, h]

theorem addAt_pair (arr : Nat → ℚ) (h : Card × Card) (x : ℚ) (d : Nat) :
    addAt (addAt arr h.1 x) h.2 x d = arr d + x * cardCount d h := by
  rw [addAt_apply, addAt_apply]
  unfold cardCount
  split_ifs <;> ring

theorem zeroedCards_apply (u : Nat → ℚ) (m c : Nat) :
    zeroedCards u m c = if c < m then 0 else u c := by
  unfold zeroedCards
  induction m with
  | zero => simp [forLoop]
  | succ n ih =>
    show Function.update (forLoop 0 _ n u) (0 + n) 0 c = _
    rw [Nat.zero_add]
    by_cases h : c = n
    · subst h; simp
    · rw [Function.update_noteq h, ih]
      have : (c < n + 1) ↔ c < n := by omega
      simp [this]

theorem forLoop_add {σ : Type} (lo : Nat) (body : Nat → σ → σ) (m n : Nat) (s : σ) :
    forLoop lo body (m + n) s = forLoop (lo + m) body n (forLoop lo body m s) := by
  induction n with
  | zero => rfl
  | succ n ih =>
    show body (lo + (m + n)) (forLoop lo body (m + n) s) = _
    rw [ih]
    simp [forLoop, Nat.add_assoc]

/-- Closed form of the first loop of `Fold`. -/
theorem Fold_totals_closed (hands : CanonicalCards) (m : Nat) (a : Nat → ℚ) (t : OppTotals)
    (n : Nat) :
    (∀ c, (forLoop 0 (Fold.totalsBody hands m a) n t).total_opp_card_probs c =
        t.total_opp_card_probs c +
          ∑ k ∈ Finset.range n, handProb m hands a k * cardCount c (hands.Cards k)) ∧
    (forLoop 0 (Fold.totalsBody hands m a) n t).sum_opp_probs =
        t.sum_opp_probs + ∑ k ∈ Finset.range n, handProb m hands a k := by
  induction n with
  | zero => simp [forLoop]
  | succ n ih =>
    obtain ⟨ih1, ih2⟩ := ih
    simp only [forLoop, Nat.zero_add, Finset.sum_range_succ]
    constructor
    · intro c
      show addAt (addAt _ (hands.Cards n).1 _) (hands.Cards n).2 _ c = _
      rw [addAt_pair, ih1]
      unfold handProb
      ring
    · show (forLoop 0 (Fold.totalsBody hands m a) n t).sum_opp_probs + _ = _
      rw [ih2]
      unfold handProb
      ring

/-- The first loop of `Showdown` returns what the loop of `Fold` computes when no opponent
entry exceeds 1. -/
theorem Showdown_totals_ok (hands : CanonicalCards) (m : Nat) (a : Nat → ℚ) (t : OppTotals)
    (n : Nat) (hle : ∀ k, k < n → handProb m hands a k ≤ 1) :
    forLoopM 0 (Showdown.totalsBody hands m a) n t =
      .ok (forLoop 0 (Fold.totalsBody hands m a) n t) := by
  induction n with
  | zero => rfl
  | succ n ih =>
    have h1 := ih (fun k hk => hle k (Nat.lt_succ_of_lt hk))
    have h2 := hle n (Nat.lt_succ_self n)
    simp only [forLoopM, h1, Run.bind, forLoop, Nat.zero_add]
    unfold Showdown.totalsBody Fold.totalsBody
    unfold handProb at h2
    simp only [gt_iff_lt, not_lt.mpr h2, if_false]

/-- The first loop of `Showdown` ends the program when an opponent entry exceeds 1. -/
theorem Showdown_totals_fatal (hands : CanonicalCards) (m : Nat) (a : Nat → ℚ) (t : OppTotals)
    (n : Nat) (hgt : ∃ k, k < n ∧ 1 < handProb m hands a k) :
    forLoopM 0 (Showdown.totalsBody hands m a) n t = .fatal := by
  induction n with
  | zero => obtain ⟨k, hk, _⟩ := hgt; omega
  | succ n ih =>
    by_cases hprev : ∃ k, k < n ∧ 1 < handProb m hands a k
    · simp [forLoopM, ih hprev, Run.bind]
    · have hle : ∀ k, k < n → handProb m hands a k ≤ 1 := by
        intro k hk
        by_contra hc
        exact hprev ⟨k, hk, not_le.mp hc⟩
      obtain ⟨k, hk, hk1⟩ := hgt
      have hkn : k = n := by
        by_contra hne
        exact hprev ⟨k, by omega, hk1⟩
      subst hkn
      simp only [forLoopM, Showdown_totals_ok hands m a t k hle, Run.bind, Nat.zero_add]
      unfold Showdown.totalsBody
      unfold handProb at hk1
      simp only [gt_iff_lt, hk1, if_true]

/-- What the first pass returns: it stops at the end of the run of hands of value
`last_hand_val`, having written `win_probs` exactly on that run. -/
theorem firstPass_spec (hands : CanonicalCards) (H : Nat) (last : Int) (oc : ℚ)
    (cum : Nat → ℚ) : ∀ (n j : Nat) (win : Nat → ℚ),
    j ≤ (Showdown.firstPass hands H last oc cum n j win).1 ∧
    (j ≤ H → (Showdown.firstPass hands H last oc cum n j win).1 ≤ H) ∧
    (∀ k, j ≤ k → k < (Showdown.firstPass hands H last oc cum n j win).1 →
      hands.HandValue k = last ∧
      (Showdown.firstPass hands H last oc cum n j win).2 k =
        oc - cum (hands.Cards k).1 - cum (hands.Cards k).2) ∧
    (∀ k, (k < j ∨ (Showdown.firstPass hands H last oc cum n j win).1 ≤ k) →
      (Showdown.firstPass hands H last oc cum n j win).2 k = win k) ∧
    (H - j ≤ n → (Showdown.firstPass hands H last oc cum n j win).1 < H →
      hands.HandValue (Showdown.firstPass hands H last oc cum n j win).1 ≠ last) ∧
    (0 < n → j < H → hands.HandValue j = last →
      j < (Showdown.firstPass hands H last oc cum n j win).1) := by
  intro n
  induction n with
  | zero =>
    intro j win
    rw [show Showdown.firstPass hands H last oc cum 0 j win = (j, win) from rfl]
    refine ⟨le_refl _, fun h => h, ?_, fun _ _ => rfl, ?_, ?_⟩
    · intro k h1 h2; exact absurd h2 (by simp only; omega)
    · intro h1 h2; exact absurd h2 (by simp only; omega)
    · intro h; omega
  | succ n ih =>
    intro j win
    by_cases hj : j < H
    · by_cases hv : hands.HandValue j = last
      · have e : Showdown.firstPass hands H last oc cum (n + 1) j win =
            Showdown.firstPass hands H last oc cum n (j + 1)
              (Function.update win j (oc - cum (hands.Cards j).1 - cum (hands.Cards j).2)) := by
          rw [Showdown.firstPass]; simp [hj, hv]
        rw [e]
        obtain ⟨i1, i2, i3, i4, i5, i6⟩ := ih (j + 1)
          (Function.update win j (oc - cum (hands.Cards j).1 - cum (hands.Cards j).2))
        refine ⟨by omega, fun _ => i2 (by omega), ?_, ?_, ?_, fun _ _ _ => by omega⟩
        · intro k h1 h2
          by_cases hk : k = j
          · subst hk
            refine ⟨hv, ?_⟩
            rw [i4 k (Or.inl (Nat.lt_succ_self k))]
            simp
          · exact i3 k (by omega) h2
        · intro k hk
          have hkj : k ≠ j := by omega
          rw [i4 k (by omega), Function.update_noteq hkj]
        · intro h1 h2
          exact i5 (by omega) h2
      · have e : Showdown.firstPass hands H last oc cum (n + 1) j win = (j, win) := by
          rw [Showdown.firstPass]; simp [hj, hv]
        rw [e]
        refine ⟨le_refl _, fun h => h, ?_, fun _ _ => rfl, fun _ _ => hv, ?_⟩
        · intro k h1 h2; exact absurd h2 (by simp only; omega)
        · intro _ _ h; exact absurd h hv
    · have e : Showdown.firstPass hands H last oc cum (n + 1) j win = (j, win) := by
        rw [Showdown.firstPass]; simp [hj]
      rw [e]
      refine ⟨le_refl _, fun h => h, ?_, fun _ _ => rfl, ?_, ?_⟩
      · intro k h1 h2; exact absurd h2 (by simp only; omega)
      · intro _ h2; exact absurd h2 hj
      · intro _ h; exact absurd h hj

/-- Closed form of the second pass. -/
theorem secondPass_closed (hands : CanonicalCards) (m : Nat) (a : Nat → ℚ) (b : Nat)
    (cum : Nat → ℚ) (oc : ℚ) (n : Nat) :
    (∀ c, (forLoop b (Showdown.secondPassBody hands m a) n (cum, oc)).1 c =
        cum c + ∑ k ∈ Finset.Ico b (b + n),
          countedProb (handProb m hands a k) * cardCount c (hands.Cards k)) ∧
    (forLoop b (Showdown.secondPassBody hands m a) n (cum, oc)).2 =
        oc + ∑ k ∈ Finset.Ico b (b + n), countedProb (handProb m hands a k) := by
  induction n with
  | zero => simp [forLoop]
  | succ n ih =>
    obtain ⟨ih1, ih2⟩ := ih
    have hb : b ≤ b + n := Nat.le_add_right b n
    rw [show forLoop b (Showdown.secondPassBody hands m a) (n + 1) (cum, oc) =
      Showdown.secondPassBody hands m a (b + n)
        (forLoop b (Showdown.secondPassBody hands m a) n (cum, oc)) from rfl]
    generalize forLoop b (Showdown.secondPassBody hands m a) n (cum, oc) = r at ih1 ih2 ⊢
    simp only [← Nat.add_assoc, Finset.sum_Ico_succ_top hb]
    unfold Showdown.secondPassBody
    by_cases hp : a ((hands.Cards (b + n)).1 * m + (hands.Cards (b + n)).2) ≤ 0
    · have hz : countedProb (handProb m hands a (b + n)) = 0 := by
        unfold countedProb handProb; simp [hp]
      simp only [hp, if_true, hz, zero_mul, add_zero]
      exact ⟨ih1, ih2⟩
    · have hz : countedProb (handProb m hands a (b + n)) =
          a ((hands.Cards (b + n)).1 * m + (hands.Cards (b + n)).2) := by
        unfold countedProb handProb; simp [hp]
      simp only [hp, if_false, hz]
      constructor
      · intro c
        rw [addAt_pair, ih1]
        ring
      · rw [ih2]; ring

/-- Closed form of the third pass. -/
theorem thirdPass_closed (hands : CanonicalCards) (m : Nat) (a bp : Nat → ℚ) (t : OppTotals)
    (hp : ℚ) (cum : Nat → ℚ) (oc : ℚ) (win : Nat → ℚ) (b : Nat) (lose : Nat → ℚ) (sv sj : ℚ)
    (n : Nat) :
    (∀ k, (forLoop b (Showdown.thirdPassBody hands m a bp t hp cum oc win) n (lose, sv, sj)).1 k =
        if b ≤ k ∧ k < b + n then loseProbOf t cum oc (hands.Cards k) else lose k) ∧
    (forLoop b (Showdown.thirdPassBody hands m a bp t hp cum oc win) n (lose, sv, sj)).2.1 =
        sv + ∑ k ∈ Finset.Ico b (b + n),
          handProb m hands bp k * (win k - loseProbOf t cum oc (hands.Cards k)) * hp ∧
    (forLoop b (Showdown.thirdPassBody hands m a bp t hp cum oc win) n (lose, sv, sj)).2.2 =
        sj + ∑ k ∈ Finset.Ico b (b + n),
          handProb m hands bp k * sumConsistentOppProbs m a t (hands.Cards k) := by
  induction n with
  | zero =>
    simp only [forLoop, Nat.add_zero, Finset.Ico_self, Finset.sum_empty, add_zero, and_self,
      and_true]
    intro k
    have : ¬ (b ≤ k ∧ k < b) := by omega
    simp [this]
  | succ n ih =>
    obtain ⟨ih1, ih2, ih3⟩ := ih
    have hb : b ≤ b + n := Nat.le_add_right b n
    rw [show forLoop b (Showdown.thirdPassBody hands m a bp t hp cum oc win) (n + 1)
        (lose, sv, sj) =
      Showdown.thirdPassBody hands m a bp t hp cum oc win (b + n)
        (forLoop b (Showdown.thirdPassBody hands m a bp t hp cum oc win) n (lose, sv, sj))
      from rfl]
    generalize forLoop b (Showdown.thirdPassBody hands m a bp t hp cum oc win) n
      (lose, sv, sj) = r at ih1 ih2 ih3 ⊢
    simp only [← Nat.add_assoc, Finset.sum_Ico_succ_top hb]
    unfold Showdown.thirdPassBody
    refine ⟨?_, ?_, ?_⟩
    · intro k
      by_cases hk : k = b + n
      · subst hk
        simp [loseProbOf]
      · simp only [Function.update_noteq hk, ih1]
        have : (b ≤ k ∧ k < b + n + 1) ↔ (b ≤ k ∧ k < b + n) := by omega
        simp only [this]
    · simp only [ih2, handProb, loseProbOf]
      ring
    · simp only [ih3, handProb]
      ring

/-- The effect of one iteration of the class loop, for a state with `j < H`. -/
theorem classStep_spec (hands : CanonicalCards) (H m : Nat) (a bp : Nat → ℚ) (t : OppTotals)
    (hp : ℚ) (s : ShowdownState) (hj : s.j < H) :
    s.j < (Showdown.classStep hands H m a bp t hp s).j ∧
    (Showdown.classStep hands H m a bp t hp s).j ≤ H ∧
    (∀ k, s.j ≤ k → k < (Showdown.classStep hands H m a bp t hp s).j →
      hands.HandValue k = hands.HandValue s.j) ∧
    ((Showdown.classStep hands H m a bp t hp s).j < H →
      hands.HandValue (Showdown.classStep hands H m a bp t hp s).j ≠ hands.HandValue s.j) ∧
    (∀ c, (Showdown.classStep hands H m a bp t hp s).cum_opp_card_probs c =
      s.cum_opp_card_probs c +
        ∑ k ∈ Finset.Ico s.j (Showdown.classStep hands H m a bp t hp s).j,
          countedProb (handProb m hands a k) * cardCount c (hands.Cards k)) ∧
    (Showdown.classStep hands H m a bp t hp s).opp_cum_prob =
      s.opp_cum_prob + ∑ k ∈ Finset.Ico s.j (Showdown.classStep hands H m a bp t hp s).j,
        countedProb (handProb m hands a k) ∧
    (∀ k, (Showdown.classStep hands H m a bp t hp s).win_probs k =
      if s.j ≤ k ∧ k < (Showdown.classStep hands H m a bp t hp s).j then
        s.opp_cum_prob - s.cum_opp_card_probs (hands.Cards k).1 -
          s.cum_opp_card_probs (hands.Cards k).2
      else s.win_probs k) ∧
    (∀ k, (Showdown.classStep hands H m a bp t hp s).lose_probs k =
      if s.j ≤ k ∧ k < (Showdown.classStep hands H m a bp t hp s).j then
        loseProbOf t (Showdown.classStep hands H m a bp t hp s).cum_opp_card_probs
          (Showdown.classStep hands H m a bp t hp s).opp_cum_prob (hands.Cards k)
      else s.lose_probs k) ∧
    (Showdown.classStep hands H m a bp t hp s).sum_our_vals =
      s.sum_our_vals + ∑ k ∈ Finset.Ico s.j (Showdown.classStep hands H m a bp t hp s).j,
        handProb m hands bp k *
          ((s.opp_cum_prob - s.cum_opp_card_probs (hands.Cards k).1 -
              s.cum_opp_card_probs (hands.Cards k).2) -
            loseProbOf t (Showdown.classStep hands H m a bp t hp s).cum_opp_card_probs
              (Showdown.classStep hands H m a bp t hp s).opp_cum_prob (hands.Cards k)) * hp ∧
    (Showdown.classStep hands H m a bp t hp s).sum_joint_probs =
      s.sum_joint_probs + ∑ k ∈ Finset.Ico s.j (Showdown.classStep hands H m a bp t hp s).j,
        handProb m hands bp k * sumConsistentOppProbs m a t (hands.Cards k) := by
  obtain ⟨f1, f2, f3, f4, f5, f6⟩ := firstPass_spec hands H (hands.HandValue s.j)
    s.opp_cum_prob s.cum_opp_card_probs (H - s.j) s.j s.win_probs
  set e := (Showdown.firstPass hands H (hands.HandValue s.j) s.opp_cum_prob
    s.cum_opp_card_probs (H - s.j) s.j s.win_probs).1 with he
  have hje : s.j < e := f6 (by omega) hj rfl
  have hsum : s.j + (e - s.j) = e := by omega
  obtain ⟨p1, p2⟩ := secondPass_closed hands m a s.j s.cum_opp_card_probs s.opp_cum_prob
    (e - s.j)
  rw [hsum] at p1 p2
  obtain ⟨q1, q2, q3⟩ := thirdPass_closed hands m a bp t hp
    (forLoop s.j (Showdown.secondPassBody hands m a) (e - s.j)
      (s.cum_opp_card_probs, s.opp_cum_prob)).1
    (forLoop s.j (Showdown.secondPassBody hands m a) (e - s.j)
      (s.cum_opp_card_probs, s.opp_cum_prob)).2
    (Showdown.firstPass hands H (hands.HandValue s.j) s.opp_cum_prob
      s.cum_opp_card_probs (H - s.j) s.j s.win_probs).2 s.j s.lose_probs s.sum_our_vals
    s.sum_joint_probs (e - s.j)
  rw [hsum] at q1 q2 q3
  have hwin : ∀ k, (Showdown.firstPass hands H (hands.HandValue s.j) s.opp_cum_prob
      s.cum_opp_card_probs (H - s.j) s.j s.win_probs).2 k =
      if s.j ≤ k ∧ k < e then
        s.opp_cum_prob - s.cum_opp_card_probs (hands.Cards k).1 -
          s.cum_opp_card_probs (hands.Cards k).2
      else s.win_probs k := by
    intro k
    by_cases hk : s.j ≤ k ∧ k < e
    · rw [if_pos hk]; exact (f3 k hk.1 hk.2).2
    · rw [if_neg hk]; exact f4 k (by omega)
  refine ⟨hje, f2 (le_of_lt hj), fun k h1 h2 => (f3 k h1 h2).1, f5 (le_refl _), p1, p2, hwin,
    q1, ?_, q3⟩
  refine q2.trans ?_
  refine congrArg (fun x => s.sum_our_vals + x) (Finset.sum_congr rfl ?_)
  intro k hk
  rw [Finset.mem_Ico] at hk
  rw [(f3 k hk.1 hk.2).2]
  rfl

/-- Induction principle for the class loop: a property kept by every iteration holds of the
state the loop returns, and the loop does return, with `j = H`, within `H - j` iterations. -/
theorem classLoop_induct (hands : CanonicalCards) (H m : Nat) (a bp : Nat → ℚ) (t : OppTotals)
    (hp : ℚ) (I : ShowdownState → Prop)
    (hstep : ∀ s, I s → s.j < H → I (Showdown.classStep hands H m a bp t hp s)) :
    ∀ (n : Nat) (s : ShowdownState), s.j ≤ H → H - s.j ≤ n → I s →
      ∃ s', Showdown.classLoop hands H m a bp t hp n s = .ok s' ∧ I s' ∧ s'.j = H := by
  intro n
  induction n with
  | zero =>
    intro s h1 h2 hI
    have : ¬ s.j < H := by omega
    exact ⟨s, by simp [Showdown.classLoop, this], hI, by omega⟩
  | succ n ih =>
    intro s h1 h2 hI
    by_cases hj : s.j < H
    · obtain ⟨c1, c2, _⟩ := classStep_spec hands H m a bp t hp s hj
      simp only [Showdown.classLoop, hj, if_true]
      exact ih _ c2 (by omega) (hstep s hI hj)
    · exact ⟨s, by simp [Showdown.classLoop, hj], hI, by omega⟩

/-! ## Inclusion-exclusion over cards -/

theorem countedProb_of_nonneg {x : ℚ} (h : 0 ≤ x) : countedProb x = x := by
  unfold countedProb
  split_ifs with h0
  · exact le_antisymm h h0
  · rfl

theorem countedProb_nonneg (x : ℚ) : 0 ≤ countedProb x := by
  unfold countedProb
  split_ifs with h0
  · exact le_refl 0
  · exact le_of_lt (not_le.mp h0)

/-- For two different two-card hands, removing the hands that contain the first card and those
that contain the second card removes every hand sharing a card exactly once. -/
theorem one_sub_cardCount (h h' : Card × Card) (h1 : h.1 ≠ h.2) (h2 : h'.1 ≠ h'.2)
    (hne : ¬ sameHand h h') :
    (1 : ℚ) - cardCount h.1 h' - cardCount h.2 h' = if sharesCard h h' then 0 else 1 := by
  obtain ⟨x, y⟩ := h
  obtain ⟨x', y'⟩ := h'
  simp only [cardCount, sharesCard, sameHand] at *
  by_cases e1 : x = x' <;> by_cases e2 : x = y' <;> by_cases e3 : y = x' <;>
    by_cases e4 : y = y' <;> simp [e1, e2, e3, e4] <;> simp_all

/-- A hand shares a card with itself, whatever its cards. -/
theorem sharesCard_self (h : Card × Card) : sharesCard h h := Or.inl rfl

theorem sharesCard_comm (h h' : Card × Card) : sharesCard h h' ↔ sharesCard h' h := by
  unfold sharesCard
  constructor <;> rintro (e | e | e | e) <;> simp [e]

/-- Inclusion-exclusion over a set of hands none of which is the hand `i` itself. -/
theorem sum_excl (mc H : Nat) (hands : CanonicalCards) (hD : DistinctHands mc H hands)
    (f : Nat → ℚ) (S : Finset Nat) (i : Nat) (hi : i < H)
    (hS : ∀ k, k ∈ S → k < H ∧ k ≠ i) :
    ∑ k ∈ S, f k - ∑ k ∈ S, f k * cardCount (hands.Cards i).1 (hands.Cards k) -
        ∑ k ∈ S, f k * cardCount (hands.Cards i).2 (hands.Cards k) =
      ∑ k ∈ S, if sharesCard (hands.Cards i) (hands.Cards k) then 0 else f k := by
  rw [← Finset.sum_sub_distrib, ← Finset.sum_sub_distrib]
  apply Finset.sum_congr rfl
  intro k hk
  obtain ⟨hkH, hki⟩ := hS k hk
  have hp := one_sub_cardCount (hands.Cards i) (hands.Cards k) (hD.two_cards i hi)
    (hD.two_cards k hkH) (hD.distinct i hi k hkH (Ne.symm hki))
  have : f k - f k * cardCount (hands.Cards i).1 (hands.Cards k) -
      f k * cardCount (hands.Cards i).2 (hands.Cards k) =
      f k * (1 - cardCount (hands.Cards i).1 (hands.Cards k) -
        cardCount (hands.Cards i).2 (hands.Cards k)) := by ring
  rw [this, hp]
  split_ifs <;> simp

/-- Inclusion-exclusion over all hands: the hand itself is removed twice and added back once. -/
theorem sum_excl_all (mc H : Nat) (hands : CanonicalCards) (hD : DistinctHands mc H hands)
    (f : Nat → ℚ) (i : Nat) (hi : i < H) :
    ∑ k ∈ Finset.range H, f k + f i -
        ∑ k ∈ Finset.range H, f k * cardCount (hands.Cards i).1 (hands.Cards k) -
        ∑ k ∈ Finset.range H, f k * cardCount (hands.Cards i).2 (hands.Cards k) =
      ∑ k ∈ Finset.range H, if sharesCard (hands.Cards i) (hands.Cards k) then 0 else f k := by
  have hmem : i ∈ Finset.range H := Finset.mem_range.mpr hi
  have hS : ∀ k, k ∈ (Finset.range H).erase i → k < H ∧ k ≠ i := by
    intro k hk
    rw [Finset.mem_erase, Finset.mem_range] at hk
    exact ⟨hk.2, hk.1⟩
  have key := sum_excl mc H hands hD f ((Finset.range H).erase i) i hi hS
  have e1 := Finset.add_sum_erase (Finset.range H) f hmem
  have e2 := Finset.add_sum_erase (Finset.range H)
    (fun k => f k * cardCount (hands.Cards i).1 (hands.Cards k)) hmem
  have e3 := Finset.add_sum_erase (Finset.range H)
    (fun k => f k * cardCount (hands.Cards i).2 (hands.Cards k)) hmem
  have e4 := Finset.add_sum_erase (Finset.range H)
    (fun k => if sharesCard (hands.Cards i) (hands.Cards k) then 0 else f k) hmem
  simp only [sharesCard_self, if_true] at e4
  have c1 : cardCount (hands.Cards i).1 (hands.Cards i) = 1 := by
    have := hD.two_cards i hi
    simp [cardCount, this]
  have c2 : cardCount (hands.Cards i).2 (hands.Cards i) = 1 := by
    have := hD.two_cards i hi
    simp [cardCount, Ne.symm this]
  simp only [c1, c2, mul_one] at e2 e3
  linarith

theorem BaseInv_step (hands : CanonicalCards) (H m : Nat) (a bp : Nat → ℚ) (t : OppTotals)
    (hp : ℚ) (cum0 : Nat → ℚ) (s : ShowdownState) (hI : BaseInv hands H m a bp t cum0 s)
    (hj : s.j < H) :
    BaseInv hands H m a bp t cum0 (Showdown.classStep hands H m a bp t hp s) := by
  obtain ⟨c1, c2, _, _, c5, c6, _, _, _, c10⟩ := classStep_spec hands H m a bp t hp s hj
  have hle := le_of_lt c1
  refine ⟨c2, ?_, ?_, ?_⟩
  · intro c
    rw [c5, hI.cum_eq, ← Finset.sum_range_add_sum_Ico _ hle]
    ring
  · rw [c6, hI.oc_eq, ← Finset.sum_range_add_sum_Ico _ hle]
  · rw [c10, hI.sj_eq, ← Finset.sum_range_add_sum_Ico _ hle]

theorem SortedInv_step (mc H : Nat) (hands : CanonicalCards) (a bp : Nat → ℚ) (t : OppTotals)
    (hp : ℚ) (u : Nat → ℚ) (hD : DistinctHands mc H hands) (hS : SortedByValue H hands)
    (hnn : ∀ k, k < H → 0 ≤ handProb (mc + 1) hands a k)
    (ht1 : ∀ c, t.total_opp_card_probs c = zeroedCards u (mc + 1) c +
      ∑ k ∈ Finset.range H, handProb (mc + 1) hands a k * cardCount c (hands.Cards k))
    (ht2 : t.sum_opp_probs = ∑ k ∈ Finset.range H, handProb (mc + 1) hands a k)
    (s : ShowdownState)
    (hB : BaseInv hands H (mc + 1) a bp t (zeroedCards u (mc + 1)) s)
    (hI : SortedInv hands H (mc + 1) a bp hp s) (hj : s.j < H) :
    SortedInv hands H (mc + 1) a bp hp (Showdown.classStep hands H (mc + 1) a bp t hp s) := by
  have hB' := BaseInv_step hands H (mc + 1) a bp t hp _ s hB hj
  obtain ⟨c1, c2, c3, c4, _, _, c7, c8, c9, _⟩ :=
    classStep_spec hands H (mc + 1) a bp t hp s hj
  set s' := Showdown.classStep hands H (mc + 1) a bp t hp s with hs'
  have hle := le_of_lt c1
  -- values below, inside and above the class
  have hlow : ∀ k, k < s.j → hands.HandValue k < hands.HandValue s.j :=
    fun k hk => hI.boundary k hk s.j (le_refl _) hj
  have hhigh : ∀ i, s'.j ≤ i → i < H → hands.HandValue s.j < hands.HandValue i := by
    intro i h1 h2
    have he : s'.j < H := lt_of_le_of_lt h1 h2
    have hb1 := hS s.j s'.j hle he
    have hb2 := hS s'.j i h1 h2
    have hne := c4 he
    omega
  -- counted probabilities are the probabilities
  have hcp : ∀ n, n ≤ H → ∀ (g : Nat → ℚ),
      ∑ k ∈ Finset.range n, countedProb (handProb (mc + 1) hands a k) * g k =
      ∑ k ∈ Finset.range n, handProb (mc + 1) hands a k * g k := by
    intro n hn g
    apply Finset.sum_congr rfl
    intro k hk
    rw [Finset.mem_range] at hk
    rw [countedProb_of_nonneg (hnn k (by omega))]
  have hcp1 : ∀ n, n ≤ H →
      ∑ k ∈ Finset.range n, countedProb (handProb (mc + 1) hands a k) =
      ∑ k ∈ Finset.range n, handProb (mc + 1) hands a k := by
    intro n hn
    have := hcp n hn (fun _ => 1)
    simpa using this
  have hzero : ∀ i, i < H → zeroedCards u (mc + 1) (hands.Cards i).1 = 0 ∧
      zeroedCards u (mc + 1) (hands.Cards i).2 = 0 := by
    intro i hi
    obtain ⟨b1, b2⟩ := hD.card_le i hi
    rw [zeroedCards_apply, zeroedCards_apply]
    exact ⟨if_pos (Nat.lt_succ_of_le b1), if_pos (Nat.lt_succ_of_le b2)⟩
  -- the value written to win_probs in the class
  have hA : ∀ i, s.j ≤ i → i < s'.j →
      s.opp_cum_prob - s.cum_opp_card_probs (hands.Cards i).1 -
        s.cum_opp_card_probs (hands.Cards i).2 = weakerOppSum (mc + 1) H hands a i := by
    intro i h1 h2
    have hiH : i < H := by omega
    rw [hB.oc_eq, hB.cum_eq, hB.cum_eq, (hzero i hiH).1, (hzero i hiH).2,
      hcp1 _ hB.j_le, hcp _ hB.j_le, hcp _ hB.j_le, zero_add, zero_add]
    rw [sum_excl mc H hands hD _ (Finset.range s.j) i hiH
      (fun k hk => by rw [Finset.mem_range] at hk; omega)]
    unfold weakerOppSum
    rw [← Finset.sum_range_add_sum_Ico _ hB.j_le]
    have hz : ∑ k ∈ Finset.Ico s.j H,
        (if hands.HandValue k < hands.HandValue i ∧
            ¬ sharesCard (hands.Cards i) (hands.Cards k)
         then handProb (mc + 1) hands a k else 0) = 0 := by
      apply Finset.sum_eq_zero
      intro k hk
      rw [Finset.mem_Ico] at hk
      have hv1 := c3 i h1 h2
      have hv2 := hS s.j k hk.1 hk.2
      have : ¬ (hands.HandValue k < hands.HandValue i) := by omega
      simp [this]
    rw [hz, add_zero]
    apply Finset.sum_congr rfl
    intro k hk
    rw [Finset.mem_range] at hk
    have hv1 := c3 i h1 h2
    have hv2 := hlow k hk
    have : hands.HandValue k < hands.HandValue i := by omega
    by_cases hsh : sharesCard (hands.Cards i) (hands.Cards k) <;> simp [this, hsh]
  -- the value of lose_prob in the class
  have hL : ∀ i, s.j ≤ i → i < s'.j →
      loseProbOf t s'.cum_opp_card_probs s'.opp_cum_prob (hands.Cards i) =
        strongerOppSum (mc + 1) H hands a i := by
    intro i h1 h2
    have hiH : i < H := by omega
    have hx := sum_excl mc H hands hD (handProb (mc + 1) hands a) (Finset.Ico s'.j H) i hiH
      (fun k hk => by rw [Finset.mem_Ico] at hk; omega)
    rw [Finset.sum_Ico_eq_sub _ hB'.j_le, Finset.sum_Ico_eq_sub _ hB'.j_le,
      Finset.sum_Ico_eq_sub _ hB'.j_le] at hx
    have hz : ∑ k ∈ Finset.range s'.j,
        (if hands.HandValue i < hands.HandValue k ∧
            ¬ sharesCard (hands.Cards i) (hands.Cards k)
         then handProb (mc + 1) hands a k else 0) = 0 := by
      apply Finset.sum_eq_zero
      intro k hk
      rw [Finset.mem_range] at hk
      have hv1 := c3 i h1 h2
      have : ¬ (hands.HandValue i < hands.HandValue k) := by
        by_cases hkb : k < s.j
        · have := hlow k hkb; omega
        · have := c3 k (by omega) hk; omega
      simp [this]
    have hy : ∑ k ∈ Finset.Ico s'.j H,
        (if hands.HandValue i < hands.HandValue k ∧
            ¬ sharesCard (hands.Cards i) (hands.Cards k)
         then handProb (mc + 1) hands a k else 0) =
        ∑ k ∈ Finset.Ico s'.j H,
          if sharesCard (hands.Cards i) (hands.Cards k) then 0
          else handProb (mc + 1) hands a k := by
      apply Finset.sum_congr rfl
      intro k hk
      rw [Finset.mem_Ico] at hk
      have hv1 := c3 i h1 h2
      have hv2 := hhigh k hk.1 hk.2
      have : hands.HandValue i < hands.HandValue k := by omega
      by_cases hsh : sharesCard (hands.Cards i) (hands.Cards k) <;> simp [this, hsh]
    have hR : strongerOppSum (mc + 1) H hands a i =
        ∑ k ∈ Finset.Ico s'.j H,
          if sharesCard (hands.Cards i) (hands.Cards k) then 0
          else handProb (mc + 1) hands a k := by
      unfold strongerOppSum
      rw [← Finset.sum_range_add_sum_Ico _ hB'.j_le, hz, zero_add]
      exact hy
    rw [hR, ← hx]
    unfold loseProbOf
    rw [hB'.oc_eq, hB'.cum_eq, hB'.cum_eq, ht1, ht1, ht2,
      hcp1 _ hB'.j_le, hcp _ hB'.j_le, hcp _ hB'.j_le]
    ring
  refine ⟨?_, ?_, ?_, ?_⟩
  · intro k hk i h1 h2
    have hi := hhigh i h1 h2
    by_cases hkb : k < s.j
    · have := hlow k hkb; omega
    · have := c3 k (by omega) hk; omega
  · intro i hi
    rw [c7 i]
    by_cases hib : s.j ≤ i
    · rw [if_pos ⟨hib, hi⟩]; exact hA i hib hi
    · rw [if_neg (by omega)]; exact hI.win_eq i (by omega)
  · intro i hi
    rw [c8 i]
    by_cases hib : s.j ≤ i
    · rw [if_pos ⟨hib, hi⟩]; exact hL i hib hi
    · rw [if_neg (by omega)]; exact hI.lose_eq i (by omega)
  · rw [c9, hI.sv_eq, ← Finset.sum_range_add_sum_Ico _ hle]
    congr 1
    apply Finset.sum_congr rfl
    intro k hk
    rw [Finset.mem_Ico] at hk
    rw [hA k hk.1 hk.2, hL k hk.1 hk.2]

theorem oppTotals_total (E : Env) (hands : CanonicalCards) (a : Nat → ℚ) (c : Nat) :
    (oppTotals E hands a).total_opp_card_probs c =
      zeroedCards E.uninit (E.game.MaxCard + 1) c +
        ∑ k ∈ Finset.range (E.game.NumHoleCardPairs E.game.MaxStreet),
          handProb (E.game.MaxCard + 1) hands a k * cardCount c (hands.Cards k) :=
  (Fold_totals_closed hands _ a _ _).1 c

theorem oppTotals_sum (E : Env) (hands : CanonicalCards) (a : Nat → ℚ) :
    (oppTotals E hands a).sum_opp_probs =
      ∑ k ∈ Finset.range (E.game.NumHoleCardPairs E.game.MaxStreet),
        handProb (E.game.MaxCard + 1) hands a k := by
  have := (Fold_totals_closed hands (E.game.MaxCard + 1) a
    ⟨zeroedCards E.uninit (E.game.MaxCard + 1), 0⟩
    (E.game.NumHoleCardPairs E.game.MaxStreet)).2
  simpa [oppTotals] using this

/-- The class loop of `Showdown` returns, with both invariants, when no opponent entry exceeds
1. -/
theorem Showdown_sums_ok (E : Env) (hands : CanonicalCards) (hp : ℚ) (a bp : Nat → ℚ)
    (hle : ∀ k, k < E.game.NumHoleCardPairs E.game.MaxStreet →
      handProb (E.game.MaxCard + 1) hands a k ≤ 1) :
    ∃ s, Showdown.sums E hands hp a bp = .ok s ∧
      s.j = E.game.NumHoleCardPairs E.game.MaxStreet ∧
      BaseInv hands (E.game.NumHoleCardPairs E.game.MaxStreet) (E.game.MaxCard + 1) a bp
        (oppTotals E hands a) (zeroedCards E.uninit (E.game.MaxCard + 1)) s ∧
      (DistinctHands E.game.MaxCard (E.game.NumHoleCardPairs E.game.MaxStreet) hands →
        SortedByValue (E.game.NumHoleCardPairs E.game.MaxStreet) hands →
        (∀ k, k < E.game.NumHoleCardPairs E.game.MaxStreet →
          0 ≤ handProb (E.game.MaxCard + 1) hands a k) →
        SortedInv hands (E.game.NumHoleCardPairs E.game.MaxStreet) (E.game.MaxCard + 1) a bp
          hp s) := by
  have h0 := Showdown_totals_ok hands (E.game.MaxCard + 1) a
    ⟨zeroedCards E.uninit (E.game.MaxCard + 1), 0⟩ _ hle
  have hsums : Showdown.sums E hands hp a bp =
      Showdown.classLoop hands (E.game.NumHoleCardPairs E.game.MaxStreet) (E.game.MaxCard + 1)
        a bp (oppTotals E hands a) hp (E.game.NumHoleCardPairs E.game.MaxStreet)
        { j := 0, cum_opp_card_probs := zeroedCards E.uninit (E.game.MaxCard + 1),
          opp_cum_prob := 0, win_probs := E.uninit, lose_probs := E.uninit,
          sum_our_vals := 0, sum_joint_probs := 0 } := by
    unfold Showdown.sums
    simp only [h0, Run.bind]
    rfl
  rw [hsums]
  obtain ⟨s, h1, ⟨h2, h3⟩, h4⟩ := classLoop_induct hands
    (E.game.NumHoleCardPairs E.game.MaxStreet) (E.game.MaxCard + 1) a bp (oppTotals E hands a) hp
    (fun s => BaseInv hands (E.game.NumHoleCardPairs E.game.MaxStreet) (E.game.MaxCard + 1) a bp
        (oppTotals E hands a) (zeroedCards E.uninit (E.game.MaxCard + 1)) s ∧
      (DistinctHands E.game.MaxCard (E.game.NumHoleCardPairs E.game.MaxStreet) hands →
        SortedByValue (E.game.NumHoleCardPairs E.game.MaxStreet) hands →
        (∀ k, k < E.game.NumHoleCardPairs E.game.MaxStreet →
          0 ≤ handProb (E.game.MaxCard + 1) hands a k) →
        SortedInv hands (E.game.NumHoleCardPairs E.game.MaxStreet) (E.game.MaxCard + 1) a bp
          hp s))
    (fun s hI hj => ⟨BaseInv_step _ _ _ _ _ _ hp _ s hI.1 hj,
      fun hD hS hnn => SortedInv_step _ _ hands a bp _ hp E.uninit hD hS hnn
        (oppTotals_total E hands a) (oppTotals_sum E hands a) s hI.1 (hI.2 hD hS hnn) hj⟩)
    (E.game.NumHoleCardPairs E.game.MaxStreet)
    { j := 0, cum_opp_card_probs := zeroedCards E.uninit (E.game.MaxCard + 1),
      opp_cum_prob := 0, win_probs := E.uninit, lose_probs := E.uninit,
      sum_our_vals := 0, sum_joint_probs := 0 }
    (Nat.zero_le _) (le_of_eq (Nat.sub_zero _))
    ⟨⟨Nat.zero_le _, fun c => by simp, by simp, by simp⟩,
      fun _ _ _ => ⟨fun k hk => absurd hk (Nat.not_lt_zero k),
        fun k hk => absurd hk (Nat.not_lt_zero k),
        fun k hk => absurd hk (Nat.not_lt_zero k), by simp⟩⟩
  exact ⟨s, h1, h4, h2, h3⟩

/-- `Showdown` ends the program when an opponent entry exceeds 1. -/
theorem Showdown_sums_fatal (E : Env) (hands : CanonicalCards) (hp : ℚ) (a bp : Nat → ℚ)
    (hgt : ∃ k, k < E.game.NumHoleCardPairs E.game.MaxStreet ∧
      1 < handProb (E.game.MaxCard + 1) hands a k) :
    Showdown.sums E hands hp a bp = .fatal := by
  unfold Showdown.sums
  simp only [Showdown_totals_fatal hands (E.game.MaxCard + 1) a _ _ hgt, Run.bind]

/-- Inclusion-exclusion for `sum_consistent_opp_probs`, on the totals of the first loop. -/
theorem sumConsistent_eq (E : Env) (hands : CanonicalCards) (a : Nat → ℚ)
    (hD : DistinctHands E.game.MaxCard (E.game.NumHoleCardPairs E.game.MaxStreet) hands)
    (i : Nat) (hi : i < E.game.NumHoleCardPairs E.game.MaxStreet) :
    sumConsistentOppProbs (E.game.MaxCard + 1) a (oppTotals E hands a) (hands.Cards i) =
      consistentOppSum (E.game.MaxCard + 1) (E.game.NumHoleCardPairs E.game.MaxStreet) hands a
        (hands.Cards i) := by
  unfold sumConsistentOppProbs consistentOppSum
  simp only []
  rw [oppTotals_total, oppTotals_total, oppTotals_sum, zeroedCards_apply, zeroedCards_apply,
    if_pos (Nat.lt_succ_of_le (hD.card_le i hi).1), if_pos (Nat.lt_succ_of_le (hD.card_le i hi).2),
    zero_add, zero_add]
  exact sum_excl_all _ _ hands hD (handProb (E.game.MaxCard + 1) hands a) i hi

/-- The joint-probability sum as a sum of `sum_consistent_opp_probs`. -/
theorem jointProbSum_eq (E : Env) (hands : CanonicalCards) (a bp : Nat → ℚ)
    (hD : DistinctHands E.game.MaxCard (E.game.NumHoleCardPairs E.game.MaxStreet) hands) :
    ∑ i ∈ Finset.range (E.game.NumHoleCardPairs E.game.MaxStreet),
        handProb (E.game.MaxCard + 1) hands bp i *
          sumConsistentOppProbs (E.game.MaxCard + 1) a (oppTotals E hands a) (hands.Cards i) =
      jointProbSum (E.game.MaxCard + 1) (E.game.NumHoleCardPairs E.game.MaxStreet) hands a
        bp := by
  unfold jointProbSum
  apply Finset.sum_congr rfl
  intro i hi
  rw [Finset.mem_range] at hi
  rw [sumConsistent_eq E hands a hD i hi]
  unfold consistentOppSum
  rw [Finset.mul_sum]
  apply Finset.sum_congr rfl
  intro k _
  split_ifs <;> simp

/-- Closed form of the second loop of `Fold`. -/
theorem Fold_payoff_closed (hands : CanonicalCards) (m : Nat) (a bp : Nat → ℚ) (t : OppTotals)
    (hp : ℚ) (n : Nat) :
    (forLoop 0 (Fold.payoffBody hands m a bp t hp) n (0, 0)).2 =
        ∑ i ∈ Finset.range n, handProb m hands bp i * sumConsistentOppProbs m a t (hands.Cards i) ∧
    (forLoop 0 (Fold.payoffBody hands m a bp t hp) n (0, 0)).1 =
        hp * (forLoop 0 (Fold.payoffBody hands m a bp t hp) n (0, 0)).2 := by
  induction n with
  | zero => simp [forLoop]
  | succ n ih =>
    obtain ⟨ih1, ih2⟩ := ih
    rw [show forLoop 0 (Fold.payoffBody hands m a bp t hp) (n + 1) (0, 0) =
      Fold.payoffBody hands m a bp t hp (0 + n)
        (forLoop 0 (Fold.payoffBody hands m a bp t hp) n (0, 0)) from rfl]
    generalize forLoop 0 (Fold.payoffBody hands m a bp t hp) n (0, 0) = r at ih1 ih2 ⊢
    rw [Nat.zero_add, Finset.sum_range_succ]
    unfold Fold.payoffBody
    constructor
    · show r.2 + _ = _
      rw [ih1]
      rfl
    · show r.1 + _ = hp * (r.2 + _)
      rw [ih2]
      ring

/-- The sums of `Fold` in closed form. -/
theorem Fold_sums_closed (E : Env) (hands : CanonicalCards) (hp : ℚ) (a bp : Nat → ℚ) :
    (Fold.sums E hands hp a bp).2 =
        ∑ i ∈ Finset.range (E.game.NumHoleCardPairs E.game.MaxStreet),
          handProb (E.game.MaxCard + 1) hands bp i *
            sumConsistentOppProbs (E.game.MaxCard + 1) a (oppTotals E hands a) (hands.Cards i) ∧
    (Fold.sums E hands hp a bp).1 = hp * (Fold.sums E hands hp a bp).2 :=
  Fold_payoff_closed hands (E.game.MaxCard + 1) a bp (oppTotals E hands a) hp
    (E.game.NumHoleCardPairs E.game.MaxStreet)

/-- The value of the showdown as a sum over hands of B. -/
theorem rankedPairSum_eq (m H : Nat) (hands : CanonicalCards) (a bp : Nat → ℚ) (hp : ℚ) :
    ∑ i ∈ Finset.range H,
        handProb m hands bp i * (weakerOppSum m H hands a i - strongerOppSum m H hands a i) * hp =
      hp * rankedPairSum m H hands a bp := by
  unfold rankedPairSum
  rw [Finset.mul_sum]
  apply Finset.sum_congr rfl
  intro i _
  unfold weakerOppSum strongerOppSum
  rw [← Finset.sum_sub_distrib, Finset.mul_sum, Finset.sum_mul, Finset.mul_sum]
  apply Finset.sum_congr rfl
  intro k _
  by_cases hsh : sharesCard (hands.Cards i) (hands.Cards k)
  · simp [hsh]
  · rcases lt_trichotomy (hands.HandValue k) (hands.HandValue i) with h | h | h
    · have h' : ¬ hands.HandValue i < hands.HandValue k := by omega
      have hs : Int.sign (hands.HandValue i - hands.HandValue k) = 1 :=
        Int.sign_eq_one_of_pos (by omega)
      simp only [hsh, h, h', hs, not_false_eq_true, and_self, if_true, false_and, if_false,
        sub_zero, Int.cast_one, mul_one]
      ring
    · have hs : Int.sign (hands.HandValue i - hands.HandValue k) = 0 := by
        rw [h, sub_self]; rfl
      simp [hsh, h, hs]
    · have h' : ¬ hands.HandValue k < hands.HandValue i := by omega
      have hs : Int.sign (hands.HandValue i - hands.HandValue k) = -1 :=
        Int.sign_eq_neg_one_of_neg (by omega)
      simp only [hsh, h, h', hs, not_false_eq_true, and_self, if_true, false_and, if_false,
        zero_sub, Int.cast_neg, Int.cast_one]
      ring

theorem accumulate_sum_b (P : Player) (x y : ℚ) :
    (P.accumulate x y).sum_b_outcomes_ = P.sum_b_outcomes_ + x := rfl

theorem accumulate_sum_weights (P : Player) (x y : ℚ) :
    (P.accumulate x y).sum_weights_ = P.sum_weights_ + y := rfl

theorem accumulate_sum_p (P : Player) (x y : ℚ) :
    (P.accumulate x y).sum_p0_outcomes_ + (P.accumulate x y).sum_p1_outcomes_ =
      P.sum_p0_outcomes_ + P.sum_p1_outcomes_ := by
  unfold Player.accumulate
  by_cases h : P.b_pos_ = 0 <;> simp [h]

/-- `Player::Showdown` in terms of the state of its class loop. -/
theorem Player_Showdown_of_sums (E : Env) (P : Player) (a_node b_node : Node)
    (reach_probs : Nat → Nat → ℚ) (s : ShowdownState)
    (h : Showdown.sums E P.hands_ (a_node.LastBetTo : ℚ) (P.oppProbs reach_probs)
      (P.ourProbs reach_probs) = .ok s) :
    P.Showdown E a_node b_node reach_probs =
      .ok (P.accumulate (s.sum_our_vals * (P.num_samples_ : ℚ))
        (s.sum_joint_probs * (P.num_samples_ : ℚ))) := by
  unfold Player.Showdown
  simp only [h, Run.bind]

theorem exHands_distinct : DistinctHands 3 4 exHands := by
  refine ⟨?_, ?_, ?_⟩ <;> decide

theorem exHands_sorted : SortedByValue 4 exHands := by
  intro i k hik hk
  have hi : i < 4 := by omega
  interval_cases k <;> interval_cases i <;> first | omega | decide

theorem exTiedHands_distinct : DistinctHands 3 4 exTiedHands := by
  refine ⟨?_, ?_, ?_⟩ <;> decide

theorem exReach_ok : OkReach exEnv exHands exReach := by
  intro _ _ _ _
  unfold okVal exReach
  norm_num

/-! ## Terminal evaluation: the statements -/

/-- C1.  `Showdown` equals the brute-force ranked-pair calculation with card removal: when the
hands of the board are distinct two-card hands in order of non-decreasing hand value and both
reach vectors have their entries (at the hands) in `[0, 1]`, `Showdown` returns, and the value it
computes as `sum_our_vals` is `half_pot` times the sum over all ordered pairs of a hand of B and
a hand of A sharing no card of `b_probs * a_probs * sgn(value difference)`, with
`half_pot = a_node->LastBetTo()`; that value, times `num_samples_`, is what it accumulates. -/
theorem Showdown_eq_ranked_pairs (E : Env) (P : Player) (a_node b_node : Node)
    (reach_probs : Nat → Nat → ℚ)
    (hD : DistinctHands E.game.MaxCard (E.game.NumHoleCardPairs E.game.MaxStreet) P.hands_)
    (hS : SortedByValue (E.game.NumHoleCardPairs E.game.MaxStreet) P.hands_)
    (hr : ∀ p, p < 2 → ∀ i, i < E.game.NumHoleCardPairs E.game.MaxStreet →
      0 ≤ handProb (E.game.MaxCard + 1) P.hands_ (reach_probs p) i ∧
      handProb (E.game.MaxCard + 1) P.hands_ (reach_probs p) i ≤ 1) :
    ∃ s, Showdown.sums E P.hands_ (a_node.LastBetTo : ℚ) (P.oppProbs reach_probs)
        (P.ourProbs reach_probs) = .ok s ∧
      s.sum_our_vals = (a_node.LastBetTo : ℚ) *
        rankedPairSum (E.game.MaxCard + 1) (E.game.NumHoleCardPairs E.game.MaxStreet) P.hands_
          (P.oppProbs reach_probs) (P.ourProbs reach_probs) ∧
      P.Showdown E a_node b_node reach_probs =
        .ok (P.accumulate (s.sum_our_vals * (P.num_samples_ : ℚ))
          (s.sum_joint_probs * (P.num_samples_ : ℚ))) := by
  have ha : ∀ i, i < E.game.NumHoleCardPairs E.game.MaxStreet →
      0 ≤ handProb (E.game.MaxCard + 1) P.hands_ (P.oppProbs reach_probs) i ∧
      handProb (E.game.MaxCard + 1) P.hands_ (P.oppProbs reach_probs) i ≤ 1 := by
    intro i hi
    unfold Player.oppProbs
    by_cases hb : P.b_pos_ = 0
    · simp only [hb, if_true]; exact hr 1 (by omega) i hi
    · simp only [hb, if_false]; exact hr 0 (by omega) i hi
  obtain ⟨s, h1, h2, _, h4⟩ := Showdown_sums_ok E P.hands_ (a_node.LastBetTo : ℚ)
    (P.oppProbs reach_probs) (P.ourProbs reach_probs) (fun i hi => (ha i hi).2)
  have hI := h4 hD hS (fun i hi => (ha i hi).1)
  refine ⟨s, h1, ?_, Player_Showdown_of_sums E P a_node b_node reach_probs s h1⟩
  rw [hI.sv_eq, h2]
  exact rankedPairSum_eq _ _ _ _ _ _

theorem Showdown_eq_ranked_pairs_witness :
    ∃ s, Showdown.sums exEnv exPlayer.hands_ (exShowdownNode.LastBetTo : ℚ)
        (exPlayer.oppProbs exReach) (exPlayer.ourProbs exReach) = .ok s ∧
      s.sum_our_vals = (exShowdownNode.LastBetTo : ℚ) *
        rankedPairSum (exEnv.game.MaxCard + 1) (exEnv.game.NumHoleCardPairs exEnv.game.MaxStreet)
          exPlayer.hands_ (exPlayer.oppProbs exReach) (exPlayer.ourProbs exReach) ∧
      exPlayer.Showdown exEnv exShowdownNode exShowdownNode exReach =
        .ok (exPlayer.accumulate (s.sum_our_vals * (exPlayer.num_samples_ : ℚ))
          (s.sum_joint_probs * (exPlayer.num_samples_ : ℚ))) :=
  Showdown_eq_ranked_pairs exEnv exPlayer exShowdownNode exShowdownNode exReach
    exHands_distinct exHands_sorted
    (fun _ _ _ _ => by simp [handProb, exReach])

/-- The amount `Fold` adds to `sum_weights_`, for distinct two-card hands. -/
theorem Fold_weights_eq (E : Env) (P : Player) (a_node b_node : Node)
    (reach_probs : Nat → Nat → ℚ)
    (hD : DistinctHands E.game.MaxCard (E.game.NumHoleCardPairs E.game.MaxStreet) P.hands_) :
    (P.Fold E a_node b_node reach_probs).sum_weights_ =
      P.sum_weights_ + (P.num_samples_ : ℚ) *
        jointProbSum (E.game.MaxCard + 1) (E.game.NumHoleCardPairs E.game.MaxStreet) P.hands_
          (P.oppProbs reach_probs) (P.ourProbs reach_probs) := by
  show P.sum_weights_ + _ = _
  rw [(Fold_sums_closed E P.hands_ _ _ _).1, jointProbSum_eq E P.hands_ _ _ hD]
  ring

/-- C2.  Card-removal correction by inclusion-exclusion.  For distinct two-card hands, the value
`sum_consistent_opp_probs` that `Showdown` and `Fold` compute for a hand from the totals of their
first loop is the sum of A's reach probabilities over the hands sharing no card with it; the
first loop of `Showdown`, when it completes, yields the same totals as that of `Fold`; hence
`Fold` adds `num_samples` times the sum over all card-disjoint hand pairs of
`b_probs * a_probs` to `sum_weights_`, and so does `Showdown` whenever it returns, which it does
unless an entry of A exceeds 1. -/
theorem sum_consistent_inclusion_exclusion (E : Env) (P : Player) (a_node b_node : Node)
    (reach_probs : Nat → Nat → ℚ)
    (hD : DistinctHands E.game.MaxCard (E.game.NumHoleCardPairs E.game.MaxStreet) P.hands_) :
    (∀ i, i < E.game.NumHoleCardPairs E.game.MaxStreet →
      sumConsistentOppProbs (E.game.MaxCard + 1) (P.oppProbs reach_probs)
          (oppTotals E P.hands_ (P.oppProbs reach_probs)) (P.hands_.Cards i) =
        consistentOppSum (E.game.MaxCard + 1) (E.game.NumHoleCardPairs E.game.MaxStreet)
          P.hands_ (P.oppProbs reach_probs) (P.hands_.Cards i)) ∧
    (∀ t, forLoopM 0
        (Showdown.totalsBody P.hands_ (E.game.MaxCard + 1) (P.oppProbs reach_probs))
        (E.game.NumHoleCardPairs E.game.MaxStreet)
        ⟨zeroedCards E.uninit (E.game.MaxCard + 1), 0⟩ = .ok t →
      t = oppTotals E P.hands_ (P.oppProbs reach_probs)) ∧
    (P.Fold E a_node b_node reach_probs).sum_weights_ =
      P.sum_weights_ + (P.num_samples_ : ℚ) *
        jointProbSum (E.game.MaxCard + 1) (E.game.NumHoleCardPairs E.game.MaxStreet) P.hands_
          (P.oppProbs reach_probs) (P.ourProbs reach_probs) ∧
    ((∀ i, i < E.game.NumHoleCardPairs E.game.MaxStreet →
        handProb (E.game.MaxCard + 1) P.hands_ (P.oppProbs reach_probs) i ≤ 1) →
      ∃ P', P.Showdown E a_node b_node reach_probs = .ok P' ∧
        P'.sum_weights_ = P.sum_weights_ + (P.num_samples_ : ℚ) *
          jointProbSum (E.game.MaxCard + 1) (E.game.NumHoleCardPairs E.game.MaxStreet) P.hands_
            (P.oppProbs reach_probs) (P.ourProbs reach_probs)) ∧
    ((∃ i, i < E.game.NumHoleCardPairs E.game.MaxStreet ∧
        1 < handProb (E.game.MaxCard + 1) P.hands_ (P.oppProbs reach_probs) i) →
      P.Showdown E a_node b_node reach_probs = .fatal) := by
  refine ⟨fun i hi => sumConsistent_eq E P.hands_ _ hD i hi, ?_, ?_, ?_, ?_⟩
  · intro t ht
    by_cases hgt : ∃ k, k < E.game.NumHoleCardPairs E.game.MaxStreet ∧
        1 < handProb (E.game.MaxCard + 1) P.hands_ (P.oppProbs reach_probs) k
    · rw [Showdown_totals_fatal _ _ _ _ _ hgt] at ht
      exact absurd ht (by simp)
    · have hle : ∀ k, k < E.game.NumHoleCardPairs E.game.MaxStreet →
          handProb (E.game.MaxCard + 1) P.hands_ (P.oppProbs reach_probs) k ≤ 1 := by
        intro k hk
        by_contra hc
        exact hgt ⟨k, hk, not_le.mp hc⟩
      rw [Showdown_totals_ok _ _ _ _ _ hle] at ht
      injection ht with ht
      exact ht.symm
  · exact Fold_weights_eq E P a_node b_node reach_probs hD
  · intro hle
    obtain ⟨s, h1, hj, h3, _⟩ := Showdown_sums_ok E P.hands_ (a_node.LastBetTo : ℚ)
      (P.oppProbs reach_probs) (P.ourProbs reach_probs) hle
    refine ⟨_, Player_Showdown_of_sums E P a_node b_node reach_probs s h1, ?_⟩
    rw [accumulate_sum_weights, h3.sj_eq, hj, jointProbSum_eq E P.hands_ _ _ hD]
    ring
  · intro hgt
    unfold Player.Showdown
    simp only [Showdown_sums_fatal E P.hands_ _ _ _ hgt, Run.bind]

theorem sum_consistent_inclusion_exclusion_witness :
    (exPlayer.Fold exEnv exFoldNode exFoldNode exReach).sum_weights_ =
      exPlayer.sum_weights_ + (exPlayer.num_samples_ : ℚ) *
        jointProbSum (exEnv.game.MaxCard + 1)
          (exEnv.game.NumHoleCardPairs exEnv.game.MaxStreet) exPlayer.hands_
          (exPlayer.oppProbs exReach) (exPlayer.ourProbs exReach) :=
  (sum_consistent_inclusion_exclusion exEnv exPlayer exFoldNode exFoldNode exReach
    exHands_distinct).2.2.1

/-- C3.  Fold payoff: the value `Fold` adds to `sum_b_outcomes_` is `s * last_bet_to` times the
amount it adds to `sum_weights_`, where `s = +1` when `b_pos_` is the remaining player
(`PlayerActing` of the fold node) and `s = -1` when B is the folder; for distinct two-card
hands that amount is `num_samples` times the card-consistent joint probability. -/
theorem Fold_payoff (E : Env) (P : Player) (a_node b_node : Node)
    (reach_probs : Nat → Nat → ℚ) :
    (P.Fold E a_node b_node reach_probs).sum_b_outcomes_ - P.sum_b_outcomes_ =
      (if P.b_pos_ = a_node.PlayerActing then 1 else -1) * (a_node.LastBetTo : ℚ) *
        ((P.Fold E a_node b_node reach_probs).sum_weights_ - P.sum_weights_) ∧
    (DistinctHands E.game.MaxCard (E.game.NumHoleCardPairs E.game.MaxStreet) P.hands_ →
      (P.Fold E a_node b_node reach_probs).sum_b_outcomes_ - P.sum_b_outcomes_ =
        (if P.b_pos_ = a_node.PlayerActing then 1 else -1) * (a_node.LastBetTo : ℚ) *
          ((P.num_samples_ : ℚ) *
            jointProbSum (E.game.MaxCard + 1) (E.game.NumHoleCardPairs E.game.MaxStreet)
              P.hands_ (P.oppProbs reach_probs) (P.ourProbs reach_probs))) := by
  have hb : (P.Fold E a_node b_node reach_probs).sum_b_outcomes_ = P.sum_b_outcomes_ +
      (Fold.sums E P.hands_ (Fold.halfPot P.b_pos_ a_node) (P.oppProbs reach_probs)
        (P.ourProbs reach_probs)).1 * (P.num_samples_ : ℚ) := rfl
  have hw : (P.Fold E a_node b_node reach_probs).sum_weights_ = P.sum_weights_ +
      (Fold.sums E P.hands_ (Fold.halfPot P.b_pos_ a_node) (P.oppProbs reach_probs)
        (P.ourProbs reach_probs)).2 * (P.num_samples_ : ℚ) := rfl
  have hhp : Fold.halfPot P.b_pos_ a_node =
      (if P.b_pos_ = a_node.PlayerActing then 1 else -1) * (a_node.LastBetTo : ℚ) := by
    unfold Fold.halfPot
    by_cases h : P.b_pos_ = a_node.PlayerActing <;> simp [h]
  have h1 : (P.Fold E a_node b_node reach_probs).sum_b_outcomes_ - P.sum_b_outcomes_ =
      (if P.b_pos_ = a_node.PlayerActing then 1 else -1) * (a_node.LastBetTo : ℚ) *
        ((P.Fold E a_node b_node reach_probs).sum_weights_ - P.sum_weights_) := by
    rw [hb, hw, (Fold_sums_closed E P.hands_ _ _ _).2, hhp]
    ring
  refine ⟨h1, fun hD => ?_⟩
  rw [h1, Fold_weights_eq E P a_node b_node reach_probs hD]
  ring

theorem Fold_payoff_witness :
    (exPlayer.Fold exEnv exFoldNode exFoldNode exReach).sum_b_outcomes_ -
        exPlayer.sum_b_outcomes_ =
      (if exPlayer.b_pos_ = exFoldNode.PlayerActing then 1 else -1) *
        (exFoldNode.LastBetTo : ℚ) *
        ((exPlayer.num_samples_ : ℚ) *
          jointProbSum (exEnv.game.MaxCard + 1)
            (exEnv.game.NumHoleCardPairs exEnv.game.MaxStreet) exPlayer.hands_
            (exPlayer.oppProbs exReach) (exPlayer.ourProbs exReach)) :=
  (Fold_payoff exEnv exPlayer exFoldNode exFoldNode exReach).2 exHands_distinct

/-- `Showdown` on a board whose hands all have the same value computes `sum_our_vals = 0`. -/
theorem Showdown_sums_tied (E : Env) (hands : CanonicalCards) (hp : ℚ) (a bp : Nat → ℚ)
    (hcard : ∀ i, i < E.game.NumHoleCardPairs E.game.MaxStreet →
      (hands.Cards i).1 ≤ E.game.MaxCard ∧ (hands.Cards i).2 ≤ E.game.MaxCard)
    (hall : ∀ i, i < E.game.NumHoleCardPairs E.game.MaxStreet →
      ∀ k, k < E.game.NumHoleCardPairs E.game.MaxStreet → hands.HandValue i = hands.HandValue k)
    (hnn : ∀ k, k < E.game.NumHoleCardPairs E.game.MaxStreet →
      0 ≤ handProb (E.game.MaxCard + 1) hands a k)
    (hle : ∀ k, k < E.game.NumHoleCardPairs E.game.MaxStreet →
      handProb (E.game.MaxCard + 1) hands a k ≤ 1) :
    ∃ s, Showdown.sums E hands hp a bp = .ok s ∧ s.sum_our_vals = 0 := by
  have h0 := Showdown_totals_ok hands (E.game.MaxCard + 1) a
    ⟨zeroedCards E.uninit (E.game.MaxCard + 1), 0⟩ _ hle
  have hsums : Showdown.sums E hands hp a bp =
      Showdown.classLoop hands (E.game.NumHoleCardPairs E.game.MaxStreet) (E.game.MaxCard + 1)
        a bp (oppTotals E hands a) hp (E.game.NumHoleCardPairs E.game.MaxStreet)
        { j := 0, cum_opp_card_probs := zeroedCards E.uninit (E.game.MaxCard + 1),
          opp_cum_prob := 0, win_probs := E.uninit, lose_probs := E.uninit,
          sum_our_vals := 0, sum_joint_probs := 0 } := by
    unfold Showdown.sums
    simp only [h0, Run.bind]
    rfl
  rw [hsums]
  obtain ⟨s, h1, h2, _⟩ := classLoop_induct hands
    (E.game.NumHoleCardPairs E.game.MaxStreet) (E.game.MaxCard + 1) a bp (oppTotals E hands a) hp
    (fun s => BaseInv hands (E.game.NumHoleCardPairs E.game.MaxStreet) (E.game.MaxCard + 1) a bp
        (oppTotals E hands a) (zeroedCards E.uninit (E.game.MaxCard + 1)) s ∧
      (s.j = 0 ∨ s.j = E.game.NumHoleCardPairs E.game.MaxStreet) ∧ s.sum_our_vals = 0)
    (fun s hI hj => by
      obtain ⟨hB, hj0, hsv⟩ := hI
      have hB' := BaseInv_step _ _ _ _ _ _ hp _ s hB hj
      obtain ⟨c1, c2, _, c4, _, _, _, _, c9, _⟩ := classStep_spec hands
        (E.game.NumHoleCardPairs E.game.MaxStreet) (E.game.MaxCard + 1) a bp
        (oppTotals E hands a) hp s hj
      have hz : s.j = 0 := by omega
      have hend : (Showdown.classStep hands (E.game.NumHoleCardPairs E.game.MaxStreet)
          (E.game.MaxCard + 1) a bp (oppTotals E hands a) hp s).j =
          E.game.NumHoleCardPairs E.game.MaxStreet := by
        by_contra hne
        have hlt : (Showdown.classStep hands (E.game.NumHoleCardPairs E.game.MaxStreet)
          (E.game.MaxCard + 1) a bp (oppTotals E hands a) hp s).j <
          E.game.NumHoleCardPairs E.game.MaxStreet := by omega
        exact c4 hlt (hall _ hlt _ hj)
      refine ⟨hB', Or.inr hend, ?_⟩
      rw [c9, hsv, zero_add]
      apply Finset.sum_eq_zero
      intro k hk
      rw [Finset.mem_Ico] at hk
      have hkH : k < E.game.NumHoleCardPairs E.game.MaxStreet := by omega
      have hcp : ∀ (g : Nat → ℚ),
          ∑ k ∈ Finset.range (E.game.NumHoleCardPairs E.game.MaxStreet),
            countedProb (handProb (E.game.MaxCard + 1) hands a k) * g k =
          ∑ k ∈ Finset.range (E.game.NumHoleCardPairs E.game.MaxStreet),
            handProb (E.game.MaxCard + 1) hands a k * g k := by
        intro g
        apply Finset.sum_congr rfl
        intro k hk
        rw [Finset.mem_range] at hk
        rw [countedProb_of_nonneg (hnn k hk)]
      have hcp1 : ∑ k ∈ Finset.range (E.game.NumHoleCardPairs E.game.MaxStreet),
            countedProb (handProb (E.game.MaxCard + 1) hands a k) =
          ∑ k ∈ Finset.range (E.game.NumHoleCardPairs E.game.MaxStreet),
            handProb (E.game.MaxCard + 1) hands a k := by
        simpa using hcp (fun _ => 1)
      have hwin : s.opp_cum_prob - s.cum_opp_card_probs (hands.Cards k).1 -
          s.cum_opp_card_probs (hands.Cards k).2 = 0 := by
        rw [hB.oc_eq, hB.cum_eq, hB.cum_eq, hz, zeroedCards_apply, zeroedCards_apply,
          if_pos (Nat.lt_succ_of_le (hcard k hkH).1), if_pos (Nat.lt_succ_of_le (hcard k hkH).2)]
        simp
      have hlose : loseProbOf (oppTotals E hands a)
          (Showdown.classStep hands (E.game.NumHoleCardPairs E.game.MaxStreet)
            (E.game.MaxCard + 1) a bp (oppTotals E hands a) hp s).cum_opp_card_probs
          (Showdown.classStep hands (E.game.NumHoleCardPairs E.game.MaxStreet)
            (E.game.MaxCard + 1) a bp (oppTotals E hands a) hp s).opp_cum_prob
          (hands.Cards k) = 0 := by
        unfold loseProbOf
        rw [hB'.oc_eq, hB'.cum_eq, hB'.cum_eq, hend, oppTotals_total, oppTotals_total,
          oppTotals_sum, hcp1, hcp, hcp]
        ring
      rw [hwin, hlose]
      ring)
    (E.game.NumHoleCardPairs E.game.MaxStreet)
    { j := 0, cum_opp_card_probs := zeroedCards E.uninit (E.game.MaxCard + 1),
      opp_cum_prob := 0, win_probs := E.uninit, lose_probs := E.uninit,
      sum_our_vals := 0, sum_joint_probs := 0 }
    (Nat.zero_le _) (le_of_eq (Nat.sub_zero _))
    ⟨⟨Nat.zero_le _, fun c => by simp, by simp, by simp⟩, Or.inl rfl, rfl⟩
  exact ⟨s, h1, h2.2.2⟩

/-- C7.  Ties contribute zero net.  For non-negative reach vectors over hands with cards in
`0 .. MaxCard`: (1) when the hands are distinct, ordered by non-decreasing value, and no entry of
A exceeds 1, `Showdown` returns and for every hand `k` the entry `win_probs[k]` is A's mass on
the card-disjoint hands of strictly lower value and `lose_prob` is A's mass on the
card-disjoint hands of strictly higher value, so hands of equal value count in neither;
(2) when all hands of the board have the same value, `Showdown` either ends the program at its
check of an entry of A above 1, or returns having added exactly 0 to `sum_b_outcomes_`. -/
theorem Showdown_ties_zero (E : Env) (P : Player) (a_node b_node : Node)
    (reach_probs : Nat → Nat → ℚ)
    (hcard : ∀ i, i < E.game.NumHoleCardPairs E.game.MaxStreet →
      (P.hands_.Cards i).1 ≤ E.game.MaxCard ∧ (P.hands_.Cards i).2 ≤ E.game.MaxCard)
    (hnn : ∀ p, p < 2 → ∀ i, i < E.game.NumHoleCardPairs E.game.MaxStreet →
      0 ≤ handProb (E.game.MaxCard + 1) P.hands_ (reach_probs p) i) :
    (DistinctHands E.game.MaxCard (E.game.NumHoleCardPairs E.game.MaxStreet) P.hands_ →
      SortedByValue (E.game.NumHoleCardPairs E.game.MaxStreet) P.hands_ →
      (∀ i, i < E.game.NumHoleCardPairs E.game.MaxStreet →
        handProb (E.game.MaxCard + 1) P.hands_ (P.oppProbs reach_probs) i ≤ 1) →
      ∃ s, Showdown.sums E P.hands_ (a_node.LastBetTo : ℚ) (P.oppProbs reach_probs)
          (P.ourProbs reach_probs) = .ok s ∧
        ∀ k, k < E.game.NumHoleCardPairs E.game.MaxStreet →
          s.win_probs k = weakerOppSum (E.game.MaxCard + 1)
            (E.game.NumHoleCardPairs E.game.MaxStreet) P.hands_ (P.oppProbs reach_probs) k ∧
          s.lose_probs k = strongerOppSum (E.game.MaxCard + 1)
            (E.game.NumHoleCardPairs E.game.MaxStreet) P.hands_ (P.oppProbs reach_probs) k) ∧
    ((∀ i, i < E.game.NumHoleCardPairs E.game.MaxStreet →
        ∀ k, k < E.game.NumHoleCardPairs E.game.MaxStreet →
          P.hands_.HandValue i = P.hands_.HandValue k) →
      (P.Showdown E a_node b_node reach_probs = .fatal ∧
        ∃ i, i < E.game.NumHoleCardPairs E.game.MaxStreet ∧
          1 < handProb (E.game.MaxCard + 1) P.hands_ (P.oppProbs reach_probs) i) ∨
      (∃ P', P.Showdown E a_node b_node reach_probs = .ok P' ∧
        P'.sum_b_outcomes_ = P.sum_b_outcomes_)) := by
  have ha : ∀ i, i < E.game.NumHoleCardPairs E.game.MaxStreet →
      0 ≤ handProb (E.game.MaxCard + 1) P.hands_ (P.oppProbs reach_probs) i := by
    intro i hi
    unfold Player.oppProbs
    by_cases hb : P.b_pos_ = 0
    · simp only [hb, if_true]; exact hnn 1 (by omega) i hi
    · simp only [hb, if_false]; exact hnn 0 (by omega) i hi
  constructor
  · intro hD hS hle
    obtain ⟨s, h1, h2, _, h4⟩ := Showdown_sums_ok E P.hands_ (a_node.LastBetTo : ℚ)
      (P.oppProbs reach_probs) (P.ourProbs reach_probs) hle
    have hI := h4 hD hS ha
    exact ⟨s, h1, fun k hk => ⟨hI.win_eq k (h2 ▸ hk), hI.lose_eq k (h2 ▸ hk)⟩⟩
  · intro hall
    by_cases hgt : ∃ i, i < E.game.NumHoleCardPairs E.game.MaxStreet ∧
        1 < handProb (E.game.MaxCard + 1) P.hands_ (P.oppProbs reach_probs) i
    · left
      refine ⟨?_, hgt⟩
      unfold Player.Showdown
      simp only [Showdown_sums_fatal E P.hands_ _ _ _ hgt, Run.bind]
    · right
      have hle : ∀ k, k < E.game.NumHoleCardPairs E.game.MaxStreet →
          handProb (E.game.MaxCard + 1) P.hands_ (P.oppProbs reach_probs) k ≤ 1 := by
        intro k hk
        by_contra hc
        exact hgt ⟨k, hk, not_le.mp hc⟩
      obtain ⟨s, h1, h2⟩ := Showdown_sums_tied E P.hands_ (a_node.LastBetTo : ℚ)
        (P.oppProbs reach_probs) (P.ourProbs reach_probs) hcard hall ha hle
      refine ⟨_, Player_Showdown_of_sums E P a_node b_node reach_probs s h1, ?_⟩
      rw [accumulate_sum_b, h2]
      ring

theorem Showdown_ties_zero_witness :
    (∃ s, Showdown.sums exEnv exPlayer.hands_ (exShowdownNode.LastBetTo : ℚ)
        (exPlayer.oppProbs exReach) (exPlayer.ourProbs exReach) = .ok s ∧
      ∀ k, k < exEnv.game.NumHoleCardPairs exEnv.game.MaxStreet →
        s.win_probs k = weakerOppSum (exEnv.game.MaxCard + 1)
          (exEnv.game.NumHoleCardPairs exEnv.game.MaxStreet) exPlayer.hands_
          (exPlayer.oppProbs exReach) k ∧
        s.lose_probs k = strongerOppSum (exEnv.game.MaxCard + 1)
          (exEnv.game.NumHoleCardPairs exEnv.game.MaxStreet) exPlayer.hands_
          (exPlayer.oppProbs exReach) k) ∧
    ((exTiedPlayer.Showdown exTiedEnv exShowdownNode exShowdownNode exReach = .fatal ∧
        ∃ i, i < exTiedEnv.game.NumHoleCardPairs exTiedEnv.game.MaxStreet ∧
          1 < handProb (exTiedEnv.game.MaxCard + 1) exTiedPlayer.hands_
            (exTiedPlayer.oppProbs exReach) i) ∨
      (∃ P', exTiedPlayer.Showdown exTiedEnv exShowdownNode exShowdownNode exReach = .ok P' ∧
        P'.sum_b_outcomes_ = exTiedPlayer.sum_b_outcomes_)) :=
  ⟨(Showdown_ties_zero exEnv exPlayer exShowdownNode exShowdownNode exReach
      exHands_distinct.card_le (fun _ _ _ _ => by simp [handProb, exReach])).1
      exHands_distinct exHands_sorted
      (fun _ _ => by unfold handProb Player.oppProbs; split_ifs <;> simp [exReach]),
   (Showdown_ties_zero exTiedEnv exTiedPlayer exShowdownNode exShowdownNode exReach
      exTiedHands_distinct.card_le (fun _ _ _ _ => by simp [handProb, exReach])).2
      (fun _ _ _ _ => rfl)⟩

/-- The check of `Showdown` at work: with all hands tied and the entry 2 for A at the hand
`(3, 2)`, `Showdown` ends the program, so nothing is added to the sums. -/
theorem exShowdown_above_fatal :
    (∀ p enc, 0 ≤ exReachAbove p enc) ∧
    exTiedPlayer.Showdown exTiedEnv exShowdownNode exShowdownNode exReachAbove = .fatal := by
  constructor
  · intro p enc
    unfold exReachAbove
    split_ifs <;> norm_num
  · have hgt : ∃ k, k < exTiedEnv.game.NumHoleCardPairs exTiedEnv.game.MaxStreet ∧
        1 < handProb (exTiedEnv.game.MaxCard + 1) exTiedPlayer.hands_
          (exTiedPlayer.oppProbs exReachAbove) k := by
      refine ⟨3, by decide, ?_⟩
      show (1 : ℚ) < exReachAbove 1 14
      unfold exReachAbove
      norm_num
    unfold Player.Showdown
    simp only [Showdown_sums_fatal exTiedEnv exTiedPlayer.hands_ _ _ _ hgt, Run.bind]

/-- `Player::Showdown` either ends the program or returns the accumulated state. -/
theorem Player_Showdown_cases (E : Env) (P : Player) (a_node b_node : Node)
    (reach_probs : Nat → Nat → ℚ) :
    P.Showdown E a_node b_node reach_probs = .fatal ∨
    ∃ x y, P.Showdown E a_node b_node reach_probs = .ok (P.accumulate x y) := by
  by_cases hgt : ∃ i, i < E.game.NumHoleCardPairs E.game.MaxStreet ∧
      1 < handProb (E.game.MaxCard + 1) P.hands_ (P.oppProbs reach_probs) i
  · left
    unfold Player.Showdown
    simp only [Showdown_sums_fatal E P.hands_ _ _ _ hgt, Run.bind]
  · right
    have hle : ∀ k, k < E.game.NumHoleCardPairs E.game.MaxStreet →
        handProb (E.game.MaxCard + 1) P.hands_ (P.oppProbs reach_probs) k ≤ 1 := by
      intro k hk
      by_contra hc
      exact hgt ⟨k, hk, not_le.mp hc⟩
    obtain ⟨s, h1, _⟩ := Showdown_sums_ok E P.hands_ (a_node.LastBetTo : ℚ)
      (P.oppProbs reach_probs) (P.ourProbs reach_probs) hle
    exact ⟨_, _, Player_Showdown_of_sums E P a_node b_node reach_probs s h1⟩

/-- A terminal call either ends the program or accumulates into the state it was given, with
the seat of the call. -/
theorem TerminalCall_run_cases (E : Env) (P : Player) (c : TerminalCall) :
    c.run E P = .fatal ∨
    ∃ (P1 : Player) (x y : ℚ), c.run E P = .ok (P1.accumulate x y) ∧
      P1.b_pos_ = c.b_pos ∧ P1.sum_b_outcomes_ = P.sum_b_outcomes_ ∧
      P1.sum_p0_outcomes_ = P.sum_p0_outcomes_ ∧ P1.sum_p1_outcomes_ = P.sum_p1_outcomes_ := by
  cases c with
  | showdown b_pos num_samples hands a_node b_node reach_probs =>
    rcases Player_Showdown_cases E
      { P with b_pos_ := b_pos, num_samples_ := num_samples, hands_ := hands }
      a_node b_node reach_probs with h | ⟨x, y, h⟩
    · exact Or.inl h
    · exact Or.inr ⟨_, x, y, h, rfl, rfl, rfl, rfl⟩
  | fold b_pos num_samples hands a_node b_node reach_probs =>
    exact Or.inr ⟨_, _, _, rfl, rfl, rfl, rfl, rfl⟩

theorem runTerminalCalls_zero_sum (E : Env) (calls : List TerminalCall) :
    ∀ P : Player, P.sum_p0_outcomes_ + P.sum_p1_outcomes_ = 0 →
      (runTerminalCalls E calls P).endsWith
        (fun P' => P'.sum_p0_outcomes_ + P'.sum_p1_outcomes_ = 0) := by
  induction calls with
  | nil => intro P h; exact h
  | cons c cs ih =>
    intro P h
    rcases TerminalCall_run_cases E P c with hf | ⟨P1, x, y, hr, _, _, e0, e1⟩
    · simp only [runTerminalCalls, hf, Run.bind, Run.endsWith]
    · simp only [runTerminalCalls, hr, Run.bind]
      apply ih
      rw [accumulate_sum_p, e0, e1]
      exact h

/-- `Showdown` returns when A's entries at the hands are at most 1. -/
theorem Player_Showdown_ok (E : Env) (P : Player) (a b : Node) (reach : Nat → Nat → ℚ)
    (hr : OkReach E P.hands_ reach) :
    ∃ x y, P.Showdown E a b reach = .ok (P.accumulate x y) := by
  have hle : ∀ k, k < E.game.NumHoleCardPairs E.game.MaxStreet →
      handProb (E.game.MaxCard + 1) P.hands_ (P.oppProbs reach) k ≤ 1 := by
    intro k hk
    unfold Player.oppProbs
    by_cases hb : P.b_pos_ = 0
    · simp only [hb, if_true]; exact (hr 1 (by omega) k hk).2
    · simp only [hb, if_false]; exact (hr 0 (by omega) k hk).2
  obtain ⟨s, h1, _⟩ := Showdown_sums_ok E P.hands_ (a.LastBetTo : ℚ) (P.oppProbs reach)
    (P.ourProbs reach) hle
  exact ⟨_, _, Player_Showdown_of_sums E P a b reach s h1⟩

/-- C6.  Zero-sum accounting.  From a state whose per-seat sums are 0 (as the constructor
leaves them), any sequence of `Showdown` and `Fold` calls, with any seat of B, reach vectors and
sample counts, either ends the program at a check of `Showdown` or ends in a state with
`sum_p0_outcomes_ + sum_p1_outcomes_ = 0`, so that the two per-seat averages (the quotients by
a `sum_weights_` that is not 0) add up to 0; and each call adds to the per-seat sum of B's seat (0 or 1) the amount it adds to
`sum_b_outcomes_`. -/
theorem zero_sum_accounting (E : Env) (P : Player) (h0 : P.sum_p0_outcomes_ = 0)
    (h1 : P.sum_p1_outcomes_ = 0) (calls : List TerminalCall) :
    (runTerminalCalls E calls P).endsWith
      (fun P' => P'.sum_p0_outcomes_ + P'.sum_p1_outcomes_ = 0 ∧
        (P'.sum_weights_ ≠ 0 →
          P'.sum_p0_outcomes_ / P'.sum_weights_ + (Go.report P').avg_p1_outcome = 0)) ∧
    (∀ (Q : Player) (c : TerminalCall), (c.run E Q).endsWith
      (fun Q' =>
        (c.b_pos = 0 →
          Q'.sum_p0_outcomes_ - Q.sum_p0_outcomes_ = Q'.sum_b_outcomes_ - Q.sum_b_outcomes_) ∧
        (c.b_pos = 1 →
          Q'.sum_p1_outcomes_ - Q.sum_p1_outcomes_ = Q'.sum_b_outcomes_ - Q.sum_b_outcomes_))) := by
  constructor
  · have h := runTerminalCalls_zero_sum E calls P (by rw [h0, h1]; ring)
    cases hr : runTerminalCalls E calls P with
    | ok P' =>
      rw [hr] at h
      refine ⟨h, fun _ => ?_⟩
      show P'.sum_p0_outcomes_ / P'.sum_weights_ + P'.sum_p1_outcomes_ / P'.sum_weights_ = 0
      have h' : P'.sum_p0_outcomes_ + P'.sum_p1_outcomes_ = 0 := h
      rw [← add_div, h', zero_div]
    | fatal => trivial
    | undefined => rw [hr] at h; exact h
    | out_of_fuel => rw [hr] at h; exact h
  · intro Q c
    rcases TerminalCall_run_cases E Q c with hf | ⟨P1, x, y, hr, hb, eb, e0, e1⟩
    · rw [hf]; trivial
    · rw [hr]
      show (c.b_pos = 0 → _) ∧ (c.b_pos = 1 → _)
      rw [accumulate_sum_b]
      unfold Player.accumulate
      constructor
      · intro hc
        have : P1.b_pos_ = 0 := by rw [hb, hc]
        simp only [this, if_true, e0, eb]
        ring
      · intro hc
        have : ¬ P1.b_pos_ = 0 := by rw [hb, hc]; decide
        simp only [this, if_false, e1, eb]
        ring

theorem zero_sum_accounting_witness :
    ∃ P', runTerminalCalls exEnv exCalls exPlayer = .ok P' ∧
      P'.sum_p0_outcomes_ + P'.sum_p1_outcomes_ = 0 ∧
      (P'.sum_weights_ ≠ 0 →
        P'.sum_p0_outcomes_ / P'.sum_weights_ + (Go.report P').avg_p1_outcome = 0) := by
  have h := (zero_sum_accounting exEnv exPlayer rfl rfl exCalls).1
  obtain ⟨x, y, hx⟩ := Player_Showdown_ok exEnv
    ({ exPlayer with b_pos_ := 0, num_samples_ := 3, hands_ := exHands } : Player)
    exShowdownNode exShowdownNode exReach exReach_ok
  cases hr : runTerminalCalls exEnv exCalls exPlayer with
  | ok P' =>
    rw [hr] at h
    exact ⟨P', rfl, h⟩
  | fatal => simp [exCalls, runTerminalCalls, TerminalCall.run, hx, Run.bind] at hr
  | undefined => simp [exCalls, runTerminalCalls, TerminalCall.run, hx, Run.bind] at hr
  | out_of_fuel => simp [exCalls, runTerminalCalls, TerminalCall.run, hx, Run.bind] at hr

/-! ## Reach propagation: lemmas -/

theorem setReach_apply (succ : Nat → Nat → Nat → ℚ) (s p enc : Nat) (x : ℚ) (s' p' e' : Nat) :
    setReach succ s p enc x s' p' e' =
      if s' = s ∧ p' = p ∧ e' = enc then x else succ s' p' e' := by
  unfold setReach
  by_cases hs : s' = s
  · subst hs
    by_cases hp : p' = p
    · subst hp
      by_cases he : e' = enc
      · subst he; simp
      · simp [Function.update_noteq he, he]
    · simp [Function.update_noteq hp, hp]
  · simp [Function.update_noteq hs, hs]

/-- A loop whose body checks a condition and then updates the state returns the updated state
when every check passes and ends the program at the first check that fails. -/
theorem forLoopM_guard {σ : Type} (lo : Nat) (body : Nat → σ → Run σ) (chk : Nat → Prop)
    (upd : Nat → σ → σ) (n : Nat)
    (hb : ∀ k, k < n → ∀ s, (chk (lo + k) → body (lo + k) s = .ok (upd (lo + k) s)) ∧
      (¬ chk (lo + k) → body (lo + k) s = .fatal)) (s : σ) :
    ((∀ k, k < n → chk (lo + k)) → forLoopM lo body n s = .ok (forLoop lo upd n s)) ∧
    ((∃ k, k < n ∧ ¬ chk (lo + k)) → forLoopM lo body n s = .fatal) := by
  induction n with
  | zero =>
    refine ⟨fun _ => rfl, ?_⟩
    rintro ⟨k, hk, _⟩
    omega
  | succ n ih =>
    obtain ⟨ih1, ih2⟩ := ih (fun k hk => hb k (Nat.lt_succ_of_lt hk))
    constructor
    · intro hall
      have h1 := ih1 (fun k hk => hall k (Nat.lt_succ_of_lt hk))
      simp only [forLoopM, h1, Run.bind, forLoop]
      exact (hb n (Nat.lt_succ_self n) _).1 (hall n (Nat.lt_succ_self n))
    · rintro ⟨k, hk, hck⟩
      by_cases hprev : ∃ k, k < n ∧ ¬ chk (lo + k)
      · simp only [forLoopM, ih2 hprev, Run.bind]
      · have hall : ∀ k, k < n → chk (lo + k) := by
          intro j hj
          by_contra hc
          exact hprev ⟨j, hj, hc⟩
        have hkn : k = n := by
          by_contra hne
          exact hprev ⟨k, by omega, hck⟩
        subst hkn
        simp only [forLoopM, ih1 hall, Run.bind]
        exact (hb k (Nat.lt_succ_self k) _).2 hck

/-- The loop over the players as a check followed by an assignment. -/
theorem playerBody_guard (pa enc s : Nat) (probs : Nat → ℚ) (reach : Nat → Nat → ℚ) (p : Nat)
    (succ : Nat → Nat → Nat → ℚ) :
    (okVal (GetSuccReachProbs.prob pa enc s probs reach p) →
      GetSuccReachProbs.playerBody pa enc s probs reach p succ =
        .ok (setReach succ s p enc (GetSuccReachProbs.prob pa enc s probs reach p))) ∧
    (¬ okVal (GetSuccReachProbs.prob pa enc s probs reach p) →
      GetSuccReachProbs.playerBody pa enc s probs reach p succ = .fatal) := by
  unfold GetSuccReachProbs.playerBody GetSuccReachProbs.prob okVal
  by_cases hp : p = pa
  · simp only [hp, if_true]
    constructor
    · rintro ⟨h0, h1⟩
      have : ¬ (reach pa enc * probs s > 1 ∨ reach pa enc * probs s < 0) := by
        rintro (h | h)
        · exact absurd h1 (not_le.mpr h)
        · exact absurd h0 (not_le.mpr h)
      simp only [this, if_false]
    · intro h
      have : reach pa enc * probs s > 1 ∨ reach pa enc * probs s < 0 := by
        by_contra hc
        rw [not_or, not_lt, not_lt] at hc
        exact h ⟨hc.2, hc.1⟩
      simp only [this, if_true]
  · simp only [hp, if_false]
    constructor
    · rintro ⟨h0, h1⟩
      have : ¬ (reach p enc > 1 ∨ reach p enc < 0) := by
        rintro (h | h)
        · exact absurd h1 (not_le.mpr h)
        · exact absurd h0 (not_le.mpr h)
      simp only [this, if_false]
    · intro h
      have : reach p enc > 1 ∨ reach p enc < 0 := by
        by_contra hc
        rw [not_or, not_lt, not_lt] at hc
        exact h ⟨hc.2, hc.1⟩
      simp only [this, if_true]

theorem handUpdate_apply (pa enc : Nat) (probs : Nat → ℚ) (reach : Nat → Nat → ℚ) (S : Nat)
    (succ : Nat → Nat → Nat → ℚ) (s' p' e' : Nat) :
    handUpdate pa enc probs reach S succ s' p' e' =
      if s' < S ∧ p' < 2 ∧ e' = enc then GetSuccReachProbs.prob pa enc s' probs reach p'
      else succ s' p' e' := by
  unfold handUpdate
  induction S with
  | zero => simp [forLoop]
  | succ n ih =>
    rw [show forLoop 0 (fun s succ => forLoop 0 (fun p succ => setReach succ s p enc
          (GetSuccReachProbs.prob pa enc s probs reach p)) 2 succ) (n + 1) succ =
        setReach (setReach (forLoop 0 (fun s succ => forLoop 0 (fun p succ => setReach succ s p enc
          (GetSuccReachProbs.prob pa enc s probs reach p)) 2 succ) n succ) (0 + n) (0 + 0) enc
            (GetSuccReachProbs.prob pa enc (0 + n) probs reach (0 + 0))) (0 + n) (0 + 1) enc
            (GetSuccReachProbs.prob pa enc (0 + n) probs reach (0 + 1)) from rfl]
    rw [setReach_apply, setReach_apply, ih]
    simp only [Nat.zero_add]
    by_cases hs : s' = n
    · subst hs
      by_cases he : e' = enc
      · subst he
        by_cases h1 : p' = 1
        · subst h1; simp
        · by_cases h0 : p' = 0
          · subst h0; simp
          · have : ¬ p' < 2 := by omega
            simp [h1, h0, this]
      · simp [he]
    · have : (s' < n + 1) ↔ s' < n := by omega
      simp [hs, this]

/-- The loops over successors and players for one hand: every value is checked, and when all
pass the assignments are made. -/
theorem handBody_guard (E : Env) (P : Player) (node : Node) (gbd : Int) (buckets : Buckets)
    (sp : CFRValues) (reach : Nat → Nat → ℚ) (i : Nat) (succ : Nat → Nat → Nat → ℚ) :
    ((∀ s, s < node.NumSuccs → ∀ p, p < 2 →
        okVal (GetSuccReachProbs.prob node.PlayerActing (handEnc (E.game.MaxCard + 1) P.hands_ i) s
          (GetSuccReachProbs.handProbs E P node gbd buckets sp i) reach p)) →
      GetSuccReachProbs.handBody E P node gbd buckets sp reach i succ =
        .ok (handUpdate node.PlayerActing (handEnc (E.game.MaxCard + 1) P.hands_ i)
          (GetSuccReachProbs.handProbs E P node gbd buckets sp i) reach node.NumSuccs succ)) ∧
    (¬ (∀ s, s < node.NumSuccs → ∀ p, p < 2 →
        okVal (GetSuccReachProbs.prob node.PlayerActing (handEnc (E.game.MaxCard + 1) P.hands_ i) s
          (GetSuccReachProbs.handProbs E P node gbd buckets sp i) reach p)) →
      GetSuccReachProbs.handBody E P node gbd buckets sp reach i succ = .fatal) := by
  have inner : ∀ s (succ : Nat → Nat → Nat → ℚ),
      ((∀ p, p < 2 → okVal (GetSuccReachProbs.prob node.PlayerActing
          (handEnc (E.game.MaxCard + 1) P.hands_ i) s
          (GetSuccReachProbs.handProbs E P node gbd buckets sp i) reach p)) →
        forLoopM 0 (GetSuccReachProbs.playerBody node.PlayerActing
          (handEnc (E.game.MaxCard + 1) P.hands_ i) s
          (GetSuccReachProbs.handProbs E P node gbd buckets sp i) reach) 2 succ =
        .ok (forLoop 0 (fun p succ => setReach succ s p (handEnc (E.game.MaxCard + 1) P.hands_ i)
          (GetSuccReachProbs.prob node.PlayerActing (handEnc (E.game.MaxCard + 1) P.hands_ i) s
            (GetSuccReachProbs.handProbs E P node gbd buckets sp i) reach p)) 2 succ)) ∧
      (¬ (∀ p, p < 2 → okVal (GetSuccReachProbs.prob node.PlayerActing
          (handEnc (E.game.MaxCard + 1) P.hands_ i) s
          (GetSuccReachProbs.handProbs E P node gbd buckets sp i) reach p)) →
        forLoopM 0 (GetSuccReachProbs.playerBody node.PlayerActing
          (handEnc (E.game.MaxCard + 1) P.hands_ i) s
          (GetSuccReachProbs.handProbs E P node gbd buckets sp i) reach) 2 succ = .fatal) := by
    intro s succ
    have g := forLoopM_guard 0 (GetSuccReachProbs.playerBody node.PlayerActing
        (handEnc (E.game.MaxCard + 1) P.hands_ i) s
        (GetSuccReachProbs.handProbs E P node gbd buckets sp i) reach)
      (fun p => okVal (GetSuccReachProbs.prob node.PlayerActing
        (handEnc (E.game.MaxCard + 1) P.hands_ i) s
        (GetSuccReachProbs.handProbs E P node gbd buckets sp i) reach p))
      (fun p succ => setReach succ s p (handEnc (E.game.MaxCard + 1) P.hands_ i)
        (GetSuccReachProbs.prob node.PlayerActing (handEnc (E.game.MaxCard + 1) P.hands_ i) s
          (GetSuccReachProbs.handProbs E P node gbd buckets sp i) reach p)) 2
      (fun k _ succ => playerBody_guard _ _ _ _ _ _ succ) succ
    constructor
    · intro h
      exact g.1 (fun k hk => by rw [Nat.zero_add]; exact h k hk)
    · intro h
      apply g.2
      by_contra hc
      apply h
      intro p hp
      by_contra hn
      exact hc ⟨p, hp, by rw [Nat.zero_add]; exact hn⟩
  have g := forLoopM_guard 0
    (fun s succ => forLoopM 0 (GetSuccReachProbs.playerBody node.PlayerActing
      (handEnc (E.game.MaxCard + 1) P.hands_ i) s
      (GetSuccReachProbs.handProbs E P node gbd buckets sp i) reach) 2 succ)
    (fun s => ∀ p, p < 2 → okVal (GetSuccReachProbs.prob node.PlayerActing
      (handEnc (E.game.MaxCard + 1) P.hands_ i) s
      (GetSuccReachProbs.handProbs E P node gbd buckets sp i) reach p))
    (fun s succ => forLoop 0 (fun p succ => setReach succ s p
      (handEnc (E.game.MaxCard + 1) P.hands_ i)
      (GetSuccReachProbs.prob node.PlayerActing (handEnc (E.game.MaxCard + 1) P.hands_ i) s
        (GetSuccReachProbs.handProbs E P node gbd buckets sp i) reach p)) 2 succ)
    node.NumSuccs (fun k _ succ => inner (0 + k) succ) succ
  constructor
  · intro h
    exact g.1 (fun k hk => by rw [Nat.zero_add]; exact h k hk)
  · intro h
    apply g.2
    by_contra hc
    apply h
    intro s hs
    by_contra hn
    exact hc ⟨s, hs, by rw [Nat.zero_add]; exact hn⟩

/-- The general case of `GetSuccReachProbs`: it returns the propagated vectors when every value
passes the check and ends the program otherwise. -/
theorem GetSuccReachProbs_general (E : Env) (P : Player) (node : Node) (gbd : Int)
    (buckets : Buckets) (sp : CFRValues) (reach : Nat → Nat → ℚ) (h1 : node.NumSuccs ≠ 1) :
    (AllProbsOk E P node gbd buckets sp reach →
      P.GetSuccReachProbs E node gbd buckets (some sp) reach =
        .ok (propagated E P node gbd buckets sp reach
          (E.game.NumHoleCardPairs E.game.MaxStreet))) ∧
    (¬ AllProbsOk E P node gbd buckets sp reach →
      P.GetSuccReachProbs E node gbd buckets (some sp) reach = .fatal) := by
  have g := forLoopM_guard 0
    (fun i succ => GetSuccReachProbs.handBody E P node gbd buckets sp reach i succ)
    (fun i => ∀ s, s < node.NumSuccs → ∀ p, p < 2 →
      okVal (GetSuccReachProbs.prob node.PlayerActing (handEnc (E.game.MaxCard + 1) P.hands_ i) s
        (GetSuccReachProbs.handProbs E P node gbd buckets sp i) reach p))
    (fun i succ => handUpdate node.PlayerActing (handEnc (E.game.MaxCard + 1) P.hands_ i)
      (GetSuccReachProbs.handProbs E P node gbd buckets sp i) reach node.NumSuccs succ)
    (E.game.NumHoleCardPairs E.game.MaxStreet)
    (fun k _ succ => handBody_guard E P node gbd buckets sp reach (0 + k) succ)
    (fun _ _ => E.uninit)
  have hdef : P.GetSuccReachProbs E node gbd buckets (some sp) reach =
      forLoopM 0 (fun i succ => GetSuccReachProbs.handBody E P node gbd buckets sp reach i succ)
        (E.game.NumHoleCardPairs E.game.MaxStreet) (fun _ _ => E.uninit) := by
    unfold Player.GetSuccReachProbs
    simp only [h1, if_false]
  rw [hdef]
  constructor
  · intro h
    exact g.1 (fun k hk => by rw [Nat.zero_add]; exact h k hk)
  · intro h
    apply g.2
    by_contra hc
    apply h
    intro i hi
    by_contra hn
    exact hc ⟨i, hi, by rw [Nat.zero_add]; exact hn⟩

/-- All propagated entries at the hands processed so far lie in `[0, 1]`. -/
theorem propagated_ok (E : Env) (P : Player) (node : Node) (gbd : Int) (buckets : Buckets)
    (sp : CFRValues) (reach : Nat → Nat → ℚ)
    (hok : AllProbsOk E P node gbd buckets sp reach) (n : Nat)
    (hn : n ≤ E.game.NumHoleCardPairs E.game.MaxStreet) :
    ∀ s, s < node.NumSuccs → ∀ p, p < 2 → ∀ i, i < n →
      okVal (propagated E P node gbd buckets sp reach n s p
        (handEnc (E.game.MaxCard + 1) P.hands_ i)) := by
  induction n with
  | zero => intro s _ p _ i hi; omega
  | succ n ih =>
    intro s hs p hp i hi
    rw [show propagated E P node gbd buckets sp reach (n + 1) =
      handUpdate node.PlayerActing (handEnc (E.game.MaxCard + 1) P.hands_ (0 + n))
        (GetSuccReachProbs.handProbs E P node gbd buckets sp (0 + n)) reach node.NumSuccs
        (propagated E P node gbd buckets sp reach n) from rfl]
    rw [handUpdate_apply, Nat.zero_add]
    by_cases he : handEnc (E.game.MaxCard + 1) P.hands_ i =
        handEnc (E.game.MaxCard + 1) P.hands_ n
    · rw [if_pos ⟨hs, hp, he⟩]
      exact hok n (by omega) s hs p hp
    · have : ¬ (s < node.NumSuccs ∧ p < 2 ∧ handEnc (E.game.MaxCard + 1) P.hands_ i =
          handEnc (E.game.MaxCard + 1) P.hands_ n) := fun h => he h.2.2
      rw [if_neg this]
      have hin : i < n := by
        rcases Nat.lt_succ_iff_lt_or_eq.mp hi with h | h
        · exact h
        · exact absurd (by rw [h]) he
      exact ih (by omega) s hs p hp i hin

/-- Distinct hands have distinct encodings. -/
theorem handEnc_injective (mc H : Nat) (hands : CanonicalCards) (hD : DistinctHands mc H hands)
    (i k : Nat) (hi : i < H) (hk : k < H)
    (he : handEnc (mc + 1) hands i = handEnc (mc + 1) hands k) : i = k := by
  by_contra hne
  apply hD.distinct i hi k hk hne
  unfold handEnc at he
  have b1 := (hD.card_le i hi).2
  have b2 := (hD.card_le k hk).2
  have h1 : (hands.Cards i).2 < mc + 1 := Nat.lt_succ_of_le b1
  have h2 : (hands.Cards k).2 < mc + 1 := Nat.lt_succ_of_le b2
  have hq : ((hands.Cards i).1 * (mc + 1) + (hands.Cards i).2) / (mc + 1) =
      ((hands.Cards k).1 * (mc + 1) + (hands.Cards k).2) / (mc + 1) := by rw [he]
  have hr : ((hands.Cards i).1 * (mc + 1) + (hands.Cards i).2) % (mc + 1) =
      ((hands.Cards k).1 * (mc + 1) + (hands.Cards k).2) % (mc + 1) := by rw [he]
  have hpos : 0 < mc + 1 := Nat.succ_pos mc
  rw [Nat.mul_comm (hands.Cards i).1, Nat.mul_comm (hands.Cards k).1,
    Nat.mul_add_div hpos, Nat.mul_add_div hpos, Nat.div_eq_of_lt h1, Nat.div_eq_of_lt h2,
    Nat.add_zero, Nat.add_zero] at hq
  rw [Nat.mul_comm (hands.Cards i).1, Nat.mul_comm (hands.Cards k).1,
    Nat.mul_add_mod, Nat.mul_add_mod, Nat.mod_eq_of_lt h1, Nat.mod_eq_of_lt h2] at hr
  exact Or.inl ⟨hq, hr⟩

/-- With distinct hands, the propagated entry of a hand is the value computed for that hand. -/
theorem propagated_eq (E : Env) (P : Player) (node : Node) (gbd : Int) (buckets : Buckets)
    (sp : CFRValues) (reach : Nat → Nat → ℚ)
    (hD : DistinctHands E.game.MaxCard (E.game.NumHoleCardPairs E.game.MaxStreet) P.hands_)
    (n : Nat) (hn : n ≤ E.game.NumHoleCardPairs E.game.MaxStreet) :
    ∀ s, s < node.NumSuccs → ∀ p, p < 2 → ∀ i, i < n →
      propagated E P node gbd buckets sp reach n s p (handEnc (E.game.MaxCard + 1) P.hands_ i) =
        GetSuccReachProbs.prob node.PlayerActing (handEnc (E.game.MaxCard + 1) P.hands_ i) s
          (GetSuccReachProbs.handProbs E P node gbd buckets sp i) reach p := by
  induction n with
  | zero => intro s _ p _ i hi; omega
  | succ n ih =>
    intro s hs p hp i hi
    rw [show propagated E P node gbd buckets sp reach (n + 1) =
      handUpdate node.PlayerActing (handEnc (E.game.MaxCard + 1) P.hands_ (0 + n))
        (GetSuccReachProbs.handProbs E P node gbd buckets sp (0 + n)) reach node.NumSuccs
        (propagated E P node gbd buckets sp reach n) from rfl]
    rw [handUpdate_apply, Nat.zero_add]
    by_cases he : handEnc (E.game.MaxCard + 1) P.hands_ i =
        handEnc (E.game.MaxCard + 1) P.hands_ n
    · have hin := handEnc_injective _ _ _ hD i n (by omega) (by omega) he
      subst hin
      rw [if_pos ⟨hs, hp, rfl⟩]
    · have : ¬ (s < node.NumSuccs ∧ p < 2 ∧ handEnc (E.game.MaxCard + 1) P.hands_ i =
          handEnc (E.game.MaxCard + 1) P.hands_ n) := fun h => he h.2.2
      rw [if_neg this]
      have hin : i < n := by
        rcases Nat.lt_succ_iff_lt_or_eq.mp hi with h | h
        · exact h
        · exact absurd (by rw [h]) he
      exact ih (by omega) s hs p hp i hin

theorem copyBody_apply (E : Env) (P : Player) (reach : Nat → Nat → ℚ) (i : Nat)
    (succ : Nat → Nat → Nat → ℚ) (s' p' e' : Nat) :
    GetSuccReachProbs.copyBody E P reach i succ s' p' e' =
      if s' = 0 ∧ p' < 2 ∧ e' = handEnc (E.game.MaxCard + 1) P.hands_ i then reach p' e'
      else succ s' p' e' := by
  rw [show GetSuccReachProbs.copyBody E P reach i succ =
    setReach (setReach succ 0 (0 + 0) (handEnc (E.game.MaxCard + 1) P.hands_ i)
        (reach (0 + 0) (handEnc (E.game.MaxCard + 1) P.hands_ i)))
      0 (0 + 1) (handEnc (E.game.MaxCard + 1) P.hands_ i)
      (reach (0 + 1) (handEnc (E.game.MaxCard + 1) P.hands_ i)) from rfl]
  rw [setReach_apply, setReach_apply]
  simp only [Nat.zero_add]
  by_cases hs : s' = 0
  · by_cases he : e' = handEnc (E.game.MaxCard + 1) P.hands_ i
    · by_cases h1 : p' = 1
      · subst h1; simp [hs, he]
      · by_cases h0 : p' = 0
        · subst h0; simp [hs, he]
        · have : ¬ p' < 2 := by omega
          simp [h1, h0, this]
    · simp [he]
  · simp [hs]

theorem copied_apply (E : Env) (P : Player) (reach : Nat → Nat → ℚ) (n : Nat) :
    ∀ p, p < 2 → ∀ i, i < n →
      copied E P reach n 0 p (handEnc (E.game.MaxCard + 1) P.hands_ i) =
        reach p (handEnc (E.game.MaxCard + 1) P.hands_ i) := by
  induction n with
  | zero => intro p _ i hi; omega
  | succ n ih =>
    intro p hp i hi
    rw [show copied E P reach (n + 1) =
      GetSuccReachProbs.copyBody E P reach (0 + n) (copied E P reach n) from rfl]
    rw [copyBody_apply, Nat.zero_add]
    by_cases he : handEnc (E.game.MaxCard + 1) P.hands_ i =
        handEnc (E.game.MaxCard + 1) P.hands_ n
    · rw [if_pos ⟨rfl, hp, he⟩]
    · have : ¬ (0 = 0 ∧ p < 2 ∧ handEnc (E.game.MaxCard + 1) P.hands_ i =
          handEnc (E.game.MaxCard + 1) P.hands_ n) := fun h => he h.2.2
      rw [if_neg this]
      have hin : i < n := by
        rcases Nat.lt_succ_iff_lt_or_eq.mp hi with h | h
        · exact h
        · exact absurd (by rw [h]) he
      exact ih p hp i hin

/-- The single-successor case of `GetSuccReachProbs` returns the copied vectors, whatever the
board index, bucket map and strategy table. -/
theorem GetSuccReachProbs_single_eq (E : Env) (P : Player) (node : Node) (gbd : Int)
    (buckets : Buckets) (sumprobs : Option CFRValues) (reach : Nat → Nat → ℚ)
    (h1 : node.NumSuccs = 1) :
    P.GetSuccReachProbs E node gbd buckets sumprobs reach =
      .ok (copied E P reach (E.game.NumHoleCardPairs E.game.MaxStreet)) := by
  unfold Player.GetSuccReachProbs
  simp only [h1, if_true]
  rfl

/-! ## The terminal evaluators read the reach vectors at the hands only -/

theorem forLoop_congr {σ : Type} (lo : Nat) (body body' : Nat → σ → σ) (n : Nat)
    (h : ∀ k, k < n → ∀ s, body (lo + k) s = body' (lo + k) s) (s : σ) :
    forLoop lo body n s = forLoop lo body' n s := by
  induction n with
  | zero => rfl
  | succ n ih =>
    simp only [forLoop]
    rw [ih (fun k hk => h k (Nat.lt_succ_of_lt hk)), h n (Nat.lt_succ_self n)]

theorem forLoopM_congr {σ : Type} (lo : Nat) (body body' : Nat → σ → Run σ) (n : Nat)
    (h : ∀ k, k < n → ∀ s, body (lo + k) s = body' (lo + k) s) (s : σ) :
    forLoopM lo body n s = forLoopM lo body' n s := by
  induction n with
  | zero => rfl
  | succ n ih =>
    simp only [forLoopM]
    rw [ih (fun k hk => h k (Nat.lt_succ_of_lt hk))]
    congr 1
    funext s
    exact h n (Nat.lt_succ_self n) s

theorem classStep_congr (hands : CanonicalCards) (H m : Nat) (a a' bp bp' : Nat → ℚ)
    (t : OppTotals) (hp : ℚ) (s : ShowdownState) (hj : s.j ≤ H)
    (ha : AgreeOnHands m H hands a a') (hb : AgreeOnHands m H hands bp bp') :
    Showdown.classStep hands H m a bp t hp s = Showdown.classStep hands H m a' bp' t hp s := by
  obtain ⟨f1, f2, _⟩ := firstPass_spec hands H (hands.HandValue s.j)
    s.opp_cum_prob s.cum_opp_card_probs (H - s.j) s.j s.win_probs
  have h2 : forLoop s.j (Showdown.secondPassBody hands m a)
      ((Showdown.firstPass hands H (hands.HandValue s.j) s.opp_cum_prob s.cum_opp_card_probs
        (H - s.j) s.j s.win_probs).1 - s.j) (s.cum_opp_card_probs, s.opp_cum_prob) =
      forLoop s.j (Showdown.secondPassBody hands m a')
      ((Showdown.firstPass hands H (hands.HandValue s.j) s.opp_cum_prob s.cum_opp_card_probs
        (H - s.j) s.j s.win_probs).1 - s.j) (s.cum_opp_card_probs, s.opp_cum_prob) := by
    apply forLoop_congr
    intro k hk st
    have hkH : s.j + k < H := by have := f2 hj; omega
    unfold Showdown.secondPassBody
    have := ha (s.j + k) hkH
    unfold handEnc at this
    simp only [this]
  have h3 : ∀ (c : Nat → ℚ) (o : ℚ) (w : Nat → ℚ) (x : (Nat → ℚ) × ℚ × ℚ),
      forLoop s.j (Showdown.thirdPassBody hands m a bp t hp c o w)
      ((Showdown.firstPass hands H (hands.HandValue s.j) s.opp_cum_prob s.cum_opp_card_probs
        (H - s.j) s.j s.win_probs).1 - s.j) x =
      forLoop s.j (Showdown.thirdPassBody hands m a' bp' t hp c o w)
      ((Showdown.firstPass hands H (hands.HandValue s.j) s.opp_cum_prob s.cum_opp_card_probs
        (H - s.j) s.j s.win_probs).1 - s.j) x := by
    intro c o w x
    apply forLoop_congr
    intro k hk st
    have hkH : s.j + k < H := by have := f2 hj; omega
    unfold Showdown.thirdPassBody sumConsistentOppProbs
    have e1 := ha (s.j + k) hkH
    have e2 := hb (s.j + k) hkH
    unfold handEnc at e1 e2
    simp only [e1, e2]
  unfold Showdown.classStep
  simp only [h2, h3]

theorem classLoop_congr (hands : CanonicalCards) (H m : Nat) (a a' bp bp' : Nat → ℚ)
    (t : OppTotals) (hp : ℚ)
    (ha : AgreeOnHands m H hands a a') (hb : AgreeOnHands m H hands bp bp') :
    ∀ (n : Nat) (s : ShowdownState), s.j ≤ H →
      Showdown.classLoop hands H m a bp t hp n s = Showdown.classLoop hands H m a' bp' t hp n s := by
  intro n
  induction n with
  | zero => intro s _; rfl
  | succ n ih =>
    intro s hj
    simp only [Showdown.classLoop]
    by_cases hlt : s.j < H
    · simp only [hlt, if_true]
      rw [← classStep_congr hands H m a a' bp bp' t hp s hj ha hb]
      exact ih _ (classStep_spec hands H m a bp t hp s hlt).2.1
    · simp only [hlt, if_false]

theorem Showdown_sums_congr (E : Env) (hands : CanonicalCards) (hp : ℚ) (a a' bp bp' : Nat → ℚ)
    (ha : AgreeOnHands (E.game.MaxCard + 1) (E.game.NumHoleCardPairs E.game.MaxStreet) hands a a')
    (hb : AgreeOnHands (E.game.MaxCard + 1) (E.game.NumHoleCardPairs E.game.MaxStreet) hands
      bp bp') :
    Showdown.sums E hands hp a bp = Showdown.sums E hands hp a' bp' := by
  unfold Showdown.sums
  have ht : ∀ t, forLoopM 0 (Showdown.totalsBody hands (E.game.MaxCard + 1) a)
      (E.game.NumHoleCardPairs E.game.MaxStreet) t =
      forLoopM 0 (Showdown.totalsBody hands (E.game.MaxCard + 1) a')
      (E.game.NumHoleCardPairs E.game.MaxStreet) t := by
    intro t
    apply forLoopM_congr
    intro k hk st
    unfold Showdown.totalsBody
    have := ha (0 + k) (by omega)
    unfold handEnc at this
    simp only [this]
  simp only [ht]
  congr 1
  funext t
  exact classLoop_congr hands _ _ a a' bp bp' t hp ha hb _ _ (Nat.zero_le _)

theorem Fold_sums_congr (E : Env) (hands : CanonicalCards) (hp : ℚ) (a a' bp bp' : Nat → ℚ)
    (ha : AgreeOnHands (E.game.MaxCard + 1) (E.game.NumHoleCardPairs E.game.MaxStreet) hands a a')
    (hb : AgreeOnHands (E.game.MaxCard + 1) (E.game.NumHoleCardPairs E.game.MaxStreet) hands
      bp bp') :
    Fold.sums E hands hp a bp = Fold.sums E hands hp a' bp' := by
  unfold Fold.sums
  have ht : ∀ t, forLoop 0 (Fold.totalsBody hands (E.game.MaxCard + 1) a)
      (E.game.NumHoleCardPairs E.game.MaxStreet) t =
      forLoop 0 (Fold.totalsBody hands (E.game.MaxCard + 1) a')
      (E.game.NumHoleCardPairs E.game.MaxStreet) t := by
    intro t
    apply forLoop_congr
    intro k hk st
    unfold Fold.totalsBody
    have := ha (0 + k) (by omega)
    unfold handEnc at this
    simp only [this]
  simp only [ht]
  apply forLoop_congr
  intro k hk st
  unfold Fold.payoffBody sumConsistentOppProbs
  have e1 := ha (0 + k) (by omega)
  have e2 := hb (0 + k) (by omega)
  unfold handEnc at e1 e2
  simp only [e1, e2]

theorem oppProbs_agree (E : Env) (P : Player) (r r' : Nat → Nat → ℚ)
    (h : ReachAgree E P.hands_ r r') :
    AgreeOnHands (E.game.MaxCard + 1) (E.game.NumHoleCardPairs E.game.MaxStreet) P.hands_
      (P.oppProbs r) (P.oppProbs r') := by
  unfold Player.oppProbs
  by_cases hb : P.b_pos_ = 0
  · simp only [hb, if_true]; exact h 1 (by omega)
  · simp only [hb, if_false]; exact h 0 (by omega)

theorem ourProbs_agree (E : Env) (P : Player) (r r' : Nat → Nat → ℚ)
    (h : ReachAgree E P.hands_ r r') :
    AgreeOnHands (E.game.MaxCard + 1) (E.game.NumHoleCardPairs E.game.MaxStreet) P.hands_
      (P.ourProbs r) (P.ourProbs r') := by
  unfold Player.ourProbs
  by_cases hb : P.b_pos_ = 0
  · simp only [hb, if_true]; exact h 0 (by omega)
  · simp only [hb, if_false]; exact h 1 (by omega)

theorem Player_Showdown_congr (E : Env) (P : Player) (a_node b_node : Node)
    (r r' : Nat → Nat → ℚ) (h : ReachAgree E P.hands_ r r') :
    P.Showdown E a_node b_node r = P.Showdown E a_node b_node r' := by
  unfold Player.Showdown
  simp only [Showdown_sums_congr E P.hands_ _ _ _ _ _ (oppProbs_agree E P r r' h)
    (ourProbs_agree E P r r' h)]

theorem Player_Fold_congr (E : Env) (P : Player) (a_node b_node : Node)
    (r r' : Nat → Nat → ℚ) (h : ReachAgree E P.hands_ r r') :
    P.Fold E a_node b_node r = P.Fold E a_node b_node r' := by
  unfold Player.Fold
  simp only [Fold_sums_congr E P.hands_ _ _ _ _ _ (oppProbs_agree E P r r' h)
    (ourProbs_agree E P r r' h)]

/-! ## Reach propagation: the statements -/

/-- C8.  Reach propagation through a nonterminal with at least two successors, for distinct
hands: when `GetSuccReachProbs` returns, for every hand of the final-street board and every
successor `s`, the acting player's entry is `reach[pa][enc] * probs[s]`, with `probs` the
array `RMProbs` fills for that hand's offset, and the other player's entry is copied.  So when
`probs` sums to 1 the acting player's entries sum over `s` to `reach[pa][enc]`. -/
theorem GetSuccReachProbs_propagation (E : Env) (P : Player) (node : Node) (gbd : Int)
    (buckets : Buckets) (sp : CFRValues) (reach : Nat → Nat → ℚ)
    (succ : Nat → Nat → Nat → ℚ)
    (hD : DistinctHands E.game.MaxCard (E.game.NumHoleCardPairs E.game.MaxStreet) P.hands_)
    (h2 : 2 ≤ node.NumSuccs)
    (hret : P.GetSuccReachProbs E node gbd buckets (some sp) reach = .ok succ) :
    (∀ i, i < E.game.NumHoleCardPairs E.game.MaxStreet → ∀ s, s < node.NumSuccs →
      ∀ p, p < 2 →
        succ s p (handEnc (E.game.MaxCard + 1) P.hands_ i) =
          if p = node.PlayerActing then
            reach p (handEnc (E.game.MaxCard + 1) P.hands_ i) *
              GetSuccReachProbs.handProbs E P node gbd buckets sp i s
          else reach p (handEnc (E.game.MaxCard + 1) P.hands_ i)) ∧
    (∀ i, i < E.game.NumHoleCardPairs E.game.MaxStreet → node.PlayerActing < 2 →
      ∑ s ∈ Finset.range node.NumSuccs,
          GetSuccReachProbs.handProbs E P node gbd buckets sp i s = 1 →
      ∑ s ∈ Finset.range node.NumSuccs,
          succ s node.PlayerActing (handEnc (E.game.MaxCard + 1) P.hands_ i) =
        reach node.PlayerActing (handEnc (E.game.MaxCard + 1) P.hands_ i)) := by
  have h1 : node.NumSuccs ≠ 1 := by omega
  obtain ⟨g1, g2⟩ := GetSuccReachProbs_general E P node gbd buckets sp reach h1
  have hok : AllProbsOk E P node gbd buckets sp reach := by
    by_contra hc
    rw [g2 hc] at hret
    exact absurd hret (by simp)
  rw [g1 hok] at hret
  injection hret with hret
  have hval : ∀ i, i < E.game.NumHoleCardPairs E.game.MaxStreet → ∀ s, s < node.NumSuccs →
      ∀ p, p < 2 →
        succ s p (handEnc (E.game.MaxCard + 1) P.hands_ i) =
          if p = node.PlayerActing then
            reach p (handEnc (E.game.MaxCard + 1) P.hands_ i) *
              GetSuccReachProbs.handProbs E P node gbd buckets sp i s
          else reach p (handEnc (E.game.MaxCard + 1) P.hands_ i) := by
    intro i hi s hs p hp
    rw [← hret, propagated_eq E P node gbd buckets sp reach hD _ (le_refl _) s hs p hp i hi]
    rfl
  refine ⟨hval, ?_⟩
  intro i hi hpa hsum
  have : ∀ s, s ∈ Finset.range node.NumSuccs →
      succ s node.PlayerActing (handEnc (E.game.MaxCard + 1) P.hands_ i) =
        reach node.PlayerActing (handEnc (E.game.MaxCard + 1) P.hands_ i) *
          GetSuccReachProbs.handProbs E P node gbd buckets sp i s := by
    intro s hs
    rw [Finset.mem_range] at hs
    rw [hval i hi s hs _ hpa, if_pos rfl]
  rw [Finset.sum_congr rfl this, ← Finset.mul_sum, hsum, mul_one]

/-- C9.  Single-successor identity: at a node with exactly one successor `GetSuccReachProbs`
returns, the same vectors whatever board index, bucket map and strategy table (even a missing
one) it is given; for both players and every hand of the final-street board the successor
entry equals the parent's; and `Showdown` and `Fold` evaluated on the successor vectors give
what they give on the parent's vectors. -/
theorem GetSuccReachProbs_single_successor (E : Env) (P : Player) (node : Node) (gbd : Int)
    (buckets : Buckets) (sumprobs : Option CFRValues) (reach : Nat → Nat → ℚ)
    (h1 : node.NumSuccs = 1) :
    ∃ succ, P.GetSuccReachProbs E node gbd buckets sumprobs reach = .ok succ ∧
      (∀ gbd' buckets' sumprobs',
        P.GetSuccReachProbs E node gbd' buckets' sumprobs' reach = .ok succ) ∧
      (∀ p, p < 2 → ∀ i, i < E.game.NumHoleCardPairs E.game.MaxStreet →
        succ 0 p (handEnc (E.game.MaxCard + 1) P.hands_ i) =
          reach p (handEnc (E.game.MaxCard + 1) P.hands_ i)) ∧
      (∀ a_node b_node, P.Showdown E a_node b_node (succ 0) = P.Showdown E a_node b_node reach) ∧
      (∀ a_node b_node, P.Fold E a_node b_node (succ 0) = P.Fold E a_node b_node reach) := by
  have hag : ReachAgree E P.hands_
      (copied E P reach (E.game.NumHoleCardPairs E.game.MaxStreet) 0) reach :=
    fun p hp i hi => copied_apply E P reach _ p hp i hi
  exact ⟨_, GetSuccReachProbs_single_eq E P node gbd buckets sumprobs reach h1,
    fun gbd' buckets' sumprobs' =>
      GetSuccReachProbs_single_eq E P node gbd' buckets' sumprobs' reach h1,
    fun p hp i hi => copied_apply E P reach _ p hp i hi,
    fun a_node b_node => Player_Showdown_congr E P a_node b_node _ _ hag,
    fun a_node b_node => Player_Fold_congr E P a_node b_node _ _ hag⟩

theorem exAllProbsOk : AllProbsOk exEnv exPlayer exTree 0 exBuckets exProbs exReach := by
  intro i _ s _ p _
  unfold GetSuccReachProbs.prob GetSuccReachProbs.handProbs okVal
  simp only [exReach, exProbs]
  split_ifs <;> norm_num

theorem GetSuccReachProbs_propagation_witness :
    ∃ succ, exPlayer.GetSuccReachProbs exEnv exTree 0 exBuckets (some exProbs) exReach =
        .ok succ ∧
      ∀ i, i < exEnv.game.NumHoleCardPairs exEnv.game.MaxStreet → ∀ s, s < exTree.NumSuccs →
        ∀ p, p < 2 →
          succ s p (handEnc (exEnv.game.MaxCard + 1) exPlayer.hands_ i) =
            if p = exTree.PlayerActing then
              exReach p (handEnc (exEnv.game.MaxCard + 1) exPlayer.hands_ i) *
                GetSuccReachProbs.handProbs exEnv exPlayer exTree 0 exBuckets exProbs i s
            else exReach p (handEnc (exEnv.game.MaxCard + 1) exPlayer.hands_ i) :=
  ⟨_, (GetSuccReachProbs_general exEnv exPlayer exTree 0 exBuckets exProbs exReach
      (by decide)).1 exAllProbsOk,
    (GetSuccReachProbs_propagation exEnv exPlayer exTree 0 exBuckets exProbs exReach _
      exHands_distinct (by decide)
      ((GetSuccReachProbs_general exEnv exPlayer exTree 0 exBuckets exProbs exReach
        (by decide)).1 exAllProbsOk)).1⟩

theorem GetSuccReachProbs_single_successor_witness :
    ∃ succ, exPlayer.GetSuccReachProbs exEnv exCheckNode 0 exBuckets none exReach = .ok succ ∧
      (∀ gbd' buckets' sumprobs',
        exPlayer.GetSuccReachProbs exEnv exCheckNode gbd' buckets' sumprobs' exReach =
          .ok succ) ∧
      (∀ p, p < 2 → ∀ i, i < exEnv.game.NumHoleCardPairs exEnv.game.MaxStreet →
        succ 0 p (handEnc (exEnv.game.MaxCard + 1) exPlayer.hands_ i) =
          exReach p (handEnc (exEnv.game.MaxCard + 1) exPlayer.hands_ i)) ∧
      (∀ a_node b_node,
        exPlayer.Showdown exEnv a_node b_node (succ 0) =
          exPlayer.Showdown exEnv a_node b_node exReach) ∧
      (∀ a_node b_node,
        exPlayer.Fold exEnv a_node b_node (succ 0) = exPlayer.Fold exEnv a_node b_node exReach) :=
  GetSuccReachProbs_single_successor exEnv exPlayer exCheckNode 0 exBuckets none exReach
    (by decide)

theorem resolveA_off (E : Env) (P : Player) (a : Node) (seq : String) (reach : Nat → Nat → ℚ)
    (h : P.resolve_a_ = false) : Walk.resolveA E P a seq reach = (P, a) := by
  simp only [Walk.resolveA, h, Bool.false_eq_true, if_false]

theorem resolveB_off (E : Env) (P : Player) (b : Node) (st : Nat) (seq : String)
    (reach : Nat → Nat → ℚ) (h : P.resolve_b_ = false) :
    Walk.resolveB E P b st seq reach = (P, b) := by
  simp only [Walk.resolveB, h, Bool.false_eq_true, if_false]

/-- `Walk` when neither side resolves: the boundary branch recurses on the same nodes. -/
theorem Walk_succ (E : Env) (n : Nat) (P : Player) (a b : Node) (seq : String)
    (reach : Nat → Nat → ℚ) (last : Int) (hno : NoResolve P) :
    Player.Walk E (n + 1) P a b seq reach last =
      if (a.Street : Int) > last ∧ (a.Street : Int) = P.resolve_st_ then
        Player.Walk E n (P.logged ⟨a, b, reach, last⟩) a b seq reach (a.Street : Int)
      else if a.Terminal = true then
        if b.Terminal = false then .fatal
        else if a.Showdown = true then (P.logged ⟨a, b, reach, last⟩).Showdown E a b reach
        else .ok ((P.logged ⟨a, b, reach, last⟩).Fold E a b reach)
      else
        if b.Terminal = true then .fatal
        else (P.logged ⟨a, b, reach, last⟩).Nonterminal E (Player.Walk E n) a b seq reach := by
  obtain ⟨ha, hb⟩ := hno
  have h1 := resolveA_off E (P.logged ⟨a, b, reach, last⟩) a seq reach ha
  have h2 := resolveB_off E (P.logged ⟨a, b, reach, last⟩) b a.Street seq reach hb
  unfold Player.logged at h1 h2 ⊢
  rw [Player.Walk]
  simp only [h1, h2]

theorem forLoopM_invariant {σ : Type} (lo : Nat) (body : Nat → σ → Run σ) (n : Nat)
    (I : σ → Prop)
    (h : ∀ k, k < n → ∀ s s', I s → body (lo + k) s = .ok s' → I s') :
    ∀ s s', I s → forLoopM lo body n s = .ok s' → I s' := by
  induction n with
  | zero =>
    intro s s' hI hr
    injection hr with hr
    exact hr ▸ hI
  | succ n ih =>
    intro s s' hI hr
    simp only [forLoopM] at hr
    cases hm : forLoopM lo body n s with
    | ok m =>
      rw [hm] at hr
      exact h n (Nat.lt_succ_self n) m s' (ih (fun k hk => h k (Nat.lt_succ_of_lt hk)) s m hI hm) hr
    | fatal => rw [hm] at hr; exact absurd hr (by simp [Run.bind])
    | undefined => rw [hm] at hr; exact absurd hr (by simp [Run.bind])
    | out_of_fuel => rw [hm] at hr; exact absurd hr (by simp [Run.bind])

theorem forLoopM_undefined {σ : Type} (lo n : Nat) (s : σ) :
    forLoopM lo (fun _ _ => (Run.undefined : Run σ)) (n + 1) s = .undefined := by
  induction n with
  | zero => rfl
  | succ n ih =>
    rw [show forLoopM lo (fun _ _ => (Run.undefined : Run σ)) (n + 1 + 1) s =
      (forLoopM lo (fun _ _ => (Run.undefined : Run σ)) (n + 1) s).bind
        (fun _ => Run.undefined) from rfl, ih]
    rfl

/-- The successor vectors `GetSuccReachProbs` returns have their entries at the hands within
`[0, 1]` when the parent's vectors have. -/
theorem GetSuccReachProbs_okReach (E : Env) (P : Player) (node : Node) (gbd : Int)
    (buckets : Buckets) (sumprobs : Option CFRValues) (reach : Nat → Nat → ℚ)
    (succ : Nat → Nat → Nat → ℚ) (hr : OkReach E P.hands_ reach)
    (hret : P.GetSuccReachProbs E node gbd buckets sumprobs reach = .ok succ) :
    ∀ s, s < node.NumSuccs → OkReach E P.hands_ (succ s) := by
  intro s hs
  by_cases h1 : node.NumSuccs = 1
  · rw [GetSuccReachProbs_single_eq E P node gbd buckets sumprobs reach h1] at hret
    injection hret with hret
    have hs0 : s = 0 := by omega
    subst hs0
    intro p hp i hi
    rw [← hret, copied_apply E P reach _ p hp i hi]
    exact hr p hp i hi
  · cases sumprobs with
    | none =>
      intro p hp i hi
      exfalso
      have hH : E.game.NumHoleCardPairs E.game.MaxStreet =
          (E.game.NumHoleCardPairs E.game.MaxStreet - 1) + 1 := by omega
      unfold Player.GetSuccReachProbs at hret
      simp only [h1, if_false] at hret
      rw [hH, forLoopM_undefined] at hret
      exact absurd hret (by simp)
    | some sp =>
      obtain ⟨g1, g2⟩ := GetSuccReachProbs_general E P node gbd buckets sp reach h1
      by_cases hok : AllProbsOk E P node gbd buckets sp reach
      · rw [g1 hok] at hret
        injection hret with hret
        intro p hp i hi
        rw [← hret]
        exact propagated_ok E P node gbd buckets sp reach hok _ (le_refl _) s hs p hp i hi
      · rw [g2 hok] at hret
        exact absurd hret (by simp)

theorem WalkFrame_refl (E : Env) (P : Player) : WalkFrame E P P :=
  ⟨rfl, [], by simp, fun c hc => absurd hc (List.not_mem_nil c)⟩

theorem WalkFrame_trans (E : Env) (P Q R : Player) (h1 : WalkFrame E P Q)
    (h2 : WalkFrame E Q R) : WalkFrame E P R := by
  obtain ⟨c1, L1, e1, o1⟩ := h1
  obtain ⟨c2, L2, e2, o2⟩ := h2
  have hh : Q.hands_ = P.hands_ :=
    (congrArg Player.hands_ c1 : Q.cfg.hands_ = P.cfg.hands_)
  refine ⟨c2.trans c1, L1 ++ L2, by rw [e2, e1, List.append_assoc], ?_⟩
  intro c hc
  rcases List.mem_append.mp hc with h | h
  · exact o1 c h
  · exact hh ▸ o2 c h

theorem WalkFrame_logged (E : Env) (P : Player) (c : WalkCall)
    (hc : OkReach E P.hands_ c.reach_probs) : WalkFrame E P (P.logged c) :=
  ⟨rfl, [c], rfl, fun d hd => by rw [List.mem_singleton.mp hd]; exact hc⟩

theorem WalkFrame_accumulate (E : Env) (P : Player) (x y : ℚ) :
    WalkFrame E P (P.accumulate x y) :=
  ⟨rfl, [], by simp [Player.accumulate], fun c hc => absurd hc (List.not_mem_nil c)⟩

theorem NoResolve_of_cfg (P Q : Player) (h : Q.cfg = P.cfg) (hno : NoResolve P) : NoResolve Q :=
  ⟨(congrArg Player.resolve_a_ h : Q.cfg.resolve_a_ = P.cfg.resolve_a_).trans hno.1,
   (congrArg Player.resolve_b_ h : Q.cfg.resolve_b_ = P.cfg.resolve_b_).trans hno.2⟩

theorem Nonterminal_eq (E : Env)
    (walk : Player → Node → Node → String → (Nat → Nat → ℚ) → Int → Run Player)
    (P : Player) (a b : Node) (seq : String) (reach : Nat → Nat → ℚ) :
    P.Nonterminal E walk a b seq reach =
      (P.GetSuccReachProbs E (Nonterminal.lookupNode P a b a.PlayerActing)
        (Nonterminal.lookupBoard P a.Street a.PlayerActing)
        (Nonterminal.buckets P a.Street a.PlayerActing)
        (Nonterminal.sumprobs E P a.Street a.PlayerActing) reach).bind
      (fun succ => forLoopM 0
        (Nonterminal.succBody walk a b (Nonterminal.lookupNode P a b a.PlayerActing) seq succ
          a.Street) a.NumSuccs P) := rfl

/-- One iteration of the loop over the successors, when it returns. -/
theorem succBody_ok (walk : Player → Node → Node → String → (Nat → Nat → ℚ) → Int → Run Player)
    (a b node : Node) (seq : String) (succ : Nat → Nat → Nat → ℚ) (st k : Nat) (R R' : Player)
    (h : Nonterminal.succBody walk a b node seq succ st k R = .ok R') :
    ∃ a' b', a.IthSucc k = some a' ∧ b.IthSucc k = some b' ∧ k < node.NumSuccs ∧
      walk R a' b' (seq ++ a.ActionName k) (succ k) (st : Int) = .ok R' := by
  unfold Nonterminal.succBody at h
  cases ha : a.IthSucc k with
  | none => simp only [ha] at h; exact absurd h (by simp)
  | some a' =>
    cases hb : b.IthSucc k with
    | none => simp only [ha, hb] at h; exact absurd h (by simp)
    | some b' =>
      simp only [ha, hb] at h
      by_cases hk : k < node.NumSuccs
      · rw [if_pos hk] at h
        exact ⟨a', b', rfl, rfl, hk, h⟩
      · rw [if_neg hk] at h
        exact absurd h (by simp)

/-- One iteration of the loop over the successors, on existing successors. -/
theorem succBody_some (walk : Player → Node → Node → String → (Nat → Nat → ℚ) → Int → Run Player)
    (a b node : Node) (seq : String) (succ : Nat → Nat → Nat → ℚ) (st k : Nat) (R : Player)
    (a' b' : Node) (ha : a.IthSucc k = some a') (hb : b.IthSucc k = some b')
    (hk : k < node.NumSuccs) :
    Nonterminal.succBody walk a b node seq succ st k R =
      walk R a' b' (seq ++ a.ActionName k) (succ k) (st : Int) := by
  unfold Nonterminal.succBody
  simp only [ha, hb, hk, if_true]

/-- A walk without resolving that returns leaves the state framed, after recording its own
invocation. -/
theorem Walk_frame_logged (E : Env) : ∀ (n : Nat) (P : Player) (a b : Node) (seq : String)
    (reach : Nat → Nat → ℚ) (last : Int) (Q : Player), NoResolve P →
    OkReach E P.hands_ reach → Player.Walk E n P a b seq reach last = .ok Q →
    WalkFrame E (P.logged ⟨a, b, reach, last⟩) Q := by
  intro n
  induction n with
  | zero =>
    intro P a b seq reach last Q _ _ h
    exact absurd h (by simp [Player.Walk])
  | succ n ih =>
    intro P a b seq reach last Q hno hr h
    rw [Walk_succ E n P a b seq reach last hno] at h
    have hlog := WalkFrame_logged E P ⟨a, b, reach, last⟩ hr
    have hno1 : NoResolve (P.logged ⟨a, b, reach, last⟩) := hno
    have hr1 : OkReach E (P.logged ⟨a, b, reach, last⟩).hands_ reach := hr
    by_cases c1 : (a.Street : Int) > last ∧ (a.Street : Int) = P.resolve_st_
    · rw [if_pos c1] at h
      exact WalkFrame_trans E _ _ _ (WalkFrame_logged E _ _ hr1) (ih _ a b seq reach _ Q hno1 hr1 h)
    · rw [if_neg c1] at h
      by_cases c2 : a.Terminal = true
      · rw [if_pos c2] at h
        by_cases c3 : b.Terminal = false
        · rw [if_pos c3] at h
          exact absurd h (by simp)
        · rw [if_neg c3] at h
          by_cases c4 : a.Showdown = true
          · rw [if_pos c4] at h
            rcases Player_Showdown_cases E (P.logged ⟨a, b, reach, last⟩) a b reach with
              hf | ⟨x, y, hx⟩
            · rw [hf] at h; exact absurd h (by simp)
            · rw [hx] at h
              injection h with h
              rw [← h]
              exact WalkFrame_accumulate E _ x y
          · rw [if_neg c4] at h
            injection h with h
            rw [← h]
            exact WalkFrame_accumulate E _ _ _
      · rw [if_neg c2] at h
        by_cases c5 : b.Terminal = true
        · rw [if_pos c5] at h
          exact absurd h (by simp)
        · rw [if_neg c5] at h
          rw [Nonterminal_eq] at h
          cases hg : (P.logged ⟨a, b, reach, last⟩).GetSuccReachProbs E
              (Nonterminal.lookupNode (P.logged ⟨a, b, reach, last⟩) a b a.PlayerActing)
              (Nonterminal.lookupBoard (P.logged ⟨a, b, reach, last⟩) a.Street a.PlayerActing)
              (Nonterminal.buckets (P.logged ⟨a, b, reach, last⟩) a.Street a.PlayerActing)
              (Nonterminal.sumprobs E (P.logged ⟨a, b, reach, last⟩) a.Street a.PlayerActing)
              reach with
          | ok succ =>
            rw [hg] at h
            have hsucc := GetSuccReachProbs_okReach E _ _ _ _ _ reach succ hr1 hg
            refine forLoopM_invariant 0 _ a.NumSuccs
              (fun R => WalkFrame E (P.logged ⟨a, b, reach, last⟩) R) ?_ _ Q
              (WalkFrame_refl E _) h
            intro k _ R R' hR hstep
            rw [Nat.zero_add] at hstep
            obtain ⟨a', b', _, _, hk, hw⟩ := succBody_ok _ _ _ _ _ _ _ _ _ _ hstep
            have hcfg : R.cfg = (P.logged ⟨a, b, reach, last⟩).cfg := hR.1
            have hh : R.hands_ = P.hands_ :=
              (congrArg Player.hands_ hcfg : R.cfg.hands_ = _)
            have hrR : OkReach E R.hands_ (succ k) := by rw [hh]; exact hsucc k hk
            exact WalkFrame_trans E _ _ _ hR
              (WalkFrame_trans E _ _ _ (WalkFrame_logged E R _ hrR)
                (ih R a' b' _ (succ k) _ R' (NoResolve_of_cfg _ _ hcfg hno1) hrR hw))
          | fatal => rw [hg] at h; exact absurd h (by simp [Run.bind])
          | undefined => rw [hg] at h; exact absurd h (by simp [Run.bind])
          | out_of_fuel => rw [hg] at h; exact absurd h (by simp [Run.bind])

/-- A walk without resolving that returns leaves the state framed. -/
theorem Walk_frame (E : Env) (n : Nat) (P : Player) (a b : Node) (seq : String)
    (reach : Nat → Nat → ℚ) (last : Int) (Q : Player) (hno : NoResolve P)
    (hr : OkReach E P.hands_ reach) (h : Player.Walk E n P a b seq reach last = .ok Q) :
    WalkFrame E P Q :=
  WalkFrame_trans E _ _ _ (WalkFrame_logged E P ⟨a, b, reach, last⟩ hr)
    (Walk_frame_logged E n P a b seq reach last Q hno hr h)

theorem wellFormed_seatOk (h : Nat) (n : Node) (hw : n.wellFormed h = true) :
    n.seatOk = true := by
  cases h with
  | zero => simp only [Node.wellFormed, Bool.and_eq_true] at hw; exact hw.1
  | succ h => simp only [Node.wellFormed, Bool.and_eq_true] at hw; exact hw.1

theorem wellFormed_child (h : Nat) (n c : Node) (k : Nat) (hw : n.wellFormed h = true)
    (hc : n.IthSucc k = some c) : ∃ h', h = h' + 1 ∧ c.wellFormed h' = true := by
  have hmem : c ∈ n.succs := List.get?_mem hc
  cases h with
  | zero =>
    simp only [Node.wellFormed, Bool.and_eq_true, List.isEmpty_iff] at hw
    rw [hw.2] at hmem
    exact absurd hmem (List.not_mem_nil c)
  | succ h =>
    simp only [Node.wellFormed, Bool.and_eq_true, List.all_eq_true] at hw
    exact ⟨h, rfl, hw.2 c hmem⟩

theorem IthSucc_some (n : Node) (k : Nat) (hk : k < n.NumSuccs) :
    ∃ c, n.IthSucc k = some c := by
  unfold Node.IthSucc
  exact ⟨n.succs.get ⟨k, hk⟩, List.get?_eq_get hk⟩

theorem seatOk_nonterminal (n : Node) (hs : n.seatOk = true) (ht : ¬ n.Terminal = true) :
    n.PlayerActing < 2 := by
  unfold Node.seatOk at hs
  simp only [Bool.or_eq_true, Bool.and_eq_true, decide_eq_true_eq] at hs
  rcases hs with h | h
  · exact absurd h.1 ht
  · exact h

theorem seatOk_fold (n : Node) (hs : n.seatOk = true) (ht : ¬ n.Showdown = true) :
    n.PlayerActing < 2 := by
  unfold Node.seatOk at hs
  simp only [Bool.or_eq_true, Bool.and_eq_true, decide_eq_true_eq] at hs
  rcases hs with h | h
  · exact absurd h.2 ht
  · exact h

/-- Without resolving, `Nonterminal` reads the base strategy of the side to act. -/
theorem Nonterminal_sumprobs_off (E : Env) (P : Player) (st pa : Nat) (hno : NoResolve P) :
    Nonterminal.sumprobs E P st pa = some (if pa = P.b_pos_ then P.b_probs_ else P.a_probs_) := by
  unfold Nonterminal.sumprobs
  rw [hno.1, hno.2]
  by_cases h : pa = P.b_pos_ <;> simp [h]

/-- Without resolving, `Nonterminal` reads the base buckets of the side to act. -/
theorem Nonterminal_buckets_off (P : Player) (st pa : Nat) (hno : NoResolve P) :
    Nonterminal.buckets P st pa =
      (if pa = P.b_pos_ then P.b_base_buckets_ else P.a_base_buckets_) := by
  unfold Nonterminal.buckets
  rw [hno.1, hno.2]
  by_cases h : pa = P.b_pos_ <;> simp [h]

/-- With probabilities in the table and reach vectors within `[0, 1]`, every value the
propagation step computes passes its check. -/
theorem AllProbsOk_of_valid (E : Env) (P : Player) (node : Node) (gbd : Int) (buckets : Buckets)
    (sp : CFRValues) (reach : Nat → Nat → ℚ) (hv : ValidStrategy sp)
    (hr : OkReach E P.hands_ reach) : AllProbsOk E P node gbd buckets sp reach := by
  intro i hi s _ p hp
  unfold GetSuccReachProbs.prob
  have h1 := hr p hp i hi
  have h2 : okVal (GetSuccReachProbs.handProbs E P node gbd buckets sp i s) := hv _ _ _ _ _ _ _
  by_cases hpa : p = node.PlayerActing
  · rw [if_pos hpa]
    unfold okVal at h1 h2 ⊢
    exact ⟨mul_nonneg h1.1 h2.1, mul_le_one₀ h1.2 h2.1 h2.2⟩
  · rw [if_neg hpa]
    exact h1

theorem forLoopM_total {σ : Type} (lo : Nat) (body : Nat → σ → Run σ) (n : Nat)
    (I : σ → Prop) (h : ∀ k, k < n → ∀ s, I s → ∃ s', body (lo + k) s = .ok s' ∧ I s') :
    ∀ s, I s → ∃ s', forLoopM lo body n s = .ok s' ∧ I s' := by
  induction n with
  | zero => intro s hI; exact ⟨s, rfl, hI⟩
  | succ n ih =>
    intro s hI
    obtain ⟨m, hm, hIm⟩ := ih (fun k hk => h k (Nat.lt_succ_of_lt hk)) s hI
    obtain ⟨s', hs', hIs'⟩ := h n (Nat.lt_succ_self n) m hIm
    exact ⟨s', by simp only [forLoopM, hm, Run.bind]; exact hs', hIs'⟩

theorem cfg_a_probs (P Q : Player) (h : Q.cfg = P.cfg) : Q.a_probs_ = P.a_probs_ :=
  (congrArg Player.a_probs_ h : Q.cfg.a_probs_ = P.cfg.a_probs_)

theorem cfg_b_probs (P Q : Player) (h : Q.cfg = P.cfg) : Q.b_probs_ = P.b_probs_ :=
  (congrArg Player.b_probs_ h : Q.cfg.b_probs_ = P.cfg.b_probs_)

theorem cfg_hands (P Q : Player) (h : Q.cfg = P.cfg) : Q.hands_ = P.hands_ :=
  (congrArg Player.hands_ h : Q.cfg.hands_ = P.cfg.hands_)

/-- A walk of one tree against itself, without resolving, returns when the strategy tables hold
probabilities, the reach vectors are within `[0, 1]` and the budget covers twice the depth. -/
theorem Walk_total (E : Env) : ∀ (n : Nat) (P : Player) (a : Node) (seq : String)
    (reach : Nat → Nat → ℚ) (last : Int) (h : Nat), NoResolve P →
    OkReach E P.hands_ reach → ValidStrategy P.a_probs_ → ValidStrategy P.b_probs_ →
    a.wellFormed h = true →
    (2 * h + 2 ≤ n ∨
      (2 * h + 1 ≤ n ∧ ¬ ((a.Street : Int) > last ∧ (a.Street : Int) = P.resolve_st_))) →
    ∃ Q, Player.Walk E n P a a seq reach last = .ok Q := by
  intro n
  induction n with
  | zero =>
    intro P a seq reach last h _ _ _ _ _ hf
    omega
  | succ n ih =>
    intro P a seq reach last h hno hr hva hvb hw hf
    rw [Walk_succ E n P a a seq reach last hno]
    have hno1 : NoResolve (P.logged ⟨a, a, reach, last⟩) := hno
    have hr1 : OkReach E (P.logged ⟨a, a, reach, last⟩).hands_ reach := hr
    by_cases c1 : (a.Street : Int) > last ∧ (a.Street : Int) = P.resolve_st_
    · rw [if_pos c1]
      have hfuel : 2 * h + 1 ≤ n := by
        rcases hf with hf | hf
        · omega
        · exact absurd c1 hf.2
      exact ih _ a seq reach _ h hno1 hr1 hva hvb hw
        (Or.inr ⟨hfuel, fun hc => absurd hc.1 (lt_irrefl _)⟩)
    · rw [if_neg c1]
      have hfuel : 2 * h ≤ n := by
        rcases hf with hf | hf <;> omega
      by_cases c2 : a.Terminal = true
      · rw [if_pos c2]
        have c3 : ¬ a.Terminal = false := by rw [c2]; simp
        rw [if_neg c3]
        by_cases c4 : a.Showdown = true
        · rw [if_pos c4]
          obtain ⟨x, y, hx⟩ := Player_Showdown_ok E (P.logged ⟨a, a, reach, last⟩) a a reach hr1
          exact ⟨_, hx⟩
        · rw [if_neg c4]
          exact ⟨_, rfl⟩
      · rw [if_neg c2, if_neg c2]
        rw [Nonterminal_eq]
        have hsp := Nonterminal_sumprobs_off E (P.logged ⟨a, a, reach, last⟩) a.Street
          a.PlayerActing hno1
        have hnode : Nonterminal.lookupNode (P.logged ⟨a, a, reach, last⟩) a a a.PlayerActing =
            a := by
          unfold Nonterminal.lookupNode
          split_ifs <;> rfl
        rw [hsp, hnode]
        have hv : ValidStrategy (if a.PlayerActing = (P.logged ⟨a, a, reach, last⟩).b_pos_ then
            (P.logged ⟨a, a, reach, last⟩).b_probs_
            else (P.logged ⟨a, a, reach, last⟩).a_probs_) := by
          split_ifs
          · exact hvb
          · exact hva
        have hget : ∃ succ, (P.logged ⟨a, a, reach, last⟩).GetSuccReachProbs E a
            (Nonterminal.lookupBoard (P.logged ⟨a, a, reach, last⟩) a.Street a.PlayerActing)
            (Nonterminal.buckets (P.logged ⟨a, a, reach, last⟩) a.Street a.PlayerActing)
            (some (if a.PlayerActing = (P.logged ⟨a, a, reach, last⟩).b_pos_ then
              (P.logged ⟨a, a, reach, last⟩).b_probs_
              else (P.logged ⟨a, a, reach, last⟩).a_probs_)) reach = .ok succ := by
          by_cases h1 : a.NumSuccs = 1
          · exact ⟨_, GetSuccReachProbs_single_eq E _ a _ _ _ reach h1⟩
          · exact ⟨_, (GetSuccReachProbs_general E _ a _ _ _ reach h1).1
              (AllProbsOk_of_valid E _ a _ _ _ reach hv hr1)⟩
        obtain ⟨succ, hg⟩ := hget
        have hsucc := GetSuccReachProbs_okReach E _ _ _ _ _ reach succ hr1 hg
        rw [hg]
        obtain ⟨Q, hQ, _⟩ := forLoopM_total 0
          (Nonterminal.succBody (Player.Walk E n) a a a seq succ a.Street)
          a.NumSuccs (fun R => WalkFrame E (P.logged ⟨a, a, reach, last⟩) R)
          (by
            intro k hk R hR
            obtain ⟨c, hc⟩ := IthSucc_some a k hk
            obtain ⟨h', hh', hwc⟩ := wellFormed_child h a c k hw hc
            have hcfg : R.cfg = (P.logged ⟨a, a, reach, last⟩).cfg := hR.1
            have hnoR := NoResolve_of_cfg _ _ hcfg hno1
            have hrR : OkReach E R.hands_ (succ k) := by
              rw [cfg_hands _ _ hcfg]; exact hsucc k hk
            have hvaR : ValidStrategy R.a_probs_ := by rw [cfg_a_probs _ _ hcfg]; exact hva
            have hvbR : ValidStrategy R.b_probs_ := by rw [cfg_b_probs _ _ hcfg]; exact hvb
            obtain ⟨T, hT⟩ := ih R c (seq ++ a.ActionName k) (succ k) (a.Street : Int) h' hnoR
              hrR hvaR hvbR hwc (Or.inl (by omega))
            refine ⟨T, ?_, WalkFrame_trans E _ _ _ hR (Walk_frame E n R c c _ _ _ T hnoR hrR hT)⟩
            rw [Nat.zero_add, succBody_some _ _ _ _ _ _ _ _ _ c c hc hc hk]
            exact hT)
          (P.logged ⟨a, a, reach, last⟩) (WalkFrame_refl E _)
        exact ⟨Q, hQ⟩

theorem setup_hands (E : Env) (P : Player) (msbd : Int) :
    (ProcessMaxStreetBoard.setup E P msbd).hands_ = boardHands E msbd := rfl

theorem onesAt_apply (m : Nat) (hands : CanonicalCards) (u : Nat → ℚ) (n : Nat) :
    ∀ i, i < n →
      forLoop 0 (fun i arr => Function.update arr ((hands.Cards i).1 * m + (hands.Cards i).2) 1)
        n u (handEnc m hands i) = 1 := by
  induction n with
  | zero => intro i hi; omega
  | succ n ih =>
    intro i hi
    show Function.update _ ((hands.Cards (0 + n)).1 * m + (hands.Cards (0 + n)).2) 1 _ = 1
    rw [Nat.zero_add]
    by_cases he : handEnc m hands i = (hands.Cards n).1 * m + (hands.Cards n).2
    · rw [he]; simp
    · rw [Function.update_noteq he]
      have hin : i < n := by
        rcases Nat.lt_succ_iff_lt_or_eq.mp hi with h | h
        · exact h
        · exact absurd (by rw [h]; rfl) he
      exact ih i hin

/-- The initial reach vectors are 1 at every hand, for both players of a two-player game. -/
theorem initialReach_apply (E : Env) (hands : CanonicalCards) (h2 : E.game.NumPlayers = 2) :
    ∀ p, p < 2 → ∀ i, i < E.game.NumHoleCardPairs E.game.MaxStreet →
      ProcessMaxStreetBoard.initialReach E hands p (handEnc (E.game.MaxCard + 1) hands i) = 1 := by
  intro p hp i hi
  have hone := onesAt_apply (E.game.MaxCard + 1) hands E.uninit
    (E.game.NumHoleCardPairs E.game.MaxStreet) i hi
  have hdef : ProcessMaxStreetBoard.initialReach E hands =
      Function.update
        (Function.update (fun _ => E.uninit) (0 + 0)
          (forLoop 0
            (fun i arr =>
              Function.update arr ((hands.Cards i).1 * (E.game.MaxCard + 1) + (hands.Cards i).2) 1)
            (E.game.NumHoleCardPairs E.game.MaxStreet) E.uninit))
        (0 + 1)
        (forLoop 0
          (fun i arr =>
            Function.update arr ((hands.Cards i).1 * (E.game.MaxCard + 1) + (hands.Cards i).2) 1)
          (E.game.NumHoleCardPairs E.game.MaxStreet) E.uninit) := by
    unfold ProcessMaxStreetBoard.initialReach
    simp only [h2]
    rfl
  rw [hdef]
  by_cases h1 : p = 1
  · subst h1
    simp only [Nat.zero_add, Function.update_same]
    exact hone
  · have h0 : p = 0 := by omega
    subst h0
    simp only [Nat.zero_add]
    rw [Function.update_noteq (by decide), Function.update_same]
    exact hone

theorem initialReach_ok (E : Env) (hands : CanonicalCards) (h2 : E.game.NumPlayers = 2) :
    OkReach E hands (ProcessMaxStreetBoard.initialReach E hands) := by
  intro p hp i hi
  rw [initialReach_apply E hands h2 p hp i hi]
  unfold okVal
  norm_num

/-- The loop over B's seat in `ProcessMaxStreetBoard`, when it returns, keeps the frame of the
board. -/
theorem seatLoop_frame (E : Env) (fuel : Nat) (reach : Nat → Nat → ℚ) (P1 : Player)
    (hno : NoResolve P1) (hr : OkReach E P1.hands_ reach) (n : Nat) :
    ∀ Q, forLoopM 0 (ProcessMaxStreetBoard.seatBody E fuel reach) n P1 = .ok Q →
      BoardFrame E P1 Q := by
  intro Q hQ
  refine forLoopM_invariant 0 _ n (fun R => BoardFrame E P1 R) ?_ P1 Q
    ⟨rfl, hno, [], by simp, fun c hc => absurd hc (List.not_mem_nil c)⟩ hQ
  intro k _ R R' hR hstep
  obtain ⟨hh, hnoR, L, hL, hok⟩ := hR
  have hrR : OkReach E (R.withSeat (0 + k)).hands_ reach := by
    show OkReach E R.hands_ reach
    rw [hh]; exact hr
  obtain ⟨hcfg, L', hL', hok'⟩ := Walk_frame E fuel (R.withSeat (0 + k)) _ _ _ reach 0 R'
    hnoR hrR hstep
  refine ⟨(cfg_hands _ _ hcfg).trans hh, NoResolve_of_cfg _ _ hcfg hnoR, L ++ L', ?_, ?_⟩
  · rw [hL']
    show R.walk_log ++ L' = _
    rw [hL, List.append_assoc]
  · intro c hc
    rcases List.mem_append.mp hc with h | h
    · exact hok c h
    · have := hok' c h
      exact hh ▸ this

theorem ProcessMaxStreetBoard_eq (E : Env) (fuel : Nat) (P : Player) (msbd : Int) :
    P.ProcessMaxStreetBoard E fuel msbd =
      (forLoopM 0
        (ProcessMaxStreetBoard.seatBody E fuel
          (ProcessMaxStreetBoard.initialReach E (boardHands E msbd)))
        E.game.NumPlayers (ProcessMaxStreetBoard.setup E P msbd)).bind
      (fun P2 => .ok (P2.withSeat E.game.NumPlayers)) := rfl

/-- C10.  Reach probabilities stay in `[0, 1]`: in a two-player run without resolving, when
`ProcessMaxStreetBoard` returns for a board, every invocation of `Walk` it made (the record
grows by exactly those, starting with the root invocation on the all-ones vectors) has, for both
players and every hand of the final-street board, `0 <= reach_p[enc] <= 1`; nothing is assumed
of the values `RMProbs` returns. -/
theorem reach_probs_in_unit_interval (E : Env) (fuel : Nat) (P : Player) (msbd : Int)
    (P' : Player) (h2 : E.game.NumPlayers = 2) (hno : NoResolve P)
    (hrun : P.ProcessMaxStreetBoard E fuel msbd = .ok P') :
    ∃ L, P'.walk_log = P.walk_log ++ L ∧
      (∀ c, c ∈ L → ∀ p, p < 2 → ∀ i, i < E.game.NumHoleCardPairs E.game.MaxStreet →
        0 ≤ c.reach_probs p (handEnc (E.game.MaxCard + 1) (boardHands E msbd) i) ∧
        c.reach_probs p (handEnc (E.game.MaxCard + 1) (boardHands E msbd) i) ≤ 1) ∧
      (⟨P.a_betting_tree_, P.b_betting_tree_,
        ProcessMaxStreetBoard.initialReach E (boardHands E msbd), 0⟩ : WalkCall) ∈ L := by
  rw [ProcessMaxStreetBoard_eq, h2] at hrun
  cases hloop : forLoopM 0
      (ProcessMaxStreetBoard.seatBody E fuel
        (ProcessMaxStreetBoard.initialReach E (boardHands E msbd)))
      2 (ProcessMaxStreetBoard.setup E P msbd) with
  | ok Q =>
    rw [hloop] at hrun
    simp only [Run.bind] at hrun
    injection hrun with hrun
    have hr0 := initialReach_ok E (boardHands E msbd) h2
    obtain ⟨_, _, L, hL, hok⟩ := seatLoop_frame E fuel _ (ProcessMaxStreetBoard.setup E P msbd)
      hno hr0 2 Q hloop
    refine ⟨L, ?_, fun c hc p hp i hi => hok c hc p hp i hi, ?_⟩
    · rw [← hrun]
      exact hL
    · -- the first walk records the root invocation
      rw [show forLoopM 0 (ProcessMaxStreetBoard.seatBody E fuel
          (ProcessMaxStreetBoard.initialReach E (boardHands E msbd)))
          2 (ProcessMaxStreetBoard.setup E P msbd) =
        (ProcessMaxStreetBoard.seatBody E fuel
          (ProcessMaxStreetBoard.initialReach E (boardHands E msbd))
          0 (ProcessMaxStreetBoard.setup E P msbd)).bind
          (ProcessMaxStreetBoard.seatBody E fuel
            (ProcessMaxStreetBoard.initialReach E (boardHands E msbd))
            1) from rfl] at hloop
      cases hw0 : ProcessMaxStreetBoard.seatBody E fuel
          (ProcessMaxStreetBoard.initialReach E (boardHands E msbd))
          0 (ProcessMaxStreetBoard.setup E P msbd) with
      | ok Q0 =>
        rw [hw0] at hloop
        have hno0 : NoResolve ((ProcessMaxStreetBoard.setup E P msbd).withSeat 0) := hno
        have hf0 := Walk_frame E fuel _ _ _ _ _ 0 Q0 hno0 hr0 hw0
        obtain ⟨_, L0, hL0, _⟩ := Walk_frame_logged E fuel _ _ _ _ _ 0 Q0 hno0 hr0 hw0
        have hno1 : NoResolve (Q0.withSeat 1) :=
          (NoResolve_of_cfg _ Q0 hf0.1 hno0 : NoResolve Q0)
        have hr1 : OkReach E (Q0.withSeat 1).hands_
            (ProcessMaxStreetBoard.initialReach E (boardHands E msbd)) := by
          show OkReach E Q0.hands_ _
          rw [cfg_hands _ _ hf0.1]
          exact hr0
        obtain ⟨_, L1, hL1, _⟩ := Walk_frame E fuel (Q0.withSeat 1) _ _ _ _ 0 Q hno1 hr1 hloop
        have hlog : Q.walk_log = (ProcessMaxStreetBoard.setup E P msbd).walk_log ++
            ((⟨P.a_betting_tree_, P.b_betting_tree_,
              ProcessMaxStreetBoard.initialReach E (boardHands E msbd), 0⟩ : WalkCall) ::
              (L0 ++ L1)) := by
          rw [hL1]
          show Q0.walk_log ++ L1 = _
          rw [hL0]
          show ((ProcessMaxStreetBoard.setup E P msbd).walk_log ++ [_]) ++ L0 ++ L1 = _
          simp only [List.append_assoc, List.singleton_append]
          rfl
        rw [hL] at hlog
        have := List.append_cancel_left hlog
        rw [this]
        exact List.mem_cons_self _ _
      | fatal => rw [hw0] at hloop; exact absurd hloop (by simp [Run.bind])
      | undefined => rw [hw0] at hloop; exact absurd hloop (by simp [Run.bind])
      | out_of_fuel => rw [hw0] at hloop; exact absurd hloop (by simp [Run.bind])
  | fatal => rw [hloop] at hrun; exact absurd hrun (by simp [Run.bind])
  | undefined => rw [hloop] at hrun; exact absurd hrun (by simp [Run.bind])
  | out_of_fuel => rw [hloop] at hrun; exact absurd hrun (by simp [Run.bind])

/-- On one tree walked against itself, without resolving and with probabilities in both
strategy tables, `ProcessMaxStreetBoard` returns when the budget covers twice the depth. -/
theorem ProcessMaxStreetBoard_total (E : Env) (fuel : Nat) (P : Player) (msbd : Int) (h : Nat)
    (h2 : E.game.NumPlayers = 2) (hno : NoResolve P) (hva : ValidStrategy P.a_probs_)
    (hvb : ValidStrategy P.b_probs_) (htree : P.b_betting_tree_ = P.a_betting_tree_)
    (hw : P.a_betting_tree_.wellFormed h = true) (hfuel : 2 * h + 2 ≤ fuel) :
    ∃ P', P.ProcessMaxStreetBoard E fuel msbd = .ok P' := by
  rw [ProcessMaxStreetBoard_eq]
  have hr0 := initialReach_ok E (boardHands E msbd) h2
  obtain ⟨Q, hQ, _⟩ := forLoopM_total 0
    (ProcessMaxStreetBoard.seatBody E fuel
      (ProcessMaxStreetBoard.initialReach E (boardHands E msbd)))
    E.game.NumPlayers (fun R => SeatInv (ProcessMaxStreetBoard.setup E P msbd) R)
    (by
      intro k _ R hR
      have e1 : R.a_betting_tree_ = P.a_betting_tree_ :=
        (congrArg Player.a_betting_tree_ hR : (R.withSeat 0).cfg.a_betting_tree_ = _)
      have e2 : R.b_betting_tree_ = P.a_betting_tree_ :=
        ((congrArg Player.b_betting_tree_ hR :
          (R.withSeat 0).cfg.b_betting_tree_ = _)).trans htree
      have e3 : R.hands_ = boardHands E msbd :=
        (congrArg Player.hands_ hR : (R.withSeat 0).cfg.hands_ = _)
      have e4 : R.a_probs_ = P.a_probs_ :=
        (congrArg Player.a_probs_ hR : (R.withSeat 0).cfg.a_probs_ = _)
      have e5 : R.b_probs_ = P.b_probs_ :=
        (congrArg Player.b_probs_ hR : (R.withSeat 0).cfg.b_probs_ = _)
      have e6 : R.resolve_a_ = P.resolve_a_ :=
        (congrArg Player.resolve_a_ hR : (R.withSeat 0).cfg.resolve_a_ = _)
      have e7 : R.resolve_b_ = P.resolve_b_ :=
        (congrArg Player.resolve_b_ hR : (R.withSeat 0).cfg.resolve_b_ = _)
      have hnoR : NoResolve (R.withSeat (0 + k)) := ⟨e6.trans hno.1, e7.trans hno.2⟩
      have hrR : OkReach E (R.withSeat (0 + k)).hands_
          (ProcessMaxStreetBoard.initialReach E (boardHands E msbd)) := by
        show OkReach E R.hands_ _
        rw [e3]; exact hr0
      obtain ⟨T, hT⟩ := Walk_total E fuel (R.withSeat (0 + k)) P.a_betting_tree_ "x"
        (ProcessMaxStreetBoard.initialReach E (boardHands E msbd)) 0 h hnoR hrR
        (by show ValidStrategy R.a_probs_; rw [e4]; exact hva)
        (by show ValidStrategy R.b_probs_; rw [e5]; exact hvb) hw (Or.inl hfuel)
      refine ⟨T, ?_, ?_⟩
      · unfold ProcessMaxStreetBoard.seatBody
        rw [e1, e2]; exact hT
      · have hc := (Walk_frame E fuel _ _ _ _ _ 0 T hnoR hrR hT).1
        have : (T.withSeat 0).cfg = ((R.withSeat (0 + k)).withSeat 0).cfg :=
          congrArg (fun X : Player => X.withSeat 0) hc
        exact this.trans hR)
    (ProcessMaxStreetBoard.setup E P msbd) rfl
  rw [hQ]
  exact ⟨_, rfl⟩

theorem exProbs_valid : ValidStrategy exProbs := by
  intro _ _ _ _ _ _ s
  unfold okVal
  simp only [exProbs]
  split_ifs <;> norm_num

theorem exProbs2_valid : ValidStrategy exProbs2 := by
  intro _ _ _ _ _ _ s
  unfold okVal
  simp only [exProbs2]
  split_ifs <;> norm_num

theorem reach_probs_in_unit_interval_witness :
    ∃ P', exPlayer.ProcessMaxStreetBoard exEnv 6 0 = .ok P' ∧
      ∃ L, P'.walk_log = exPlayer.walk_log ++ L ∧
        (∀ c, c ∈ L → ∀ p, p < 2 → ∀ i, i < exEnv.game.NumHoleCardPairs exEnv.game.MaxStreet →
          0 ≤ c.reach_probs p (handEnc (exEnv.game.MaxCard + 1) (boardHands exEnv 0) i) ∧
          c.reach_probs p (handEnc (exEnv.game.MaxCard + 1) (boardHands exEnv 0) i) ≤ 1) ∧
        (⟨exPlayer.a_betting_tree_, exPlayer.b_betting_tree_,
          ProcessMaxStreetBoard.initialReach exEnv (boardHands exEnv 0), 0⟩ : WalkCall) ∈ L := by
  obtain ⟨P', h⟩ := ProcessMaxStreetBoard_total exEnv 6 exPlayer 0 2 rfl ⟨rfl, rfl⟩
    exProbs_valid exProbs2_valid rfl (by decide) (by decide)
  exact ⟨P', h, reach_probs_in_unit_interval exEnv 6 exPlayer 0 P' rfl ⟨rfl, rfl⟩ h⟩

/-! ## Exchanging the two sides -/

theorem rankedPairSum_swap (m H : Nat) (hands : CanonicalCards) (a bp : Nat → ℚ) :
    rankedPairSum m H hands bp a = - rankedPairSum m H hands a bp := by
  unfold rankedPairSum
  rw [Finset.sum_comm, ← Finset.sum_neg_distrib]
  apply Finset.sum_congr rfl
  intro i _
  rw [← Finset.sum_neg_distrib]
  apply Finset.sum_congr rfl
  intro k _
  by_cases hsh : sharesCard (hands.Cards i) (hands.Cards k)
  · have hsh' : sharesCard (hands.Cards k) (hands.Cards i) := (sharesCard_comm _ _).mp hsh
    simp [hsh, hsh']
  · have hsh' : ¬ sharesCard (hands.Cards k) (hands.Cards i) :=
      fun h => hsh ((sharesCard_comm _ _).mp h)
    have hs : Int.sign (hands.HandValue k - hands.HandValue i) =
        - Int.sign (hands.HandValue i - hands.HandValue k) := by
      rw [← Int.sign_neg, neg_sub]
    simp only [hsh, hsh', if_false, hs, Int.cast_neg]
    ring

theorem jointProbSum_swap (m H : Nat) (hands : CanonicalCards) (a bp : Nat → ℚ) :
    jointProbSum m H hands bp a = jointProbSum m H hands a bp := by
  unfold jointProbSum
  rw [Finset.sum_comm]
  apply Finset.sum_congr rfl
  intro i _
  apply Finset.sum_congr rfl
  intro k _
  by_cases hsh : sharesCard (hands.Cards i) (hands.Cards k)
  · have hsh' : sharesCard (hands.Cards k) (hands.Cards i) := (sharesCard_comm _ _).mp hsh
    simp [hsh, hsh']
  · have hsh' : ¬ sharesCard (hands.Cards k) (hands.Cards i) :=
      fun h => hsh ((sharesCard_comm _ _).mp h)
    simp only [hsh, hsh', if_false]
    ring

/-- The two sums of `Showdown` on well-formed input. -/
theorem Showdown_value (E : Env) (hands : CanonicalCards) (hp : ℚ) (a bp : Nat → ℚ)
    (hD : DistinctHands E.game.MaxCard (E.game.NumHoleCardPairs E.game.MaxStreet) hands)
    (hS : SortedByValue (E.game.NumHoleCardPairs E.game.MaxStreet) hands)
    (ha : ∀ i, i < E.game.NumHoleCardPairs E.game.MaxStreet →
      okVal (handProb (E.game.MaxCard + 1) hands a i)) :
    ∃ s, Showdown.sums E hands hp a bp = .ok s ∧
      s.sum_our_vals = hp * rankedPairSum (E.game.MaxCard + 1)
        (E.game.NumHoleCardPairs E.game.MaxStreet) hands a bp ∧
      s.sum_joint_probs = jointProbSum (E.game.MaxCard + 1)
        (E.game.NumHoleCardPairs E.game.MaxStreet) hands a bp := by
  obtain ⟨s, h1, h2, h3, h4⟩ := Showdown_sums_ok E hands hp a bp (fun i hi => (ha i hi).2)
  have hI := h4 hD hS (fun i hi => (ha i hi).1)
  refine ⟨s, h1, ?_, ?_⟩
  · rw [hI.sv_eq, h2]
    exact rankedPairSum_eq _ _ _ _ _ _
  · rw [h3.sj_eq, h2]
    exact jointProbSum_eq E hands a bp hD

theorem okReach_opp (E : Env) (P : Player) (reach : Nat → Nat → ℚ)
    (hr : OkReach E P.hands_ reach) :
    ∀ i, i < E.game.NumHoleCardPairs E.game.MaxStreet →
      okVal (handProb (E.game.MaxCard + 1) P.hands_ (P.oppProbs reach) i) := by
  intro i hi
  unfold Player.oppProbs
  by_cases hb : P.b_pos_ = 0
  · simp only [hb, if_true]; exact hr 1 (by omega) i hi
  · simp only [hb, if_false]; exact hr 0 (by omega) i hi

theorem BoardsAgree_symm (E : Env) (X Y : Nat → Int) (h : BoardsAgree E X Y) :
    BoardsAgree E Y X := fun st hst => (h st hst).symm

theorem HcpAgree_symm (E : Env) (X Y : Nat → Nat → Int) (h : HcpAgree E X Y) :
    HcpAgree E Y X := fun st i hst hi => (h st i hst hi).symm

theorem streetsLE_street (M h : Nat) (n : Node) (hs : n.streetsLE M h = true) :
    n.Street ≤ M := by
  cases h with
  | zero => simpa [Node.streetsLE] using hs
  | succ h =>
    simp only [Node.streetsLE, Bool.and_eq_true, decide_eq_true_eq] at hs
    exact hs.1

theorem streetsLE_child (M h : Nat) (n c : Node) (k : Nat)
    (hs : n.streetsLE M (h + 1) = true) (hc : n.IthSucc k = some c) :
    c.streetsLE M h = true := by
  have hmem : c ∈ n.succs := List.get?_mem hc
  simp only [Node.streetsLE, Bool.and_eq_true, List.all_eq_true] at hs
  exact hs.2 c hmem

theorem SwapRel_of_cfg (E : Env) (P P' Q Q' : Player) (h : SwapRel E P P') (hc : Q.cfg = P.cfg)
    (hc' : Q'.cfg = P'.cfg) : SwapRel E Q Q' := by
  have f : ∀ {α : Type} (g : Player → α), (∀ X : Player, g X.cfg = g X) →
      g Q = g P ∧ g Q' = g P' := by
    intro α g hg
    exact ⟨by rw [← hg Q, ← hg P, hc], by rw [← hg Q', ← hg P', hc']⟩
  obtain ⟨e1, e1'⟩ := f Player.a_probs_ (fun _ => rfl)
  obtain ⟨e2, e2'⟩ := f Player.b_probs_ (fun _ => rfl)
  obtain ⟨e3, e3'⟩ := f Player.a_base_buckets_ (fun _ => rfl)
  obtain ⟨e4, e4'⟩ := f Player.b_base_buckets_ (fun _ => rfl)
  obtain ⟨e5, e5'⟩ := f Player.a_boards_ (fun _ => rfl)
  obtain ⟨e6, e6'⟩ := f Player.b_boards_ (fun _ => rfl)
  obtain ⟨e7, e7'⟩ := f Player.hands_ (fun _ => rfl)
  obtain ⟨e8, e8'⟩ := f Player.ms_hcp_to_raw_hcp_ (fun _ => rfl)
  obtain ⟨e9, e9'⟩ := f Player.num_samples_ (fun _ => rfl)
  obtain ⟨e10, e10'⟩ := f Player.resolve_st_ (fun _ => rfl)
  obtain ⟨e11, e11'⟩ := f Player.b_pos_ (fun _ => rfl)
  exact ⟨by rw [e1', e2, h.a_probs], by rw [e2', e1, h.b_probs], by rw [e3', e4, h.a_buckets],
    by rw [e4', e3, h.b_buckets], by rw [e5', e6]; exact h.a_boards,
    by rw [e6', e5]; exact h.b_boards,
    by rw [e7', e7, h.hands], by rw [e8', e8]; exact h.hcp, by rw [e9', e9, h.samples],
    by rw [e10', e10, h.resolve_st], by rw [e11', e11, h.seat],
    NoResolve_of_cfg _ _ hc h.no_resolve, NoResolve_of_cfg _ _ hc' h.no_resolve'⟩

theorem SwapRel_symm (E : Env) (P P' : Player) (h : SwapRel E P P') : SwapRel E P' P :=
  ⟨h.b_probs.symm, h.a_probs.symm, h.b_buckets.symm, h.a_buckets.symm,
    BoardsAgree_symm E _ _ h.b_boards, BoardsAgree_symm E _ _ h.a_boards, h.hands.symm,
    HcpAgree_symm E _ _ h.hcp, h.samples.symm, h.resolve_st.symm,
    by have := h.seat; omega, h.no_resolve', h.no_resolve⟩

theorem SwapRel_probs (P P' : Player) (h : SeatFlip P P') (reach : Nat → Nat → ℚ) :
    P'.oppProbs reach = P.ourProbs reach ∧ P'.ourProbs reach = P.oppProbs reach := by
  have hs := h.seat
  unfold Player.oppProbs Player.ourProbs
  by_cases hb : P.b_pos_ = 0
  · have hb' : ¬ P'.b_pos_ = 0 := by omega
    simp [hb, hb']
  · have hb' : P'.b_pos_ = 0 := by omega
    simp [hb, hb']

/-- `Showdown` for the two runs: the value is negated and the weight is the same. -/
theorem Showdown_swap (E : Env) (P P' : Player) (a b : Node) (reach : Nat → Nat → ℚ)
    (h : SeatFlip P P')
    (hD : DistinctHands E.game.MaxCard (E.game.NumHoleCardPairs E.game.MaxStreet) P.hands_)
    (hS : SortedByValue (E.game.NumHoleCardPairs E.game.MaxStreet) P.hands_)
    (hr : OkReach E P.hands_ reach) :
    ∃ x y, P.Showdown E a b reach = .ok (P.accumulate x y) ∧
      P'.Showdown E a b reach = .ok (P'.accumulate (-x) y) := by
  obtain ⟨e1, e2⟩ := SwapRel_probs P P' h reach
  have hr' : OkReach E P'.hands_ reach := by rw [h.hands]; exact hr
  obtain ⟨s, h1, h2, h3⟩ := Showdown_value E P.hands_ (a.LastBetTo : ℚ) (P.oppProbs reach)
    (P.ourProbs reach) hD hS (okReach_opp E P reach hr)
  obtain ⟨s', h1', h2', h3'⟩ := Showdown_value E P'.hands_ (a.LastBetTo : ℚ)
    (P'.oppProbs reach) (P'.ourProbs reach) (by rw [h.hands]; exact hD)
    (by rw [h.hands]; exact hS) (okReach_opp E P' reach hr')
  refine ⟨_, _, Player_Showdown_of_sums E P a b reach s h1, ?_⟩
  rw [Player_Showdown_of_sums E P' a b reach s' h1']
  have hx : s'.sum_our_vals = - s.sum_our_vals := by
    rw [h2', h2, e1, e2, h.hands, rankedPairSum_swap]
    ring
  have hy : s'.sum_joint_probs = s.sum_joint_probs := by
    rw [h3', h3, e1, e2, h.hands, jointProbSum_swap]
  rw [hx, hy, h.samples]
  congr 2
  ring

/-- `Fold` for the two runs: the value is negated and the weight is the same. -/
theorem Fold_swap (E : Env) (P P' : Player) (a b : Node) (reach : Nat → Nat → ℚ)
    (h : SeatFlip P P')
    (hD : DistinctHands E.game.MaxCard (E.game.NumHoleCardPairs E.game.MaxStreet) P.hands_)
    (hpa : a.PlayerActing < 2) :
    ∃ x y, P.Fold E a b reach = P.accumulate x y ∧
      P'.Fold E a b reach = P'.accumulate (-x) y := by
  obtain ⟨e1, e2⟩ := SwapRel_probs P P' h reach
  refine ⟨_, _, rfl, ?_⟩
  unfold Player.Fold
  have hhp : Fold.halfPot P'.b_pos_ a = - Fold.halfPot P.b_pos_ a := by
    have hs := h.seat
    unfold Fold.halfPot
    by_cases hb : P.b_pos_ = a.PlayerActing
    · have hb' : P'.b_pos_ ≠ a.PlayerActing := by omega
      simp [hb, hb']
    · have hb' : P'.b_pos_ = a.PlayerActing := by omega
      simp [hb, hb']
  have c1 := Fold_sums_closed E P.hands_ (Fold.halfPot P.b_pos_ a) (P.oppProbs reach)
    (P.ourProbs reach)
  have c2 := Fold_sums_closed E P.hands_ (- Fold.halfPot P.b_pos_ a) (P.ourProbs reach)
    (P.oppProbs reach)
  have j1 := jointProbSum_eq E P.hands_ (P.oppProbs reach) (P.ourProbs reach) hD
  have j2 := jointProbSum_eq E P.hands_ (P.ourProbs reach) (P.oppProbs reach) hD
  rw [e1, e2, h.hands, hhp, h.samples]
  have hy : (Fold.sums E P.hands_ (- Fold.halfPot P.b_pos_ a) (P.ourProbs reach)
      (P.oppProbs reach)).2 =
      (Fold.sums E P.hands_ (Fold.halfPot P.b_pos_ a) (P.oppProbs reach)
        (P.ourProbs reach)).2 := by
    rw [c1.1, c2.1, j1, j2, jointProbSum_swap]
  have hx : (Fold.sums E P.hands_ (- Fold.halfPot P.b_pos_ a) (P.ourProbs reach)
      (P.oppProbs reach)).1 =
      - (Fold.sums E P.hands_ (Fold.halfPot P.b_pos_ a) (P.oppProbs reach)
        (P.ourProbs reach)).1 := by
    rw [c1.2, c2.2, hy]
    ring
  simp only [hx, hy]
  congr 2
  ring

theorem forLoopM_sim {σ : Type} (lo : Nat) (body body' : Nat → σ → Run σ) (n : Nat)
    (rel : σ → σ → Prop)
    (h : ∀ k, k < n → ∀ s s' t, rel s s' → body (lo + k) s = .ok t →
      ∃ t', body' (lo + k) s' = .ok t' ∧ rel t t') :
    ∀ s s' t, rel s s' → forLoopM lo body n s = .ok t →
      ∃ t', forLoopM lo body' n s' = .ok t' ∧ rel t t' := by
  induction n with
  | zero =>
    intro s s' t hrel hr
    injection hr with hr
    exact ⟨s', rfl, hr ▸ hrel⟩
  | succ n ih =>
    intro s s' t hrel hr
    simp only [forLoopM] at hr
    cases hm : forLoopM lo body n s with
    | ok m =>
      rw [hm] at hr
      obtain ⟨m', hm', hrel'⟩ := ih (fun k hk => h k (Nat.lt_succ_of_lt hk)) s s' m hrel hm
      obtain ⟨t', ht', hrelt⟩ := h n (Nat.lt_succ_self n) m m' t hrel' hr
      exact ⟨t', by simp only [forLoopM, hm', Run.bind]; exact ht', hrelt⟩
    | fatal => rw [hm] at hr; exact absurd hr (by simp [Run.bind])
    | undefined => rw [hm] at hr; exact absurd hr (by simp [Run.bind])
    | out_of_fuel => rw [hm] at hr; exact absurd hr (by simp [Run.bind])

/-- `GetSuccReachProbs` reads the state through the hands and, at the street of the node, the
hand index map only. -/
theorem GetSuccReachProbs_player_congr (E : Env) (P P' : Player) (node : Node) (gbd : Int)
    (buckets : Buckets) (sumprobs : Option CFRValues) (reach : Nat → Nat → ℚ)
    (h1 : P'.hands_ = P.hands_) (h2 : HcpAgree E P'.ms_hcp_to_raw_hcp_ P.ms_hcp_to_raw_hcp_)
    (hst : node.Street ≤ E.game.MaxStreet) :
    P'.GetSuccReachProbs E node gbd buckets sumprobs reach =
      P.GetSuccReachProbs E node gbd buckets sumprobs reach := by
  have hc : GetSuccReachProbs.copyBody E P' reach = GetSuccReachProbs.copyBody E P reach := by
    funext i succ
    simp only [GetSuccReachProbs.copyBody, h1]
  unfold Player.GetSuccReachProbs
  simp only [hc]
  by_cases h1s : node.NumSuccs = 1
  · rw [if_pos h1s, if_pos h1s]
  · rw [if_neg h1s, if_neg h1s]
    apply forLoopM_congr
    intro k hk succ
    cases sumprobs with
    | none => rfl
    | some sp =>
      have hp : GetSuccReachProbs.handProbs E P' node gbd buckets sp (0 + k) =
          GetSuccReachProbs.handProbs E P node gbd buckets sp (0 + k) := by
        unfold GetSuccReachProbs.handProbs GetSuccReachProbs.hcp
        simp only [h2 node.Street (0 + k) hst (by omega)]
      show GetSuccReachProbs.handBody E P' node gbd buckets sp reach (0 + k) succ =
        GetSuccReachProbs.handBody E P node gbd buckets sp reach (0 + k) succ
      unfold GetSuccReachProbs.handBody
      simp only [hp, h1]

/-- The lookups of `Nonterminal` coincide for the two runs at a node of a two-player tree. -/
theorem lookup_swap (E : Env) (P P' : Player) (h : SwapRel E P P') (st pa : Nat) (hpa : pa < 2)
    (hst : st ≤ E.game.MaxStreet) :
    Nonterminal.lookupBoard P' st pa = Nonterminal.lookupBoard P st pa ∧
    Nonterminal.buckets P' st pa = Nonterminal.buckets P st pa ∧
    Nonterminal.sumprobs E P' st pa = Nonterminal.sumprobs E P st pa := by
  have hs := h.seat
  rw [Nonterminal_buckets_off P' st pa h.no_resolve', Nonterminal_buckets_off P st pa h.no_resolve,
    Nonterminal_sumprobs_off E P' st pa h.no_resolve',
    Nonterminal_sumprobs_off E P st pa h.no_resolve]
  unfold Nonterminal.lookupBoard
  by_cases hb : pa = P.b_pos_
  · have hb' : ¬ pa = P'.b_pos_ := by omega
    rw [if_pos hb, if_pos hb, if_pos hb, if_neg hb', if_neg hb', if_neg hb',
      h.a_boards st hst, h.a_buckets, h.a_probs]
    exact ⟨rfl, rfl, rfl⟩
  · have hb' : pa = P'.b_pos_ := by omega
    rw [if_neg hb, if_neg hb, if_neg hb, if_pos hb', if_pos hb', if_pos hb',
      h.b_boards st hst, h.b_buckets, h.b_probs]
    exact ⟨rfl, rfl, rfl⟩

theorem SwapDelta_accumulate (P P' : Player) (x y : ℚ) :
    SwapDelta P P' (P.accumulate x y) (P'.accumulate (-x) y) := by
  unfold SwapDelta
  rw [accumulate_sum_b, accumulate_sum_b, accumulate_sum_weights, accumulate_sum_weights]
  constructor <;> ring

theorem SwapDelta_trans (P P' Q Q' R R' : Player) (h1 : SwapDelta P P' Q Q')
    (h2 : SwapDelta Q Q' R R') : SwapDelta P P' R R' := by
  unfold SwapDelta at *
  constructor
  · linarith [h1.1, h2.1]
  · linarith [h1.2, h2.2]

/-- A walk of one tree against itself without resolving, and the same walk with the sides
exchanged: when the first returns so does the second, with the negated sum of B and the same
weights. -/
theorem Walk_swap (E : Env) : ∀ (n : Nat) (P P' : Player) (a : Node) (seq : String)
    (reach : Nat → Nat → ℚ) (last : Int) (Q : Player) (h : Nat), SwapRel E P P' →
    DistinctHands E.game.MaxCard (E.game.NumHoleCardPairs E.game.MaxStreet) P.hands_ →
    SortedByValue (E.game.NumHoleCardPairs E.game.MaxStreet) P.hands_ →
    OkReach E P.hands_ reach → a.wellFormed h = true →
    a.streetsLE E.game.MaxStreet h = true →
    Player.Walk E n P a a seq reach last = .ok Q →
    ∃ Q', Player.Walk E n P' a a seq reach last = .ok Q' ∧ SwapDelta P P' Q Q' := by
  intro n
  induction n with
  | zero =>
    intro P P' a seq reach last Q h _ _ _ _ _ _ hw
    exact absurd hw (by simp [Player.Walk])
  | succ n ih =>
    intro P P' a seq reach last Q h hrel hD hS hr hwf hsl hw
    rw [Walk_succ E n P a a seq reach last hrel.no_resolve] at hw
    rw [Walk_succ E n P' a a seq reach last hrel.no_resolve']
    have hrel1 : SwapRel E (P.logged ⟨a, a, reach, last⟩) (P'.logged ⟨a, a, reach, last⟩) :=
      SwapRel_of_cfg E P P' _ _ hrel rfl rfl
    have hD1 : DistinctHands E.game.MaxCard (E.game.NumHoleCardPairs E.game.MaxStreet)
        (P.logged ⟨a, a, reach, last⟩).hands_ := hD
    have hS1 : SortedByValue (E.game.NumHoleCardPairs E.game.MaxStreet)
        (P.logged ⟨a, a, reach, last⟩).hands_ := hS
    have hr1 : OkReach E (P.logged ⟨a, a, reach, last⟩).hands_ reach := hr
    have hr1' : OkReach E (P'.logged ⟨a, a, reach, last⟩).hands_ reach := by
      rw [hrel1.hands]; exact hr
    have hd0 : ∀ R R' : Player,
        SwapDelta (P.logged ⟨a, a, reach, last⟩) (P'.logged ⟨a, a, reach, last⟩) R R' →
        SwapDelta P P' R R' := fun R R' hd => hd
    rw [hrel.resolve_st]
    by_cases c1 : (a.Street : Int) > last ∧ (a.Street : Int) = P.resolve_st_
    · rw [if_pos c1] at hw
      rw [if_pos c1]
      obtain ⟨Q', hQ', hd⟩ := ih _ _ a seq reach _ Q h hrel1 hD1 hS1 hr1 hwf hsl hw
      exact ⟨Q', hQ', hd0 _ _ hd⟩
    · rw [if_neg c1] at hw
      rw [if_neg c1]
      by_cases c2 : a.Terminal = true
      · rw [if_pos c2] at hw
        rw [if_pos c2]
        have c3 : ¬ a.Terminal = false := by rw [c2]; simp
        rw [if_neg c3] at hw
        rw [if_neg c3]
        by_cases c4 : a.Showdown = true
        · rw [if_pos c4] at hw
          rw [if_pos c4]
          obtain ⟨x, y, e1, e2⟩ := Showdown_swap E _ _ a a reach ⟨hrel1.hands, hrel1.samples, hrel1.seat⟩
            hD1 hS1 hr1
          rw [e1] at hw
          injection hw with hw
          rw [← hw]
          exact ⟨_, e2, hd0 _ _ (SwapDelta_accumulate _ _ x y)⟩
        · rw [if_neg c4] at hw
          rw [if_neg c4]
          obtain ⟨x, y, e1, e2⟩ := Fold_swap E _ _ a a reach ⟨hrel1.hands, hrel1.samples, hrel1.seat⟩ hD1
            (seatOk_fold a (wellFormed_seatOk h a hwf) c4)
          rw [e1] at hw
          injection hw with hw
          rw [← hw, e2]
          exact ⟨_, rfl, hd0 _ _ (SwapDelta_accumulate _ _ x y)⟩
      · rw [if_neg c2, if_neg c2] at hw
        rw [if_neg c2, if_neg c2]
        have hpa := seatOk_nonterminal a (wellFormed_seatOk h a hwf) c2
        rw [Nonterminal_eq] at hw ⊢
        have hnode : ∀ X : Player, Nonterminal.lookupNode X a a a.PlayerActing = a := by
          intro X
          unfold Nonterminal.lookupNode
          split_ifs <;> rfl
        rw [hnode] at hw ⊢
        have hsa := streetsLE_street E.game.MaxStreet h a hsl
        obtain ⟨l1, l2, l3⟩ := lookup_swap E _ _ hrel1 a.Street a.PlayerActing hpa hsa
        rw [l1, l2, l3, GetSuccReachProbs_player_congr E (P.logged ⟨a, a, reach, last⟩)
          (P'.logged ⟨a, a, reach, last⟩) a _ _ _ reach hrel1.hands hrel1.hcp hsa]
        cases hg : (P.logged ⟨a, a, reach, last⟩).GetSuccReachProbs E a
            (Nonterminal.lookupBoard (P.logged ⟨a, a, reach, last⟩) a.Street a.PlayerActing)
            (Nonterminal.buckets (P.logged ⟨a, a, reach, last⟩) a.Street a.PlayerActing)
            (Nonterminal.sumprobs E (P.logged ⟨a, a, reach, last⟩) a.Street a.PlayerActing)
            reach with
        | ok succ =>
          rw [hg] at hw
          have hsucc := GetSuccReachProbs_okReach E _ _ _ _ _ reach succ hr1 hg
          obtain ⟨Q', hQ', _, _, hd⟩ := forLoopM_sim 0
            (Nonterminal.succBody (Player.Walk E n) a a a seq succ a.Street)
            (Nonterminal.succBody (Player.Walk E n) a a a seq succ a.Street) a.NumSuccs
            (fun R R' => R.cfg = (P.logged ⟨a, a, reach, last⟩).cfg ∧
              R'.cfg = (P'.logged ⟨a, a, reach, last⟩).cfg ∧
              SwapDelta (P.logged ⟨a, a, reach, last⟩) (P'.logged ⟨a, a, reach, last⟩) R R')
            (by
              intro k _ R R' T hRR hstep
              obtain ⟨hc, hc', hd⟩ := hRR
              rw [Nat.zero_add] at hstep ⊢
              obtain ⟨a', b', ha', hb', hk, hwalk⟩ := succBody_ok _ _ _ _ _ _ _ _ _ _ hstep
              have hab : b' = a' := by
                rw [ha'] at hb'
                injection hb' with hb'
                exact hb'.symm
              subst hab
              obtain ⟨h', hh', hwc⟩ := wellFormed_child h a b' k hwf ha'
              have hslc : b'.streetsLE E.game.MaxStreet h' = true :=
                streetsLE_child E.game.MaxStreet h' a b' k (hh' ▸ hsl) ha'
              have hrelR : SwapRel E R R' := SwapRel_of_cfg E _ _ R R' hrel1 hc hc'
              have hhR : R.hands_ = P.hands_ := cfg_hands _ _ hc
              have hrR : OkReach E R.hands_ (succ k) := by rw [hhR]; exact hsucc k hk
              have hrR' : OkReach E R'.hands_ (succ k) := by rw [hrelR.hands]; exact hrR
              obtain ⟨T', hT', hdT⟩ := ih R R' b' _ (succ k) _ T h' hrelR
                (by rw [hhR]; exact hD) (by rw [hhR]; exact hS) hrR hwc hslc hwalk
              refine ⟨T', ?_, ?_, ?_, SwapDelta_trans _ _ _ _ _ _ hd hdT⟩
              · rw [succBody_some _ _ _ _ _ _ _ _ _ b' b' ha' ha' hk]
                exact hT'
              · exact (Walk_frame E n R b' b' _ _ _ T hrelR.no_resolve hrR hwalk).1.trans hc
              · exact (Walk_frame E n R' b' b' _ _ _ T' hrelR.no_resolve' hrR' hT').1.trans hc')
            (P.logged ⟨a, a, reach, last⟩) (P'.logged ⟨a, a, reach, last⟩) Q
            ⟨rfl, rfl, by unfold SwapDelta; constructor <;> ring⟩ hw
          exact ⟨Q', hQ', hd0 _ _ hd⟩
        | fatal => rw [hg] at hw; exact absurd hw (by simp [Run.bind])
        | undefined => rw [hg] at hw; exact absurd hw (by simp [Run.bind])
        | out_of_fuel => rw [hg] at hw; exact absurd hw (by simp [Run.bind])

/-! ## One board, with the sides exchanged -/

/-- A field that the seat and the sums do not enter is the same in states with the same
`SeatInv`. -/
theorem SeatInv_field {α : Type} (g : Player → α) (hg : ∀ X : Player, g (X.withSeat 0).cfg = g X)
    (P1 Q : Player) (h : SeatInv P1 Q) : g Q = g P1 := by
  rw [← hg Q, ← hg P1]
  exact congrArg g h

theorem SeatInv_noResolve (P1 Q : Player) (h : SeatInv P1 Q) (hno : NoResolve P1) :
    NoResolve Q :=
  ⟨(SeatInv_field Player.resolve_a_ (fun _ => rfl) P1 Q h).trans hno.1,
   (SeatInv_field Player.resolve_b_ (fun _ => rfl) P1 Q h).trans hno.2⟩

/-- The loop over B's seat keeps every field but the seat, the sums and the record. -/
theorem seatLoop_cfg (E : Env) (fuel : Nat) (reach : Nat → Nat → ℚ) (P1 : Player)
    (hno : NoResolve P1) (hr : OkReach E P1.hands_ reach) (n : Nat) :
    ∀ Q, forLoopM 0 (ProcessMaxStreetBoard.seatBody E fuel reach) n P1 = .ok Q →
      SeatInv P1 Q := by
  intro Q hQ
  refine forLoopM_invariant 0 _ n (fun R => SeatInv P1 R) ?_ P1 Q rfl hQ
  intro k _ R R' hR hstep
  have hnoR : NoResolve (R.withSeat (0 + k)) := SeatInv_noResolve P1 R hR hno
  have hrR : OkReach E (R.withSeat (0 + k)).hands_ reach := by
    show OkReach E R.hands_ reach
    rw [SeatInv_field Player.hands_ (fun _ => rfl) P1 R hR]
    exact hr
  have hc := (Walk_frame E fuel _ _ _ _ _ 0 R' hnoR hrR hstep).1
  have : (R'.withSeat 0).cfg = ((R.withSeat (0 + k)).withSeat 0).cfg :=
    congrArg (fun X : Player => X.withSeat 0) hc
  exact this.trans hR

/-- The state a board is left in differs from the state it was set up in only in the seat, the
sums and the record. -/
theorem ProcessMaxStreetBoard_cfg (E : Env) (fuel : Nat) (P : Player) (msbd : Int) (Q : Player)
    (h2 : E.game.NumPlayers = 2) (hno : NoResolve P)
    (hrun : P.ProcessMaxStreetBoard E fuel msbd = .ok Q) :
    SeatInv (ProcessMaxStreetBoard.setup E P msbd) Q := by
  rw [ProcessMaxStreetBoard_eq] at hrun
  cases hloop : forLoopM 0
      (ProcessMaxStreetBoard.seatBody E fuel
        (ProcessMaxStreetBoard.initialReach E (boardHands E msbd)))
      E.game.NumPlayers (ProcessMaxStreetBoard.setup E P msbd) with
  | ok Q2 =>
    rw [hloop] at hrun
    injection hrun with hrun
    have := seatLoop_cfg E fuel _ (ProcessMaxStreetBoard.setup E P msbd) hno
      (initialReach_ok E (boardHands E msbd) h2) _ Q2 hloop
    rw [← hrun]
    exact this
  | fatal => rw [hloop] at hrun; exact absurd hrun (by simp [Run.bind])
  | undefined => rw [hloop] at hrun; exact absurd hrun (by simp [Run.bind])
  | out_of_fuel => rw [hloop] at hrun; exact absurd hrun (by simp [Run.bind])

theorem SideSwap_symm (P P' : Player) (h : SideSwap P P') : SideSwap P' P :=
  ⟨h.b_probs.symm, h.a_probs.symm, h.b_buckets.symm, h.a_buckets.symm, h.b_boards.symm,
    h.a_boards.symm, h.b_tree.symm, h.a_tree.symm, by rw [h.a_tree, h.b_tree, h.same_tree],
    h.resolve_st.symm, h.no_resolve', h.no_resolve⟩

/-- The loop `for (k = lo; k < lo + n; ++k) arr[k] = f(k)`. -/
theorem forLoop_update_apply {α : Type} (f : Nat → α) (lo n : Nat) (b : Nat → α) (i : Nat) :
    forLoop lo (fun st b => Function.update b st (f st)) n b i =
      if lo ≤ i ∧ i < lo + n then f i else b i := by
  induction n with
  | zero =>
    rw [if_neg (by omega)]
    rfl
  | succ n ih =>
    show Function.update (forLoop lo (fun st b => Function.update b st (f st)) n b) (lo + n)
      (f (lo + n)) i = _
    by_cases hi : i = lo + n
    · subst hi
      rw [Function.update_same, if_pos (by omega)]
    · rw [Function.update_noteq hi, ih]
      by_cases c : lo ≤ i ∧ i < lo + n
      · rw [if_pos c, if_pos (by omega)]
      · rw [if_neg c, if_neg (by omega)]

/-- The board index arrays after lines 619-625, from arrays with the same entry 0. -/
theorem setup_boards_agree (E : Env) (msbd : Int) (X Y : Nat → Int) (h0 : X 0 = Y 0) :
    BoardsAgree E
      (forLoop 1
        (fun st boards => Function.update boards st (E.board_tree.PredBoard msbd (st : Int)))
        (E.game.MaxStreet - 1) (Function.update X E.game.MaxStreet msbd))
      (forLoop 1
        (fun st boards => Function.update boards st (E.board_tree.PredBoard msbd (st : Int)))
        (E.game.MaxStreet - 1) (Function.update Y E.game.MaxStreet msbd)) := by
  intro st hst
  rw [forLoop_update_apply (fun st => E.board_tree.PredBoard msbd (st : Int)),
    forLoop_update_apply (fun st => E.board_tree.PredBoard msbd (st : Int))]
  by_cases c : 1 ≤ st ∧ st < 1 + (E.game.MaxStreet - 1)
  · rw [if_pos c, if_pos c]
  · rw [if_neg c, if_neg c]
    by_cases hm : st = E.game.MaxStreet
    · rw [hm, Function.update_same, Function.update_same]
    · rw [Function.update_noteq hm, Function.update_noteq hm]
      have h0' : st = 0 := by omega
      rw [h0']
      exact h0

/-- The inner loop of lines 647-649: column `i` of the hand index map. -/
theorem hcp_inner_apply (v : Nat → Int) (i n : Nat) (tbl : Nat → Nat → Int) (st' i' : Nat) :
    forLoop 0 (fun st tbl => Function.update tbl st (Function.update (tbl st) i (v st))) n tbl
        st' i' =
      if st' < n ∧ i' = i then v st' else tbl st' i' := by
  induction n with
  | zero =>
    rw [if_neg (by omega)]
    rfl
  | succ n ih =>
    show Function.update
      (forLoop 0 (fun st tbl => Function.update tbl st (Function.update (tbl st) i (v st))) n
        tbl) (0 + n)
      (Function.update
        (forLoop 0 (fun st tbl => Function.update tbl st (Function.update (tbl st) i (v st))) n
          tbl (0 + n)) i (v (0 + n))) st' i' = _
    rw [Nat.zero_add]
    by_cases hs : st' = n
    · rw [hs] at ih ⊢
      rw [Function.update_same]
      by_cases hi : i' = i
      · rw [hi, Function.update_same, if_pos ⟨Nat.lt_succ_self _, rfl⟩]
      · have hn : ¬ (n < n ∧ i' = i) := fun c => hi c.2
        have hn' : ¬ (n < n + 1 ∧ i' = i) := fun c => hi c.2
        rw [Function.update_noteq hi, ih, if_neg hn, if_neg hn']
    · rw [Function.update_noteq hs, ih]
      by_cases c : st' < n ∧ i' = i
      · have c2 : st' < n + 1 ∧ i' = i := ⟨Nat.lt_succ_of_lt c.1, c.2⟩
        rw [if_pos c, if_pos c2]
      · have c2 : ¬ (st' < n + 1 ∧ i' = i) := by
          intro c'
          exact c ⟨Nat.lt_of_le_of_ne (Nat.lt_succ_iff.mp c'.1) hs, c'.2⟩
        rw [if_neg c, if_neg c2]

/-- The loops of lines 643-650: the hand index map is overwritten at every street
`0 .. max_street` and every final-street hand. -/
theorem hcp_outer_apply (g : Nat → Nat → Int) (M1 n : Nat) (tbl : Nat → Nat → Int)
    (st' i' : Nat) :
    forLoop 0
        (fun i tbl =>
          forLoop 0
            (fun st tbl => Function.update tbl st (Function.update (tbl st) i (g i st)))
            M1 tbl)
        n tbl st' i' =
      if st' < M1 ∧ i' < n then g i' st' else tbl st' i' := by
  induction n with
  | zero =>
    rw [if_neg (by omega)]
    rfl
  | succ n ih =>
    show forLoop 0
      (fun st tbl => Function.update tbl st (Function.update (tbl st) (0 + n) (g (0 + n) st)))
      M1 (forLoop 0
        (fun i tbl =>
          forLoop 0
            (fun st tbl => Function.update tbl st (Function.update (tbl st) i (g i st)))
            M1 tbl)
        n tbl) st' i' = _
    rw [Nat.zero_add, hcp_inner_apply (g n) n M1, ih]
    by_cases c : st' < M1 ∧ i' = n
    · have c2 : st' < M1 ∧ i' < n + 1 := ⟨c.1, by rw [c.2]; exact Nat.lt_succ_self n⟩
      rw [if_pos c, if_pos c2, c.2]
    · rw [if_neg c]
      by_cases c' : st' < M1 ∧ i' < n
      · have c2 : st' < M1 ∧ i' < n + 1 := ⟨c'.1, Nat.lt_succ_of_lt c'.2⟩
        rw [if_pos c', if_pos c2]
      · have c2 : ¬ (st' < M1 ∧ i' < n + 1) := by
          intro d
          rcases Nat.lt_succ_iff_lt_or_eq.mp d.2 with d2 | d2
          · exact c' ⟨d.1, d2⟩
          · exact c ⟨d.1, d2⟩
        rw [if_neg c', if_neg c2]

/-- The hand index map a board is set up with does not depend on the map before. -/
theorem setup_hcp_agree (E : Env) (P P' : Player) (msbd : Int) :
    HcpAgree E (ProcessMaxStreetBoard.setup E P' msbd).ms_hcp_to_raw_hcp_
      (ProcessMaxStreetBoard.setup E P msbd).ms_hcp_to_raw_hcp_ := by
  intro st i hst hi
  have key : ∀ X : Player, (ProcessMaxStreetBoard.setup E X msbd).ms_hcp_to_raw_hcp_ st i =
      E.HCPIndex st (ProcessMaxStreetBoard.cards E msbd ((boardHands E msbd).Cards i)) := by
    intro X
    have := hcp_outer_apply
      (fun i st => E.HCPIndex st
        (ProcessMaxStreetBoard.cards E msbd ((boardHands E msbd).Cards i)))
      (E.game.MaxStreet + 1) (E.game.NumHoleCardPairs E.game.MaxStreet)
      X.ms_hcp_to_raw_hcp_ st i
    have hc : st < E.game.MaxStreet + 1 ∧ i < E.game.NumHoleCardPairs E.game.MaxStreet :=
      ⟨Nat.lt_succ_of_le hst, hi⟩
    rw [if_pos hc] at this
    exact this
  rw [key P', key P]

theorem SideSwap_setup (E : Env) (P P' : Player) (msbd : Int) (h : SideSwap P P') :
    SideSwap (ProcessMaxStreetBoard.setup E P msbd) (ProcessMaxStreetBoard.setup E P' msbd) :=
  ⟨h.a_probs, h.b_probs, h.a_buckets, h.b_buckets,
    setup_boards_agree E msbd _ _ h.a_boards 0 (Nat.zero_le _),
    setup_boards_agree E msbd _ _ h.b_boards 0 (Nat.zero_le _), h.a_tree, h.b_tree,
    h.same_tree, h.resolve_st, h.no_resolve, h.no_resolve'⟩

/-- The states two runs with the sides exchanged are set up in for a board, put in opposite
seats, are related as `Walk_swap` asks. -/
theorem SwapRel_setup (E : Env) (P P' : Player) (msbd : Int) (k k' : Nat) (hk : k' + k = 1)
    (h : SideSwap P P') (hs : P'.num_samples_ = P.num_samples_) :
    SwapRel E ((ProcessMaxStreetBoard.setup E P msbd).withSeat k)
      ((ProcessMaxStreetBoard.setup E P' msbd).withSeat k') :=
  ⟨h.a_probs, h.b_probs, h.a_buckets, h.b_buckets,
    setup_boards_agree E msbd _ _ h.a_boards, setup_boards_agree E msbd _ _ h.b_boards, rfl,
    setup_hcp_agree E P P' msbd, hs, h.resolve_st, hk, h.no_resolve, h.no_resolve'⟩

/-- States of the two runs in opposite seats on the same board are related as `Walk_swap`
asks. -/
theorem SwapRel_of_side (E : Env) (P1 P1' R R' : Player) (k k' : Nat)
    (h : SwapRel E (P1.withSeat k) (P1'.withSeat k')) (hR : SeatInv P1 R)
    (hR' : SeatInv P1' R') : SwapRel E (R.withSeat k) (R'.withSeat k') :=
  SwapRel_of_cfg E _ _ _ _ h (congrArg (fun X : Player => X.withSeat k) hR)
    (congrArg (fun X : Player => X.withSeat k') hR')

/-- One board processed by two runs with the sides exchanged: when the first returns so does
the second, having added the negated amount to the sum of B and the same amount to the
weights. -/
theorem ProcessMaxStreetBoard_swap (E : Env) (fuel : Nat) (P P' : Player) (msbd : Int)
    (h : Nat) (Q : Player) (h2 : E.game.NumPlayers = 2) (hrel : SideSwap P P')
    (hsamp : P'.num_samples_ = P.num_samples_)
    (hwf : P.a_betting_tree_.wellFormed h = true)
    (hsl : P.a_betting_tree_.streetsLE E.game.MaxStreet h = true)
    (hD : DistinctHands E.game.MaxCard (E.game.NumHoleCardPairs E.game.MaxStreet)
      (boardHands E msbd))
    (hS : SortedByValue (E.game.NumHoleCardPairs E.game.MaxStreet) (boardHands E msbd))
    (hrun : P.ProcessMaxStreetBoard E fuel msbd = .ok Q) :
    ∃ Q', P'.ProcessMaxStreetBoard E fuel msbd = .ok Q' ∧ SwapDelta P P' Q Q' := by
  have hr0 := initialReach_ok E (boardHands E msbd) h2
  have hsideP : ∀ X : Player, (ProcessMaxStreetBoard.setup E X msbd).a_betting_tree_ =
      X.a_betting_tree_ := fun _ => rfl
  have hnoP : NoResolve (ProcessMaxStreetBoard.setup E P msbd) := hrel.no_resolve
  have hnoP' : NoResolve (ProcessMaxStreetBoard.setup E P' msbd) := hrel.no_resolve'
  rw [ProcessMaxStreetBoard_eq, h2] at hrun ⊢
  rw [show forLoopM 0 (ProcessMaxStreetBoard.seatBody E fuel
      (ProcessMaxStreetBoard.initialReach E (boardHands E msbd)))
      2 (ProcessMaxStreetBoard.setup E P msbd) =
    (ProcessMaxStreetBoard.seatBody E fuel
      (ProcessMaxStreetBoard.initialReach E (boardHands E msbd))
      0 (ProcessMaxStreetBoard.setup E P msbd)).bind
      (ProcessMaxStreetBoard.seatBody E fuel
        (ProcessMaxStreetBoard.initialReach E (boardHands E msbd)) 1) from rfl] at hrun
  rw [show forLoopM 0 (ProcessMaxStreetBoard.seatBody E fuel
      (ProcessMaxStreetBoard.initialReach E (boardHands E msbd)))
      2 (ProcessMaxStreetBoard.setup E P' msbd) =
    (ProcessMaxStreetBoard.seatBody E fuel
      (ProcessMaxStreetBoard.initialReach E (boardHands E msbd))
      0 (ProcessMaxStreetBoard.setup E P' msbd)).bind
      (ProcessMaxStreetBoard.seatBody E fuel
        (ProcessMaxStreetBoard.initialReach E (boardHands E msbd)) 1) from rfl]
  cases hw0 : ProcessMaxStreetBoard.seatBody E fuel
      (ProcessMaxStreetBoard.initialReach E (boardHands E msbd))
      0 (ProcessMaxStreetBoard.setup E P msbd) with
  | ok Q0 =>
    rw [hw0] at hrun
    replace hrun : (ProcessMaxStreetBoard.seatBody E fuel
        (ProcessMaxStreetBoard.initialReach E (boardHands E msbd)) 1 Q0).bind
        (fun P2 => Run.ok (P2.withSeat 2)) = .ok Q := hrun
    cases hw1 : ProcessMaxStreetBoard.seatBody E fuel
        (ProcessMaxStreetBoard.initialReach E (boardHands E msbd)) 1 Q0 with
    | ok Q1 =>
      rw [hw1] at hrun
      injection hrun with hQ
      -- frames of the two walks of the first run
      have hno0 : NoResolve ((ProcessMaxStreetBoard.setup E P msbd).withSeat 0) := hnoP
      have hf0 := (Walk_frame E fuel _ _ _ _ _ 0 Q0 hno0 hr0 hw0).1
      have hinv0 : SeatInv (ProcessMaxStreetBoard.setup E P msbd) Q0 :=
        congrArg (fun X : Player => X.withSeat 0) hf0
      have t1 := SeatInv_field Player.a_betting_tree_ (fun _ => rfl)
        (ProcessMaxStreetBoard.setup E P msbd) Q0 hinv0
      have t2 := SeatInv_field Player.b_betting_tree_ (fun _ => rfl)
        (ProcessMaxStreetBoard.setup E P msbd) Q0 hinv0
      have hQ0tree : Q0.a_betting_tree_ = P.a_betting_tree_ ∧
          Q0.b_betting_tree_ = P.a_betting_tree_ := ⟨t1, t2.trans hrel.same_tree⟩
      have hP'tree : (ProcessMaxStreetBoard.setup E P' msbd).a_betting_tree_ =
          P.a_betting_tree_ ∧
          (ProcessMaxStreetBoard.setup E P' msbd).b_betting_tree_ = P.a_betting_tree_ :=
        ⟨hrel.a_tree.trans hrel.same_tree, hrel.b_tree⟩
      -- the second run in seat 0 mirrors the first run in seat 1
      have hw1' : Player.Walk E fuel (Q0.withSeat 1) P.a_betting_tree_ P.a_betting_tree_ "x"
          (ProcessMaxStreetBoard.initialReach E (boardHands E msbd)) 0 = .ok Q1 := by
        have := hw1
        unfold ProcessMaxStreetBoard.seatBody at this
        rw [hQ0tree.1, hQ0tree.2] at this
        exact this
      have hrelA : SwapRel E (Q0.withSeat 1)
          ((ProcessMaxStreetBoard.setup E P' msbd).withSeat 0) :=
        SwapRel_of_side E _ _ Q0 (ProcessMaxStreetBoard.setup E P' msbd) 1 0
          (SwapRel_setup E P P' msbd 1 0 rfl hrel hsamp) hinv0 rfl
      have hhQ0 : (Q0.withSeat 1).hands_ = boardHands E msbd :=
        SeatInv_field Player.hands_ (fun _ => rfl) (ProcessMaxStreetBoard.setup E P msbd) Q0
          hinv0
      obtain ⟨R0, hR0, hdA⟩ := Walk_swap E fuel _ _ P.a_betting_tree_ "x" _ 0 Q1 h hrelA
        (by rw [hhQ0]; exact hD) (by rw [hhQ0]; exact hS) (by rw [hhQ0]; exact hr0) hwf hsl
        hw1'
      have hR0body : ProcessMaxStreetBoard.seatBody E fuel
          (ProcessMaxStreetBoard.initialReach E (boardHands E msbd)) 0
          (ProcessMaxStreetBoard.setup E P' msbd) = .ok R0 := by
        unfold ProcessMaxStreetBoard.seatBody
        rw [hP'tree.1, hP'tree.2]
        exact hR0
      have hno0' : NoResolve ((ProcessMaxStreetBoard.setup E P' msbd).withSeat 0) := hnoP'
      have hfR0 := (Walk_frame E fuel _ _ _ _ _ 0 R0 hno0' hr0 hR0).1
      have hinvR0 : SeatInv (ProcessMaxStreetBoard.setup E P' msbd) R0 :=
        congrArg (fun X : Player => X.withSeat 0) hfR0
      -- the second run in seat 1 mirrors the first run in seat 0
      have hw0' : Player.Walk E fuel ((ProcessMaxStreetBoard.setup E P msbd).withSeat 0)
          P.a_betting_tree_ P.a_betting_tree_ "x"
          (ProcessMaxStreetBoard.initialReach E (boardHands E msbd)) 0 = .ok Q0 := by
        have := hw0
        unfold ProcessMaxStreetBoard.seatBody at this
        rw [hsideP, show (ProcessMaxStreetBoard.setup E P msbd).b_betting_tree_ =
          P.a_betting_tree_ from hrel.same_tree] at this
        exact this
      have hrelB : SwapRel E ((ProcessMaxStreetBoard.setup E P msbd).withSeat 0)
          (R0.withSeat 1) :=
        SwapRel_of_side E _ _ (ProcessMaxStreetBoard.setup E P msbd) R0 0 1
          (SwapRel_setup E P P' msbd 0 1 rfl hrel hsamp) rfl hinvR0
      obtain ⟨R1, hR1, hdB⟩ := Walk_swap E fuel _ _ P.a_betting_tree_ "x" _ 0 Q0 h hrelB
        hD hS hr0 hwf hsl hw0'
      have t3 := SeatInv_field Player.a_betting_tree_ (fun _ => rfl)
        (ProcessMaxStreetBoard.setup E P' msbd) R0 hinvR0
      have t4 := SeatInv_field Player.b_betting_tree_ (fun _ => rfl)
        (ProcessMaxStreetBoard.setup E P' msbd) R0 hinvR0
      have hR0tree : R0.a_betting_tree_ = P.a_betting_tree_ ∧
          R0.b_betting_tree_ = P.a_betting_tree_ :=
        ⟨t3.trans hP'tree.1, t4.trans hP'tree.2⟩
      have hR1body : ProcessMaxStreetBoard.seatBody E fuel
          (ProcessMaxStreetBoard.initialReach E (boardHands E msbd)) 1 R0 = .ok R1 := by
        unfold ProcessMaxStreetBoard.seatBody
        rw [hR0tree.1, hR0tree.2]
        exact hR1
      refine ⟨R1.withSeat 2, ?_, ?_⟩
      · simp only [hR0body, Run.bind, hR1body]
      · rw [← hQ]
        unfold SwapDelta at hdA hdB ⊢
        have a1 : R0.sum_b_outcomes_ - P'.sum_b_outcomes_ =
            - (Q1.sum_b_outcomes_ - Q0.sum_b_outcomes_) := hdA.1
        have a2 : R0.sum_weights_ - P'.sum_weights_ = Q1.sum_weights_ - Q0.sum_weights_ := hdA.2
        have b1 : R1.sum_b_outcomes_ - R0.sum_b_outcomes_ =
            - (Q0.sum_b_outcomes_ - P.sum_b_outcomes_) := hdB.1
        have b2 : R1.sum_weights_ - R0.sum_weights_ = Q0.sum_weights_ - P.sum_weights_ := hdB.2
        constructor
        · show R1.sum_b_outcomes_ - P'.sum_b_outcomes_ =
            - (Q1.sum_b_outcomes_ - P.sum_b_outcomes_)
          linarith
        · show R1.sum_weights_ - P'.sum_weights_ = Q1.sum_weights_ - P.sum_weights_
          linarith
    | fatal => rw [hw1] at hrun; exact absurd hrun (by simp [Run.bind])
    | undefined => rw [hw1] at hrun; exact absurd hrun (by simp [Run.bind])
    | out_of_fuel => rw [hw1] at hrun; exact absurd hrun (by simp [Run.bind])
  | fatal => rw [hw0] at hrun; exact absurd hrun (by simp [Run.bind])
  | undefined => rw [hw0] at hrun; exact absurd hrun (by simp [Run.bind])
  | out_of_fuel => rw [hw0] at hrun; exact absurd hrun (by simp [Run.bind])

theorem SideSwap_of_seatInv (P1 P1' T T' : Player) (h : SideSwap P1 P1') (hT : SeatInv P1 T)
    (hT' : SeatInv P1' T') : SideSwap T T' := by
  have f : ∀ {α : Type} (g : Player → α), (∀ X : Player, g (X.withSeat 0).cfg = g X) →
      g T = g P1 ∧ g T' = g P1' :=
    fun g hg => ⟨SeatInv_field g hg P1 T hT, SeatInv_field g hg P1' T' hT'⟩
  obtain ⟨e1, e1'⟩ := f Player.a_probs_ (fun _ => rfl)
  obtain ⟨e2, e2'⟩ := f Player.b_probs_ (fun _ => rfl)
  obtain ⟨e3, e3'⟩ := f Player.a_base_buckets_ (fun _ => rfl)
  obtain ⟨e4, e4'⟩ := f Player.b_base_buckets_ (fun _ => rfl)
  obtain ⟨e5, e5'⟩ := f Player.a_boards_ (fun _ => rfl)
  obtain ⟨e6, e6'⟩ := f Player.b_boards_ (fun _ => rfl)
  obtain ⟨e7, e7'⟩ := f Player.a_betting_tree_ (fun _ => rfl)
  obtain ⟨e8, e8'⟩ := f Player.b_betting_tree_ (fun _ => rfl)
  obtain ⟨e11, e11'⟩ := f Player.resolve_st_ (fun _ => rfl)
  exact ⟨e1'.trans (h.a_probs.trans e2.symm), e2'.trans (h.b_probs.trans e1.symm),
    e3'.trans (h.a_buckets.trans e4.symm), e4'.trans (h.b_buckets.trans e3.symm),
    by rw [e5', e6]; exact h.a_boards, by rw [e6', e5]; exact h.b_boards,
    e7'.trans (h.a_tree.trans e8.symm), e8'.trans (h.b_tree.trans e7.symm),
    e8.trans (h.same_tree.trans e7.symm), e11'.trans (h.resolve_st.trans e11.symm),
    SeatInv_noResolve P1 T hT h.no_resolve, SeatInv_noResolve P1' T' hT' h.no_resolve'⟩

theorem SideSwap_withSamples (R R' : Player) (c : Int) (h : SideSwap R R') :
    SideSwap (R.withSamples c) (R'.withSamples c) :=
  ⟨h.a_probs, h.b_probs, h.a_buckets, h.b_buckets, h.a_boards, h.b_boards, h.a_tree, h.b_tree,
    h.same_tree, h.resolve_st, h.no_resolve, h.no_resolve'⟩

/-- One board of the evaluation in the two runs. -/
theorem board_step_swap (E : Env) (fuel h : Nat) (P0 P0' R R' : Player) (bd : Int) (c : Int)
    (T : Player) (h2 : E.game.NumPlayers = 2)
    (hwf : P0.a_betting_tree_.wellFormed h = true)
    (hsl : P0.a_betting_tree_.streetsLE E.game.MaxStreet h = true)
    (hD : DistinctHands E.game.MaxCard (E.game.NumHoleCardPairs E.game.MaxStreet)
      (boardHands E bd))
    (hS : SortedByValue (E.game.NumHoleCardPairs E.game.MaxStreet) (boardHands E bd))
    (hrel : GoRel P0 P0' R R')
    (hstep : (R.withSamples c).ProcessMaxStreetBoard E fuel bd = .ok T) :
    ∃ T', (R'.withSamples c).ProcessMaxStreetBoard E fuel bd = .ok T' ∧ GoRel P0 P0' T T' := by
  obtain ⟨hs, ht, hd⟩ := hrel
  have hs1 := SideSwap_withSamples R R' c hs
  obtain ⟨T', hT', hdT⟩ := ProcessMaxStreetBoard_swap E fuel (R.withSamples c) (R'.withSamples c)
    bd h T h2 hs1 rfl (by show R.a_betting_tree_.wellFormed h = true; rw [ht]; exact hwf)
    (by show R.a_betting_tree_.streetsLE E.game.MaxStreet h = true; rw [ht]; exact hsl)
    hD hS hstep
  have i1 := ProcessMaxStreetBoard_cfg E fuel (R.withSamples c) bd T h2 hs1.no_resolve hstep
  have i2 := ProcessMaxStreetBoard_cfg E fuel (R'.withSamples c) bd T' h2 hs1.no_resolve' hT'
  refine ⟨T', hT', SideSwap_of_seatInv _ _ T T' (SideSwap_setup E _ _ bd hs1) i1 i2, ?_, ?_⟩
  · exact (SeatInv_field Player.a_betting_tree_ (fun _ => rfl)
      (ProcessMaxStreetBoard.setup E (R.withSamples c) bd) T i1).trans ht
  · exact SwapDelta_trans P0 P0' R R' T T' hd hdT

/-- The boards of the evaluation processed by two runs with the sides exchanged: when the first
returns so does the second, with the negated sum of B and the same weights. -/
theorem Go_boards_swap (E : Env) (fuel h : Nat) (rand : Nat → ℚ) (P P' : Player) (N : Int)
    (Q : Player) (h2 : E.game.NumPlayers = 2) (hrel : SideSwap P P')
    (hwf : P.a_betting_tree_.wellFormed h = true)
    (hsl : P.a_betting_tree_.streetsLE E.game.MaxStreet h = true)
    (hhands : ∀ bd : Nat, bd < E.board_tree.NumBoards E.game.MaxStreet →
      DistinctHands E.game.MaxCard (E.game.NumHoleCardPairs E.game.MaxStreet)
        (boardHands E (bd : Int)) ∧
      SortedByValue (E.game.NumHoleCardPairs E.game.MaxStreet) (boardHands E (bd : Int)))
    (hrun : Go.boards E fuel rand P N = .ok Q) :
    ∃ Q', Go.boards E fuel rand P' N = .ok Q' ∧ SwapDelta P P' Q Q' := by
  have hrel0 : GoRel P P' ({ P with num_resolves_ := 0 } : Player)
      ({ P' with num_resolves_ := 0 } : Player) :=
    ⟨⟨hrel.a_probs, hrel.b_probs, hrel.a_buckets, hrel.b_buckets, hrel.a_boards, hrel.b_boards,
      hrel.a_tree, hrel.b_tree, hrel.same_tree, hrel.resolve_st,
      hrel.no_resolve, hrel.no_resolve'⟩, rfl, by unfold SwapDelta; constructor <;> ring⟩
  unfold Go.boards at hrun ⊢
  simp only at hrun ⊢
  by_cases hfull : Go.numSampled E N = (E.board_tree.NumBoards E.game.MaxStreet : Int)
  · rw [if_pos hfull] at hrun ⊢
    obtain ⟨Q', hQ', hg⟩ := forLoopM_sim 0 (Go.allBody E fuel) (Go.allBody E fuel) _
      (fun R R' => GoRel P P' R R')
      (by
        intro k hk R R' T hRR hstep
        rw [Nat.zero_add] at hstep ⊢
        exact board_step_swap E fuel h P P' R R' (k : Int) _ T h2 hwf hsl (hhands k hk).1
          (hhands k hk).2 hRR hstep)
      _ _ Q hrel0 hrun
    exact ⟨Q', hQ', hg.2.2⟩
  · rw [if_neg hfull] at hrun ⊢
    cases hsc : Go.sampleCounts (Go.randomPairs E rand (E.board_tree.NumBoards E.game.MaxStreet))
        (Go.numSampled E N) with
    | ok samples =>
      rw [hsc] at hrun
      replace hrun : forLoopM 0 (Go.sampledBody E fuel samples)
          (E.board_tree.NumBoards E.game.MaxStreet) ({ P with num_resolves_ := 0 } : Player) =
          .ok Q := hrun
      show ∃ Q', forLoopM 0 (Go.sampledBody E fuel samples)
          (E.board_tree.NumBoards E.game.MaxStreet) ({ P' with num_resolves_ := 0 } : Player) =
          .ok Q' ∧ SwapDelta P P' Q Q'
      obtain ⟨Q', hQ', hg⟩ := forLoopM_sim 0 (Go.sampledBody E fuel samples)
        (Go.sampledBody E fuel samples) _ (fun R R' => GoRel P P' R R')
        (by
          intro k hk R R' T hRR hstep
          rw [Nat.zero_add] at hstep ⊢
          unfold Go.sampledBody at hstep ⊢
          simp only at hstep ⊢
          by_cases hz : (R.withSamples (samples (k : Int))).num_samples_ = 0
          · have hz' : (R'.withSamples (samples (k : Int))).num_samples_ = 0 := hz
            rw [if_pos hz] at hstep
            rw [if_pos hz']
            injection hstep with hstep
            rw [← hstep]
            exact ⟨_, rfl, SideSwap_withSamples R R' _ hRR.1, hRR.2.1, hRR.2.2⟩
          · have hz' : ¬ (R'.withSamples (samples (k : Int))).num_samples_ = 0 := hz
            rw [if_neg hz] at hstep
            rw [if_neg hz']
            exact board_step_swap E fuel h P P' R R' (k : Int) _ T h2 hwf hsl (hhands k hk).1
              (hhands k hk).2 hRR hstep)
        _ _ Q hrel0 hrun
      exact ⟨Q', hQ', hg.2.2⟩
    | fatal => rw [hsc] at hrun; exact absurd hrun (by simp [Run.bind])
    | undefined => rw [hsc] at hrun; exact absurd hrun (by simp [Run.bind])
    | out_of_fuel => rw [hsc] at hrun; exact absurd hrun (by simp [Run.bind])

theorem SideSwap_of_selfPlay (P : Player) (h : SelfPlay P) : SideSwap P P :=
  ⟨h.probs.symm, h.probs, h.buckets.symm, h.buckets, h.boards.symm, h.boards, h.tree.symm,
    h.tree, h.tree, rfl, h.no_resolve, h.no_resolve⟩

/-- One board in self-play: the two walks both return, and the second adds to the sum of B the
negation of what the first added, and the same weight. -/
theorem ProcessMaxStreetBoard_self (E : Env) (fuel : Nat) (P : Player) (msbd : Int)
    (h : Nat) (Q : Player) (h2 : E.game.NumPlayers = 2) (hself : SelfPlay P)
    (hwf : P.a_betting_tree_.wellFormed h = true)
    (hsl : P.a_betting_tree_.streetsLE E.game.MaxStreet h = true)
    (hD : DistinctHands E.game.MaxCard (E.game.NumHoleCardPairs E.game.MaxStreet)
      (boardHands E msbd))
    (hS : SortedByValue (E.game.NumHoleCardPairs E.game.MaxStreet) (boardHands E msbd))
    (hrun : P.ProcessMaxStreetBoard E fuel msbd = .ok Q) :
    ∃ Q0 Q1, ProcessMaxStreetBoard.seatBody E fuel
        (ProcessMaxStreetBoard.initialReach E (boardHands E msbd)) 0
        (ProcessMaxStreetBoard.setup E P msbd) = .ok Q0 ∧
      ProcessMaxStreetBoard.seatBody E fuel
        (ProcessMaxStreetBoard.initialReach E (boardHands E msbd)) 1 Q0 = .ok Q1 ∧
      Q = Q1.withSeat 2 ∧
      Q1.sum_b_outcomes_ - Q0.sum_b_outcomes_ = - (Q0.sum_b_outcomes_ - P.sum_b_outcomes_) ∧
      Q1.sum_weights_ - Q0.sum_weights_ = Q0.sum_weights_ - P.sum_weights_ := by
  have hrel := SideSwap_of_selfPlay P hself
  have hr0 := initialReach_ok E (boardHands E msbd) h2
  have hnoP : NoResolve (ProcessMaxStreetBoard.setup E P msbd) := hrel.no_resolve
  rw [ProcessMaxStreetBoard_eq, h2] at hrun
  rw [show forLoopM 0 (ProcessMaxStreetBoard.seatBody E fuel
      (ProcessMaxStreetBoard.initialReach E (boardHands E msbd)))
      2 (ProcessMaxStreetBoard.setup E P msbd) =
    (ProcessMaxStreetBoard.seatBody E fuel
      (ProcessMaxStreetBoard.initialReach E (boardHands E msbd))
      0 (ProcessMaxStreetBoard.setup E P msbd)).bind
      (ProcessMaxStreetBoard.seatBody E fuel
        (ProcessMaxStreetBoard.initialReach E (boardHands E msbd)) 1) from rfl] at hrun
  cases hw0 : ProcessMaxStreetBoard.seatBody E fuel
      (ProcessMaxStreetBoard.initialReach E (boardHands E msbd))
      0 (ProcessMaxStreetBoard.setup E P msbd) with
  | ok Q0 =>
    rw [hw0] at hrun
    replace hrun : (ProcessMaxStreetBoard.seatBody E fuel
        (ProcessMaxStreetBoard.initialReach E (boardHands E msbd)) 1 Q0).bind
        (fun P2 => Run.ok (P2.withSeat 2)) = .ok Q := hrun
    cases hw1 : ProcessMaxStreetBoard.seatBody E fuel
        (ProcessMaxStreetBoard.initialReach E (boardHands E msbd)) 1 Q0 with
    | ok Q1 =>
      rw [hw1] at hrun
      injection hrun with hQ
      have hno0 : NoResolve ((ProcessMaxStreetBoard.setup E P msbd).withSeat 0) := hnoP
      have hf0 := (Walk_frame E fuel _ _ _ _ _ 0 Q0 hno0 hr0 hw0).1
      have hinv0 : SeatInv (ProcessMaxStreetBoard.setup E P msbd) Q0 :=
        congrArg (fun X : Player => X.withSeat 0) hf0
      have t1 := SeatInv_field Player.a_betting_tree_ (fun _ => rfl)
        (ProcessMaxStreetBoard.setup E P msbd) Q0 hinv0
      have t2 := SeatInv_field Player.b_betting_tree_ (fun _ => rfl)
        (ProcessMaxStreetBoard.setup E P msbd) Q0 hinv0
      have hQ0tree : Q0.a_betting_tree_ = P.a_betting_tree_ ∧
          Q0.b_betting_tree_ = P.a_betting_tree_ := ⟨t1, t2.trans hrel.same_tree⟩
      have hw1' : Player.Walk E fuel (Q0.withSeat 1) P.a_betting_tree_ P.a_betting_tree_ "x"
          (ProcessMaxStreetBoard.initialReach E (boardHands E msbd)) 0 = .ok Q1 := by
        have := hw1
        unfold ProcessMaxStreetBoard.seatBody at this
        rw [hQ0tree.1, hQ0tree.2] at this
        exact this
      have hw0' : Player.Walk E fuel ((ProcessMaxStreetBoard.setup E P msbd).withSeat 0)
          P.a_betting_tree_ P.a_betting_tree_ "x"
          (ProcessMaxStreetBoard.initialReach E (boardHands E msbd)) 0 = .ok Q0 := by
        have := hw0
        unfold ProcessMaxStreetBoard.seatBody at this
        rw [show (ProcessMaxStreetBoard.setup E P msbd).a_betting_tree_ = P.a_betting_tree_
          from rfl, show (ProcessMaxStreetBoard.setup E P msbd).b_betting_tree_ =
          P.a_betting_tree_ from hrel.same_tree] at this
        exact this
      have hrelB : SwapRel E ((ProcessMaxStreetBoard.setup E P msbd).withSeat 0)
          (Q0.withSeat 1) :=
        SwapRel_of_side E _ _ (ProcessMaxStreetBoard.setup E P msbd) Q0 0 1
          (SwapRel_setup E P P msbd 0 1 rfl hrel rfl) rfl hinv0
      obtain ⟨R1, hR1, hdB⟩ := Walk_swap E fuel _ _ P.a_betting_tree_ "x" _ 0 Q0 h hrelB
        hD hS hr0 hwf hsl hw0'
      rw [hw1'] at hR1
      injection hR1 with hR1
      rw [← hR1] at hdB
      exact ⟨Q0, Q1, rfl, hw1, hQ.symm, hdB.1, hdB.2⟩
    | fatal => rw [hw1] at hrun; exact absurd hrun (by simp [Run.bind])
    | undefined => rw [hw1] at hrun; exact absurd hrun (by simp [Run.bind])
    | out_of_fuel => rw [hw1] at hrun; exact absurd hrun (by simp [Run.bind])
  | fatal => rw [hw0] at hrun; exact absurd hrun (by simp [Run.bind])
  | undefined => rw [hw0] at hrun; exact absurd hrun (by simp [Run.bind])
  | out_of_fuel => rw [hw0] at hrun; exact absurd hrun (by simp [Run.bind])

/-! ## `Go` returns -/

theorem Go_ok_iff (E : Env) (fuel : Nat) (rand : Nat → ℚ) (P : Player) (N : Int) (Q : Player)
    (r : Report) :
    P.Go E fuel rand N = .ok (Q, r) ↔ Go.boards E fuel rand P N = .ok Q ∧ r = Go.report Q := by
  unfold Player.Go
  cases hb : Go.boards E fuel rand P N with
  | ok Q2 =>
    show Run.ok (Q2, Go.report Q2) = Run.ok (Q, r) ↔ _
    constructor
    · intro hq
      injection hq with hq
      injection hq with hq1 hq2
      exact ⟨by rw [hq1], by rw [← hq2, hq1]⟩
    · rintro ⟨hq1, hq2⟩
      injection hq1 with hq1
      rw [hq2, hq1]
  | fatal => exact ⟨fun hq => absurd hq (by simp [Run.bind]), fun hq => absurd hq.1 (by simp)⟩
  | undefined =>
    exact ⟨fun hq => absurd hq (by simp [Run.bind]), fun hq => absurd hq.1 (by simp)⟩
  | out_of_fuel =>
    exact ⟨fun hq => absurd hq (by simp [Run.bind]), fun hq => absurd hq.1 (by simp)⟩

/-- When every board is processed, the two sides walk one well-formed tree without resolving
and both strategy tables hold probabilities, `Go` returns when the budget covers twice the
depth of the tree. -/
theorem Go_boards_total (E : Env) (fuel h : Nat) (rand : Nat → ℚ) (P : Player) (N : Int)
    (h2 : E.game.NumPlayers = 2) (hno : NoResolve P) (hva : ValidStrategy P.a_probs_)
    (hvb : ValidStrategy P.b_probs_) (htree : P.b_betting_tree_ = P.a_betting_tree_)
    (hw : P.a_betting_tree_.wellFormed h = true) (hfuel : 2 * h + 2 ≤ fuel)
    (hall : Go.numSampled E N = (E.board_tree.NumBoards E.game.MaxStreet : Int)) :
    ∃ Q, Go.boards E fuel rand P N = .ok Q := by
  unfold Go.boards
  simp only
  rw [if_pos hall]
  obtain ⟨Q, hQ, _⟩ := forLoopM_total 0 (Go.allBody E fuel)
    (E.board_tree.NumBoards E.game.MaxStreet)
    (fun R => R.a_probs_ = P.a_probs_ ∧ R.b_probs_ = P.b_probs_ ∧
      R.a_betting_tree_ = P.a_betting_tree_ ∧ R.b_betting_tree_ = P.b_betting_tree_ ∧
      NoResolve R)
    (by
      intro k _ R hR
      obtain ⟨r1, r2, r3, r4, r5⟩ := hR
      have hno1 : NoResolve (R.withSamples
          (E.board_tree.BoardCount E.game.MaxStreet ((0 + k : Nat) : Int))) := r5
      obtain ⟨T, hT⟩ := ProcessMaxStreetBoard_total E fuel
        (R.withSamples (E.board_tree.BoardCount E.game.MaxStreet ((0 + k : Nat) : Int)))
        ((0 + k : Nat) : Int) h h2 hno1
        (by show ValidStrategy R.a_probs_; rw [r1]; exact hva)
        (by show ValidStrategy R.b_probs_; rw [r2]; exact hvb)
        (by show R.b_betting_tree_ = R.a_betting_tree_; rw [r3, r4]; exact htree)
        (by show R.a_betting_tree_.wellFormed h = true; rw [r3]; exact hw) hfuel
      have hinv := ProcessMaxStreetBoard_cfg E fuel _ _ T h2 hno1 hT
      refine ⟨T, hT, ?_, ?_, ?_, ?_, SeatInv_noResolve _ T hinv hno1⟩
      · exact (SeatInv_field Player.a_probs_ (fun _ => rfl) _ T hinv).trans r1
      · exact (SeatInv_field Player.b_probs_ (fun _ => rfl) _ T hinv).trans r2
      · exact (SeatInv_field Player.a_betting_tree_ (fun _ => rfl) _ T hinv).trans r3
      · exact (SeatInv_field Player.b_betting_tree_ (fun _ => rfl) _ T hinv).trans r4)
    ({ P with num_resolves_ := 0 } : Player) ⟨rfl, rfl, rfl, rfl, hno⟩
  exact ⟨Q, hQ⟩

/-! ## Exchanged sides and self-play: the statements -/

theorem exSideSwap : SideSwap exPlayer exSwappedPlayer :=
  ⟨rfl, rfl, rfl, rfl, rfl, rfl, rfl, rfl, rfl, rfl, ⟨rfl, rfl⟩, ⟨rfl, rfl⟩⟩

theorem exSelfPlay : SelfPlay exSelfPlayer := ⟨rfl, rfl, rfl, rfl, ⟨rfl, rfl⟩⟩

theorem exBoards_hands : ∀ bd : Nat, bd < exEnv.board_tree.NumBoards exEnv.game.MaxStreet →
    DistinctHands exEnv.game.MaxCard (exEnv.game.NumHoleCardPairs exEnv.game.MaxStreet)
      (boardHands exEnv (bd : Int)) ∧
    SortedByValue (exEnv.game.NumHoleCardPairs exEnv.game.MaxStreet)
      (boardHands exEnv (bd : Int)) :=
  fun _ _ => ⟨exHands_distinct, exHands_sorted⟩

theorem exNumSampled : Go.numSampled exEnv 0 =
    (exEnv.board_tree.NumBoards exEnv.game.MaxStreet : Int) := by
  simp [Go.numSampled]

/-- C5.  Exchanging A and B negates the outcome of B.  Two-player runs `P` and `P'` on one
betting tree (of depth at most `h`, with seats 0 or 1 and streets up to the last street)
without resolving, with the strategies and buckets of A and B exchanged (`SideSwap`), both
started with sums 0, over boards of distinct hands sorted by strength, and drawing the same
random numbers `rand` where boards are sampled: when `Go` returns for `P` it returns for `P'`,
with the same `sum_weights_` and the negated `sum_b_outcomes_`, hence (where the weights are
not 0) the negated `avg_b_outcome`.  At one terminal node, for two states that differ in the seat of B (`SeatFlip`: the local arrays
`a_probs` and `b_probs` are exchanged): `Showdown`, on reach values in `[0, 1]`, and `Fold`, at
a node of player 0 or 1, add the negated value to the sums of B and the same weight. -/
theorem swap_negates_outcome (E : Env) (fuel h : Nat) (rand : Nat → ℚ) (P P' : Player)
    (N : Int) (h2 : E.game.NumPlayers = 2) (hrel : SideSwap P P')
    (hwf : P.a_betting_tree_.wellFormed h = true)
    (hsl : P.a_betting_tree_.streetsLE E.game.MaxStreet h = true)
    (hhands : ∀ bd : Nat, bd < E.board_tree.NumBoards E.game.MaxStreet →
      DistinctHands E.game.MaxCard (E.game.NumHoleCardPairs E.game.MaxStreet)
        (boardHands E (bd : Int)) ∧
      SortedByValue (E.game.NumHoleCardPairs E.game.MaxStreet) (boardHands E (bd : Int)))
    (hzero : P.sum_b_outcomes_ = 0 ∧ P.sum_weights_ = 0)
    (hzero' : P'.sum_b_outcomes_ = 0 ∧ P'.sum_weights_ = 0) :
    (∀ Q r, P.Go E fuel rand N = .ok (Q, r) →
      ∃ Q' r', P'.Go E fuel rand N = .ok (Q', r') ∧
        Q'.sum_weights_ = Q.sum_weights_ ∧ Q'.sum_b_outcomes_ = - Q.sum_b_outcomes_ ∧
        (Q.sum_weights_ ≠ 0 → r'.avg_b_outcome = - r.avg_b_outcome)) ∧
    (∀ (T T' : Player) (a b : Node) (reach : Nat → Nat → ℚ), SeatFlip T T' →
      DistinctHands E.game.MaxCard (E.game.NumHoleCardPairs E.game.MaxStreet) T.hands_ →
      SortedByValue (E.game.NumHoleCardPairs E.game.MaxStreet) T.hands_ →
      OkReach E T.hands_ reach →
      ∃ x y, T.Showdown E a b reach = .ok (T.accumulate x y) ∧
        T'.Showdown E a b reach = .ok (T'.accumulate (-x) y)) ∧
    (∀ (T T' : Player) (a b : Node) (reach : Nat → Nat → ℚ), SeatFlip T T' →
      DistinctHands E.game.MaxCard (E.game.NumHoleCardPairs E.game.MaxStreet) T.hands_ →
      a.PlayerActing < 2 →
      ∃ x y, T.Fold E a b reach = T.accumulate x y ∧
        T'.Fold E a b reach = T'.accumulate (-x) y) := by
  refine ⟨?_, ?_, ?_⟩
  · intro Q r hgo
    obtain ⟨hb, hr⟩ := (Go_ok_iff E fuel rand P N Q r).mp hgo
    obtain ⟨Q', hQ', hd⟩ := Go_boards_swap E fuel h rand P P' N Q h2 hrel hwf hsl hhands hb
    have hw : Q'.sum_weights_ = Q.sum_weights_ := by
      have := hd.2
      rw [hzero.2, hzero'.2] at this
      linarith
    have hs : Q'.sum_b_outcomes_ = - Q.sum_b_outcomes_ := by
      have := hd.1
      rw [hzero.1, hzero'.1] at this
      linarith
    refine ⟨Q', Go.report Q', (Go_ok_iff E fuel rand P' N Q' _).mpr ⟨hQ', rfl⟩, hw, hs, ?_⟩
    intro _
    rw [hr]
    show Q'.sum_b_outcomes_ / Q'.sum_weights_ = - (Q.sum_b_outcomes_ / Q.sum_weights_)
    rw [hw, hs, neg_div]
  · intro T T' a b reach hf hD hS hr
    exact Showdown_swap E T T' a b reach hf hD hS hr
  · intro T T' a b reach hf hD hpa
    exact Fold_swap E T T' a b reach hf hD hpa

theorem swap_negates_outcome_witness :
    (∃ Q r Q' r', exPlayer.Go exEnv 6 (fun _ => 0) 0 = .ok (Q, r) ∧
      exSwappedPlayer.Go exEnv 6 (fun _ => 0) 0 = .ok (Q', r') ∧
      Q'.sum_weights_ = Q.sum_weights_ ∧ Q'.sum_b_outcomes_ = - Q.sum_b_outcomes_ ∧
      (Q.sum_weights_ ≠ 0 → r'.avg_b_outcome = - r.avg_b_outcome)) ∧
    (∃ x y, exPlayer.Showdown exEnv exShowdownNode exShowdownNode exReach =
        .ok (exPlayer.accumulate x y) ∧
      (exPlayer.withSeat 1).Showdown exEnv exShowdownNode exShowdownNode exReach =
        .ok ((exPlayer.withSeat 1).accumulate (-x) y)) ∧
    (∃ x y, exPlayer.Fold exEnv exFoldNode exFoldNode exReach = exPlayer.accumulate x y ∧
      (exPlayer.withSeat 1).Fold exEnv exFoldNode exFoldNode exReach =
        (exPlayer.withSeat 1).accumulate (-x) y) := by
  have hthm := swap_negates_outcome exEnv 6 2 (fun _ => 0) exPlayer exSwappedPlayer 0 rfl
    exSideSwap (by decide) (by decide) exBoards_hands ⟨rfl, rfl⟩ ⟨rfl, rfl⟩
  obtain ⟨Q, hQ⟩ := Go_boards_total exEnv 6 2 (fun _ => 0) exPlayer 0 rfl ⟨rfl, rfl⟩
    exProbs_valid exProbs2_valid rfl (by decide) (by decide) exNumSampled
  obtain ⟨Q', r', h1, h2, h3, h4⟩ := hthm.1 Q (Go.report Q)
    ((Go_ok_iff exEnv 6 (fun _ => 0) exPlayer 0 Q _).mpr ⟨hQ, rfl⟩)
  exact ⟨⟨Q, Go.report Q, Q', r',
      (Go_ok_iff exEnv 6 (fun _ => 0) exPlayer 0 Q _).mpr ⟨hQ, rfl⟩, h1, h2, h3, h4⟩,
    hthm.2.1 exPlayer (exPlayer.withSeat 1) exShowdownNode exShowdownNode exReach
      ⟨rfl, rfl, rfl⟩ exHands_distinct exHands_sorted exReach_ok,
    hthm.2.2 exPlayer (exPlayer.withSeat 1) exFoldNode exFoldNode exReach
      ⟨rfl, rfl, rfl⟩ exHands_distinct (by decide)⟩

/-- C4.  Self-play is exactly zero.  In a two-player run in which A and B use the same
betting tree (of depth at most `h`, with seats 0 or 1 and streets up to the last street), the
same buckets and the same strategy table and neither side resolves (`SelfPlay`), started with
`sum_b_outcomes_ = 0`, over boards of distinct hands sorted by strength: when `ProcessMaxStreetBoard` returns for a board, its two walks
returned, the walk with `b_pos_ = 1` added to `sum_b_outcomes_` the negation of what the walk
with `b_pos_ = 0` added, and `sum_b_outcomes_` is 0 afterwards; and when `Go` returns,
`sum_b_outcomes_` is 0 and (where the weights are not 0) `avg_b_outcome` is 0. -/
theorem self_play_zero (E : Env) (fuel h : Nat) (rand : Nat → ℚ) (P : Player) (N : Int)
    (h2 : E.game.NumPlayers = 2) (hself : SelfPlay P)
    (hwf : P.a_betting_tree_.wellFormed h = true)
    (hsl : P.a_betting_tree_.streetsLE E.game.MaxStreet h = true)
    (hhands : ∀ bd : Nat, bd < E.board_tree.NumBoards E.game.MaxStreet →
      DistinctHands E.game.MaxCard (E.game.NumHoleCardPairs E.game.MaxStreet)
        (boardHands E (bd : Int)) ∧
      SortedByValue (E.game.NumHoleCardPairs E.game.MaxStreet) (boardHands E (bd : Int)))
    (hzero : P.sum_b_outcomes_ = 0) :
    (∀ (bd : Nat) (Q : Player), bd < E.board_tree.NumBoards E.game.MaxStreet →
      P.ProcessMaxStreetBoard E fuel (bd : Int) = .ok Q →
      ∃ Q0 Q1, ProcessMaxStreetBoard.seatBody E fuel
          (ProcessMaxStreetBoard.initialReach E (boardHands E (bd : Int))) 0
          (ProcessMaxStreetBoard.setup E P (bd : Int)) = .ok Q0 ∧
        ProcessMaxStreetBoard.seatBody E fuel
          (ProcessMaxStreetBoard.initialReach E (boardHands E (bd : Int))) 1 Q0 = .ok Q1 ∧
        Q = Q1.withSeat 2 ∧
        Q1.sum_b_outcomes_ - Q0.sum_b_outcomes_ =
          - (Q0.sum_b_outcomes_ - P.sum_b_outcomes_) ∧
        Q.sum_b_outcomes_ = 0) ∧
    (∀ Q r, P.Go E fuel rand N = .ok (Q, r) →
      Q.sum_b_outcomes_ = 0 ∧ (Q.sum_weights_ ≠ 0 → r.avg_b_outcome = 0)) := by
  constructor
  · intro bd Q hbd hrun
    obtain ⟨Q0, Q1, e0, e1, eQ, hd, _⟩ := ProcessMaxStreetBoard_self E fuel P (bd : Int) h Q h2
      hself hwf hsl (hhands bd hbd).1 (hhands bd hbd).2 hrun
    refine ⟨Q0, Q1, e0, e1, eQ, hd, ?_⟩
    rw [eQ]
    show Q1.sum_b_outcomes_ = 0
    rw [hzero] at hd
    linarith
  · intro Q r hgo
    obtain ⟨hb, hr⟩ := (Go_ok_iff E fuel rand P N Q r).mp hgo
    obtain ⟨Q', hQ', hd⟩ := Go_boards_swap E fuel h rand P P N Q h2
      (SideSwap_of_selfPlay P hself) hwf hsl hhands hb
    rw [hb] at hQ'
    injection hQ' with hQ'
    rw [← hQ'] at hd
    have hs : Q.sum_b_outcomes_ = 0 := by
      have := hd.1
      rw [hzero] at this
      linarith
    refine ⟨hs, fun _ => ?_⟩
    rw [hr]
    show Q.sum_b_outcomes_ / Q.sum_weights_ = 0
    rw [hs, zero_div]

theorem self_play_zero_witness :
    (∃ Q Q0 Q1, exSelfPlayer.ProcessMaxStreetBoard exEnv 6 0 = .ok Q ∧
      ProcessMaxStreetBoard.seatBody exEnv 6
        (ProcessMaxStreetBoard.initialReach exEnv (boardHands exEnv 0)) 0
        (ProcessMaxStreetBoard.setup exEnv exSelfPlayer 0) = .ok Q0 ∧
      ProcessMaxStreetBoard.seatBody exEnv 6
        (ProcessMaxStreetBoard.initialReach exEnv (boardHands exEnv 0)) 1 Q0 = .ok Q1 ∧
      Q = Q1.withSeat 2 ∧
      Q1.sum_b_outcomes_ - Q0.sum_b_outcomes_ =
        - (Q0.sum_b_outcomes_ - exSelfPlayer.sum_b_outcomes_) ∧
      Q.sum_b_outcomes_ = 0) ∧
    (∃ Q r, exSelfPlayer.Go exEnv 6 (fun _ => 0) 0 = .ok (Q, r) ∧
      Q.sum_b_outcomes_ = 0 ∧ (Q.sum_weights_ ≠ 0 → r.avg_b_outcome = 0)) := by
  have hthm := self_play_zero exEnv 6 2 (fun _ => 0) exSelfPlayer 0 rfl exSelfPlay (by decide)
    (by decide) exBoards_hands rfl
  obtain ⟨Q, hQ⟩ := ProcessMaxStreetBoard_total exEnv 6 exSelfPlayer 0 2 rfl ⟨rfl, rfl⟩
    exProbs_valid exProbs_valid rfl (by decide) (by decide)
  obtain ⟨G, hG⟩ := Go_boards_total exEnv 6 2 (fun _ => 0) exSelfPlayer 0 rfl ⟨rfl, rfl⟩
    exProbs_valid exProbs_valid rfl (by decide) (by decide) exNumSampled
  obtain ⟨Q0, Q1, e⟩ := hthm.1 0 Q (by decide) hQ
  exact ⟨⟨Q, Q0, Q1, hQ, e⟩, G, Go.report G,
    (Go_ok_iff exEnv 6 (fun _ => 0) exSelfPlayer 0 G _).mpr ⟨hG, rfl⟩,
    hthm.2 G (Go.report G) ((Go_ok_iff exEnv 6 (fun _ => 0) exSelfPlayer 0 G _).mpr ⟨hG, rfl⟩)⟩

/-! ## The range guard of `GetSuccReachProbs` -/

theorem not_allProbsOk_iff (E : Env) (P : Player) (node : Node) (gbd : Int) (buckets : Buckets)
    (sp : CFRValues) (reach : Nat → Nat → ℚ) :
    ¬ AllProbsOk E P node gbd buckets sp reach ↔
      ∃ i, i < E.game.NumHoleCardPairs E.game.MaxStreet ∧ ∃ s, s < node.NumSuccs ∧
        ∃ p, p < 2 ∧
          (GetSuccReachProbs.prob node.PlayerActing (handEnc (E.game.MaxCard + 1) P.hands_ i) s
              (GetSuccReachProbs.handProbs E P node gbd buckets sp i) reach p < 0 ∨
            1 < GetSuccReachProbs.prob node.PlayerActing
              (handEnc (E.game.MaxCard + 1) P.hands_ i) s
              (GetSuccReachProbs.handProbs E P node gbd buckets sp i) reach p) := by
  unfold AllProbsOk okVal
  constructor
  · intro h
    by_contra hc
    apply h
    intro i hi s hs p hp
    constructor
    · by_contra h0
      exact hc ⟨i, hi, s, hs, p, hp, Or.inl (not_le.mp h0)⟩
    · by_contra h1
      exact hc ⟨i, hi, s, hs, p, hp, Or.inr (not_le.mp h1)⟩
  · rintro ⟨i, hi, s, hs, p, hp, hbad⟩ h
    have := h i hi s hs p hp
    rcases hbad with hb | hb
    · exact absurd this.1 (not_le.mpr hb)
    · exact absurd this.2 (not_le.mpr hb)

/-- C11 (amended).  The range guard of `GetSuccReachProbs`.  At a node whose number of
successors is not 1, with a strategy table, it ends the program exactly when one of the values
it would assign (for a hand `i`, a successor `s` and a player `p`) is below 0 or above 1, and
returns when there is none; without a strategy table it does not end the program.  At a node
with exactly one successor it returns for all reach vectors, with the parent's entries copied
unchecked. -/
theorem GetSuccReachProbs_guard (E : Env) (P : Player) (node : Node) (gbd : Int)
    (buckets : Buckets) (reach : Nat → Nat → ℚ) :
    (node.NumSuccs ≠ 1 → ∀ sp : CFRValues,
      (P.GetSuccReachProbs E node gbd buckets (some sp) reach = .fatal ↔
        ∃ i, i < E.game.NumHoleCardPairs E.game.MaxStreet ∧ ∃ s, s < node.NumSuccs ∧
          ∃ p, p < 2 ∧
            (GetSuccReachProbs.prob node.PlayerActing
                (handEnc (E.game.MaxCard + 1) P.hands_ i) s
                (GetSuccReachProbs.handProbs E P node gbd buckets sp i) reach p < 0 ∨
              1 < GetSuccReachProbs.prob node.PlayerActing
                (handEnc (E.game.MaxCard + 1) P.hands_ i) s
                (GetSuccReachProbs.handProbs E P node gbd buckets sp i) reach p)) ∧
      ((¬ ∃ i, i < E.game.NumHoleCardPairs E.game.MaxStreet ∧ ∃ s, s < node.NumSuccs ∧
          ∃ p, p < 2 ∧
            (GetSuccReachProbs.prob node.PlayerActing
                (handEnc (E.game.MaxCard + 1) P.hands_ i) s
                (GetSuccReachProbs.handProbs E P node gbd buckets sp i) reach p < 0 ∨
              1 < GetSuccReachProbs.prob node.PlayerActing
                (handEnc (E.game.MaxCard + 1) P.hands_ i) s
                (GetSuccReachProbs.handProbs E P node gbd buckets sp i) reach p)) →
        ∃ succ, P.GetSuccReachProbs E node gbd buckets (some sp) reach = .ok succ)) ∧
    (node.NumSuccs ≠ 1 → P.GetSuccReachProbs E node gbd buckets none reach ≠ .fatal) ∧
    (node.NumSuccs = 1 → ∀ sumprobs : Option CFRValues,
      ∃ succ, P.GetSuccReachProbs E node gbd buckets sumprobs reach = .ok succ ∧
        ∀ p, p < 2 → ∀ i, i < E.game.NumHoleCardPairs E.game.MaxStreet →
          succ 0 p (handEnc (E.game.MaxCard + 1) P.hands_ i) =
            reach p (handEnc (E.game.MaxCard + 1) P.hands_ i)) := by
  refine ⟨?_, ?_, ?_⟩
  · intro h1 sp
    obtain ⟨g1, g2⟩ := GetSuccReachProbs_general E P node gbd buckets sp reach h1
    rw [← not_allProbsOk_iff]
    refine ⟨⟨?_, g2⟩, ?_⟩
    · intro hf hok
      rw [g1 hok] at hf
      exact absurd hf (by simp)
    · intro hok
      exact ⟨_, g1 (not_not.mp hok)⟩
  · intro h1
    unfold Player.GetSuccReachProbs
    simp only
    rw [if_neg h1]
    cases hH : E.game.NumHoleCardPairs E.game.MaxStreet with
    | zero => simp [forLoopM]
    | succ n =>
      show forLoopM 0 (fun _ _ => (Run.undefined : Run (Nat → Nat → Nat → ℚ))) (n + 1) _ ≠
        .fatal
      rw [forLoopM_undefined]
      simp
  · intro h1 sumprobs
    exact ⟨_, GetSuccReachProbs_single_eq E P node gbd buckets sumprobs reach h1,
      fun p hp i hi => copied_apply E P reach _ p hp i hi⟩

theorem GetSuccReachProbs_guard_witness :
    (∃ succ, exPlayer.GetSuccReachProbs exEnv exTree 0 exBuckets (some exProbs) exReach =
      .ok succ) ∧
    exPlayer.GetSuccReachProbs exEnv exTree 0 exBuckets (some exProbs) exReachAbove =
      .fatal := by
  have h := GetSuccReachProbs_guard exEnv exPlayer exTree 0 exBuckets
  constructor
  · refine ((h exReach).1 (by decide) exProbs).2 ?_
    rw [← not_allProbsOk_iff, not_not]
    exact exAllProbsOk
  · refine ((h exReachAbove).1 (by decide) exProbs).1.mpr ⟨3, by decide, 1, by decide, 1,
      by decide, Or.inr ?_⟩
    show (1 : ℚ) < GetSuccReachProbs.prob 1 14 1
      (GetSuccReachProbs.handProbs exEnv exPlayer exTree 0 exBuckets exProbs 3) exReachAbove 1
    unfold GetSuccReachProbs.prob GetSuccReachProbs.handProbs exReachAbove
    simp only [exProbs]
    norm_num

/-- The single-successor branch of `GetSuccReachProbs` assigns a value above 1 and returns: at
the forced check `exCheckNode`, with the entry 2 for player 1 at the hand `(3, 2)`. -/
theorem GetSuccReachProbs_single_unguarded :
    ∃ succ, exPlayer.GetSuccReachProbs exEnv exCheckNode 0 exBuckets (some exProbs)
        exReachAbove = .ok succ ∧
      succ 0 1 (handEnc (exEnv.game.MaxCard + 1) exPlayer.hands_ 3) = 2 ∧
      exPlayer.GetSuccReachProbs exEnv exCheckNode 0 exBuckets (some exProbs) exReachAbove ≠
        .fatal := by
  have h := GetSuccReachProbs_single_eq exEnv exPlayer exCheckNode 0 exBuckets (some exProbs)
    exReachAbove rfl
  refine ⟨_, h, ?_, ?_⟩
  · rw [copied_apply exEnv exPlayer exReachAbove _ 1 (by decide) 3 (by decide)]
    show exReachAbove 1 14 = 2
    unfold exReachAbove
    norm_num
  · rw [h]
    simp

/-! ## Strategy row addressing -/

theorem int32_of_range (x : Int) (h0 : -2 ^ 31 ≤ x) (h1 : x < 2 ^ 31) : int32 x = x := by
  unfold int32
  rw [Int.emod_eq_of_lt (by omega) (by omega)]
  omega

theorem uint32_cast (x : Int) : ((uint32 x : Nat) : Int) = x % 2 ^ 32 := by
  unfold uint32
  exact Int.toNat_of_nonneg (Int.emod_nonneg x (by norm_num))

theorem uint32_of_range (x : Int) (h0 : 0 ≤ x) (h1 : x < 2 ^ 32) : uint32 x = x.toNat := by
  unfold uint32
  rw [Int.emod_eq_of_lt h0 h1]

/-- The call of `RMProbs` for hand `i` (lines 455-468), with the offset as the code computes
it. -/
theorem handProbs_eq (E : Env) (P : Player) (node : Node) (gbd : Int) (buckets : Buckets)
    (sp : CFRValues) (i : Nat) :
    GetSuccReachProbs.handProbs E P node gbd buckets sp i =
      sp.RMProbs node.Street node.PlayerActing node.NonterminalID
        (if buckets.None node.Street = true then
          int32 (gbd * (E.game.NumHoleCardPairs node.Street : Int) * (node.NumSuccs : Int) +
            GetSuccReachProbs.hcp E P buckets node.Street i * (node.NumSuccs : Int))
        else
          int32 (buckets.Bucket node.Street
            (GetSuccReachProbs.bucketIndex gbd (E.game.NumHoleCardPairs node.Street)
              (GetSuccReachProbs.hcp E P buckets node.Street i)) * (node.NumSuccs : Int)))
        node.NumSuccs node.DefaultSuccIndex := rfl

/-- C12.  Strategy row addressing in `GetSuccReachProbs`, for the `i`-th hand at a node on
street `st` with `S` successors: `hcp` is `i` when `st` is the last street and the bucket map
is none on `st`, and `ms_hcp_to_raw_hcp_[st][i]` otherwise; the offset passed to `RMProbs` is
`gbd * H_st * S + hcp * S` when the buckets are none on `st` and `Bucket(st, gbd * H_st + hcp)
* S` otherwise, the values being those of the `int` and `unsigned int` expressions of the
source when they are representable in these types. -/
theorem strategy_row_addressing (E : Env) (P : Player) (node : Node) (gbd : Int)
    (buckets : Buckets) (sp : CFRValues) (i : Nat) :
    GetSuccReachProbs.hcp E P buckets node.Street i =
      (if node.Street = E.game.MaxStreet ∧ buckets.None node.Street = true then (i : Int)
       else P.ms_hcp_to_raw_hcp_ node.Street i) ∧
    (buckets.None node.Street = true →
      -2 ^ 31 ≤ gbd * (E.game.NumHoleCardPairs node.Street : Int) * (node.NumSuccs : Int) +
        GetSuccReachProbs.hcp E P buckets node.Street i * (node.NumSuccs : Int) →
      gbd * (E.game.NumHoleCardPairs node.Street : Int) * (node.NumSuccs : Int) +
        GetSuccReachProbs.hcp E P buckets node.Street i * (node.NumSuccs : Int) < 2 ^ 31 →
      GetSuccReachProbs.handProbs E P node gbd buckets sp i =
        sp.RMProbs node.Street node.PlayerActing node.NonterminalID
          (gbd * (E.game.NumHoleCardPairs node.Street : Int) * (node.NumSuccs : Int) +
            GetSuccReachProbs.hcp E P buckets node.Street i * (node.NumSuccs : Int))
          node.NumSuccs node.DefaultSuccIndex) ∧
    (buckets.None node.Street = false →
      0 ≤ gbd * (E.game.NumHoleCardPairs node.Street : Int) +
        GetSuccReachProbs.hcp E P buckets node.Street i →
      gbd * (E.game.NumHoleCardPairs node.Street : Int) +
        GetSuccReachProbs.hcp E P buckets node.Street i < 2 ^ 32 →
      -2 ^ 31 ≤ buckets.Bucket node.Street
        (gbd * (E.game.NumHoleCardPairs node.Street : Int) +
          GetSuccReachProbs.hcp E P buckets node.Street i).toNat * (node.NumSuccs : Int) →
      buckets.Bucket node.Street
        (gbd * (E.game.NumHoleCardPairs node.Street : Int) +
          GetSuccReachProbs.hcp E P buckets node.Street i).toNat * (node.NumSuccs : Int) <
        2 ^ 31 →
      GetSuccReachProbs.handProbs E P node gbd buckets sp i =
        sp.RMProbs node.Street node.PlayerActing node.NonterminalID
          (buckets.Bucket node.Street
            (gbd * (E.game.NumHoleCardPairs node.Street : Int) +
              GetSuccReachProbs.hcp E P buckets node.Street i).toNat * (node.NumSuccs : Int))
          node.NumSuccs node.DefaultSuccIndex) := by
  refine ⟨rfl, ?_, ?_⟩
  · intro hn h0 h1
    rw [handProbs_eq, if_pos hn, int32_of_range _ h0 h1]
  · intro hn h0 h1 h2 h3
    have hn' : ¬ buckets.None node.Street = true := by rw [hn]; simp
    rw [handProbs_eq, if_neg hn']
    unfold GetSuccReachProbs.bucketIndex
    rw [uint32_of_range _ h0 h1, int32_of_range _ h2 h3]

theorem strategy_row_addressing_witness :
    GetSuccReachProbs.handProbs exEnv exPlayer exTree 0 exBuckets exProbs 1 =
        exProbs.RMProbs 0 1 0 2 2 0 ∧
    GetSuccReachProbs.handProbs exEnv exPlayer exTree 3 exWideBuckets exProbs 1 =
        exProbs.RMProbs 0 1 0 18 2 0 :=
  ⟨(strategy_row_addressing exEnv exPlayer exTree 0 exBuckets exProbs 1).2.1 rfl
      (by decide) (by decide),
   (strategy_row_addressing exEnv exPlayer exTree 3 exWideBuckets exProbs 1).2.2 rfl
      (by decide) (by decide) (by decide) (by decide)⟩

/-! ## The width of the bucket index -/

/-- C13 (amended).  The hand index passed to `Buckets::Bucket` is computed in `unsigned int`:
where the buckets are not none on the street of the node, `RMProbs` is called with the row of
`Bucket(st, h)` for `h = (gbd * H_st + hcp) mod 2^32`; for non-negative `gbd * H_st + hcp`
this `h` is the mathematical value exactly when that value is below `2^32`. -/
theorem bucket_index_mod (E : Env) (P : Player) (node : Node) (gbd : Int) (buckets : Buckets)
    (sp : CFRValues) (i : Nat) (hn : buckets.None node.Street = false) :
    GetSuccReachProbs.handProbs E P node gbd buckets sp i =
      sp.RMProbs node.Street node.PlayerActing node.NonterminalID
        (int32 (buckets.Bucket node.Street
          (GetSuccReachProbs.bucketIndex gbd (E.game.NumHoleCardPairs node.Street)
            (GetSuccReachProbs.hcp E P buckets node.Street i)) * (node.NumSuccs : Int)))
        node.NumSuccs node.DefaultSuccIndex ∧
    ((GetSuccReachProbs.bucketIndex gbd (E.game.NumHoleCardPairs node.Street)
        (GetSuccReachProbs.hcp E P buckets node.Street i) : Nat) : Int) =
      (gbd * (E.game.NumHoleCardPairs node.Street : Int) +
        GetSuccReachProbs.hcp E P buckets node.Street i) % 2 ^ 32 ∧
    (0 ≤ gbd * (E.game.NumHoleCardPairs node.Street : Int) +
        GetSuccReachProbs.hcp E P buckets node.Street i →
      (((GetSuccReachProbs.bucketIndex gbd (E.game.NumHoleCardPairs node.Street)
          (GetSuccReachProbs.hcp E P buckets node.Street i) : Nat) : Int) =
        gbd * (E.game.NumHoleCardPairs node.Street : Int) +
          GetSuccReachProbs.hcp E P buckets node.Street i ↔
        gbd * (E.game.NumHoleCardPairs node.Street : Int) +
          GetSuccReachProbs.hcp E P buckets node.Street i < 2 ^ 32)) := by
  have hn' : ¬ buckets.None node.Street = true := by rw [hn]; simp
  refine ⟨by rw [handProbs_eq, if_neg hn'], uint32_cast _, ?_⟩
  intro h0
  unfold GetSuccReachProbs.bucketIndex
  rw [uint32_cast]
  constructor
  · intro he
    have := Int.emod_lt_of_pos (gbd * (E.game.NumHoleCardPairs node.Street : Int) +
      GetSuccReachProbs.hcp E P buckets node.Street i) (by norm_num : (0 : Int) < 2 ^ 32)
    omega
  · intro hlt
    exact Int.emod_eq_of_lt h0 hlt

theorem bucket_index_mod_witness :
    GetSuccReachProbs.handProbs exEnv exPlayer exTree 3 exWideBuckets exProbs 1 =
      exProbs.RMProbs 0 1 0 (int32 (exWideBuckets.Bucket 0 12 * 2)) 2 0 :=
  (bucket_index_mod exEnv exPlayer exTree 3 exWideBuckets exProbs 1 rfl).1

/-- The bucket index wraps: with `gbd = 2^16`, `H_st = 2^16` and `hcp = 0` the mathematical value
is `2^32`, the index passed to `Bucket` is 0, and `RMProbs` is called with the row of bucket 7
(that of index 0) where index `2^32` has bucket 9. -/
theorem bucket_index_wraps :
    (65536 : Int) * (exWideEnv.game.NumHoleCardPairs exTree.Street : Int) +
        GetSuccReachProbs.hcp exWideEnv exPlayer exWideBuckets exTree.Street 0 = 4294967296 ∧
    GetSuccReachProbs.bucketIndex 65536 (exWideEnv.game.NumHoleCardPairs exTree.Street)
        (GetSuccReachProbs.hcp exWideEnv exPlayer exWideBuckets exTree.Street 0) = 0 ∧
    exWideBuckets.Bucket exTree.Street 4294967296 = 9 ∧
    GetSuccReachProbs.handProbs exWideEnv exPlayer exTree 65536 exWideBuckets exProbs 0 =
      exProbs.RMProbs 0 1 0 14 2 0 := by
  refine ⟨by decide, by decide, by decide, ?_⟩
  rw [handProbs_eq]
  rfl

/-! ## Source selection in `Nonterminal` -/

/-- C14.  Source selection in `Nonterminal`.  At nodes on street `st` with acting player `pa`
(both read from `a_node`), the side is B when `pa = b_pos_` and A otherwise, and
`GetSuccReachProbs` is called with that side's node and board index `boards[st]`; the strategy
table is the side's resolver sumprobs when the side resolves and `st` is the last street, and
the side's base strategy otherwise; the bucket map is the side's subgame buckets when the side
resolves and `st >= resolve_st_`, and the side's base buckets otherwise. -/
theorem Nonterminal_source_selection (E : Env)
    (walk : Player → Node → Node → String → (Nat → Nat → ℚ) → Int → Run Player)
    (P : Player) (a_node b_node : Node) (seq : String) (reach : Nat → Nat → ℚ) :
    (a_node.PlayerActing = P.b_pos_ →
      P.Nonterminal E walk a_node b_node seq reach =
        (P.GetSuccReachProbs E b_node (P.b_boards_ a_node.Street)
          (if P.resolve_b_ = true ∧ (a_node.Street : Int) ≥ P.resolve_st_
            then P.b_subgame_buckets_ else P.b_base_buckets_)
          (if P.resolve_b_ = true ∧ a_node.Street = E.game.MaxStreet
            then P.b_eg_cfr_.Sumprobs else some P.b_probs_) reach).bind
        (fun succ => forLoopM 0
          (Nonterminal.succBody walk a_node b_node b_node seq succ a_node.Street)
          a_node.NumSuccs P)) ∧
    (a_node.PlayerActing ≠ P.b_pos_ →
      P.Nonterminal E walk a_node b_node seq reach =
        (P.GetSuccReachProbs E a_node (P.a_boards_ a_node.Street)
          (if P.resolve_a_ = true ∧ (a_node.Street : Int) ≥ P.resolve_st_
            then P.a_subgame_buckets_ else P.a_base_buckets_)
          (if P.resolve_a_ = true ∧ a_node.Street = E.game.MaxStreet
            then P.a_eg_cfr_.Sumprobs else some P.a_probs_) reach).bind
        (fun succ => forLoopM 0
          (Nonterminal.succBody walk a_node b_node a_node seq succ a_node.Street)
          a_node.NumSuccs P)) := by
  constructor
  · intro h
    rw [Nonterminal_eq]
    unfold Nonterminal.lookupNode Nonterminal.lookupBoard Nonterminal.buckets
      Nonterminal.sumprobs
    simp only [h, if_true]
  · intro h
    rw [Nonterminal_eq]
    unfold Nonterminal.lookupNode Nonterminal.lookupBoard Nonterminal.buckets
      Nonterminal.sumprobs
    simp only [h, if_false]

theorem Nonterminal_source_selection_witness :
    exPlayer.Nonterminal exEnv (Player.Walk exEnv 1) exTree exTree "x" exReach =
      (exPlayer.GetSuccReachProbs exEnv exTree (exPlayer.a_boards_ exTree.Street)
        (if exPlayer.resolve_a_ = true ∧ (exTree.Street : Int) ≥ exPlayer.resolve_st_
          then exPlayer.a_subgame_buckets_ else exPlayer.a_base_buckets_)
        (if exPlayer.resolve_a_ = true ∧ exTree.Street = exEnv.game.MaxStreet
          then exPlayer.a_eg_cfr_.Sumprobs else some exPlayer.a_probs_) exReach).bind
      (fun succ => forLoopM 0
        (Nonterminal.succBody (Player.Walk exEnv 1) exTree exTree exTree "x" succ
          exTree.Street)
        exTree.NumSuccs exPlayer) :=
  (Nonterminal_source_selection exEnv (Player.Walk exEnv 1) exPlayer exTree exTree "x"
    exReach).2 (by decide)

/-! ## The checks of `Walk` -/

/-- One invocation of `Walk` with iteration budget left. -/
theorem Walk_unfold (E : Env) (n : Nat) (P : Player) (a b : Node) (seq : String)
    (reach : Nat → Nat → ℚ) (last : Int) :
    Player.Walk E (n + 1) P a b seq reach last =
      if (a.Street : Int) > last ∧ (a.Street : Int) = P.resolve_st_ then
        Player.Walk E n
          (Walk.resolveB E (Walk.resolveA E (P.logged ⟨a, b, reach, last⟩) a seq reach).1 b
            a.Street seq reach).1
          (Walk.resolveA E (P.logged ⟨a, b, reach, last⟩) a seq reach).2
          (Walk.resolveB E (Walk.resolveA E (P.logged ⟨a, b, reach, last⟩) a seq reach).1 b
            a.Street seq reach).2
          seq reach (a.Street : Int)
      else if a.Terminal = true then
        if b.Terminal = false then .fatal
        else if a.Showdown = true then (P.logged ⟨a, b, reach, last⟩).Showdown E a b reach
        else .ok ((P.logged ⟨a, b, reach, last⟩).Fold E a b reach)
      else
        if b.Terminal = true then .fatal
        else (P.logged ⟨a, b, reach, last⟩).Nonterminal E (Player.Walk E n) a b seq reach := by
  rw [Player.Walk]
  rfl

/-- `Walk` outside the resolve boundary: the two checks and the three calls. -/
theorem Walk_outside (E : Env) (n : Nat) (P : Player) (a b : Node) (seq : String)
    (reach : Nat → Nat → ℚ) (last : Int)
    (hout : ¬ ((a.Street : Int) > last ∧ (a.Street : Int) = P.resolve_st_)) :
    Player.Walk E (n + 1) P a b seq reach last =
      if a.Terminal = true then
        if b.Terminal = false then .fatal
        else if a.Showdown = true then (P.logged ⟨a, b, reach, last⟩).Showdown E a b reach
        else .ok ((P.logged ⟨a, b, reach, last⟩).Fold E a b reach)
      else
        if b.Terminal = true then .fatal
        else (P.logged ⟨a, b, reach, last⟩).Nonterminal E (Player.Walk E n) a b seq reach := by
  rw [Walk_unfold, if_neg hout]

/-- C15 (amended).  The terminal-status check of `Walk`.  An invocation outside the resolve
boundary ends the program when exactly one of `a_node` and `b_node` is terminal; when both are
terminal its result is that of `Showdown` if `a_node` is a showdown node and that of `Fold`
otherwise; when both are nonterminal its result is that of `Nonterminal`.  So it ends the
program only on such a mismatch, or when `Showdown` or `Nonterminal` (the walk below) does.
`P.logged` is `P` with the invocation recorded. -/
theorem Walk_terminal_dispatch (E : Env) (n : Nat) (P : Player) (a b : Node) (seq : String)
    (reach : Nat → Nat → ℚ) (last : Int)
    (hout : ¬ ((a.Street : Int) > last ∧ (a.Street : Int) = P.resolve_st_)) :
    ((a.Terminal = true ∧ b.Terminal = false) ∨ (a.Terminal = false ∧ b.Terminal = true) →
      Player.Walk E (n + 1) P a b seq reach last = .fatal) ∧
    (a.Terminal = true → b.Terminal = true → a.Showdown = true →
      Player.Walk E (n + 1) P a b seq reach last =
        (P.logged ⟨a, b, reach, last⟩).Showdown E a b reach) ∧
    (a.Terminal = true → b.Terminal = true → a.Showdown = false →
      Player.Walk E (n + 1) P a b seq reach last =
        .ok ((P.logged ⟨a, b, reach, last⟩).Fold E a b reach)) ∧
    (a.Terminal = false → b.Terminal = false →
      Player.Walk E (n + 1) P a b seq reach last =
        (P.logged ⟨a, b, reach, last⟩).Nonterminal E (Player.Walk E n) a b seq reach) ∧
    (Player.Walk E (n + 1) P a b seq reach last = .fatal →
      ((a.Terminal = true ∧ b.Terminal = false) ∨ (a.Terminal = false ∧ b.Terminal = true)) ∨
      (a.Terminal = true ∧ b.Terminal = true ∧ a.Showdown = true ∧
        (P.logged ⟨a, b, reach, last⟩).Showdown E a b reach = .fatal) ∨
      (a.Terminal = false ∧ b.Terminal = false ∧
        (P.logged ⟨a, b, reach, last⟩).Nonterminal E (Player.Walk E n) a b seq reach =
          .fatal)) := by
  have hw := Walk_outside E n P a b seq reach last hout
  cases ha : a.Terminal <;> cases hb : b.Terminal <;> cases hs : a.Showdown <;>
    simp only [ha, hb, hs, if_true, if_false, Bool.false_eq_true] at hw <;>
    simp [hw]

theorem Walk_terminal_dispatch_witness :
    Player.Walk exEnv 1 exPlayer exShowdownNode exShowdownNode "x" exReach 0 =
        (exPlayer.logged ⟨exShowdownNode, exShowdownNode, exReach, 0⟩).Showdown exEnv
          exShowdownNode exShowdownNode exReach ∧
    Player.Walk exEnv 1 exPlayer exShowdownNode exCheckNode "x" exReach 0 = .fatal :=
  ⟨(Walk_terminal_dispatch exEnv 0 exPlayer exShowdownNode exShowdownNode "x" exReach 0
      (by decide)).2.1 rfl rfl rfl,
   (Walk_terminal_dispatch exEnv 0 exPlayer exShowdownNode exCheckNode "x" exReach 0
      (by decide)).1 (Or.inl ⟨rfl, rfl⟩)⟩

theorem forLoopM_one {σ : Type} (lo : Nat) (body : Nat → σ → Run σ) (s : σ) :
    forLoopM lo body 1 s = body lo s := rfl

theorem forLoopM_two {σ : Type} (lo : Nat) (body : Nat → σ → Run σ) (s : σ) :
    forLoopM lo body 2 s = (body lo s).bind (body (lo + 1)) := rfl

/-- `Showdown` ends the program when an entry of A at a hand exceeds 1. -/
theorem Player_Showdown_fatal (E : Env) (P : Player) (a b : Node) (reach : Nat → Nat → ℚ)
    (hgt : ∃ k, k < E.game.NumHoleCardPairs E.game.MaxStreet ∧
      1 < handProb (E.game.MaxCard + 1) P.hands_ (P.oppProbs reach) k) :
    P.Showdown E a b reach = .fatal := by
  unfold Player.Showdown
  simp only [Showdown_sums_fatal E P.hands_ _ _ _ hgt, Run.bind]

/-- `Walk` ends the program without a mismatch at its own nodes: (1) at two showdown nodes,
outside the resolve boundary, when `Showdown` meets the entry 2 for A; (2) at two nonterminal
nodes, on reach vectors of ones, when the mismatch is one level below. -/
theorem Walk_fatal_without_mismatch :
    (exShowdownNode.Terminal = true ∧
      ¬ ((exShowdownNode.Street : Int) > 0 ∧
        (exShowdownNode.Street : Int) = exTiedPlayer.resolve_st_) ∧
      Player.Walk exTiedEnv 1 exTiedPlayer exShowdownNode exShowdownNode "x" exReachAbove 0 =
        .fatal) ∧
    (exCheckNode.Terminal = false ∧ exDeepNode.Terminal = false ∧
      ¬ ((exCheckNode.Street : Int) > 0 ∧ (exCheckNode.Street : Int) = exPlayer.resolve_st_) ∧
      Player.Walk exEnv 2 exPlayer exCheckNode exDeepNode "x" exReach 0 = .fatal) := by
  refine ⟨⟨rfl, by decide, ?_⟩, rfl, rfl, by decide, ?_⟩
  · rw [Walk_outside exTiedEnv 0 exTiedPlayer exShowdownNode exShowdownNode "x" exReachAbove 0
      (by decide)]
    have hgt : ∃ k, k < exTiedEnv.game.NumHoleCardPairs exTiedEnv.game.MaxStreet ∧
        1 < handProb (exTiedEnv.game.MaxCard + 1) exTiedPlayer.hands_
          (exTiedPlayer.oppProbs exReachAbove) k := by
      refine ⟨3, by decide, ?_⟩
      show (1 : ℚ) < exReachAbove 1 14
      unfold exReachAbove
      norm_num
    have hsd : (exTiedPlayer.logged ⟨exShowdownNode, exShowdownNode, exReachAbove, 0⟩).Showdown
        exTiedEnv exShowdownNode exShowdownNode exReachAbove = .fatal :=
      Player_Showdown_fatal exTiedEnv _ _ _ _ hgt
    rw [hsd]
    rfl
  · rw [Walk_outside exEnv 1 exPlayer exCheckNode exDeepNode "x" exReach 0 (by decide)]
    have hnt : exCheckNode.Terminal = false := rfl
    have hnt' : exDeepNode.Terminal = false := rfl
    simp only [hnt, hnt', Bool.false_eq_true, if_false]
    rw [Nonterminal_eq]
    have hnode : Nonterminal.lookupNode
        (exPlayer.logged ⟨exCheckNode, exDeepNode, exReach, 0⟩) exCheckNode exDeepNode
        exCheckNode.PlayerActing = exDeepNode := rfl
    rw [hnode, GetSuccReachProbs_single_eq _ _ exDeepNode _ _ _ _ rfl,
      show exCheckNode.NumSuccs = 1 from rfl]
    simp only [Run.bind, forLoopM_one]
    rw [succBody_some _ exCheckNode exDeepNode _ _ _ _ 0 _ exShowdownNode exCheckNode rfl rfl
      (by decide)]
    rw [Walk_outside exEnv 0 _ exShowdownNode exCheckNode _ _ _ (by decide)]
    rfl

/-! ## Successor counts -/

theorem IthSucc_none (n : Node) (k : Nat) (hk : n.NumSuccs ≤ k) : n.IthSucc k = none := by
  unfold Node.IthSucc
  exact List.get?_eq_none.mpr hk

theorem succBody_beyond_b
    (walk : Player → Node → Node → String → (Nat → Nat → ℚ) → Int → Run Player)
    (a b node : Node) (seq : String) (succ : Nat → Nat → Nat → ℚ) (st k : Nat) (R : Player)
    (hk : b.NumSuccs ≤ k) :
    Nonterminal.succBody walk a b node seq succ st k R = .undefined := by
  unfold Nonterminal.succBody
  simp only [IthSucc_none b k hk]
  cases a.IthSucc k <;> rfl

/-- C16 (amended).  `Nonterminal` makes no check of the successor counts.  Outside the resolve
boundary `Walk` passes two nonterminal nodes to `Nonterminal` whatever their numbers of
successors; when `GetSuccReachProbs` has returned, `Nonterminal` loops over the successors
`s` of `a_node`: for `s` below both counts (and below the count of the acting side's node,
whose vectors were computed) it walks the pair of `s`-th successors, so successors of `b_node`
beyond the count of `a_node` are never visited; for `s` beyond the successors of `b_node` the
read `b_node->IthSucc(s)` is outside the array, which is undefined behaviour and not the
fatal exit. -/
theorem Nonterminal_no_count_check (E : Env) (n : Nat) (P : Player) (a b : Node)
    (seq : String) (reach : Nat → Nat → ℚ) (last : Int)
    (hout : ¬ ((a.Street : Int) > last ∧ (a.Street : Int) = P.resolve_st_))
    (ha : a.Terminal = false) (hb : b.Terminal = false) :
    Player.Walk E (n + 1) P a b seq reach last =
      (P.logged ⟨a, b, reach, last⟩).Nonterminal E (Player.Walk E n) a b seq reach ∧
    (∀ (Q : Player) (succ : Nat → Nat → Nat → ℚ),
      Q.GetSuccReachProbs E (Nonterminal.lookupNode Q a b a.PlayerActing)
          (Nonterminal.lookupBoard Q a.Street a.PlayerActing)
          (Nonterminal.buckets Q a.Street a.PlayerActing)
          (Nonterminal.sumprobs E Q a.Street a.PlayerActing) reach = .ok succ →
      Q.Nonterminal E (Player.Walk E n) a b seq reach =
        forLoopM 0
          (Nonterminal.succBody (Player.Walk E n) a b
            (Nonterminal.lookupNode Q a b a.PlayerActing) seq succ a.Street)
          a.NumSuccs Q) ∧
    (∀ (node : Node) (succ : Nat → Nat → Nat → ℚ) (s : Nat) (R : Player),
      s < a.NumSuccs → s < b.NumSuccs → s < node.NumSuccs →
      ∃ a' b', a.IthSucc s = some a' ∧ b.IthSucc s = some b' ∧
        Nonterminal.succBody (Player.Walk E n) a b node seq succ a.Street s R =
          Player.Walk E n R a' b' (seq ++ a.ActionName s) (succ s) (a.Street : Int)) ∧
    (∀ (node : Node) (succ : Nat → Nat → Nat → ℚ) (s : Nat) (R : Player),
      b.NumSuccs ≤ s →
      Nonterminal.succBody (Player.Walk E n) a b node seq succ a.Street s R =
        .undefined) := by
  refine ⟨?_, ?_, ?_, ?_⟩
  · rw [Walk_outside E n P a b seq reach last hout]
    simp only [ha, hb, Bool.false_eq_true, if_false]
  · intro Q succ hg
    rw [Nonterminal_eq, hg]
    rfl
  · intro node succ s R hsa hsb hsn
    obtain ⟨a', ha'⟩ := IthSucc_some a s hsa
    obtain ⟨b', hb'⟩ := IthSucc_some b s hsb
    exact ⟨a', b', ha', hb', succBody_some _ a b node seq succ a.Street s R a' b' ha' hb' hsn⟩
  · intro node succ s R hs
    exact succBody_beyond_b _ a b node seq succ a.Street s R hs

theorem Nonterminal_no_count_check_witness :
    Player.Walk exEnv 2 exPlayer exCountA exCountB "x" exReach 0 =
      (exPlayer.logged ⟨exCountA, exCountB, exReach, 0⟩).Nonterminal exEnv
        (Player.Walk exEnv 1) exCountA exCountB "x" exReach :=
  (Nonterminal_no_count_check exEnv 1 exPlayer exCountA exCountB "x" exReach 0 (by decide)
    rfl rfl).1

/-- Two nonterminal nodes with 1 and with 2 successors, walked outside the resolve boundary on
reach vectors of ones: `Walk` returns; with the nodes exchanged its result is the undefined
behaviour of the read beyond the successors of `b_node`.  Neither is the fatal exit. -/
theorem Walk_succ_count_mismatch :
    exCountA.NumSuccs = 1 ∧ exCountB.NumSuccs = 2 ∧
    exCountA.Terminal = false ∧ exCountB.Terminal = false ∧
    ¬ ((exCountA.Street : Int) > 0 ∧ (exCountA.Street : Int) = exPlayer.resolve_st_) ∧
    (∃ Q, Player.Walk exEnv 2 exPlayer exCountA exCountB "x" exReach 0 = .ok Q) ∧
    Player.Walk exEnv 2 exPlayer exCountB exCountA "x" exReach 0 = .undefined := by
  refine ⟨rfl, rfl, rfl, rfl, by decide, ?_, ?_⟩
  · rw [Walk_outside exEnv 1 exPlayer exCountA exCountB "x" exReach 0 (by decide)]
    have hnt : exCountA.Terminal = false := rfl
    have hnt' : exCountB.Terminal = false := rfl
    simp only [hnt, hnt', Bool.false_eq_true, if_false]
    rw [Nonterminal_eq]
    have hnode : Nonterminal.lookupNode
        (exPlayer.logged ⟨exCountA, exCountB, exReach, 0⟩) exCountA exCountB
        exCountA.PlayerActing = exCountA := rfl
    have hg := GetSuccReachProbs_single_eq exEnv
      (exPlayer.logged ⟨exCountA, exCountB, exReach, 0⟩) exCountA
      (Nonterminal.lookupBoard (exPlayer.logged ⟨exCountA, exCountB, exReach, 0⟩)
        exCountA.Street exCountA.PlayerActing)
      (Nonterminal.buckets (exPlayer.logged ⟨exCountA, exCountB, exReach, 0⟩)
        exCountA.Street exCountA.PlayerActing)
      (Nonterminal.sumprobs exEnv (exPlayer.logged ⟨exCountA, exCountB, exReach, 0⟩)
        exCountA.Street exCountA.PlayerActing) exReach rfl
    have hok := GetSuccReachProbs_okReach exEnv _ _ _ _ _ exReach _ exReach_ok hg 0
      (by decide)
    rw [hnode, hg, show exCountA.NumSuccs = 1 from rfl]
    simp only [Run.bind, forLoopM_one]
    rw [succBody_some _ exCountA exCountB _ _ _ _ 0 _ exShowdownNode exShowdownNode rfl rfl
      (by decide)]
    rw [Walk_outside exEnv 0 _ exShowdownNode exShowdownNode _ _ _ (by decide)]
    have ht : exShowdownNode.Terminal = true := rfl
    have hs : exShowdownNode.Showdown = true := rfl
    simp only [ht, hs, Bool.true_eq_false, if_true, if_false]
    obtain ⟨x, y, hxy⟩ := Player_Showdown_ok exEnv
      ((exPlayer.logged ⟨exCountA, exCountB, exReach, 0⟩).logged
        ⟨exShowdownNode, exShowdownNode,
          copied exEnv (exPlayer.logged ⟨exCountA, exCountB, exReach, 0⟩) exReach
            (exEnv.game.NumHoleCardPairs exEnv.game.MaxStreet) 0,
          ((exCountA.Street : Nat) : Int)⟩)
      exShowdownNode exShowdownNode _ hok
    exact ⟨_, hxy⟩
  · rw [Walk_outside exEnv 1 exPlayer exCountB exCountA "x" exReach 0 (by decide)]
    have hnt : exCountA.Terminal = false := rfl
    have hnt' : exCountB.Terminal = false := rfl
    simp only [hnt, hnt', Bool.false_eq_true, if_false]
    rw [Nonterminal_eq]
    have hnode : Nonterminal.lookupNode
        (exPlayer.logged ⟨exCountB, exCountA, exReach, 0⟩) exCountB exCountA
        exCountB.PlayerActing = exCountB := rfl
    have hall : AllProbsOk exEnv (exPlayer.logged ⟨exCountB, exCountA, exReach, 0⟩) exCountB
        (Nonterminal.lookupBoard (exPlayer.logged ⟨exCountB, exCountA, exReach, 0⟩)
          exCountB.Street exCountB.PlayerActing) exBuckets exProbs exReach := by
      intro i _ s _ p _
      unfold GetSuccReachProbs.prob GetSuccReachProbs.handProbs okVal
      simp only [exReach, exProbs]
      split_ifs <;> norm_num
    have hg := (GetSuccReachProbs_general exEnv
      (exPlayer.logged ⟨exCountB, exCountA, exReach, 0⟩) exCountB _ exBuckets exProbs exReach
      (by decide)).1 hall
    have hg' : (exPlayer.logged ⟨exCountB, exCountA, exReach, 0⟩).GetSuccReachProbs exEnv
        exCountB
        (Nonterminal.lookupBoard (exPlayer.logged ⟨exCountB, exCountA, exReach, 0⟩)
          exCountB.Street exCountB.PlayerActing)
        (Nonterminal.buckets (exPlayer.logged ⟨exCountB, exCountA, exReach, 0⟩)
          exCountB.Street exCountB.PlayerActing)
        (Nonterminal.sumprobs exEnv (exPlayer.logged ⟨exCountB, exCountA, exReach, 0⟩)
          exCountB.Street exCountB.PlayerActing) exReach = _ := hg
    have hok := GetSuccReachProbs_okReach exEnv _ _ _ _ _ exReach _ exReach_ok hg' 0
      (by decide)
    rw [hnode, hg', show exCountB.NumSuccs = 2 from rfl]
    simp only [Run.bind, forLoopM_two]
    rw [succBody_some _ exCountB exCountA _ _ _ _ 0 _ exShowdownNode exShowdownNode rfl rfl
      (by decide)]
    rw [Walk_outside exEnv 0 _ exShowdownNode exShowdownNode _ _ _ (by decide)]
    have ht : exShowdownNode.Terminal = true := rfl
    have hs : exShowdownNode.Showdown = true := rfl
    simp only [ht, hs, Bool.true_eq_false, if_true, if_false]
    obtain ⟨x, y, hxy⟩ := Player_Showdown_ok exEnv
      ((exPlayer.logged ⟨exCountB, exCountA, exReach, 0⟩).logged
        ⟨exShowdownNode, exShowdownNode,
          propagated exEnv (exPlayer.logged ⟨exCountB, exCountA, exReach, 0⟩) exCountB
            (Nonterminal.lookupBoard (exPlayer.logged ⟨exCountB, exCountA, exReach, 0⟩)
              exCountB.Street exCountB.PlayerActing) exBuckets exProbs exReach
            (exEnv.game.NumHoleCardPairs exEnv.game.MaxStreet) 0,
          ((exCountB.Street : Nat) : Int)⟩)
      exShowdownNode exShowdownNode _ hok
    rw [hxy]
    exact succBody_beyond_b _ exCountB exCountA _ _ _ _ (0 + 1) _ (by decide)

/-! ## Board reindexing at the resolve boundary -/

theorem reindex_apply (E : Env) (P : Player) (st : Nat) (root_bd : Int) (boards : Nat → Int)
    (i : Nat) :
    Walk.reindex E P st root_bd boards i =
      if st ≤ i ∧ i ≤ E.game.MaxStreet then
        E.board_tree.LocalIndex (st : Int) root_bd (i : Int) (Walk.globalBoard E P i)
      else boards i := by
  unfold Walk.reindex
  rw [forLoop_update_apply
    (fun st1 => E.board_tree.LocalIndex (st : Int) root_bd (st1 : Int)
      (Walk.globalBoard E P st1))]
  by_cases c : st ≤ i ∧ i ≤ E.game.MaxStreet
  · rw [if_pos c, if_pos ⟨c.1, by omega⟩]
  · rw [if_neg c, if_neg (by omega)]

theorem resolveA_fields (E : Env) (P : Player) (a : Node) (seq : String)
    (reach : Nat → Nat → ℚ) :
    (Walk.resolveA E P a seq reach).1.a_boards_ =
      (if P.resolve_a_ = true then
        Walk.reindex E P a.Street (Walk.globalBoard E P a.Street) P.a_boards_
      else P.a_boards_) ∧
    (Walk.resolveA E P a seq reach).1.b_boards_ = P.b_boards_ ∧
    (Walk.resolveA E P a seq reach).1.msbd_ = P.msbd_ ∧
    (Walk.resolveA E P a seq reach).1.resolve_b_ = P.resolve_b_ := by
  unfold Walk.resolveA
  by_cases h : P.resolve_a_ = true
  · simp only [h, if_true]
    refine ⟨?_, ?_, ?_, ?_⟩ <;> first | rfl | trivial
  · simp only [h, if_false]
    exact ⟨rfl, rfl, rfl, rfl⟩

theorem resolveB_fields (E : Env) (P : Player) (b : Node) (st : Nat) (seq : String)
    (reach : Nat → Nat → ℚ) :
    (Walk.resolveB E P b st seq reach).1.b_boards_ =
      (if P.resolve_b_ = true then
        Walk.reindex E P st (Walk.globalBoard E P st) P.b_boards_
      else P.b_boards_) ∧
    (Walk.resolveB E P b st seq reach).1.a_boards_ = P.a_boards_ ∧
    (Walk.resolveB E P b st seq reach).1.msbd_ = P.msbd_ := by
  unfold Walk.resolveB
  by_cases h : P.resolve_b_ = true
  · simp only [h, if_true]
    refine ⟨?_, ?_, ?_⟩ <;> first | rfl | trivial
  · simp only [h, if_false]
    exact ⟨rfl, rfl, rfl⟩

theorem globalBoard_congr (E : Env) (P Q : Player) (h : Q.msbd_ = P.msbd_) (i : Nat) :
    Walk.globalBoard E Q i = Walk.globalBoard E P i := by
  unfold Walk.globalBoard
  rw [h]

theorem reindex_congr (E : Env) (P Q : Player) (h : Q.msbd_ = P.msbd_) (st : Nat)
    (root_bd : Int) (boards : Nat → Int) :
    Walk.reindex E Q st root_bd boards = Walk.reindex E P st root_bd boards := by
  funext i
  rw [reindex_apply, reindex_apply, globalBoard_congr E P Q h]

/-- The board indices `ProcessMaxStreetBoard` sets (lines 618-625) are the global ones: the
board itself on the last street, its predecessor on the streets `1 .. max_street - 1`. -/
theorem setup_boards_global (E : Env) (P0 : Player) (msbd : Int) (st1 : Nat) (h1 : 1 ≤ st1)
    (h2 : st1 ≤ E.game.MaxStreet) :
    (ProcessMaxStreetBoard.setup E P0 msbd).a_boards_ st1 =
      (if st1 = E.game.MaxStreet then msbd else E.board_tree.PredBoard msbd (st1 : Int)) ∧
    (ProcessMaxStreetBoard.setup E P0 msbd).b_boards_ st1 =
      (if st1 = E.game.MaxStreet then msbd else E.board_tree.PredBoard msbd (st1 : Int)) := by
  constructor
  · show forLoop 1
      (fun st boards => Function.update boards st (E.board_tree.PredBoard msbd (st : Int)))
      (E.game.MaxStreet - 1) (Function.update P0.a_boards_ E.game.MaxStreet msbd) st1 = _
    rw [forLoop_update_apply (fun st => E.board_tree.PredBoard msbd (st : Int))]
    by_cases c : st1 = E.game.MaxStreet
    · rw [if_neg (by omega), if_pos c, c, Function.update_same]
    · rw [if_pos (by omega), if_neg c]
  · show forLoop 1
      (fun st boards => Function.update boards st (E.board_tree.PredBoard msbd (st : Int)))
      (E.game.MaxStreet - 1) (Function.update P0.b_boards_ E.game.MaxStreet msbd) st1 = _
    rw [forLoop_update_apply (fun st => E.board_tree.PredBoard msbd (st : Int))]
    by_cases c : st1 = E.game.MaxStreet
    · rw [if_neg (by omega), if_pos c, c, Function.update_same]
    · rw [if_pos (by omega), if_neg c]

/-- C18.  Board reindexing on resolve.  When `Walk` is invoked at the resolve boundary, at
street `st = resolve_st_`, it resolves for A (state `P1`), then for B (state `P2`), and
continues as the walk of `P2` with `last_st = st`.  In `P2`, for a side X that resolves,
`X_boards[st1] = LocalIndex(st, root_bd, st1, g(st1))` for every `st1` in `[st, max_street]`,
with `g(max_street) = msbd_`, `g(st1) = PredBoard(msbd_, st1)` for `st1 < max_street` and
`root_bd = g(st)`, and `X_boards[st1]` is unchanged for `st1 < st`; for a side that does not
resolve every entry of its board array is unchanged.  The entries `ProcessMaxStreetBoard` sets
for a board `msbd`, on the streets `1 .. max_street`, are the global indices `g(st1)`. -/
theorem resolve_reindexes_boards (E : Env) (n : Nat) (P : Player) (a b : Node) (seq : String)
    (reach : Nat → Nat → ℚ) (last : Int)
    (hin : (a.Street : Int) > last ∧ (a.Street : Int) = P.resolve_st_) :
    (∃ (P1 P2 : Player) (a' b' : Node),
      Walk.resolveA E (P.logged ⟨a, b, reach, last⟩) a seq reach = (P1, a') ∧
      Walk.resolveB E P1 b a.Street seq reach = (P2, b') ∧
      Player.Walk E (n + 1) P a b seq reach last =
        Player.Walk E n P2 a' b' seq reach (a.Street : Int) ∧
      P2.msbd_ = P.msbd_ ∧
      (P.resolve_a_ = true →
        (∀ st1, a.Street ≤ st1 → st1 ≤ E.game.MaxStreet →
          P2.a_boards_ st1 =
            E.board_tree.LocalIndex (a.Street : Int)
              (if a.Street = E.game.MaxStreet then P.msbd_
                else E.board_tree.PredBoard P.msbd_ (a.Street : Int))
              (st1 : Int)
              (if st1 = E.game.MaxStreet then P.msbd_
                else E.board_tree.PredBoard P.msbd_ (st1 : Int))) ∧
        (∀ st1, st1 < a.Street → P2.a_boards_ st1 = P.a_boards_ st1)) ∧
      (P.resolve_a_ = false → P2.a_boards_ = P.a_boards_) ∧
      (P.resolve_b_ = true →
        (∀ st1, a.Street ≤ st1 → st1 ≤ E.game.MaxStreet →
          P2.b_boards_ st1 =
            E.board_tree.LocalIndex (a.Street : Int)
              (if a.Street = E.game.MaxStreet then P.msbd_
                else E.board_tree.PredBoard P.msbd_ (a.Street : Int))
              (st1 : Int)
              (if st1 = E.game.MaxStreet then P.msbd_
                else E.board_tree.PredBoard P.msbd_ (st1 : Int))) ∧
        (∀ st1, st1 < a.Street → P2.b_boards_ st1 = P.b_boards_ st1)) ∧
      (P.resolve_b_ = false → P2.b_boards_ = P.b_boards_)) ∧
    (∀ (P0 : Player) (msbd : Int),
      (ProcessMaxStreetBoard.setup E P0 msbd).msbd_ = msbd ∧
      ∀ st1, 1 ≤ st1 → st1 ≤ E.game.MaxStreet →
        (ProcessMaxStreetBoard.setup E P0 msbd).a_boards_ st1 =
          (if st1 = E.game.MaxStreet then msbd
            else E.board_tree.PredBoard msbd (st1 : Int)) ∧
        (ProcessMaxStreetBoard.setup E P0 msbd).b_boards_ st1 =
          (if st1 = E.game.MaxStreet then msbd
            else E.board_tree.PredBoard msbd (st1 : Int))) := by
  refine ⟨?_, fun P0 msbd => ⟨rfl, fun st1 h1 h2 => setup_boards_global E P0 msbd st1 h1 h2⟩⟩
  obtain ⟨a1, a2, a3, a4⟩ := resolveA_fields E (P.logged ⟨a, b, reach, last⟩) a seq reach
  obtain ⟨b1, b2, b3⟩ := resolveB_fields E
    (Walk.resolveA E (P.logged ⟨a, b, reach, last⟩) a seq reach).1 b a.Street seq reach
  have hm : (Walk.resolveA E (P.logged ⟨a, b, reach, last⟩) a seq reach).1.msbd_ = P.msbd_ :=
    a3
  refine ⟨(Walk.resolveA E (P.logged ⟨a, b, reach, last⟩) a seq reach).1,
    (Walk.resolveB E (Walk.resolveA E (P.logged ⟨a, b, reach, last⟩) a seq reach).1 b
      a.Street seq reach).1,
    (Walk.resolveA E (P.logged ⟨a, b, reach, last⟩) a seq reach).2,
    (Walk.resolveB E (Walk.resolveA E (P.logged ⟨a, b, reach, last⟩) a seq reach).1 b
      a.Street seq reach).2,
    rfl, rfl, by rw [Walk_unfold, if_pos hin], b3.trans a3, ?_, ?_, ?_, ?_⟩
  · intro hra
    have hra' : (P.logged ⟨a, b, reach, last⟩).resolve_a_ = true := hra
    rw [b2, a1, if_pos hra']
    constructor
    · intro st1 h1 h2
      rw [reindex_apply, if_pos ⟨h1, h2⟩]
      rfl
    · intro st1 h1
      rw [reindex_apply, if_neg (by omega)]
      rfl
  · intro hra
    have hra' : ¬ (P.logged ⟨a, b, reach, last⟩).resolve_a_ = true := by
      show ¬ P.resolve_a_ = true
      rw [hra]
      simp
    rw [b2, a1, if_neg hra']
    rfl
  · intro hrb
    have hrb' : (Walk.resolveA E (P.logged ⟨a, b, reach, last⟩) a seq reach).1.resolve_b_ =
        true := a4.trans hrb
    rw [b1, if_pos hrb', a2, reindex_congr E P _ hm]
    constructor
    · intro st1 h1 h2
      rw [reindex_apply, if_pos ⟨h1, h2⟩, globalBoard_congr E P _ hm]
      rfl
    · intro st1 h1
      rw [reindex_apply, if_neg (by omega)]
      rfl
  · intro hrb
    have hrb' : ¬ (Walk.resolveA E (P.logged ⟨a, b, reach, last⟩) a seq reach).1.resolve_b_ =
        true := by
      rw [a4.trans hrb]
      simp
    rw [b1, if_neg hrb', a2]
    rfl

theorem resolve_reindexes_boards_witness :
    ∃ (P1 P2 : Player) (a' b' : Node),
      Walk.resolveA exIndexEnv (exIndexPlayer.logged ⟨exFoldLeaf, exFoldLeaf, exReach, 0⟩)
        exFoldLeaf "x" exReach = (P1, a') ∧
      Walk.resolveB exIndexEnv P1 exFoldLeaf exFoldLeaf.Street "x" exReach = (P2, b') ∧
      Player.Walk exIndexEnv 2 exIndexPlayer exFoldLeaf exFoldLeaf "x" exReach 0 =
        Player.Walk exIndexEnv 1 P2 a' b' "x" exReach 1 ∧
      Player.Walk exIndexEnv 1 P2 a' b' "x" exReach 1 =
        .ok ((P2.logged ⟨a', b', exReach, 1⟩).Fold exIndexEnv a' b' exReach) ∧
      exIndexPlayer.msbd_ = 7 ∧
      exIndexPlayer.a_boards_ 1 = 2 ∧ exIndexPlayer.a_boards_ 2 = 7 ∧
      P2.a_boards_ 1 = 0 ∧ P2.a_boards_ 2 = 1 ∧
      P2.a_boards_ 0 = exIndexPlayer.a_boards_ 0 ∧
      P2.b_boards_ 1 = 2 ∧ P2.b_boards_ 2 = 7 := by
  obtain ⟨⟨P1, P2, a', b', hA, hB, hW, _, ha, _, _, hb⟩, hset⟩ :=
    resolve_reindexes_boards exIndexEnv 1 exIndexPlayer exFoldLeaf exFoldLeaf "x" exReach 0
      (by decide)
  have hs := (hset { exPlayer with resolve_a_ := true, resolve_st_ := 1 } 7).2
  have ha' : a' = exFoldLeaf := by
    have e : (Walk.resolveA exIndexEnv
        (exIndexPlayer.logged ⟨exFoldLeaf, exFoldLeaf, exReach, 0⟩) exFoldLeaf "x"
        exReach).2 = a' := congrArg Prod.snd hA
    exact e.symm.trans rfl
  have hP1 : P1.resolve_b_ = false := by
    have e : (Walk.resolveA exIndexEnv
        (exIndexPlayer.logged ⟨exFoldLeaf, exFoldLeaf, exReach, 0⟩) exFoldLeaf "x"
        exReach).1 = P1 := congrArg Prod.fst hA
    rw [← e]
    exact (resolveA_fields exIndexEnv _ exFoldLeaf "x" exReach).2.2.2
  have hb' : b' = exFoldLeaf := by
    have e : (Walk.resolveB exIndexEnv P1 exFoldLeaf exFoldLeaf.Street "x" exReach).2 = b' :=
      congrArg Prod.snd hB
    rw [← e, resolveB_off exIndexEnv P1 exFoldLeaf exFoldLeaf.Street "x" exReach hP1]
  have hbb := hb rfl
  refine ⟨P1, P2, a', b', hA, hB, hW, ?_, rfl, (hs 1 (by decide) (by decide)).1,
    (hs 2 (by decide) (by decide)).1, ?_, ?_, ?_, ?_, ?_⟩
  · rw [ha', hb', Walk_outside exIndexEnv 0 P2 exFoldLeaf exFoldLeaf "x" exReach 1
      (fun h => absurd h.1 (by decide))]
    rfl
  · exact ((ha rfl).1 1 (by decide) (by decide)).trans (by decide)
  · exact ((ha rfl).1 2 (by decide) (by decide)).trans (by decide)
  · exact (ha rfl).2 0 (by decide)
  · rw [hbb]; exact (hs 1 (by decide) (by decide)).2
  · rw [hbb]; exact (hs 2 (by decide) (by decide)).2

/-! ## Sampling of boards: the statements -/

theorem countLoop (L : List (ℚ × Int)) (s0 : Int → Int) (n : Nat) (hn : n ≤ L.length) :
    forLoopM 0 (Go.countBody L) n s0 =
      .ok (fun bd => s0 bd + (boardOccurrences (L.take n) bd : Int)) := by
  induction n with
  | zero =>
    show Run.ok s0 = _
    congr 1
    funext bd
    simp [boardOccurrences]
  | succ n ih =>
    have hlt : n < L.length := hn
    show (forLoopM 0 (Go.countBody L) n s0).bind (Go.countBody L (0 + n)) = _
    rw [ih (Nat.le_of_lt hlt)]
    show Go.countBody L (0 + n) _ = _
    unfold Go.countBody
    rw [Nat.zero_add, List.get?_eq_get hlt]
    show Run.ok _ = Run.ok _
    congr 1
    funext bd
    have ht : L.take (n + 1) = L.take n ++ [L.get ⟨n, hlt⟩] := by
      rw [List.take_succ, List.getElem?_eq_getElem hlt]
      rfl
    unfold boardOccurrences
    rw [ht, List.countP_append]
    by_cases hb : (L.get ⟨n, hlt⟩).2 = bd
    · subst hb
      simp [Function.update_same]
      ring
    · have hb' : bd ≠ (L.get ⟨n, hlt⟩).2 := fun h => hb h.symm
      have hb2 : ¬ L[n].2 = bd := hb
      rw [Function.update_noteq hb']
      simp [hb2]

/-- Taking more pairs than the vector holds reads beyond its end. -/
theorem countLoop_short (L : List (ℚ × Int)) (s0 : Int → Int) (n : Nat) (hn : L.length < n) :
    forLoopM 0 (Go.countBody L) n s0 = .undefined := by
  induction n with
  | zero => omega
  | succ n ih =>
    show (forLoopM 0 (Go.countBody L) n s0).bind (Go.countBody L (0 + n)) = _
    by_cases h : L.length < n
    · rw [ih h]
      rfl
    · have hnone : L.get? (0 + n) = none := by
        rw [Nat.zero_add, List.get?_eq_getElem?]
        exact List.getElem?_eq_none (by omega)
      rw [countLoop L s0 n (by omega)]
      show Go.countBody L (0 + n) _ = _
      unfold Go.countBody
      rw [hnone]

/-- The enumeration path of `Go.boards`. -/
theorem Go_boards_all (E : Env) (fuel : Nat) (rand : Nat → ℚ) (P : Player) (N : Int)
    (h : Go.numSampled E N = (E.board_tree.NumBoards E.game.MaxStreet : Int)) :
    Go.boards E fuel rand P N =
      forLoopM 0 (Go.allBody E fuel) (E.board_tree.NumBoards E.game.MaxStreet)
        ({ P with num_resolves_ := 0 } : Player) := by
  unfold Go.boards
  simp only
  rw [if_pos h]

theorem numSampled_eq (E : Env) (N : Int) :
    Go.numSampled E N =
      if N = 0 ∨ N > (E.board_tree.NumBoards E.game.MaxStreet : Int)
      then (E.board_tree.NumBoards E.game.MaxStreet : Int) else N := rfl

theorem numSampled_full_iff (E : Env) (N : Int) :
    Go.numSampled E N = (E.board_tree.NumBoards E.game.MaxStreet : Int) ↔
      (N = 0 ∨ N ≥ (E.board_tree.NumBoards E.game.MaxStreet : Int)) := by
  rw [numSampled_eq]
  by_cases c : N = 0 ∨ N > (E.board_tree.NumBoards E.game.MaxStreet : Int)
  · rw [if_pos c]
    constructor
    · intro _
      rcases c with c | c
      · exact Or.inl c
      · exact Or.inr (le_of_lt c)
    · intro _
      rfl
  · rw [if_neg c]
    constructor
    · intro h
      exact Or.inr (le_of_eq h.symm)
    · intro h
      rcases h with h | h
      · exact absurd (Or.inl h) c
      · rcases lt_or_eq_of_le h with h' | h'
        · exact absurd (Or.inr h') c
        · exact h'.symm

theorem ResolveFrame_refl (P : Player) : ResolveFrame P P :=
  ⟨rfl, rfl, rfl, rfl, rfl, rfl, rfl, rfl⟩

theorem ResolveFrame_trans (P Q R : Player) (h1 : ResolveFrame P Q) (h2 : ResolveFrame Q R) :
    ResolveFrame P R :=
  ⟨h2.resolve_a.trans h1.resolve_a, h2.resolve_b.trans h1.resolve_b,
    h2.resolve_st.trans h1.resolve_st, h2.a_tree.trans h1.a_tree, h2.b_tree.trans h1.b_tree,
    h2.a_probs.trans h1.a_probs, h2.b_probs.trans h1.b_probs, h2.hands.trans h1.hands⟩

theorem ResolveFrame_accumulate (P : Player) (x y : ℚ) : ResolveFrame P (P.accumulate x y) :=
  ⟨rfl, rfl, rfl, rfl, rfl, rfl, rfl, rfl⟩

theorem accumulate_num_resolves (P : Player) (x y : ℚ) :
    (P.accumulate x y).num_resolves_ = P.num_resolves_ := rfl

theorem ResolveFrame_resolveA (E : Env) (P : Player) (a : Node) (seq : String)
    (reach : Nat → Nat → ℚ) : ResolveFrame P (Walk.resolveA E P a seq reach).1 := by
  unfold Walk.resolveA
  by_cases h : P.resolve_a_ = true
  · simp only [h, if_true]
    exact ⟨h.symm, rfl, rfl, rfl, rfl, rfl, rfl, rfl⟩
  · simp only [h, if_false]
    exact ResolveFrame_refl P

theorem ResolveFrame_resolveB (E : Env) (P : Player) (b : Node) (st : Nat) (seq : String)
    (reach : Nat → Nat → ℚ) : ResolveFrame P (Walk.resolveB E P b st seq reach).1 := by
  unfold Walk.resolveB
  by_cases h : P.resolve_b_ = true
  · simp only [h, if_true]
    exact ⟨rfl, h.symm, rfl, rfl, rfl, rfl, rfl, rfl⟩
  · simp only [h, if_false]
    exact ResolveFrame_refl P

/-- The loop over an index range keeps a property that depends on the index. -/
theorem forLoopM_invariant_idx {σ : Type} (lo : Nat) (body : Nat → σ → Run σ) (n : Nat)
    (I : Nat → σ → Prop)
    (h : ∀ k, k < n → ∀ s s', I k s → body (lo + k) s = .ok s' → I (k + 1) s') :
    ∀ s s', I 0 s → forLoopM lo body n s = .ok s' → I n s' := by
  induction n with
  | zero =>
    intro s s' hI hr
    injection hr with hr
    exact hr ▸ hI
  | succ n ih =>
    intro s s' hI hr
    simp only [forLoopM] at hr
    cases hm : forLoopM lo body n s with
    | ok m =>
      rw [hm] at hr
      exact h n (Nat.lt_succ_self n) m s'
        (ih (fun k hk => h k (Nat.lt_succ_of_lt hk)) s m hI hm) hr
    | fatal => rw [hm] at hr; exact absurd hr (by simp [Run.bind])
    | undefined => rw [hm] at hr; exact absurd hr (by simp [Run.bind])
    | out_of_fuel => rw [hm] at hr; exact absurd hr (by simp [Run.bind])

/-- A walk that returns, resolving or not, keeps the frame. -/
theorem Walk_resolve_frame (E : Env) : ∀ (n : Nat) (P : Player) (a b : Node) (seq : String)
    (reach : Nat → Nat → ℚ) (last : Int) (Q : Player),
    Player.Walk E n P a b seq reach last = .ok Q → ResolveFrame P Q := by
  intro n
  induction n with
  | zero =>
    intro P a b seq reach last Q h
    exact absurd h (by simp [Player.Walk])
  | succ n ih =>
    intro P a b seq reach last Q h
    rw [Walk_unfold] at h
    have hlog : ResolveFrame P (P.logged ⟨a, b, reach, last⟩) :=
      ⟨rfl, rfl, rfl, rfl, rfl, rfl, rfl, rfl⟩
    by_cases c1 : (a.Street : Int) > last ∧ (a.Street : Int) = P.resolve_st_
    · rw [if_pos c1] at h
      exact ResolveFrame_trans _ _ _ hlog
        (ResolveFrame_trans _ _ _ (ResolveFrame_resolveA E _ a seq reach)
          (ResolveFrame_trans _ _ _ (ResolveFrame_resolveB E _ b a.Street seq reach)
            (ih _ _ _ _ _ _ Q h)))
    · rw [if_neg c1] at h
      by_cases c2 : a.Terminal = true
      · rw [if_pos c2] at h
        by_cases c3 : b.Terminal = false
        · rw [if_pos c3] at h
          exact absurd h (by simp)
        · rw [if_neg c3] at h
          by_cases c4 : a.Showdown = true
          · rw [if_pos c4] at h
            rcases Player_Showdown_cases E (P.logged ⟨a, b, reach, last⟩) a b reach with
              hf | ⟨x, y, hx⟩
            · rw [hf] at h; exact absurd h (by simp)
            · rw [hx] at h
              injection h with h
              rw [← h]
              exact ResolveFrame_trans _ _ _ hlog (ResolveFrame_accumulate _ x y)
          · rw [if_neg c4] at h
            injection h with h
            rw [← h]
            exact ResolveFrame_trans _ _ _ hlog (ResolveFrame_accumulate _ _ _)
      · rw [if_neg c2] at h
        by_cases c5 : b.Terminal = true
        · rw [if_pos c5] at h
          exact absurd h (by simp)
        · rw [if_neg c5] at h
          rw [Nonterminal_eq] at h
          cases hg : (P.logged ⟨a, b, reach, last⟩).GetSuccReachProbs E
              (Nonterminal.lookupNode (P.logged ⟨a, b, reach, last⟩) a b a.PlayerActing)
              (Nonterminal.lookupBoard (P.logged ⟨a, b, reach, last⟩) a.Street a.PlayerActing)
              (Nonterminal.buckets (P.logged ⟨a, b, reach, last⟩) a.Street a.PlayerActing)
              (Nonterminal.sumprobs E (P.logged ⟨a, b, reach, last⟩) a.Street a.PlayerActing)
              reach with
          | ok succ =>
            rw [hg] at h
            refine forLoopM_invariant 0 _ a.NumSuccs (fun R => ResolveFrame P R) ?_ _ Q hlog h
            intro k _ R R' hR hstep
            rw [Nat.zero_add] at hstep
            obtain ⟨a', b', _, _, _, hw⟩ := succBody_ok _ _ _ _ _ _ _ _ _ _ hstep
            exact ResolveFrame_trans _ _ _ hR (ih R a' b' _ (succ k) _ R' hw)
          | fatal => rw [hg] at h; exact absurd h (by simp [Run.bind])
          | undefined => rw [hg] at h; exact absurd h (by simp [Run.bind])
          | out_of_fuel => rw [hg] at h; exact absurd h (by simp [Run.bind])

theorem streetsGE_node (m h : Nat) (n : Node) (hs : n.streetsGE m h = true) :
    m ≤ n.Street := by
  cases h with
  | zero => exact of_decide_eq_true hs
  | succ h =>
    rw [Node.streetsGE, Bool.and_eq_true] at hs
    exact of_decide_eq_true hs.1

theorem streetsGE_child (m h : Nat) (n c : Node) (k : Nat) (hs : n.streetsGE m (h + 1) = true)
    (hc : n.IthSucc k = some c) : c.streetsGE m h = true := by
  rw [Node.streetsGE, Bool.and_eq_true] at hs
  exact List.all_eq_true.mp hs.2 c (List.get?_mem hc)

/-- A walk that is called with `last_st` on the resolve street or later, in a tree on the
resolve street and later, meets no boundary: the counter of resolves is unchanged. -/
theorem Walk_no_entry (E : Env) (m : Nat) : ∀ (n : Nat) (P : Player) (a b : Node)
    (seq : String) (reach : Nat → Nat → ℚ) (last : Int) (Q : Player),
    P.resolve_st_ = (m : Int) → (m : Int) ≤ last → a.streetsGE m n = true →
    Player.Walk E n P a b seq reach last = .ok Q → Q.num_resolves_ = P.num_resolves_ := by
  intro n
  induction n with
  | zero =>
    intro P a b seq reach last Q _ _ _ h
    exact absurd h (by simp [Player.Walk])
  | succ n ih =>
    intro P a b seq reach last Q hst hlast hge h
    have c1 : ¬ ((a.Street : Int) > last ∧ (a.Street : Int) = P.resolve_st_) := by
      rintro ⟨h1, h2⟩
      rw [hst] at h2
      rw [h2] at h1
      exact absurd hlast (not_le.mpr h1)
    rw [Walk_outside E n P a b seq reach last c1] at h
    by_cases c2 : a.Terminal = true
    · rw [if_pos c2] at h
      by_cases c3 : b.Terminal = false
      · rw [if_pos c3] at h
        exact absurd h (by simp)
      · rw [if_neg c3] at h
        by_cases c4 : a.Showdown = true
        · rw [if_pos c4] at h
          rcases Player_Showdown_cases E (P.logged ⟨a, b, reach, last⟩) a b reach with
            hf | ⟨x, y, hx⟩
          · rw [hf] at h; exact absurd h (by simp)
          · rw [hx] at h
            injection h with h
            rw [← h]
            rfl
        · rw [if_neg c4] at h
          injection h with h
          rw [← h]
          rfl
    · rw [if_neg c2] at h
      by_cases c5 : b.Terminal = true
      · rw [if_pos c5] at h
        exact absurd h (by simp)
      · rw [if_neg c5] at h
        rw [Nonterminal_eq] at h
        cases hg : (P.logged ⟨a, b, reach, last⟩).GetSuccReachProbs E
            (Nonterminal.lookupNode (P.logged ⟨a, b, reach, last⟩) a b a.PlayerActing)
            (Nonterminal.lookupBoard (P.logged ⟨a, b, reach, last⟩) a.Street a.PlayerActing)
            (Nonterminal.buckets (P.logged ⟨a, b, reach, last⟩) a.Street a.PlayerActing)
            (Nonterminal.sumprobs E (P.logged ⟨a, b, reach, last⟩) a.Street a.PlayerActing)
            reach with
        | ok succ =>
          rw [hg] at h
          have hI := forLoopM_invariant 0 _ a.NumSuccs
            (fun R => R.resolve_st_ = P.resolve_st_ ∧ R.num_resolves_ = P.num_resolves_)
            ?_ _ Q ⟨rfl, rfl⟩ h
          · exact hI.2
          · intro k _ R R' hR hstep
            rw [Nat.zero_add] at hstep
            obtain ⟨a', b', ha', _, _, hw⟩ := succBody_ok _ _ _ _ _ _ _ _ _ _ hstep
            have hm : (m : Int) ≤ (a.Street : Int) :=
              Int.ofNat_le.mpr (streetsGE_node m (n + 1) a hge)
            exact ⟨(Walk_resolve_frame E n R a' b' _ (succ k) _ R' hw).resolve_st.trans hR.1,
              (ih R a' b' _ (succ k) _ R' (hR.1.trans hst) hm
                (streetsGE_child m n a a' k hge ha') hw).trans hR.2⟩
        | fatal => rw [hg] at h; exact absurd h (by simp [Run.bind])
        | undefined => rw [hg] at h; exact absurd h (by simp [Run.bind])
        | out_of_fuel => rw [hg] at h; exact absurd h (by simp [Run.bind])

theorem entries_boundary (rs : Int) (h : Nat) (last : Int) (n : Node)
    (c : (n.Street : Int) > last ∧ (n.Street : Int) = rs) : n.entries rs h last = 1 := by
  cases h with
  | zero => rw [Node.entries, if_pos c]
  | succ h => rw [Node.entries, if_pos c]

theorem entries_terminal (rs : Int) (h : Nat) (last : Int) (n : Node)
    (c : ¬ ((n.Street : Int) > last ∧ (n.Street : Int) = rs)) (ht : n.Terminal = true) :
    n.entries rs h last = 0 := by
  cases h with
  | zero => rw [Node.entries, if_neg c]
  | succ h => rw [Node.entries, if_neg c, if_pos ht]

theorem entries_nonterminal (rs : Int) (h : Nat) (last : Int) (n : Node)
    (c : ¬ ((n.Street : Int) > last ∧ (n.Street : Int) = rs)) (ht : ¬ n.Terminal = true)
    (hd : n.depthLE h = true) :
    ∃ h', (∀ x, x ∈ n.succs → x.depthLE h' = true) ∧
      n.entries rs h last = (n.succs.map (Node.entries rs h' (n.Street : Int))).sum := by
  cases h with
  | zero =>
    rw [Node.depthLE, List.isEmpty_iff] at hd
    refine ⟨0, ?_, ?_⟩
    · intro x hx
      rw [hd] at hx
      exact absurd hx (List.not_mem_nil x)
    · rw [Node.entries, if_neg c, hd]
      rfl
  | succ h =>
    rw [Node.depthLE] at hd
    exact ⟨h, fun x hx => List.all_eq_true.mp hd x hx, by
      rw [Node.entries, if_neg c, if_neg ht]⟩

theorem resolveA_on (E : Env) (P : Player) (a : Node) (seq : String)
    (reach : Nat → Nat → ℚ) (h : P.resolve_a_ = true) :
    (Walk.resolveA E P a seq reach).2 =
      E.CreateSubtree a.Street a.PlayerActing a.LastBetTo (-1)
        P.a_subgame_betting_abstraction_ ∧
    (Walk.resolveA E P a seq reach).1.num_resolves_ = P.num_resolves_ + 1 := by
  unfold Walk.resolveA
  simp only [h, if_true]
  refine ⟨?_, ?_⟩ <;> first | rfl | trivial

theorem take_succ_IthSucc (n c : Node) (k : Nat) (hc : n.IthSucc k = some c) :
    n.succs.take (k + 1) = n.succs.take k ++ [c] := by
  unfold Node.IthSucc at hc
  rw [List.get?_eq_getElem?] at hc
  rw [List.take_succ, hc]
  rfl

/-- A walk that returns while only A resolves, at street `m`, has invoked the resolver once
for each node of A's tree at which it entered street `m` from an earlier street. -/
theorem Walk_entries (E : Env) (m : Nat)
    (hsub : ∀ pa lbt x ba k, (E.CreateSubtree m pa lbt x ba).streetsGE m k = true) :
    ∀ (n : Nat) (P : Player) (a b : Node) (seq : String) (reach : Nat → Nat → ℚ)
      (last : Int) (Q : Player) (h : Nat),
    P.resolve_a_ = true → P.resolve_b_ = false → P.resolve_st_ = (m : Int) →
    a.depthLE h = true → Player.Walk E n P a b seq reach last = .ok Q →
    Q.num_resolves_ = P.num_resolves_ + a.entries (m : Int) h last := by
  intro n
  induction n with
  | zero =>
    intro P a b seq reach last Q h _ _ _ _ hw
    exact absurd hw (by simp [Player.Walk])
  | succ n ih =>
    intro P a b seq reach last Q h hA hB hst hd hw
    rw [Walk_unfold] at hw
    by_cases c1 : (a.Street : Int) > last ∧ (a.Street : Int) = P.resolve_st_
    · rw [if_pos c1] at hw
      have hb1 : (Walk.resolveA E (P.logged ⟨a, b, reach, last⟩) a seq reach).1.resolve_b_ =
          false := (ResolveFrame_resolveA E _ a seq reach).resolve_b.trans hB
      rw [resolveB_off E _ b a.Street seq reach hb1] at hw
      obtain ⟨h2, h3⟩ := resolveA_on E (P.logged ⟨a, b, reach, last⟩) a seq reach hA
      have hm : a.Street = m := Int.ofNat_inj.mp (c1.2.trans hst)
      have hno := Walk_no_entry E m n _ _ b seq reach (a.Street : Int) Q
        ((ResolveFrame_resolveA E (P.logged ⟨a, b, reach, last⟩) a seq reach).resolve_st.trans
          hst)
        (le_of_eq (by rw [hm])) (by rw [h2, hm]; exact hsub _ _ _ _ n) hw
      rw [hno, h3, entries_boundary (m : Int) h last a (by rw [← hst]; exact c1)]
      rfl
    · rw [if_neg c1] at hw
      have c1' : ¬ ((a.Street : Int) > last ∧ (a.Street : Int) = (m : Int)) := by
        rw [← hst]; exact c1
      by_cases c2 : a.Terminal = true
      · rw [if_pos c2] at hw
        rw [entries_terminal (m : Int) h last a c1' c2]
        by_cases c3 : b.Terminal = false
        · rw [if_pos c3] at hw
          exact absurd hw (by simp)
        · rw [if_neg c3] at hw
          by_cases c4 : a.Showdown = true
          · rw [if_pos c4] at hw
            rcases Player_Showdown_cases E (P.logged ⟨a, b, reach, last⟩) a b reach with
              hf | ⟨x, y, hx⟩
            · rw [hf] at hw; exact absurd hw (by simp)
            · rw [hx] at hw
              injection hw with hw
              rw [← hw]
              rfl
          · rw [if_neg c4] at hw
            injection hw with hw
            rw [← hw]
            rfl
      · rw [if_neg c2] at hw
        obtain ⟨h', hall, hent⟩ := entries_nonterminal (m : Int) h last a c1' c2 hd
        rw [hent]
        by_cases c5 : b.Terminal = true
        · rw [if_pos c5] at hw
          exact absurd hw (by simp)
        · rw [if_neg c5] at hw
          rw [Nonterminal_eq] at hw
          cases hg : (P.logged ⟨a, b, reach, last⟩).GetSuccReachProbs E
              (Nonterminal.lookupNode (P.logged ⟨a, b, reach, last⟩) a b a.PlayerActing)
              (Nonterminal.lookupBoard (P.logged ⟨a, b, reach, last⟩) a.Street a.PlayerActing)
              (Nonterminal.buckets (P.logged ⟨a, b, reach, last⟩) a.Street a.PlayerActing)
              (Nonterminal.sumprobs E (P.logged ⟨a, b, reach, last⟩) a.Street a.PlayerActing)
              reach with
          | ok succ =>
            rw [hg] at hw
            have hI := forLoopM_invariant_idx 0 _ a.NumSuccs
              (fun k R => R.resolve_a_ = true ∧ R.resolve_b_ = false ∧
                R.resolve_st_ = (m : Int) ∧
                R.num_resolves_ = P.num_resolves_ +
                  ((a.succs.take k).map (Node.entries (m : Int) h' (a.Street : Int))).sum)
              ?_ _ Q ⟨hA, hB, hst, rfl⟩ hw
            · have hI4 := hI.2.2.2
              rw [show a.NumSuccs = a.succs.length from rfl, List.take_length] at hI4
              exact hI4
            · intro k _ R R' hR hstep
              rw [Nat.zero_add] at hstep
              obtain ⟨a', b', ha', _, _, hwk⟩ := succBody_ok _ _ _ _ _ _ _ _ _ _ hstep
              have hf := Walk_resolve_frame E n R a' b' _ (succ k) _ R' hwk
              have hcount := ih R a' b' _ (succ k) _ R' h' hR.1 hR.2.1 hR.2.2.1
                (hall a' (List.get?_mem ha')) hwk
              refine ⟨hf.resolve_a.trans hR.1, hf.resolve_b.trans hR.2.1,
                hf.resolve_st.trans hR.2.2.1, ?_⟩
              rw [hcount, hR.2.2.2, take_succ_IthSucc a a' k ha', List.map_append,
                List.sum_append, List.map_singleton, List.sum_singleton, Nat.add_assoc]
          | fatal => rw [hg] at hw; exact absurd hw (by simp [Run.bind])
          | undefined => rw [hg] at hw; exact absurd hw (by simp [Run.bind])
          | out_of_fuel => rw [hg] at hw; exact absurd hw (by simp [Run.bind])

/-- The walks of one board while only A resolves at street `m`: two walks from the roots, each
with the entries of A's tree. -/
theorem ProcessMaxStreetBoard_resolves (E : Env) (m : Nat)
    (hsub : ∀ pa lbt x ba k, (E.CreateSubtree m pa lbt x ba).streetsGE m k = true)
    (fuel : Nat) (P : Player) (msbd : Int) (Q : Player) (h : Nat)
    (hA : P.resolve_a_ = true) (hB : P.resolve_b_ = false) (hst : P.resolve_st_ = (m : Int))
    (hd : P.a_betting_tree_.depthLE h = true)
    (hrun : P.ProcessMaxStreetBoard E fuel msbd = .ok Q) :
    Q.resolve_a_ = true ∧ Q.resolve_b_ = false ∧ Q.resolve_st_ = (m : Int) ∧
    Q.a_betting_tree_ = P.a_betting_tree_ ∧
    Q.num_resolves_ =
      P.num_resolves_ + E.game.NumPlayers * P.a_betting_tree_.entries (m : Int) h 0 := by
  rw [ProcessMaxStreetBoard_eq] at hrun
  cases hl : forLoopM 0
      (ProcessMaxStreetBoard.seatBody E fuel
        (ProcessMaxStreetBoard.initialReach E (boardHands E msbd)))
      E.game.NumPlayers (ProcessMaxStreetBoard.setup E P msbd) with
  | ok P2 =>
    rw [hl] at hrun
    injection hrun with hrun
    have hI := forLoopM_invariant_idx 0 _ E.game.NumPlayers
      (fun k R => R.resolve_a_ = true ∧ R.resolve_b_ = false ∧ R.resolve_st_ = (m : Int) ∧
        R.a_betting_tree_ = P.a_betting_tree_ ∧
        R.num_resolves_ = P.num_resolves_ + k * P.a_betting_tree_.entries (m : Int) h 0)
      ?_ _ P2 ⟨hA, hB, hst, rfl, by rw [Nat.zero_mul]; rfl⟩ hl
    · rw [← hrun]
      exact hI
    · intro k _ R R' hR hstep
      rw [Nat.zero_add] at hstep
      have hwk : Player.Walk E fuel (R.withSeat k) R.a_betting_tree_ R.b_betting_tree_ "x"
          (ProcessMaxStreetBoard.initialReach E (boardHands E msbd)) 0 = .ok R' := hstep
      have hf := Walk_resolve_frame E fuel _ _ _ _ _ _ R' hwk
      have hcount := Walk_entries E m hsub fuel (R.withSeat k) R.a_betting_tree_
        R.b_betting_tree_ "x" _ 0 R' h hR.1 hR.2.1 hR.2.2.1
        (by rw [hR.2.2.2.1]; exact hd) hwk
      refine ⟨hf.resolve_a.trans hR.1, hf.resolve_b.trans hR.2.1,
        hf.resolve_st.trans hR.2.2.1, hf.a_tree.trans hR.2.2.2.1, ?_⟩
      rw [hcount, hR.2.2.2.1]
      show R.num_resolves_ + _ = _
      rw [hR.2.2.2.2, Nat.succ_mul, Nat.add_assoc]
  | fatal => rw [hl] at hrun; exact absurd hrun (by simp [Run.bind])
  | undefined => rw [hl] at hrun; exact absurd hrun (by simp [Run.bind])
  | out_of_fuel => rw [hl] at hrun; exact absurd hrun (by simp [Run.bind])

/-- The count of resolves of a full enumeration while only A resolves at street `m`. -/
theorem Go_boards_resolves (E : Env) (m : Nat)
    (hsub : ∀ pa lbt x ba k, (E.CreateSubtree m pa lbt x ba).streetsGE m k = true)
    (fuel : Nat) (rand : Nat → ℚ) (P : Player) (N : Int) (Q : Player) (h : Nat)
    (hA : P.resolve_a_ = true) (hB : P.resolve_b_ = false) (hst : P.resolve_st_ = (m : Int))
    (hd : P.a_betting_tree_.depthLE h = true)
    (hfull : N = 0 ∨ N ≥ (E.board_tree.NumBoards E.game.MaxStreet : Int))
    (hrun : Go.boards E fuel rand P N = .ok Q) :
    Q.num_resolves_ =
      E.board_tree.NumBoards E.game.MaxStreet *
        (E.game.NumPlayers * P.a_betting_tree_.entries (m : Int) h 0) := by
  rw [Go_boards_all E fuel rand P N ((numSampled_full_iff E N).mpr hfull)] at hrun
  have hI := forLoopM_invariant_idx 0 _ (E.board_tree.NumBoards E.game.MaxStreet)
    (fun k R => R.resolve_a_ = true ∧ R.resolve_b_ = false ∧ R.resolve_st_ = (m : Int) ∧
      R.a_betting_tree_ = P.a_betting_tree_ ∧
      R.num_resolves_ =
        k * (E.game.NumPlayers * P.a_betting_tree_.entries (m : Int) h 0))
    ?_ _ Q ⟨hA, hB, hst, rfl, by rw [Nat.zero_mul]⟩ hrun
  · exact hI.2.2.2.2
  · intro k _ R R' hR hstep
    rw [Nat.zero_add] at hstep
    have hp := ProcessMaxStreetBoard_resolves E m hsub fuel
      (R.withSamples (E.board_tree.BoardCount E.game.MaxStreet (k : Int))) (k : Int) R' h
      hR.1 hR.2.1 hR.2.2.1 (by
        show R.a_betting_tree_.depthLE h = true
        rw [hR.2.2.2.1]; exact hd) hstep
    refine ⟨hp.1, hp.2.1, hp.2.2.1, hp.2.2.2.1.trans hR.2.2.2.1, ?_⟩
    rw [hp.2.2.2.2]
    show R.num_resolves_ + _ * R.a_betting_tree_.entries (m : Int) h 0 = _
    rw [hR.2.2.2.1, hR.2.2.2.2, Nat.succ_mul]

theorem entries_zero : ∀ (h : Nat) (last : Int) (n : Node), 0 ≤ last →
    n.entries 0 h last = 0 := by
  intro h
  induction h with
  | zero =>
    intro last n hl
    rw [Node.entries, if_neg]
    rintro ⟨h1, h2⟩
    rw [h2] at h1
    exact absurd hl (not_le.mpr h1)
  | succ h ih =>
    intro last n hl
    have c : ¬ ((n.Street : Int) > last ∧ (n.Street : Int) = 0) := by
      rintro ⟨h1, h2⟩
      rw [h2] at h1
      exact absurd hl (not_le.mpr h1)
    rw [Node.entries, if_neg c]
    by_cases ht : n.Terminal = true
    · rw [if_pos ht]
    · rw [if_neg ht]
      apply List.sum_eq_zero
      intro x hx
      obtain ⟨y, _, hy⟩ := List.mem_map.mp hx
      rw [← hy]
      exact ih _ y (Int.ofNat_nonneg _)

theorem ResolveFrame_withSeat (P : Player) (k : Nat) : ResolveFrame P (P.withSeat k) :=
  ⟨rfl, rfl, rfl, rfl, rfl, rfl, rfl, rfl⟩

/-- With two players and one board, `Go` on all boards returns when the two walks from the
roots do. -/
theorem Go_one_board_returns (E : Env) (fuel : Nat) (rand : Nat → ℚ) (P : Player)
    (h2 : E.game.NumPlayers = 2) (h1 : E.board_tree.NumBoards E.game.MaxStreet = 1)
    (hwalk : ∀ (S : Player) (k : Nat) (reach : Nat → Nat → ℚ),
      ResolveFrame
        (ProcessMaxStreetBoard.setup E
          (({ P with num_resolves_ := 0 } : Player).withSamples
            (E.board_tree.BoardCount E.game.MaxStreet ((0 : Nat) : Int))) ((0 : Nat) : Int)) S →
      OkReach E S.hands_ reach →
      ∃ Q, Player.Walk E fuel (S.withSeat k) S.a_betting_tree_ S.b_betting_tree_ "x" reach 0 =
        .ok Q) :
    ∃ Q r, P.Go E fuel rand 0 = .ok (Q, r) := by
  have hr0 : OkReach E
      (ProcessMaxStreetBoard.setup E
        (({ P with num_resolves_ := 0 } : Player).withSamples
          (E.board_tree.BoardCount E.game.MaxStreet ((0 : Nat) : Int))) ((0 : Nat) : Int)).hands_
      (ProcessMaxStreetBoard.initialReach E (boardHands E ((0 : Nat) : Int))) :=
    initialReach_ok E _ h2
  obtain ⟨Q0, hQ0⟩ := hwalk _ 0 _ (ResolveFrame_refl _) hr0
  have hf0 := ResolveFrame_trans _ _ _ (ResolveFrame_withSeat _ 0)
    (Walk_resolve_frame E fuel _ _ _ _ _ _ Q0 hQ0)
  obtain ⟨Q1, hQ1⟩ := hwalk Q0 (0 + 1) _ hf0 (by rw [hf0.hands]; exact hr0)
  refine ⟨Q1.withSeat 2, Go.report (Q1.withSeat 2), ?_⟩
  rw [Go_ok_iff]
  refine ⟨?_, rfl⟩
  rw [Go_boards_all E fuel rand P 0 ((numSampled_full_iff E 0).mpr (Or.inl rfl)), h1,
    forLoopM_one]
  show Player.ProcessMaxStreetBoard E fuel _ ((0 : Nat) : Int) = _
  rw [ProcessMaxStreetBoard_eq, h2, forLoopM_two]
  have e0 : ProcessMaxStreetBoard.seatBody E fuel
      (ProcessMaxStreetBoard.initialReach E (boardHands E ((0 : Nat) : Int))) 0
      (ProcessMaxStreetBoard.setup E
        (({ P with num_resolves_ := 0 } : Player).withSamples
          (E.board_tree.BoardCount E.game.MaxStreet ((0 : Nat) : Int))) ((0 : Nat) : Int)) =
      .ok Q0 := hQ0
  have e1 : ProcessMaxStreetBoard.seatBody E fuel
      (ProcessMaxStreetBoard.initialReach E (boardHands E ((0 : Nat) : Int))) (0 + 1) Q0 =
      .ok Q1 := hQ1
  rw [e0]
  show (ProcessMaxStreetBoard.seatBody E fuel _ (0 + 1) Q0).bind _ = _
  rw [e1]
  rfl

/-- The walk of the forced check returns on reach vectors within `[0, 1]`, whatever the resolve
flags. -/
theorem Walk_check_returns (E : Env) (n : Nat) (S : Player) (reach : Nat → Nat → ℚ)
    (hr : OkReach E S.hands_ reach) :
    ∃ Q, Player.Walk E (n + 2) S exCheckNode exCheckNode "x" reach 0 = .ok Q := by
  have hg := GetSuccReachProbs_single_eq E (S.logged ⟨exCheckNode, exCheckNode, reach, 0⟩)
    exCheckNode
    (Nonterminal.lookupBoard (S.logged ⟨exCheckNode, exCheckNode, reach, 0⟩) exCheckNode.Street
      exCheckNode.PlayerActing)
    (Nonterminal.buckets (S.logged ⟨exCheckNode, exCheckNode, reach, 0⟩) exCheckNode.Street
      exCheckNode.PlayerActing)
    (Nonterminal.sumprobs E (S.logged ⟨exCheckNode, exCheckNode, reach, 0⟩) exCheckNode.Street
      exCheckNode.PlayerActing) reach rfl
  have hsucc := GetSuccReachProbs_okReach E _ exCheckNode _ _ _ reach _ hr hg 0 (by decide)
  obtain ⟨x, y, hsd⟩ := Player_Showdown_ok E
    ((S.logged ⟨exCheckNode, exCheckNode, reach, 0⟩).logged
      ⟨exShowdownNode, exShowdownNode,
        copied E (S.logged ⟨exCheckNode, exCheckNode, reach, 0⟩) reach
          (E.game.NumHoleCardPairs E.game.MaxStreet) 0, (exCheckNode.Street : Int)⟩)
    exShowdownNode exShowdownNode _ hsucc
  refine Exists.intro _ (Eq.trans ?_ hsd)
  rw [Walk_outside E (n + 1) S exCheckNode exCheckNode "x" reach 0
    (fun h => absurd h.1 (by decide))]
  have hnt : exCheckNode.Terminal = false := rfl
  simp only [hnt, Bool.false_eq_true, if_false]
  rw [Nonterminal_eq]
  have hnode : Nonterminal.lookupNode (S.logged ⟨exCheckNode, exCheckNode, reach, 0⟩)
      exCheckNode exCheckNode exCheckNode.PlayerActing = exCheckNode := by
    unfold Nonterminal.lookupNode
    exact ite_self _
  rw [hnode, hg, show exCheckNode.NumSuccs = 1 from rfl]
  simp only [Run.bind, forLoopM_one]
  rw [succBody_some _ exCheckNode exCheckNode _ _ _ _ 0 _ exShowdownNode exShowdownNode rfl rfl
    (by decide)]
  rw [Walk_outside E n _ exShowdownNode exShowdownNode _ _ _ (fun h => absurd h.1 (by decide))]
  rfl

/-- The walk that enters street 1 at the leaf of the two-street tree resolves and returns. -/
theorem Walk_leaf_returns (n : Nat) (R : Player) (seq : String) (reach : Nat → Nat → ℚ)
    (hr : OkReach exStreetEnv R.hands_ reach) (hB : R.resolve_b_ = false)
    (hst : R.resolve_st_ = 1) :
    ∃ Q, Player.Walk exStreetEnv (n + 2) R exStreetLeaf exStreetLeaf seq reach 0 = .ok Q := by
  have hfA := ResolveFrame_resolveA exStreetEnv
    (R.logged ⟨exStreetLeaf, exStreetLeaf, reach, 0⟩) exStreetLeaf seq reach
  have hb1 : (Walk.resolveA exStreetEnv (R.logged ⟨exStreetLeaf, exStreetLeaf, reach, 0⟩)
      exStreetLeaf seq reach).1.resolve_b_ = false := hfA.resolve_b.trans hB
  have hsubtree : (Walk.resolveA exStreetEnv (R.logged ⟨exStreetLeaf, exStreetLeaf, reach, 0⟩)
      exStreetLeaf seq reach).2 = exStreetLeaf := by
    cases hA : (R.logged ⟨exStreetLeaf, exStreetLeaf, reach, 0⟩).resolve_a_ with
    | true => exact (resolveA_on exStreetEnv _ exStreetLeaf seq reach hA).1
    | false => rw [resolveA_off exStreetEnv _ exStreetLeaf seq reach hA]
  have hr1 : OkReach exStreetEnv
      ((Walk.resolveA exStreetEnv (R.logged ⟨exStreetLeaf, exStreetLeaf, reach, 0⟩)
        exStreetLeaf seq reach).1.logged
          ⟨exStreetLeaf, exStreetLeaf, reach, (exStreetLeaf.Street : Int)⟩).hands_ reach := by
    show OkReach exStreetEnv (Walk.resolveA exStreetEnv
      (R.logged ⟨exStreetLeaf, exStreetLeaf, reach, 0⟩) exStreetLeaf seq reach).1.hands_ reach
    rw [hfA.hands]
    exact hr
  obtain ⟨x, y, hsd⟩ := Player_Showdown_ok exStreetEnv _ exStreetLeaf exStreetLeaf reach hr1
  refine Exists.intro _ (Eq.trans ?_ hsd)
  rw [Walk_unfold, if_pos ⟨by decide, by rw [hst]; rfl⟩,
    resolveB_off exStreetEnv _ exStreetLeaf exStreetLeaf.Street seq reach hb1, hsubtree]
  rw [Walk_outside exStreetEnv n _ exStreetLeaf exStreetLeaf _ _ _
    (fun h => absurd h.1 (by decide))]
  rfl

/-- The walk of the two-street tree returns while only A resolves, at street 1. -/
theorem Walk_street_returns (n : Nat) (S : Player) (reach : Nat → Nat → ℚ)
    (hr : OkReach exStreetEnv S.hands_ reach) (hB : S.resolve_b_ = false)
    (hst : S.resolve_st_ = 1) (hva : ValidStrategy S.a_probs_)
    (hvb : ValidStrategy S.b_probs_) :
    ∃ Q, Player.Walk exStreetEnv (n + 3) S exStreetTree exStreetTree "x" reach 0 = .ok Q := by
  have hnode : Nonterminal.lookupNode (S.logged ⟨exStreetTree, exStreetTree, reach, 0⟩)
      exStreetTree exStreetTree exStreetTree.PlayerActing = exStreetTree := by
    unfold Nonterminal.lookupNode
    exact ite_self _
  have hsp : ∃ sp, Nonterminal.sumprobs exStreetEnv
      (S.logged ⟨exStreetTree, exStreetTree, reach, 0⟩) exStreetTree.Street
      exStreetTree.PlayerActing = some sp ∧ ValidStrategy sp := by
    unfold Nonterminal.sumprobs
    by_cases c : exStreetTree.PlayerActing =
        (S.logged ⟨exStreetTree, exStreetTree, reach, 0⟩).b_pos_
    · rw [if_pos c, if_neg (fun h => absurd h.2 (by decide))]
      exact ⟨_, rfl, hvb⟩
    · rw [if_neg c, if_neg (fun h => absurd h.2 (by decide))]
      exact ⟨_, rfl, hva⟩
  obtain ⟨sp, hsp1, hsp2⟩ := hsp
  have hg := (GetSuccReachProbs_general exStreetEnv
    (S.logged ⟨exStreetTree, exStreetTree, reach, 0⟩) exStreetTree
    (Nonterminal.lookupBoard (S.logged ⟨exStreetTree, exStreetTree, reach, 0⟩)
      exStreetTree.Street exStreetTree.PlayerActing)
    (Nonterminal.buckets (S.logged ⟨exStreetTree, exStreetTree, reach, 0⟩) exStreetTree.Street
      exStreetTree.PlayerActing) sp reach (by decide)).1
    (AllProbsOk_of_valid exStreetEnv _ _ _ _ sp reach hsp2 hr)
  have hsucc := GetSuccReachProbs_okReach exStreetEnv
    (S.logged ⟨exStreetTree, exStreetTree, reach, 0⟩) exStreetTree _ _ _ reach _ hr hg
  obtain ⟨Q0, hQ0⟩ := Walk_leaf_returns (n + 0)
    (S.logged ⟨exStreetTree, exStreetTree, reach, 0⟩) ("x" ++ exStreetTree.ActionName 0) _
    (hsucc 0 (by decide)) hB hst
  have hf0 := Walk_resolve_frame exStreetEnv _ _ _ _ _ _ _ Q0 hQ0
  obtain ⟨Q1, hQ1⟩ := Walk_leaf_returns (n + 0) Q0 ("x" ++ exStreetTree.ActionName (0 + 1)) _
    (by rw [hf0.hands]; exact hsucc (0 + 1) (by decide)) (hf0.resolve_b.trans hB)
    (hf0.resolve_st.trans hst)
  refine ⟨Q1, ?_⟩
  rw [Walk_outside exStreetEnv (n + 2) S exStreetTree exStreetTree "x" reach 0
    (fun h => absurd h.1 (by decide))]
  have hnt : exStreetTree.Terminal = false := rfl
  simp only [hnt, Bool.false_eq_true, if_false]
  rw [Nonterminal_eq, hnode, hsp1, hg, show exStreetTree.NumSuccs = 2 from rfl]
  simp only [Run.bind, forLoopM_two]
  rw [succBody_some _ exStreetTree exStreetTree _ _ _ _ 0 _ exStreetLeaf exStreetLeaf rfl rfl
    (by decide)]
  have e0 : Player.Walk exStreetEnv (n + 2) (S.logged ⟨exStreetTree, exStreetTree, reach, 0⟩)
      exStreetLeaf exStreetLeaf ("x" ++ exStreetTree.ActionName 0)
      (propagated exStreetEnv (S.logged ⟨exStreetTree, exStreetTree, reach, 0⟩) exStreetTree
        (Nonterminal.lookupBoard (S.logged ⟨exStreetTree, exStreetTree, reach, 0⟩)
          exStreetTree.Street exStreetTree.PlayerActing)
        (Nonterminal.buckets (S.logged ⟨exStreetTree, exStreetTree, reach, 0⟩)
          exStreetTree.Street exStreetTree.PlayerActing) sp reach
        (exStreetEnv.game.NumHoleCardPairs exStreetEnv.game.MaxStreet) 0)
      (exStreetTree.Street : Int) = .ok Q0 := hQ0
  rw [e0]
  simp only []
  rw [succBody_some _ exStreetTree exStreetTree _ _ _ _ (0 + 1) _ exStreetLeaf exStreetLeaf
    rfl rfl (by decide)]
  exact hQ1

theorem exToy_returns :
    ∃ Q r, exToyResolver.Go exEnv 6 (fun _ => 0) 0 = .ok (Q, r) := by
  refine Go_one_board_returns exEnv 6 (fun _ => 0) exToyResolver rfl rfl ?_
  intro S k reach hS hr
  rw [hS.a_tree, hS.b_tree]
  exact Walk_check_returns exEnv 4 (S.withSeat k) reach hr

theorem exStreet_returns :
    ∃ Q r, exStreetResolver.Go exStreetEnv 6 (fun _ => 0) 0 = .ok (Q, r) := by
  refine Go_one_board_returns exStreetEnv 6 (fun _ => 0) exStreetResolver rfl rfl ?_
  intro S k reach hS hr
  rw [hS.a_tree, hS.b_tree]
  refine Walk_street_returns 3 (S.withSeat k) reach hr hS.resolve_b hS.resolve_st ?_ ?_
  · show ValidStrategy S.a_probs_
    rw [hS.a_probs]
    exact exProbs_valid
  · show ValidStrategy S.b_probs_
    rw [hS.b_probs]
    exact exProbs2_valid

theorem exStreetLeaf_streetsGE (k : Nat) : exStreetLeaf.streetsGE 1 k = true := by
  cases k <;> rfl

theorem streetsGE_zero : ∀ (k : Nat) (n : Node), n.streetsGE 0 k = true := by
  intro k
  induction k with
  | zero => intro n; exact decide_eq_true (Nat.zero_le _)
  | succ k ih =>
    intro n
    rw [Node.streetsGE, Bool.and_eq_true]
    exact ⟨decide_eq_true (Nat.zero_le _), List.all_eq_true.mpr (fun x _ => ih x)⟩

/-- C17 (amended).  Resolver invocation count.  In a run of `Go` over all max-street boards
(`N = 0` or `N >= NumBoards`) of a two-player game of more than one street in which only A
resolves and `resolve_st_ = max_street`, the resolve street is a later street than the
root's, and when `Go` returns, `num_resolves_` equals `NumBoards(max_street) * (2 * e)`,
where `e` is the number of nodes of A's betting tree at which the walk from the root enters
the max street from an earlier street (the test `st > last_st && st == resolve_st_`; the walk
below such a node goes on in the resolved subtree, whose nodes are on the max street).  With
one such node, `e = 1`, this is `2 * NumBoards(max_street)`.  `h` bounds the depth of A's
tree. -/
theorem resolver_invocation_count (E : Env) (fuel : Nat) (rand : Nat → ℚ) (P : Player)
    (N : Int) (h : Nat) (Q : Player) (r : Report)
    (h2 : E.game.NumPlayers = 2) (hms : 0 < E.game.MaxStreet)
    (hA : P.resolve_a_ = true) (hB : P.resolve_b_ = false)
    (hst : P.resolve_st_ = (E.game.MaxStreet : Int))
    (hfull : N = 0 ∨ N ≥ (E.board_tree.NumBoards E.game.MaxStreet : Int))
    (hd : P.a_betting_tree_.depthLE h = true)
    (hsub : ∀ pa lbt x ba k,
      (E.CreateSubtree E.game.MaxStreet pa lbt x ba).streetsGE E.game.MaxStreet k = true)
    (hgo : P.Go E fuel rand N = .ok (Q, r)) :
    0 < P.resolve_st_ ∧
    Q.num_resolves_ =
      E.board_tree.NumBoards E.game.MaxStreet *
        (2 * P.a_betting_tree_.entries (E.game.MaxStreet : Int) h 0) ∧
    (P.a_betting_tree_.entries (E.game.MaxStreet : Int) h 0 = 1 →
      Q.num_resolves_ = 2 * E.board_tree.NumBoards E.game.MaxStreet) := by
  have hcount := Go_boards_resolves E E.game.MaxStreet hsub fuel rand P N Q h hA hB hst hd hfull
    ((Go_ok_iff E fuel rand P N Q r).mp hgo).1
  rw [h2] at hcount
  refine ⟨by rw [hst]; exact_mod_cast hms, hcount, ?_⟩
  intro h1
  rw [hcount, h1, Nat.mul_one, Nat.mul_comm]

theorem resolver_invocation_count_witness :
    ∃ Q r, exStreetResolver.Go exStreetEnv 6 (fun _ => 0) 0 = .ok (Q, r) ∧
      Q.num_resolves_ = 1 * (2 * 2) := by
  obtain ⟨Q, r, hgo⟩ := exStreet_returns
  exact ⟨Q, r, hgo,
    (resolver_invocation_count exStreetEnv 6 (fun _ => 0) exStreetResolver 0 1 Q r rfl
      (by decide) rfl rfl rfl (Or.inl rfl) rfl (fun _ _ _ _ k => exStreetLeaf_streetsGE k)
      hgo).2.1⟩

/-- A full-enumeration run in which only A resolves, at the last street, and `num_resolves_`
is not `2 * NumBoards(max_street)`: in a game of two streets and one board in which two
actions of the root lead to the last street, `Go` returns after four resolves. -/
theorem resolver_count_differs :
    exStreetEnv.game.MaxStreet = 1 ∧ exStreetEnv.board_tree.NumBoards 1 = 1 ∧
    exStreetResolver.resolve_a_ = true ∧ exStreetResolver.resolve_b_ = false ∧
    exStreetResolver.resolve_st_ = (exStreetEnv.game.MaxStreet : Int) ∧
    ∃ Q r, exStreetResolver.Go exStreetEnv 6 (fun _ => 0) 0 = .ok (Q, r) ∧
      Q.num_resolves_ = 4 ∧
      Q.num_resolves_ ≠ 2 * exStreetEnv.board_tree.NumBoards exStreetEnv.game.MaxStreet := by
  refine ⟨rfl, rfl, rfl, rfl, rfl, ?_⟩
  obtain ⟨Q, r, hgo⟩ := exStreet_returns
  have hc : Q.num_resolves_ = 4 :=
    Go_boards_resolves exStreetEnv 1 (fun _ _ _ _ k => exStreetLeaf_streetsGE k) 6
      (fun _ => 0) exStreetResolver 0 Q 1 rfl rfl rfl rfl (Or.inl rfl)
      ((Go_ok_iff exStreetEnv 6 (fun _ => 0) exStreetResolver 0 Q r).mp hgo).1
  exact ⟨Q, r, hgo, hc, by rw [hc]; decide⟩

/-! ## The report of `Go`: the statements -/

/-- C23.  Reported units.  For every final state with `sum_weights_ != 0`, in exact
arithmetic: the reported `avg_b_outcome` is `sum_b_outcomes_ / sum_weights_` (so it times
`sum_weights_` is `sum_b_outcomes_`), the reported milli-big-blinds per game, computed as
`(avg_b_outcome / 2) * 1000`, is `avg_b_outcome * 500`, and likewise for P1 with
`sum_p1_outcomes_`; and this is what `Go` reports when it returns in that state. -/
theorem reported_units (P : Player) (hw : P.sum_weights_ ≠ 0) :
    (Go.report P).avg_b_outcome = P.sum_b_outcomes_ / P.sum_weights_ ∧
    (Go.report P).avg_b_outcome * P.sum_weights_ = P.sum_b_outcomes_ ∧
    (Go.report P).b_mbb_g = ((Go.report P).avg_b_outcome / 2) * 1000 ∧
    (Go.report P).b_mbb_g = (Go.report P).avg_b_outcome * 500 ∧
    (Go.report P).avg_p1_outcome = P.sum_p1_outcomes_ / P.sum_weights_ ∧
    (Go.report P).avg_p1_outcome * P.sum_weights_ = P.sum_p1_outcomes_ ∧
    (Go.report P).p1_mbb_g = ((Go.report P).avg_p1_outcome / 2) * 1000 ∧
    (Go.report P).p1_mbb_g = (Go.report P).avg_p1_outcome * 500 ∧
    (∀ (E : Env) (fuel : Nat) (rand : Nat → ℚ) (P0 : Player) (N : Int) (r : Report),
      P0.Go E fuel rand N = .ok (P, r) → r = Go.report P) := by
  refine ⟨rfl, ?_, rfl, ?_, rfl, ?_, rfl, ?_, ?_⟩
  · show P.sum_b_outcomes_ / P.sum_weights_ * P.sum_weights_ = P.sum_b_outcomes_
    exact div_mul_cancel₀ _ hw
  · show (P.sum_b_outcomes_ / P.sum_weights_ / 2) * 1000 =
      P.sum_b_outcomes_ / P.sum_weights_ * 500
    ring
  · show P.sum_p1_outcomes_ / P.sum_weights_ * P.sum_weights_ = P.sum_p1_outcomes_
    exact div_mul_cancel₀ _ hw
  · show (P.sum_p1_outcomes_ / P.sum_weights_ / 2) * 1000 =
      P.sum_p1_outcomes_ / P.sum_weights_ * 500
    ring
  · intro E fuel rand P0 N r hgo
    exact ((Go_ok_iff E fuel rand P0 N P r).mp hgo).2

theorem reported_units_witness :
    (Go.report exReportPlayer).avg_b_outcome * exReportPlayer.sum_weights_ =
        exReportPlayer.sum_b_outcomes_ ∧
      (Go.report exReportPlayer).b_mbb_g = (Go.report exReportPlayer).avg_b_outcome * 500 ∧
      (Go.report exReportPlayer).b_mbb_g = 250 := by
  have h := reported_units exReportPlayer (by
    show (4 : ℚ) ≠ 0
    norm_num)
  refine ⟨h.2.1, h.2.2.2.1, ?_⟩
  show ((2 : ℚ) / 4 / 2) * 1000 = 250
  norm_num

/-! ## The hand encoding: the statements -/

theorem enc_lt (mc hi lo : Nat) (h1 : hi ≤ mc) (h2 : lo ≤ mc) :
    hi * (mc + 1) + lo < (mc + 1) * (mc + 1) := by
  have h3 : hi * (mc + 1) ≤ mc * (mc + 1) := Nat.mul_le_mul_right _ h1
  have h4 : (mc + 1) * (mc + 1) = mc * (mc + 1) + (mc + 1) := by ring
  omega

theorem enc_inj (mc hi lo hi' lo' : Nat) (h2 : lo ≤ mc) (h2' : lo' ≤ mc)
    (he : hi * (mc + 1) + lo = hi' * (mc + 1) + lo') : hi = hi' ∧ lo = lo' := by
  have hpos : 0 < mc + 1 := Nat.succ_pos mc
  have l1 : lo < mc + 1 := Nat.lt_succ_of_le h2
  have l2 : lo' < mc + 1 := Nat.lt_succ_of_le h2'
  have hq : (hi * (mc + 1) + lo) / (mc + 1) = (hi' * (mc + 1) + lo') / (mc + 1) := by rw [he]
  have hr : (hi * (mc + 1) + lo) % (mc + 1) = (hi' * (mc + 1) + lo') % (mc + 1) := by rw [he]
  rw [Nat.mul_comm hi, Nat.mul_comm hi', Nat.mul_add_div hpos, Nat.mul_add_div hpos,
    Nat.div_eq_of_lt l1, Nat.div_eq_of_lt l2, Nat.add_zero, Nat.add_zero] at hq
  rw [Nat.mul_comm hi, Nat.mul_comm hi', Nat.mul_add_mod, Nat.mul_add_mod,
    Nat.mod_eq_of_lt l1, Nat.mod_eq_of_lt l2] at hr
  exact ⟨hq, hr⟩

/-- C28.  The hand encoding is injective and in bounds.  When the cards of the hands
`0 .. H-1` are in `[0, MaxCard]`, the encoding `enc = hi * (MaxCard + 1) + lo` of every hand is
below `num_enc = (MaxCard + 1)^2`, the length of every reach vector; two hands with the same
encoding have the same `hi` and the same `lo`; so an assignment to the slot of one hand in a
vector of successor reach probabilities leaves the slot of every hand with another `(hi, lo)`
as it was. -/
theorem hand_encoding_injective (E : Env) (hands : CanonicalCards) (H : Nat)
    (hc : ∀ i, i < H → (hands.Cards i).1 ≤ E.game.MaxCard ∧ (hands.Cards i).2 ≤ E.game.MaxCard) :
    (∀ i, i < H → handEnc (E.game.MaxCard + 1) hands i < numEnc E) ∧
    numEnc E = (E.game.MaxCard + 1) ^ 2 ∧
    (∀ i k, i < H → k < H →
      handEnc (E.game.MaxCard + 1) hands i = handEnc (E.game.MaxCard + 1) hands k →
      hands.Cards i = hands.Cards k) ∧
    (∀ i k, i < H → k < H → hands.Cards i ≠ hands.Cards k →
      ∀ (succ : Nat → Nat → Nat → ℚ) (s p : Nat) (x : ℚ),
        setReach succ s p (handEnc (E.game.MaxCard + 1) hands i) x s p
          (handEnc (E.game.MaxCard + 1) hands k) =
        succ s p (handEnc (E.game.MaxCard + 1) hands k)) := by
  have hinj : ∀ i k, i < H → k < H →
      handEnc (E.game.MaxCard + 1) hands i = handEnc (E.game.MaxCard + 1) hands k →
      hands.Cards i = hands.Cards k := by
    intro i k hi hk he
    obtain ⟨e1, e2⟩ := enc_inj E.game.MaxCard _ _ _ _ (hc i hi).2 (hc k hk).2 he
    exact Prod.ext e1 e2
  refine ⟨?_, ?_, hinj, ?_⟩
  · intro i hi
    exact enc_lt E.game.MaxCard _ _ (hc i hi).1 (hc i hi).2
  · unfold numEnc
    ring
  · intro i k hi hk hne succ s p x
    have hne' : handEnc (E.game.MaxCard + 1) hands k ≠ handEnc (E.game.MaxCard + 1) hands i :=
      fun he => hne (hinj i k hi hk he.symm)
    unfold setReach
    rw [Function.update_same, Function.update_same, Function.update_noteq hne']

theorem hand_encoding_injective_witness :
    handEnc (exEnv.game.MaxCard + 1) exHands 3 < numEnc exEnv ∧
      numEnc exEnv = 16 ∧
      handEnc (exEnv.game.MaxCard + 1) exHands 3 = 14 := by
  have h := hand_encoding_injective exEnv exHands 4 (by decide)
  exact ⟨h.1 3 (by decide), by decide, by decide⟩

/-! ## The resolve boundary is entered once -/

theorem resolveB_on (E : Env) (P : Player) (b : Node) (st : Nat) (seq : String)
    (reach : Nat → Nat → ℚ) (h : P.resolve_b_ = true) :
    (Walk.resolveB E P b st seq reach).2 =
      E.CreateSubtree st b.PlayerActing b.LastBetTo (-1) P.b_subgame_betting_abstraction_ ∧
    (Walk.resolveB E P b st seq reach).1.num_resolves_ = P.num_resolves_ + 1 ∧
    (Walk.resolveB E P b st seq reach).1.b_eg_cfr_.Sumprobs =
      some (P.b_eg_cfr_.SolveSubgame
        (E.CreateSubtree st b.PlayerActing b.LastBetTo (-1) P.b_subgame_betting_abstraction_)
        (Walk.globalBoard E P st) reach seq P.resolve_hand_tree_ P.num_subgame_its_) ∧
    (Walk.resolveB E P b st seq reach).1.a_eg_cfr_ = P.a_eg_cfr_ := by
  unfold Walk.resolveB
  simp only [h, if_true]
  refine ⟨?_, ?_, ?_, ?_⟩ <;> first | rfl | trivial

theorem resolveA_solve (E : Env) (P : Player) (a : Node) (seq : String)
    (reach : Nat → Nat → ℚ) (h : P.resolve_a_ = true) :
    (Walk.resolveA E P a seq reach).1.a_eg_cfr_.Sumprobs =
      some (P.a_eg_cfr_.SolveSubgame
        (E.CreateSubtree a.Street a.PlayerActing a.LastBetTo (-1)
          P.a_subgame_betting_abstraction_)
        (Walk.globalBoard E P a.Street) reach seq P.resolve_hand_tree_ P.num_subgame_its_) ∧
    (Walk.resolveA E P a seq reach).1.b_eg_cfr_ = P.b_eg_cfr_ ∧
    (Walk.resolveA E P a seq reach).1.b_subgame_betting_abstraction_ =
      P.b_subgame_betting_abstraction_ ∧
    (Walk.resolveA E P a seq reach).1.resolve_hand_tree_ = P.resolve_hand_tree_ ∧
    (Walk.resolveA E P a seq reach).1.num_subgame_its_ = P.num_subgame_its_ := by
  unfold Walk.resolveA
  simp only [h, if_true]
  refine ⟨?_, ?_, ?_, ?_, ?_⟩ <;> first | rfl | trivial

/-- C24.  The resolve boundary is not re-entered.  When `Walk` is invoked at the boundary
(`st > last_st` and `st == resolve_st_`) it resolves side A if A is configured to resolve, then
side B on the state that leaves if B is (one call of the resolver and one more counted resolve
for each such side, the node of a side that does not resolve and its solver being kept), and
its result is that of one recursive call, with `last_st = st`, on the resulting node pair; that
call is not at the boundary, whatever the street of the new node, so it goes on to the
terminal checks.  With `resolve_st_ = -1` no invocation is at the boundary. -/
theorem resolve_boundary_once (E : Env) (n : Nat) (P : Player) (a b : Node) (seq : String)
    (reach : Nat → Nat → ℚ) (last : Int) :
    ((a.Street : Int) > last ∧ (a.Street : Int) = P.resolve_st_ →
      ∃ (P1 P2 : Player) (a' b' : Node),
        Walk.resolveA E (P.logged ⟨a, b, reach, last⟩) a seq reach = (P1, a') ∧
        Walk.resolveB E P1 b a.Street seq reach = (P2, b') ∧
        Player.Walk E (n + 1) P a b seq reach last =
          Player.Walk E n P2 a' b' seq reach (a.Street : Int) ∧
        P1.num_resolves_ = P.num_resolves_ + (if P.resolve_a_ = true then 1 else 0) ∧
        P2.num_resolves_ = P1.num_resolves_ + (if P.resolve_b_ = true then 1 else 0) ∧
        (P.resolve_a_ = true →
          a' = E.CreateSubtree a.Street a.PlayerActing a.LastBetTo (-1)
            P.a_subgame_betting_abstraction_ ∧
          P1.a_eg_cfr_.Sumprobs = some (P.a_eg_cfr_.SolveSubgame a'
            (Walk.globalBoard E P a.Street) reach seq P.resolve_hand_tree_
            P.num_subgame_its_)) ∧
        (P.resolve_a_ = false → a' = a ∧ P1.a_eg_cfr_ = P.a_eg_cfr_) ∧
        P2.a_eg_cfr_ = P1.a_eg_cfr_ ∧
        (P.resolve_b_ = true →
          b' = E.CreateSubtree a.Street b.PlayerActing b.LastBetTo (-1)
            P.b_subgame_betting_abstraction_ ∧
          P2.b_eg_cfr_.Sumprobs = some (P.b_eg_cfr_.SolveSubgame b'
            (Walk.globalBoard E P a.Street) reach seq P.resolve_hand_tree_
            P.num_subgame_its_)) ∧
        (P.resolve_b_ = false → b' = b ∧ P2.b_eg_cfr_ = P.b_eg_cfr_) ∧
        P2.resolve_st_ = P.resolve_st_ ∧
        ¬ ((a'.Street : Int) > (a.Street : Int) ∧ (a'.Street : Int) = P2.resolve_st_) ∧
        ∀ m, Player.Walk E (m + 1) P2 a' b' seq reach (a.Street : Int) =
          if a'.Terminal = true then
            if b'.Terminal = false then .fatal
            else if a'.Showdown = true then
              (P2.logged ⟨a', b', reach, (a.Street : Int)⟩).Showdown E a' b' reach
            else .ok ((P2.logged ⟨a', b', reach, (a.Street : Int)⟩).Fold E a' b' reach)
          else
            if b'.Terminal = true then .fatal
            else (P2.logged ⟨a', b', reach, (a.Street : Int)⟩).Nonterminal E (Player.Walk E m)
              a' b' seq reach) ∧
    (P.resolve_st_ = -1 →
      ∀ (x y : Node) (l : Int) (m : Nat),
        ¬ ((x.Street : Int) > l ∧ (x.Street : Int) = P.resolve_st_) ∧
        Player.Walk E (m + 1) P x y seq reach l =
          if x.Terminal = true then
            if y.Terminal = false then .fatal
            else if x.Showdown = true then (P.logged ⟨x, y, reach, l⟩).Showdown E x y reach
            else .ok ((P.logged ⟨x, y, reach, l⟩).Fold E x y reach)
          else
            if y.Terminal = true then .fatal
            else (P.logged ⟨x, y, reach, l⟩).Nonterminal E (Player.Walk E m) x y seq reach) := by
  constructor
  · intro hin
    have hfA := ResolveFrame_resolveA E (P.logged ⟨a, b, reach, last⟩) a seq reach
    have hfB := ResolveFrame_resolveB E
      (Walk.resolveA E (P.logged ⟨a, b, reach, last⟩) a seq reach).1 b a.Street seq reach
    have hst2 : (Walk.resolveB E (Walk.resolveA E (P.logged ⟨a, b, reach, last⟩) a seq reach).1
        b a.Street seq reach).1.resolve_st_ = P.resolve_st_ :=
      hfB.resolve_st.trans hfA.resolve_st
    have hout : ¬ (((Walk.resolveA E (P.logged ⟨a, b, reach, last⟩) a seq reach).2.Street : Int) >
          (a.Street : Int) ∧
        ((Walk.resolveA E (P.logged ⟨a, b, reach, last⟩) a seq reach).2.Street : Int) =
          (Walk.resolveB E (Walk.resolveA E (P.logged ⟨a, b, reach, last⟩) a seq reach).1
            b a.Street seq reach).1.resolve_st_) := by
      rintro ⟨h1, h2⟩
      rw [hst2, ← hin.2] at h2
      rw [h2] at h1
      exact lt_irrefl _ h1
    refine ⟨(Walk.resolveA E (P.logged ⟨a, b, reach, last⟩) a seq reach).1,
      (Walk.resolveB E (Walk.resolveA E (P.logged ⟨a, b, reach, last⟩) a seq reach).1
        b a.Street seq reach).1,
      (Walk.resolveA E (P.logged ⟨a, b, reach, last⟩) a seq reach).2,
      (Walk.resolveB E (Walk.resolveA E (P.logged ⟨a, b, reach, last⟩) a seq reach).1
        b a.Street seq reach).2,
      rfl, rfl, by rw [Walk_unfold, if_pos hin], ?_, ?_, ?_, ?_, ?_, ?_, ?_,
      hst2, hout, fun m => Walk_outside E m _ _ _ seq reach _ hout⟩
    · cases hA : P.resolve_a_ with
      | true =>
        rw [if_pos rfl]
        exact (resolveA_on E (P.logged ⟨a, b, reach, last⟩) a seq reach hA).2
      | false =>
        rw [resolveA_off E (P.logged ⟨a, b, reach, last⟩) a seq reach hA]
        simp
        rfl
    · cases hB : P.resolve_b_ with
      | true =>
        rw [if_pos rfl]
        exact (resolveB_on E _ b a.Street seq reach (hfA.resolve_b.trans hB)).2.1
      | false =>
        rw [resolveB_off E _ b a.Street seq reach (hfA.resolve_b.trans hB)]
        simp
    · intro hA
      exact ⟨(resolveA_on E (P.logged ⟨a, b, reach, last⟩) a seq reach hA).1, by
        rw [(resolveA_on E (P.logged ⟨a, b, reach, last⟩) a seq reach hA).1]
        exact (resolveA_solve E (P.logged ⟨a, b, reach, last⟩) a seq reach hA).1⟩
    · intro hA
      rw [resolveA_off E (P.logged ⟨a, b, reach, last⟩) a seq reach hA]
      exact ⟨rfl, rfl⟩
    · cases hB : P.resolve_b_ with
      | true => exact (resolveB_on E _ b a.Street seq reach (hfA.resolve_b.trans hB)).2.2.2
      | false => rw [resolveB_off E _ b a.Street seq reach (hfA.resolve_b.trans hB)]
    · intro hB
      have hb := resolveB_on E _ b a.Street seq reach (hfA.resolve_b.trans hB)
      cases hA : P.resolve_a_ with
      | true =>
        obtain ⟨s1, s2, s3, s4, s5⟩ :=
          resolveA_solve E (P.logged ⟨a, b, reach, last⟩) a seq reach hA
        have hm := (resolveA_fields E (P.logged ⟨a, b, reach, last⟩) a seq reach).2.2.1
        refine ⟨?_, ?_⟩
        · rw [hb.1, s3]
          rfl
        · rw [hb.2.2.1, hb.1, s2, s3, s4, s5,
            globalBoard_congr E (P.logged ⟨a, b, reach, last⟩) _ hm]
          rfl
      | false =>
        rw [resolveA_off E (P.logged ⟨a, b, reach, last⟩) a seq reach hA] at hb ⊢
        exact ⟨hb.1, by rw [hb.2.2.1, hb.1]; rfl⟩
    · intro hB
      rw [resolveB_off E _ b a.Street seq reach (hfA.resolve_b.trans hB)]
      refine ⟨rfl, ?_⟩
      cases hA : P.resolve_a_ with
      | true => exact (resolveA_solve E (P.logged ⟨a, b, reach, last⟩) a seq reach hA).2.1
      | false => rw [resolveA_off E (P.logged ⟨a, b, reach, last⟩) a seq reach hA]; rfl
  · intro hneg x y l m
    have hout : ¬ ((x.Street : Int) > l ∧ (x.Street : Int) = P.resolve_st_) := by
      rintro ⟨_, h2⟩
      rw [hneg] at h2
      have h3 : (0 : Int) ≤ (x.Street : Int) := Int.ofNat_nonneg _
      rw [h2] at h3
      exact absurd h3 (by decide)
    exact ⟨hout, Walk_outside E m P x y seq reach l hout⟩

theorem resolve_boundary_once_witness :
    (∃ (P2 : Player) (a' b' : Node),
      Player.Walk exEnv 2 exResolvePlayer exShowdownNode exShowdownNode "x" exReach (-1) =
        Player.Walk exEnv 1 P2 a' b' "x" exReach (exShowdownNode.Street : Int) ∧
      P2.num_resolves_ = exResolvePlayer.num_resolves_ + 1 ∧
      ¬ ((a'.Street : Int) > (exShowdownNode.Street : Int) ∧
        (a'.Street : Int) = P2.resolve_st_)) ∧
    ¬ ((exTree.Street : Int) > -1 ∧ (exTree.Street : Int) = exPlayer.resolve_st_) := by
  obtain ⟨P1, P2, a', b', _, _, h3, h4, h5, _, _, _, _, _, _, h12, _⟩ :=
    (resolve_boundary_once exEnv 1 exResolvePlayer exShowdownNode exShowdownNode "x" exReach
      (-1)).1 (by decide)
  exact ⟨⟨P2, a', b', h3, by rw [h5, h4]; rfl, h12⟩,
    ((resolve_boundary_once exEnv 1 exPlayer exTree exTree "x" exReach (-1)).2 rfl
      exTree exTree (-1) 0).1⟩

/-! ## The running counters of `Showdown` -/

theorem cardCount_nonneg (c : Card) (h : Card × Card) : 0 ≤ cardCount c h := by
  unfold cardCount
  have e1 : (0 : ℚ) ≤ if c = h.1 then 1 else 0 := by
    by_cases h1 : c = h.1
    · rw [if_pos h1]; norm_num
    · rw [if_neg h1]
  have e2 : (0 : ℚ) ≤ if c = h.2 then 1 else 0 := by
    by_cases h2 : c = h.2
    · rw [if_pos h2]; norm_num
    · rw [if_neg h2]
  exact add_nonneg e1 e2

theorem Showdown_sums_ok_iff (E : Env) (hands : CanonicalCards) (hp : ℚ) (a bp : Nat → ℚ)
    (s : ShowdownState) (hs : Showdown.sums E hands hp a bp = .ok s) :
    ∀ k, k < E.game.NumHoleCardPairs E.game.MaxStreet →
      handProb (E.game.MaxCard + 1) hands a k ≤ 1 := by
  by_contra hcon
  push_neg at hcon
  obtain ⟨k, hk, hgt⟩ := hcon
  rw [Showdown_sums_fatal E hands hp a bp ⟨k, hk, hgt⟩] at hs
  exact absurd hs (by simp)

/-- C25.  The running counters of `Showdown` are monotone.  For every input, opponent entries
that are zero or negative included, one iteration of the class loop leaves
`cum_opp_card_probs[c]`, for every card `c`, and `opp_cum_prob` at least as large as they were.
When the class loop has ended (the first loop ends the program at an opponent entry above 1)
and all opponent entries at the hands are `>= 0`, `opp_cum_prob` equals `sum_opp_probs` and
`cum_opp_card_probs[c]` equals `total_opp_card_probs[c]` for every card `c` in
`[0, MaxCard]`; the class loop
does end when no opponent entry is above 1. -/
theorem showdown_counters_monotone (E : Env) (hands : CanonicalCards) (hp : ℚ)
    (a bp : Nat → ℚ) :
    (∀ (H m : Nat) (t : OppTotals) (s : ShowdownState), s.j < H →
      (∀ c, s.cum_opp_card_probs c ≤
        (Showdown.classStep hands H m a bp t hp s).cum_opp_card_probs c) ∧
      s.opp_cum_prob ≤ (Showdown.classStep hands H m a bp t hp s).opp_cum_prob) ∧
    (∀ s, Showdown.sums E hands hp a bp = .ok s →
      (∀ k, k < E.game.NumHoleCardPairs E.game.MaxStreet →
        0 ≤ handProb (E.game.MaxCard + 1) hands a k) →
      s.opp_cum_prob = (oppTotals E hands a).sum_opp_probs ∧
      ∀ c, c ≤ E.game.MaxCard →
        s.cum_opp_card_probs c = (oppTotals E hands a).total_opp_card_probs c) ∧
    ((∀ k, k < E.game.NumHoleCardPairs E.game.MaxStreet →
        handProb (E.game.MaxCard + 1) hands a k ≤ 1) →
      ∃ s, Showdown.sums E hands hp a bp = .ok s ∧
        s.j = E.game.NumHoleCardPairs E.game.MaxStreet) := by
  refine ⟨?_, ?_, ?_⟩
  · intro H m t s hj
    obtain ⟨_, _, _, _, c5, c6, _⟩ := classStep_spec hands H m a bp t hp s hj
    constructor
    · intro c
      rw [c5]
      exact le_add_of_nonneg_right (Finset.sum_nonneg (fun k _ =>
        mul_nonneg (countedProb_nonneg _) (cardCount_nonneg c _)))
    · rw [c6]
      exact le_add_of_nonneg_right (Finset.sum_nonneg (fun k _ => countedProb_nonneg _))
  · intro s hs hnn
    have hle := Showdown_sums_ok_iff E hands hp a bp s hs
    obtain ⟨s', h1, h2, h3, _⟩ := Showdown_sums_ok E hands hp a bp hle
    rw [hs] at h1
    injection h1 with h1
    rw [h1]
    constructor
    · rw [h3.oc_eq, h2, oppTotals_sum]
      exact Finset.sum_congr rfl (fun k hk =>
        countedProb_of_nonneg (hnn k (Finset.mem_range.mp hk)))
    · intro c _
      rw [h3.cum_eq, h2, oppTotals_total]
      congr 1
      exact Finset.sum_congr rfl (fun k hk => by
        rw [countedProb_of_nonneg (hnn k (Finset.mem_range.mp hk))])
  · intro hle
    obtain ⟨s, h1, h2, _⟩ := Showdown_sums_ok E hands hp a bp hle
    exact ⟨s, h1, h2⟩

theorem showdown_counters_monotone_witness :
    ∃ s, Showdown.sums exEnv exHands 2 (exReach 1) (exReach 0) = .ok s ∧
      s.opp_cum_prob = (oppTotals exEnv exHands (exReach 1)).sum_opp_probs := by
  have hle : ∀ k, k < exEnv.game.NumHoleCardPairs exEnv.game.MaxStreet →
      handProb (exEnv.game.MaxCard + 1) exHands (exReach 1) k ≤ 1 := by
    intro k _
    show (1 : ℚ) ≤ 1
    norm_num
  have hnn : ∀ k, k < exEnv.game.NumHoleCardPairs exEnv.game.MaxStreet →
      0 ≤ handProb (exEnv.game.MaxCard + 1) exHands (exReach 1) k := by
    intro k _
    show (0 : ℚ) ≤ 1
    norm_num
  obtain ⟨s, hs, _⟩ := (showdown_counters_monotone exEnv exHands 2 (exReach 1) (exReach 0)).2.2
    hle
  exact ⟨s, hs,
    ((showdown_counters_monotone exEnv exHands 2 (exReach 1) (exReach 0)).2.1 s hs hnn).1⟩

/-! ## The class loop of `Showdown` partitions the hands -/

/-- The class loop is the iteration of its body until `j` reaches the number of hands. -/
theorem classLoop_iterate (hands : CanonicalCards) (H m : Nat) (a bp : Nat → ℚ) (t : OppTotals)
    (hp : ℚ) : ∀ (n : Nat) (s : ShowdownState), s.j ≤ H → H - s.j ≤ n →
    ∃ N, N ≤ H - s.j ∧
      Showdown.classLoop hands H m a bp t hp n s =
        .ok ((Showdown.classStep hands H m a bp t hp)^[N] s) ∧
      ((Showdown.classStep hands H m a bp t hp)^[N] s).j = H ∧
      ∀ i, i < N → ((Showdown.classStep hands H m a bp t hp)^[i] s).j < H := by
  intro n
  induction n with
  | zero =>
    intro s hle hn
    have hj : s.j = H := by omega
    refine ⟨0, Nat.zero_le _, ?_, hj, fun i hi => absurd hi (Nat.not_lt_zero i)⟩
    rw [Showdown.classLoop, if_neg (by omega)]
    rfl
  | succ n ih =>
    intro s hle hn
    by_cases hj : s.j < H
    · obtain ⟨c1, c2, _⟩ := classStep_spec hands H m a bp t hp s hj
      obtain ⟨N, hN, h1, h2, h3⟩ := ih (Showdown.classStep hands H m a bp t hp s) c2
        (by omega)
      refine ⟨N + 1, by omega, ?_, ?_, ?_⟩
      · rw [Showdown.classLoop, if_pos hj, h1, Function.iterate_succ_apply]
      · rw [Function.iterate_succ_apply]
        exact h2
      · intro i hi
        cases i with
        | zero => exact hj
        | succ i =>
          rw [Function.iterate_succ_apply]
          exact h3 i (Nat.lt_of_succ_lt_succ hi)
    · have hj' : s.j = H := by omega
      refine ⟨0, Nat.zero_le _, ?_, hj', fun i hi => absurd hi (Nat.not_lt_zero i)⟩
      rw [Showdown.classLoop, if_neg hj]
      rfl

theorem chain_mono (J : Nat → Nat) (N : Nat) (hmono : ∀ i, i < N → J i < J (i + 1)) :
    ∀ i' i, i ≤ i' → i' ≤ N → J i ≤ J i' := by
  intro i'
  induction i' with
  | zero =>
    intro i hi _
    rw [Nat.le_zero.mp hi]
  | succ i' ih =>
    intro i hi hN
    by_cases he : i = i' + 1
    · rw [he]
    · exact le_trans (ih i (by omega) (by omega)) (le_of_lt (hmono i' (by omega)))

theorem chain_cover (J : Nat → Nat) : ∀ (N : Nat), (∀ i, i < N → J i < J (i + 1)) →
    ∀ k, J 0 ≤ k → k < J N → ∃ i, i < N ∧ J i ≤ k ∧ k < J (i + 1) := by
  intro N
  induction N with
  | zero =>
    intro _ k h0 hN
    omega
  | succ N ih =>
    intro hmono k h0 hN
    by_cases hk : k < J N
    · obtain ⟨i, hi, h1, h2⟩ := ih (fun i hi => hmono i (by omega)) k h0 hk
      exact ⟨i, by omega, h1, h2⟩
    · exact ⟨N, Nat.lt_succ_self N, by omega, hN⟩

theorem chain_unique (J : Nat → Nat) (N : Nat) (hmono : ∀ i, i < N → J i < J (i + 1))
    (k i i' : Nat) (hi : i < N) (hi' : i' < N) (h1 : J i ≤ k) (h2 : k < J (i + 1))
    (h1' : J i' ≤ k) (h2' : k < J (i' + 1)) : i = i' := by
  by_contra hne
  rcases Nat.lt_or_gt_of_ne hne with hlt | hgt
  · have := chain_mono J N hmono i' (i + 1) (by omega) (by omega)
    omega
  · have := chain_mono J N hmono i (i' + 1) (by omega) (by omega)
    omega

/-- C27.  The class loop of `Showdown` is total and partitions the hands.  For every number
`H` of hole-card pairs, every hand-value sequence and every input, the outer loop, started at
`j = 0`, ends after some number `N <= H` of iterations, with `j = H`.  Iteration `i` forms the
run `[j_i, j_(i+1))`: it is not empty, its hands have the value of its first hand and the hand
after it, if any, has another value.  Every index below `H` lies in exactly one run.  In one
iteration the first pass writes `win_probs[k]` for the indices `k` of the run and for no
other, and the second and the third pass are the loops over `k = begin_range .. j-1`; so the
third pass reads `win_probs[k]` as the first pass of the same iteration wrote it. -/
theorem showdown_class_loop_partition (hands : CanonicalCards) (H m : Nat) (a bp : Nat → ℚ)
    (t : OppTotals) (hp : ℚ) (s0 : ShowdownState) (h0 : s0.j = 0) :
    ∃ N, N ≤ H ∧
      Showdown.classLoop hands H m a bp t hp H s0 =
        .ok ((Showdown.classStep hands H m a bp t hp)^[N] s0) ∧
      ((Showdown.classStep hands H m a bp t hp)^[N] s0).j = H ∧
      (∀ i, i < N →
        ((Showdown.classStep hands H m a bp t hp)^[i] s0).j <
          ((Showdown.classStep hands H m a bp t hp)^[i + 1] s0).j ∧
        ((Showdown.classStep hands H m a bp t hp)^[i + 1] s0).j ≤ H ∧
        (∀ k, ((Showdown.classStep hands H m a bp t hp)^[i] s0).j ≤ k →
          k < ((Showdown.classStep hands H m a bp t hp)^[i + 1] s0).j →
          hands.HandValue k =
            hands.HandValue ((Showdown.classStep hands H m a bp t hp)^[i] s0).j) ∧
        (((Showdown.classStep hands H m a bp t hp)^[i + 1] s0).j < H →
          hands.HandValue ((Showdown.classStep hands H m a bp t hp)^[i + 1] s0).j ≠
            hands.HandValue ((Showdown.classStep hands H m a bp t hp)^[i] s0).j)) ∧
      (∀ k, k < H → ∃ i, (i < N ∧
          ((Showdown.classStep hands H m a bp t hp)^[i] s0).j ≤ k ∧
          k < ((Showdown.classStep hands H m a bp t hp)^[i + 1] s0).j) ∧
        ∀ i', i' < N → ((Showdown.classStep hands H m a bp t hp)^[i'] s0).j ≤ k →
          k < ((Showdown.classStep hands H m a bp t hp)^[i' + 1] s0).j → i' = i) ∧
      (∀ s : ShowdownState, s.j < H →
        (∀ k, (Showdown.classStep hands H m a bp t hp s).win_probs k =
          if s.j ≤ k ∧ k < (Showdown.classStep hands H m a bp t hp s).j then
            s.opp_cum_prob - s.cum_opp_card_probs (hands.Cards k).1 -
              s.cum_opp_card_probs (hands.Cards k).2
          else s.win_probs k) ∧
        ((Showdown.classStep hands H m a bp t hp s).cum_opp_card_probs,
            (Showdown.classStep hands H m a bp t hp s).opp_cum_prob) =
          forLoop s.j (Showdown.secondPassBody hands m a)
            ((Showdown.classStep hands H m a bp t hp s).j - s.j)
            (s.cum_opp_card_probs, s.opp_cum_prob) ∧
        ((Showdown.classStep hands H m a bp t hp s).lose_probs,
            (Showdown.classStep hands H m a bp t hp s).sum_our_vals,
            (Showdown.classStep hands H m a bp t hp s).sum_joint_probs) =
          forLoop s.j
            (Showdown.thirdPassBody hands m a bp t hp
              (Showdown.classStep hands H m a bp t hp s).cum_opp_card_probs
              (Showdown.classStep hands H m a bp t hp s).opp_cum_prob
              (Showdown.classStep hands H m a bp t hp s).win_probs)
            ((Showdown.classStep hands H m a bp t hp s).j - s.j)
            (s.lose_probs, s.sum_our_vals, s.sum_joint_probs)) := by
  obtain ⟨N, hN, h1, h2, h3⟩ := classLoop_iterate hands H m a bp t hp H s0
    (by rw [h0]; exact Nat.zero_le _) (Nat.sub_le _ _)
  have hstep : ∀ i, i < N →
      ((Showdown.classStep hands H m a bp t hp)^[i] s0).j <
        ((Showdown.classStep hands H m a bp t hp)^[i + 1] s0).j := by
    intro i hi
    rw [Function.iterate_succ_apply']
    exact (classStep_spec hands H m a bp t hp _ (h3 i hi)).1
  refine ⟨N, le_trans hN (Nat.sub_le _ _), h1, h2, ?_, ?_, ?_⟩
  · intro i hi
    obtain ⟨c1, c2, c3, c4, _⟩ := classStep_spec hands H m a bp t hp
      ((Showdown.classStep hands H m a bp t hp)^[i] s0) (h3 i hi)
    rw [Function.iterate_succ_apply']
    exact ⟨c1, c2, c3, c4⟩
  · intro k hk
    obtain ⟨i, hi, e1, e2⟩ := chain_cover
      (fun i => ((Showdown.classStep hands H m a bp t hp)^[i] s0).j) N hstep k
      (by show s0.j ≤ k; rw [h0]; exact Nat.zero_le _)
      (by show k < ((Showdown.classStep hands H m a bp t hp)^[N] s0).j; rw [h2]; exact hk)
    refine ⟨i, ⟨hi, e1, e2⟩, ?_⟩
    intro i' hi' e1' e2'
    exact chain_unique (fun i => ((Showdown.classStep hands H m a bp t hp)^[i] s0).j) N hstep
      k i' i hi' hi e1' e2' e1 e2
  · intro s hj
    obtain ⟨_, _, _, _, _, _, c7, _⟩ := classStep_spec hands H m a bp t hp s hj
    exact ⟨c7, rfl, rfl⟩

theorem showdown_class_loop_partition_witness :
    ∃ N, N ≤ 4 ∧
      ((Showdown.classStep exHands 4 4 (exReach 1) (exReach 0)
        (oppTotals exEnv exHands (exReach 1)) 2)^[N]
          { j := 0, cum_opp_card_probs := fun _ => 0, opp_cum_prob := 0,
            win_probs := fun _ => 0, lose_probs := fun _ => 0, sum_our_vals := 0,
            sum_joint_probs := 0 }).j = 4 := by
  obtain ⟨N, h1, _, h3, _⟩ := showdown_class_loop_partition exHands 4 4 (exReach 1) (exReach 0)
    (oppTotals exEnv exHands (exReach 1)) 2
    { j := 0, cum_opp_card_probs := fun _ => 0, opp_cum_prob := 0,
      win_probs := fun _ => 0, lose_probs := fun _ => 0, sum_our_vals := 0,
      sum_joint_probs := 0 } rfl
  exact ⟨N, h1, h3⟩

/-! ## The command line: the statements -/

theorem main_flag_cases (s : String) :
    (s = "true" ∧ main.flag s = .ok true) ∨ (s = "false" ∧ main.flag s = .ok false) ∨
    (s ≠ "true" ∧ s ≠ "false" ∧ main.flag s = .fatal) := by
  unfold main.flag
  by_cases h1 : s = "true"
  · exact Or.inl ⟨h1, by rw [if_pos h1]⟩
  · by_cases h2 : s = "false"
    · exact Or.inr (Or.inl ⟨h2, by rw [if_neg h1, if_pos h2]⟩)
    · exact Or.inr (Or.inr ⟨h1, h2, by rw [if_neg h1, if_neg h2]⟩)

theorem true_ne_false_string : ("true" : String) ≠ "false" := by decide

/-- The two outcomes of the checks of `main`. -/
theorem main_outcome (sscanf_i : String → Option Int) (argc : Nat) (argv : Nat → String) :
    (main sscanf_i argc argv = .fatal ∧ ¬ main.accepts sscanf_i argc argv) ∨
    (∃ cfg, main sscanf_i argc argv = .ok cfg ∧ main.accepts sscanf_i argc argv ∧
      sscanf_i (argv 8) = some cfg.a_it ∧ sscanf_i (argv 9) = some cfg.b_it ∧
      sscanf_i (argv 10) = some cfg.num_sampled_max_street_boards ∧
      sscanf_i (argv 11) = some cfg.resolve_st ∧
      (cfg.resolve_a = true ↔ argv 12 = "true") ∧
      (cfg.resolve_b = true ↔ argv 13 = "true") ∧
      cfg.a_subgame_files =
        (if cfg.resolve_a = true then some (argv 14, argv 15, argv 16) else none) ∧
      cfg.b_subgame_files =
        (if cfg.resolve_b = true then
          (if cfg.resolve_a = true then some (argv 17, argv 18, argv 19)
            else some (argv 14, argv 15, argv 16))
        else none)) := by
  unfold main
  by_cases hc : argc ≠ 14 ∧ argc ≠ 17 ∧ argc ≠ 20
  · left
    rw [if_pos hc]
    refine ⟨rfl, fun hacc => ?_⟩
    have := hacc.1
    omega
  rw [if_neg hc]
  have hargc : argc = 14 ∨ argc = 17 ∨ argc = 20 := by omega
  cases h8 : sscanf_i (argv 8) with
  | none =>
    left
    refine ⟨rfl, fun hacc => ?_⟩
    have := hacc.2.1
    rw [h8] at this
    exact absurd this (by simp)
  | some a_it =>
  cases h9 : sscanf_i (argv 9) with
  | none =>
    left
    refine ⟨rfl, fun hacc => ?_⟩
    have := hacc.2.2.1
    rw [h9] at this
    exact absurd this (by simp)
  | some b_it =>
  cases h10 : sscanf_i (argv 10) with
  | none =>
    left
    refine ⟨rfl, fun hacc => ?_⟩
    have := hacc.2.2.2.1
    rw [h10] at this
    exact absurd this (by simp)
  | some nb =>
  cases h11 : sscanf_i (argv 11) with
  | none =>
    left
    refine ⟨rfl, fun hacc => ?_⟩
    have := hacc.2.2.2.2.1
    rw [h11] at this
    exact absurd this (by simp)
  | some rst =>
  simp only [main.scan, Run.bind]
  rcases main_flag_cases (argv 12) with ⟨e12, f12⟩ | ⟨e12, f12⟩ | ⟨n12, n12', f12⟩
  · rcases main_flag_cases (argv 13) with ⟨e13, f13⟩ | ⟨e13, f13⟩ | ⟨n13, n13', f13⟩
    · rw [f12, f13]
      by_cases h20 : argc = 20
      · right
        refine ⟨⟨a_it, b_it, nb, rst, true, true, some (argv 14, argv 15, argv 16),
          some (argv 17, argv 18, argv 19)⟩, ?_, ?_, rfl, rfl, rfl, rfl, ?_, ?_, rfl, rfl⟩
        · simp [h20]
        · unfold main.accepts
          simp [h8, h9, h10, h11, e12, e13, h20]
        · simp [e12]
        · simp [e13]
      · left
        refine ⟨by simp [h20], fun hacc => ?_⟩
        have := hacc.2.2.2.2.2.2.2.2
        rw [e12, e13] at this
        simp at this
        exact h20 this
    · rw [f12, f13]
      by_cases h17 : argc = 17
      · right
        refine ⟨⟨a_it, b_it, nb, rst, true, false, some (argv 14, argv 15, argv 16), none⟩,
          ?_, ?_, rfl, rfl, rfl, rfl, ?_, ?_, rfl, rfl⟩
        · simp [h17]
        · unfold main.accepts
          simp [h8, h9, h10, h11, e12, e13, h17]
        · simp [e12]
        · simp [e13]
      · left
        refine ⟨by simp [h17], fun hacc => ?_⟩
        have := hacc.2.2.2.2.2.2.2.2
        rw [e12, e13] at this
        simp at this
        exact h17 this
    · left
      rw [f12, f13]
      refine ⟨rfl, fun hacc => ?_⟩
      rcases hacc.2.2.2.2.2.2.1 with h | h
      · exact n13 h
      · exact n13' h
  · rcases main_flag_cases (argv 13) with ⟨e13, f13⟩ | ⟨e13, f13⟩ | ⟨n13, n13', f13⟩
    · rw [f12, f13]
      by_cases h17 : argc = 17
      · right
        refine ⟨⟨a_it, b_it, nb, rst, false, true, none, some (argv 14, argv 15, argv 16)⟩,
          ?_, ?_, rfl, rfl, rfl, rfl, ?_, ?_, rfl, rfl⟩
        · simp [h17]
        · unfold main.accepts
          simp [h8, h9, h10, h11, e12, e13, h17]
        · simp [e12]
        · simp [e13]
      · left
        refine ⟨by simp [h17], fun hacc => ?_⟩
        have := hacc.2.2.2.2.2.2.2.2
        rw [e12, e13] at this
        simp at this
        exact h17 this
    · rw [f12, f13]
      by_cases hr : rst = -1
      · by_cases h14 : argc = 14
        · right
          refine ⟨⟨a_it, b_it, nb, rst, false, false, none, none⟩,
            ?_, ?_, rfl, rfl, rfl, rfl, ?_, ?_, rfl, rfl⟩
          · simp [h14, hr]
          · unfold main.accepts
            simp [h8, h9, h10, h11, e12, e13, h14, hr]
          · simp [e12]
          · simp [e13]
        · left
          refine ⟨by simp [h14, hr], fun hacc => ?_⟩
          have := hacc.2.2.2.2.2.2.2.2
          rw [e12, e13] at this
          simp at this
          exact h14 this
      · left
        refine ⟨by simp [hr], fun hacc => ?_⟩
        have := hacc.2.2.2.2.2.2.2.1 e12 e13
        rw [h11] at this
        injection this with this
        exact hr this
    · left
      rw [f12, f13]
      refine ⟨rfl, fun hacc => ?_⟩
      rcases hacc.2.2.2.2.2.2.1 with h | h
      · exact n13 h
      · exact n13' h
  · left
    rw [f12]
    refine ⟨rfl, fun hacc => ?_⟩
    rcases hacc.2.2.2.2.2.1 with h | h
    · exact n12 h
    · exact n12' h

/-- C22.  Command-line validation.  `main` goes on to construct the evaluator if and only if
the number of arguments is 14, 17 or 20, arguments 8-11 each parse as an integer, arguments 12
and 13 are each exactly `true` or `false`, the resolve street is -1 when neither side
resolves, and the number of arguments is 14 plus 3 for each resolving side; in every other
case it ends with `exit(-1)`.  When it goes on, the numbers and flags are the parsed ones, the
subgame parameter files of A are arguments 14-16, and those of B are arguments 17-19 if A
also resolves and 14-16 otherwise. -/
theorem main_validation (sscanf_i : String → Option Int) (argc : Nat) (argv : Nat → String) :
    ((∃ cfg, main sscanf_i argc argv = .ok cfg) ↔ main.accepts sscanf_i argc argv) ∧
    (¬ main.accepts sscanf_i argc argv → main sscanf_i argc argv = .fatal) ∧
    (∀ cfg, main sscanf_i argc argv = .ok cfg →
      sscanf_i (argv 8) = some cfg.a_it ∧ sscanf_i (argv 9) = some cfg.b_it ∧
      sscanf_i (argv 10) = some cfg.num_sampled_max_street_boards ∧
      sscanf_i (argv 11) = some cfg.resolve_st ∧
      (cfg.resolve_a = true ↔ argv 12 = "true") ∧
      (cfg.resolve_b = true ↔ argv 13 = "true") ∧
      (cfg.resolve_a = true → cfg.a_subgame_files = some (argv 14, argv 15, argv 16)) ∧
      (cfg.resolve_a = false → cfg.a_subgame_files = none) ∧
      (cfg.resolve_b = true → cfg.resolve_a = true →
        cfg.b_subgame_files = some (argv 17, argv 18, argv 19)) ∧
      (cfg.resolve_b = true → cfg.resolve_a = false →
        cfg.b_subgame_files = some (argv 14, argv 15, argv 16)) ∧
      (cfg.resolve_b = false → cfg.b_subgame_files = none)) := by
  rcases main_outcome sscanf_i argc argv with ⟨hf, hn⟩ | ⟨cfg, hok, hacc, h8, h9, h10, h11, ha,
    hb, hfa, hfb⟩
  · refine ⟨⟨?_, fun h => absurd h hn⟩, fun _ => hf, ?_⟩
    · rintro ⟨cfg, h⟩
      rw [hf] at h
      exact absurd h (by simp)
    · intro cfg h
      rw [hf] at h
      exact absurd h (by simp)
  · refine ⟨⟨fun _ => hacc, fun _ => ⟨cfg, hok⟩⟩, fun h => absurd hacc h, ?_⟩
    intro cfg' h
    rw [hok] at h
    injection h with h
    rw [← h]
    refine ⟨h8, h9, h10, h11, ha, hb, ?_, ?_, ?_, ?_, ?_⟩
    · intro hA
      rw [hfa, if_pos hA]
    · intro hA
      rw [hfa, if_neg (by rw [hA]; simp)]
    · intro hB hA
      rw [hfb, if_pos hB, if_pos hA]
    · intro hB hA
      rw [hfb, if_pos hB, if_neg (by rw [hA]; simp)]
    · intro hB
      rw [hfb, if_neg (by rw [hB]; simp)]

theorem main_validation_witness :
    main exScan 17 exArgv =
        .ok ⟨200, 200, 0, 1, false, true, none, some ("bs_card", "bs_bet", "bs_cfr")⟩ ∧
      main.accepts exScan 17 exArgv ∧
      main exScan 14 exArgv = .fatal := by
  have hok : main exScan 17 exArgv =
      .ok ⟨200, 200, 0, 1, false, true, none, some ("bs_card", "bs_bet", "bs_cfr")⟩ := rfl
  refine ⟨hok, (main_validation exScan 17 exArgv).1.mp ⟨_, hok⟩,
    (main_validation exScan 14 exArgv).2.1 ?_⟩
  intro hacc
  have h := hacc.2.2.2.2.2.2.2.2
  exact absurd h (by decide)

/-! ## The streets that are loaded and the streets that are read -/

theorem streets_loop_apply (f g : Nat → Bool) (u : Nat → Bool) (st : Nat) :
    ∀ n, st < n →
    (forLoop 0
        (fun st s => (Function.update s.1 st (f st), Function.update s.2 st (g st)))
        n ((u, u) : (Nat → Bool) × (Nat → Bool))).1 st = f st ∧
    (forLoop 0
        (fun st s => (Function.update s.1 st (f st), Function.update s.2 st (g st)))
        n ((u, u) : (Nat → Bool) × (Nat → Bool))).2 st = g st := by
  intro n
  induction n with
  | zero => intro h; exact absurd h (Nat.not_lt_zero _)
  | succ n ih =>
    intro hlt
    simp only [forLoop, Nat.zero_add]
    by_cases h : st = n
    · subst h
      rw [Function.update_same, Function.update_same]
      exact ⟨rfl, rfl⟩
    · rw [Function.update_noteq h, Function.update_noteq h]
      exact ih (Nat.lt_of_le_of_ne (Nat.lt_succ_iff.mp hlt) h)

/-- The marks in closed form, for the streets of the game. -/
theorem streets_apply (u : Nat → Bool) (max_street : Nat) (resolve_st : Int)
    (resolve_a resolve_b shared_probs : Bool) (st : Nat) (hst : st ≤ max_street) :
    (Player.streets u max_street resolve_st resolve_a resolve_b shared_probs).1 st =
      (if resolve_a = true ∧ resolve_b = true then decide ((st : Int) < resolve_st)
      else if resolve_a = false ∧ resolve_b = false then true
      else if shared_probs = true then true
      else (decide ((st : Int) < resolve_st) || !resolve_a)) ∧
    (Player.streets u max_street resolve_st resolve_a resolve_b shared_probs).2 st =
      (if resolve_a = true ∧ resolve_b = true then decide ((st : Int) < resolve_st)
      else if resolve_a = false ∧ resolve_b = false then true
      else if shared_probs = true then true
      else (decide ((st : Int) < resolve_st) || !resolve_b)) := by
  have hlt : st < max_street + 1 := Nat.lt_succ_of_le hst
  unfold Player.streets
  by_cases c1 : resolve_a = true ∧ resolve_b = true
  · rw [if_pos c1, if_pos c1, if_pos c1]
    exact streets_loop_apply (fun st => decide ((st : Int) < resolve_st))
      (fun st => decide ((st : Int) < resolve_st)) u st (max_street + 1) hlt
  · rw [if_neg c1, if_neg c1, if_neg c1]
    by_cases c2 : resolve_a = false ∧ resolve_b = false
    · rw [if_pos c2, if_pos c2, if_pos c2]
      exact streets_loop_apply (fun _ => true) (fun _ => true) u st (max_street + 1) hlt
    · rw [if_neg c2, if_neg c2, if_neg c2]
      by_cases c3 : shared_probs = true
      · rw [if_pos c3, if_pos c3, if_pos c3]
        exact streets_loop_apply (fun _ => true) (fun _ => true) u st (max_street + 1) hlt
      · rw [if_neg c3, if_neg c3, if_neg c3]
        exact streets_loop_apply
          (fun st => (decide ((st : Int) < resolve_st) || !resolve_a))
          (fun st => (decide ((st : Int) < resolve_st) || !resolve_b)) u st (max_street + 1) hlt

/-- When the resolve street is the last street, or no side resolves, every street at which
`Nonterminal` selects the base table of a side is marked for loading in that table. -/
theorem base_streets_loaded (u : Nat → Bool) (max_street : Nat) (resolve_st : Int)
    (resolve_a resolve_b shared_probs : Bool) (st : Nat) (hst : st ≤ max_street)
    (hr : resolve_st = (max_street : Int) ∨ (resolve_a = false ∧ resolve_b = false)) :
    (¬ (resolve_a = true ∧ st = max_street) →
      (Player.loadedStreets u max_street resolve_st resolve_a resolve_b shared_probs).1 st =
        true) ∧
    (¬ (resolve_b = true ∧ st = max_street) →
      (Player.loadedStreets u max_street resolve_st resolve_a resolve_b shared_probs).2 st =
        true) := by
  obtain ⟨h1, h2⟩ := streets_apply u max_street resolve_st resolve_a resolve_b shared_probs st
    hst
  have e1 : (Player.loadedStreets u max_street resolve_st resolve_a resolve_b shared_probs).1 st =
      (Player.streets u max_street resolve_st resolve_a resolve_b shared_probs).1 st := rfl
  have e2 : (Player.loadedStreets u max_street resolve_st resolve_a resolve_b shared_probs).2 st =
      if shared_probs = true then
        (Player.streets u max_street resolve_st resolve_a resolve_b shared_probs).1 st
      else (Player.streets u max_street resolve_st resolve_a resolve_b shared_probs).2 st := by
    cases shared_probs <;> rfl
  have hlt : st ≠ max_street → decide ((st : Int) < resolve_st) = true ∨
      (resolve_a = false ∧ resolve_b = false) := by
    intro hne
    rcases hr with hr | hr
    · left
      rw [hr]
      exact decide_eq_true (Int.ofNat_lt.mpr (Nat.lt_of_le_of_ne hst hne))
    · exact Or.inr hr
  constructor
  · intro hA
    rw [e1, h1]
    cases resolve_a <;> cases resolve_b <;> cases shared_probs <;> simp_all
  · intro hB
    rw [e2, h1, h2]
    cases resolve_a <;> cases resolve_b <;> cases shared_probs <;> simp_all

/-- C26.  A base-strategy street that is read and not loaded.  In the game of two streets
(`max_street = 1`) with A resolving at street 0, B not resolving and the two systems not
shared: at the root, on street 0, where the player to act is on side A when B sits in seat 0,
`Walk` calls `Nonterminal`, whose rule (`resolve_a_ && st == max_street` fails) selects A's
base table `a_probs_`; the constructor has marked street 0 of that table as not loaded
(`a_streets[0] = (0 < resolve_st_ || ! resolve_a_)` is false).  The bucket map selected at the
same node is the subgame one, by the rule `st >= resolve_st_`. -/
theorem base_street_read_unloaded :
    exStreetEnv.game.MaxStreet = 1 ∧ exEarlyResolver.resolve_a_ = true ∧
    exEarlyResolver.resolve_b_ = false ∧ exEarlyResolver.resolve_st_ = 0 ∧
    exStreetTree.Street = 0 ∧ exStreetTree.PlayerActing ≠ (exEarlyResolver.withSeat 0).b_pos_ ∧
    (∀ (n : Nat) (reach : Nat → Nat → ℚ),
      Player.Walk exStreetEnv (n + 1) (exEarlyResolver.withSeat 0) exStreetTree exStreetTree "x"
          reach 0 =
        ((exEarlyResolver.withSeat 0).logged ⟨exStreetTree, exStreetTree, reach, 0⟩).Nonterminal
          exStreetEnv (Player.Walk exStreetEnv n) exStreetTree exStreetTree "x" reach) ∧
    (∀ c : WalkCall,
      Nonterminal.sumprobs exStreetEnv ((exEarlyResolver.withSeat 0).logged c)
          exStreetTree.Street exStreetTree.PlayerActing = some exEarlyResolver.a_probs_ ∧
      Nonterminal.buckets ((exEarlyResolver.withSeat 0).logged c) exStreetTree.Street
          exStreetTree.PlayerActing = exEarlyResolver.a_subgame_buckets_) ∧
    (∀ u : Nat → Bool,
      (Player.loadedStreets u exStreetEnv.game.MaxStreet exEarlyResolver.resolve_st_
        exEarlyResolver.resolve_a_ exEarlyResolver.resolve_b_ false).1 exStreetTree.Street =
        false) := by
  refine ⟨rfl, rfl, rfl, rfl, rfl, by decide, ?_, ?_, ?_⟩
  · intro n reach
    rw [Walk_outside exStreetEnv n _ exStreetTree exStreetTree "x" reach 0
      (fun h => absurd h.1 (by decide))]
    rfl
  · intro c
    exact ⟨rfl, rfl⟩
  · intro u
    have h := (streets_apply u 1 0 true false false 0 (by decide)).1
    exact h.trans (by decide)

/-! ## Sampling one board: the statements -/

theorem cfg_num_samples (P Q : Player) (h : Q.cfg = P.cfg) : Q.num_samples_ = P.num_samples_ :=
  (congrArg Player.num_samples_ h : Q.cfg.num_samples_ = P.cfg.num_samples_)

end HeadToHead
